import Mathlib

/-!
# PXOS kernel: memory manager and process manager

A shallow embedding of `src/kernel/memory.c` and `src/kernel/process/process.c`
together with the properties of their specification.

Conventions of the embedding.

* The target is 32-bit x86: `uint32_t`, `size_t` and pointers are 32 bits wide.
  Machine words are natural numbers; arithmetic that can wrap is written with
  `add32` / `sub32` / `% WORD`.
* A pointer is the natural number of its address and `NULL` is `0`.
* The heap block list (`memory_map`, linked through `next`) is a Lean list in
  link order.  Every node records in `addr` the address of its own header, so a
  `memory_block_t*` is the `addr` of the node it designates.  The `prev` link
  is written by the source but never read in `memory.c`; it is the
  predecessor in the list.
* The physical page bitmap is the word array found at `physical_page_bitmap`,
  a function from word index to word.
-/

namespace PXOS

/-! ## Machine words -/

/-- Modulus of a 32-bit machine word. -/
def WORD : Nat := 4294967296

/-- Addition of `uint32_t` values. -/
def add32 (a b : Nat) : Nat := (a + b) % WORD

/-- Subtraction of `uint32_t` values. -/
def sub32 (a b : Nat) : Nat := (a + (WORD - b % WORD)) % WORD

/-! ## Constants of `memory.h` -/

def PAGE_SIZE : Nat := 4096
def KERNEL_HEAP_START : Nat := 0x200000
def KERNEL_HEAP_SIZE : Nat := 0x100000

/-- The value of `sizeof(memory_block_t)`: two `uint32_t`, one enum and two
pointers, 4 bytes each on the 32-bit target. -/
def BLOCK_HEADER : Nat := 20

/-! ## Data model of `memory.h` -/

inductive memory_type_t where
  | MEMORY_FREE
  | MEMORY_ALLOCATED
  | MEMORY_RESERVED
  | MEMORY_KERNEL
  deriving DecidableEq, Repr

open memory_type_t

/-- A node of the heap block list.  `addr` is the address of the node itself
(the value of a `memory_block_t*` pointing at it). -/
structure memory_block_t where
  addr : Nat
  start_addr : Nat
  size : Nat
  type : memory_type_t
  deriving DecidableEq, Repr

structure memory_stats_t where
  total_memory : Nat
  free_memory : Nat
  used_memory : Nat
  kernel_memory : Nat
  user_memory : Nat
  page_faults : Nat
  page_allocations : Nat
  page_deallocations : Nat
  deriving DecidableEq, Repr

/-- The globals of `memory.c` used by the page-frame allocator and the heap. -/
structure MemState where
  memory_map : List memory_block_t
  memory_stats : memory_stats_t
  physical_page_bitmap : Nat → Nat
  bitmap_size : Nat
  heap_start : Nat
  heap_end : Nat
  heap_current : Nat

/-- The zero-initialised globals before `memory_init` runs. -/
def MemState.zero : MemState :=
  { memory_map := []
    memory_stats := ⟨0, 0, 0, 0, 0, 0, 0, 0⟩
    physical_page_bitmap := fun _ => 0
    bitmap_size := 0
    heap_start := 0
    heap_end := 0
    heap_current := 0 }

/-! ## Heap: `heap_init`, `kmalloc`, `kfree` -/

/-- Source: `heap_init`. -/
def heap_init (s : MemState) : MemState :=
  { s with
    heap_start := KERNEL_HEAP_START
    heap_end := add32 KERNEL_HEAP_START KERNEL_HEAP_SIZE
    heap_current := KERNEL_HEAP_START
    memory_map :=
      [{ addr := KERNEL_HEAP_START
         start_addr := add32 KERNEL_HEAP_START BLOCK_HEADER
         size := sub32 KERNEL_HEAP_SIZE BLOCK_HEADER
         type := MEMORY_FREE }] }

/-- The loop of `update_memory_stats`, with the two accumulators
`used_memory` and `free_memory`. -/
def stats_scan : List memory_block_t → Nat → Nat → Nat × Nat
  | [], used, free => (used, free)
  | b :: rest, used, free =>
    if b.type = MEMORY_ALLOCATED then stats_scan rest (add32 used b.size) free
    else if b.type = MEMORY_FREE then stats_scan rest used (add32 free b.size)
    else stats_scan rest used free

/-- Source: `update_memory_stats`. -/
def update_memory_stats (s : MemState) : MemState :=
  { s with
    memory_stats :=
      { s.memory_stats with
        used_memory := (stats_scan s.memory_map 0 0).1
        free_memory := (stats_scan s.memory_map 0 0).2 } }

/-- Source: `find_free_block`.  The result designates the first node that is
free and large enough, as the nodes before it, the node, and the nodes after
it. -/
def find_free_block :
    List memory_block_t → Nat →
      Option (List memory_block_t × memory_block_t × List memory_block_t)
  | [], _ => none
  | b :: rest, size =>
    if b.type = MEMORY_FREE ∧ size ≤ b.size then some ([], b, rest)
    else
      match find_free_block rest size with
      | none => none
      | some (pre, c, post) => some (b :: pre, c, post)

/-- Source: `split_block`, applied to a node `block` whose successors are
`post`.  Returns the node and its successors after the call. -/
def split_block (block : memory_block_t) (post : List memory_block_t) (size : Nat) :
    memory_block_t × List memory_block_t :=
  if block.size ≤ add32 size BLOCK_HEADER then (block, post)
  else
    let new_block : memory_block_t :=
      { addr := add32 block.start_addr size
        start_addr := add32 (add32 block.start_addr size) BLOCK_HEADER
        size := sub32 (sub32 block.size size) BLOCK_HEADER
        type := MEMORY_FREE }
    ({ block with size := size }, new_block :: post)

/-- Source: `kmalloc`.  Returns the new state and the returned pointer
(`0` for `NULL`). -/
def kmalloc (s : MemState) (size : Nat) : MemState × Nat :=
  if size = 0 then (s, 0)
  else
    let size := (add32 size 3) &&& 0xFFFFFFFC
    match find_free_block s.memory_map size with
    | none => (s, 0)
    | some (pre, block, post) =>
      let r :=
        if add32 size BLOCK_HEADER < block.size then split_block block post size
        else (block, post)
      let block := { r.1 with type := MEMORY_ALLOCATED }
      (update_memory_stats { s with memory_map := pre ++ block :: r.2 }, block.start_addr)

/-- The loop of `merge_adjacent_blocks` with `current` at node `cur`, whose
successors are the list argument. -/
def merge_from (cur : memory_block_t) : List memory_block_t → List memory_block_t
  | [] => [cur]
  | nxt :: rest =>
    if cur.type = MEMORY_FREE ∧ nxt.type = MEMORY_FREE ∧
        add32 (add32 cur.start_addr cur.size) BLOCK_HEADER = nxt.start_addr then
      merge_from { cur with size := add32 cur.size (add32 nxt.size BLOCK_HEADER) } rest
    else cur :: merge_from nxt rest

/-- Source: `merge_adjacent_blocks`. -/
def merge_adjacent_blocks : List memory_block_t → List memory_block_t
  | [] => []
  | b :: rest => merge_from b rest

/-- The node whose header lies at address `a`, with the nodes before and after
it. -/
def find_block_at :
    List memory_block_t → Nat →
      Option (List memory_block_t × memory_block_t × List memory_block_t)
  | [], _ => none
  | b :: rest, a =>
    if b.addr = a then some ([], b, rest)
    else
      match find_block_at rest a with
      | none => none
      | some (pre, c, post) => some (b :: pre, c, post)

/-- Source: `kfree`.  The header read at `ptr - sizeof(memory_block_t)` is the
node of the list at that address.  When no node of the list lies there (the
address of a block that has since been merged into its predecessor), the
header is a stale copy whose tag is the `MEMORY_FREE` written before the
merge, and the call changes nothing. -/
def kfree (s : MemState) (ptr : Nat) : MemState :=
  if ptr = 0 then s
  else
    match find_block_at s.memory_map (sub32 ptr BLOCK_HEADER) with
    | none => s
    | some (pre, block, post) =>
      if block.type = MEMORY_ALLOCATED then
        update_memory_stats
          { s with
            memory_map :=
              merge_adjacent_blocks (pre ++ { block with type := MEMORY_FREE } :: post) }
      else s

/-- Sum of the sizes of all free blocks. -/
def total_free (l : List memory_block_t) : Nat :=
  ((l.filter (fun b => b.type = MEMORY_FREE)).map (fun b => b.size)).sum

/-- Heap states reachable from `heap_init` by `kmalloc` and by `kfree` of
pointers returned earlier; the list holds the pointers returned so far. -/
inductive HeapReach : MemState → List Nat → Prop where
  | init (s0 : MemState) : HeapReach (heap_init s0) []
  | malloc {s : MemState} {issued : List Nat} (size : Nat) :
      HeapReach s issued → size < WORD →
      HeapReach (kmalloc s size).1 ((kmalloc s size).2 :: issued)
  | free {s : MemState} {issued : List Nat} (ptr : Nat) :
      HeapReach s issued → ptr ∈ issued → HeapReach (kfree s ptr) issued

/-- The block list starting with a header at address `a` tiles the window up
to the end of the heap. -/
def Tiles : Nat → List memory_block_t → Prop
  | a, [] => a = KERNEL_HEAP_START + KERNEL_HEAP_SIZE
  | a, b :: rest =>
    b.addr = a ∧ b.start_addr = a + BLOCK_HEADER ∧ Tiles (b.start_addr + b.size) rest

/-- No two consecutive blocks are both free. -/
def NoAdjFree (l : List memory_block_t) : Prop :=
  List.Chain' (fun b c => ¬ (b.type = MEMORY_FREE ∧ c.type = MEMORY_FREE)) l

/-! ## Physical page frames: the bitmap allocator -/

/-- Source: `set_bitmap_bit`.  The mask `~(1 << bit)` is the 32-bit
complement. -/
def set_bitmap_bit (s : MemState) (page : Nat) (set : Bool) : MemState :=
  let index := page / 32
  let bit := page % 32
  if set then
    { s with
      physical_page_bitmap :=
        Function.update s.physical_page_bitmap index
          (s.physical_page_bitmap index ||| (1 <<< bit)) }
  else
    { s with
      physical_page_bitmap :=
        Function.update s.physical_page_bitmap index
          (s.physical_page_bitmap index &&& (0xFFFFFFFF ^^^ (1 <<< bit))) }

/-- Source: `get_bitmap_bit`. -/
def get_bitmap_bit (s : MemState) (page : Nat) : Bool :=
  (s.physical_page_bitmap (page / 32) &&& (1 <<< (page % 32))) != 0

/-- The inner loop of `find_free_physical_page` over the bits `j, j+1, ...` of
one word, `n` iterations left. -/
def scan_bits (w : Nat) : Nat → Nat → Option Nat
  | _, 0 => none
  | j, n + 1 => if w &&& (1 <<< j) = 0 then some j else scan_bits w (j + 1) n

/-- The outer loop of `find_free_physical_page` over the words `i, i+1, ...`,
`n` iterations left. -/
def scan_words (bitmap : Nat → Nat) : Nat → Nat → Nat
  | _, 0 => 0
  | i, n + 1 =>
    if bitmap i ≠ 0xFFFFFFFF then
      match scan_bits (bitmap i) 0 32 with
      | some j => i * 32 + j
      | none => scan_words bitmap (i + 1) n
    else scan_words bitmap (i + 1) n

/-- Source: `find_free_physical_page`. -/
def find_free_physical_page (s : MemState) : Nat :=
  scan_words s.physical_page_bitmap 0 s.bitmap_size

/-- Source: `alloc_physical_page`.  Returns the new state and the returned
address. -/
def alloc_physical_page (s : MemState) : MemState × Nat :=
  let page := find_free_physical_page s
  if page ≠ 0 then
    let s1 := set_bitmap_bit s page true
    let s2 :=
      { s1 with
        memory_stats :=
          { s1.memory_stats with
            page_allocations := add32 s1.memory_stats.page_allocations 1 } }
    (update_memory_stats s2, (page * PAGE_SIZE) % WORD)
  else (s, (page * PAGE_SIZE) % WORD)

/-- Source: `free_physical_page`. -/
def free_physical_page (s : MemState) (page : Nat) : MemState :=
  let page_num := page / PAGE_SIZE
  if page_num < (s.bitmap_size * 32) % WORD then
    let s1 := set_bitmap_bit s page_num false
    let s2 :=
      { s1 with
        memory_stats :=
          { s1.memory_stats with
            page_deallocations := add32 s1.memory_stats.page_deallocations 1 } }
    update_memory_stats s2
  else s

/-- Source: `is_page_allocated`. -/
def is_page_allocated (s : MemState) (page : Nat) : Bool :=
  get_bitmap_bit s (page / PAGE_SIZE)

/-- Source: `mark_page_allocated`. -/
def mark_page_allocated (s : MemState) (page : Nat) : MemState :=
  set_bitmap_bit s (page / PAGE_SIZE) true

/-- Source: `mark_page_free`. -/
def mark_page_free (s : MemState) (page : Nat) : MemState :=
  set_bitmap_bit s (page / PAGE_SIZE) false

/-- Number of words of the bitmap as computed by `init_physical_page_bitmap`:
`(0x10000000 / PAGE_SIZE + 31) / 32`. -/
def BITMAP_WORDS : Nat := (0x10000000 / PAGE_SIZE + 31) / 32

/-- Number of frames marked used at boot: `0x600000 / PAGE_SIZE`. -/
def USED_PAGES : Nat := 0x600000 / PAGE_SIZE

/-- The loop `for (i = 0; i < used_pages; i++) set_bitmap_bit(i, true)` of
`init_physical_page_bitmap`, by the number of iterations. -/
def mark_used : Nat → MemState → MemState
  | 0, s => s
  | n + 1, s => set_bitmap_bit (mark_used n s) n true

/-- Source: `init_physical_page_bitmap`. -/
def init_physical_page_bitmap (s : MemState) : MemState :=
  mark_used USED_PAGES
    { s with
      bitmap_size := BITMAP_WORDS
      physical_page_bitmap :=
        fun i => if i < BITMAP_WORDS then 0 else s.physical_page_bitmap i }

/-- Source: `memory_init`, on the globals of the frame allocator and the heap.
The call of `paging_init` between the two initialisations writes only the
translation tables, which are not part of `MemState`. -/
def memory_init (s : MemState) : MemState :=
  heap_init
    (init_physical_page_bitmap
      { s with
        memory_stats :=
          { total_memory := 0x10000000
            free_memory := 0x10000000
            used_memory := 0
            kernel_memory := 0
            user_memory := 0
            page_faults := 0
            page_allocations := 0
            page_deallocations := 0 } })

/-- A call of the frame allocator. -/
inductive FrameOp where
  | alloc
  | free (page : Nat)
  deriving DecidableEq, Repr

/-- The state after one call of the frame allocator. -/
def frame_step (s : MemState) : FrameOp → MemState
  | FrameOp.alloc => (alloc_physical_page s).1
  | FrameOp.free page => free_physical_page s page

/-- The state after a sequence of calls of the frame allocator. -/
def frame_run (s : MemState) : List FrameOp → MemState
  | [] => s
  | op :: rest => frame_run (frame_step s op) rest

/-- No `free_physical_page` of the sequence names the frame of address `a`. -/
def FreesOtherFrames (a : Nat) (ops : List FrameOp) : Prop :=
  ∀ p, FrameOp.free p ∈ ops → p / PAGE_SIZE ≠ a / PAGE_SIZE

/-- No `alloc_physical_page` of the sequence, run from state `s`, returns the
address `a`. -/
def NoAllocReturns (a : Nat) : MemState → List FrameOp → Prop
  | _, [] => True
  | s, FrameOp.alloc :: rest =>
    (alloc_physical_page s).2 ≠ a ∧ NoAllocReturns a (alloc_physical_page s).1 rest
  | s, FrameOp.free page :: rest => NoAllocReturns a (free_physical_page s page) rest

/-- Frame `p` lies in the bitmap and its bit is clear. -/
def FrameFree (s : MemState) (p : Nat) : Prop :=
  p < s.bitmap_size * 32 ∧ get_bitmap_bit s p = false

/-- The addresses returned by `n` consecutive calls of `alloc_physical_page`,
in call order, and the state after them. -/
def alloc_pages : Nat → MemState → MemState × List Nat
  | 0, s => (s, [])
  | n + 1, s =>
    ((alloc_pages n (alloc_physical_page s).1).1,
      (alloc_physical_page s).2 :: (alloc_pages n (alloc_physical_page s).1).2)

/-- The state in which frames `0 .. m-1` are used and all frames from `m` on
are free. -/
def UsedBelow (s : MemState) (m : Nat) : Prop :=
  s.bitmap_size = BITMAP_WORDS ∧
    ∀ q, q < BITMAP_WORDS * 32 → get_bitmap_bit s q = decide (q < m)

/-! ## Process manager: data model of `process.h`

A `pcb_t*` always points into `process_pool`; it is modelled by the index of
the pool slot, `none` standing for `NULL`.  A `pcb_t**` naming one of the three
queue heads of the manager is a `queue_t`.  The contents of stack memory are
not modelled.  Loops that follow `next` links take a `fuel` argument and
return `none` when it runs out. -/

def MAX_PROCESSES : Nat := 64
def DEFAULT_STACK_SIZE : Nat := 4096
def DEFAULT_TIME_SLICE : Nat := 10
def PROCESS_NAME_MAX : Nat := 31

def PROCESS_SUCCESS : Int := 0
def PROCESS_ERROR_NOT_FOUND : Int := -2
def PROCESS_ERROR_NO_MEMORY : Int := -5
def PROCESS_ERROR_INVALID_PARAM : Int := -6
def PROCESS_ERROR_QUEUE_FULL : Int := -7

/-- Values of `process_priority_t`. -/
def PROCESS_PRIORITY_LOW : Nat := 1
def PROCESS_PRIORITY_NORMAL : Nat := 2
def PROCESS_PRIORITY_HIGH : Nat := 3
def PROCESS_PRIORITY_CRITICAL : Nat := 4

inductive process_state_t where
  | PROCESS_STATE_NEW
  | PROCESS_STATE_READY
  | PROCESS_STATE_RUNNING
  | PROCESS_STATE_BLOCKED
  | PROCESS_STATE_TERMINATED
  deriving DecidableEq, Repr

open process_state_t

/-- The process control block.  `priority` holds the integer value of the
`process_priority_t` enum. -/
structure pcb_t where
  pid : Nat
  name : List Char
  state : process_state_t
  priority : Nat
  eax : Nat
  ebx : Nat
  ecx : Nat
  edx : Nat
  esi : Nat
  edi : Nat
  esp : Nat
  ebp : Nat
  eip : Nat
  eflags : Nat
  cs : Nat
  ds : Nat
  es : Nat
  fs : Nat
  gs : Nat
  ss : Nat
  stack_base : Nat
  stack_size : Nat
  heap_base : Nat
  heap_size : Nat
  cpu_time : Nat
  creation_time : Nat
  last_run_time : Nat
  time_slice : Nat
  remaining_slice : Nat
  next : Option Nat
  prev : Option Nat
  parent : Option Nat
  children : Option Nat
  sibling : Option Nat
  exit_code : Int
  open_files : List Nat
  file_count : Nat
  deriving DecidableEq, Repr

/-- A PCB after `memset(&pcb, 0, sizeof(pcb_t))`. -/
def pcb_t.zero : pcb_t :=
  { pid := 0, name := [], state := PROCESS_STATE_NEW, priority := 0
    eax := 0, ebx := 0, ecx := 0, edx := 0, esi := 0, edi := 0, esp := 0, ebp := 0
    eip := 0, eflags := 0, cs := 0, ds := 0, es := 0, fs := 0, gs := 0, ss := 0
    stack_base := 0, stack_size := 0, heap_base := 0, heap_size := 0
    cpu_time := 0, creation_time := 0, last_run_time := 0
    time_slice := 0, remaining_slice := 0
    next := none, prev := none, parent := none, children := none, sibling := none
    exit_code := 0, open_files := List.replicate 16 0, file_count := 0 }

structure process_manager_t where
  running_process : Option Nat
  ready_queue : Option Nat
  blocked_queue : Option Nat
  terminated_queue : Option Nat
  next_pid : Nat
  process_count : Nat
  max_processes : Nat
  time_slice_quantum : Nat
  current_tick : Nat
  scheduler_ticks : Nat
  deriving DecidableEq, Repr

/-- The globals of `process.c` together with the globals of `memory.c` that the
process manager reaches through `kmalloc` and `kfree`. -/
structure ProcState where
  g_process_manager : process_manager_t
  process_pool : Nat → pcb_t
  process_pool_used : Nat → Bool
  mem : MemState

/-- The three queue heads of the manager. -/
inductive queue_t where
  | ready
  | blocked
  | terminated
  deriving DecidableEq, Repr

/-- The head `*queue`. -/
def queue_head (m : process_manager_t) : queue_t → Option Nat
  | queue_t.ready => m.ready_queue
  | queue_t.blocked => m.blocked_queue
  | queue_t.terminated => m.terminated_queue

/-- The assignment `*queue = v`. -/
def set_queue_head (m : process_manager_t) (q : queue_t) (v : Option Nat) :
    process_manager_t :=
  match q with
  | queue_t.ready => { m with ready_queue := v }
  | queue_t.blocked => { m with blocked_queue := v }
  | queue_t.terminated => { m with terminated_queue := v }

/-- The assignment of a PCB field through a pointer: slot `i` of the pool
becomes `f` of its old value. -/
def update_pcb (s : ProcState) (i : Nat) (f : pcb_t → pcb_t) : ProcState :=
  { s with process_pool := Function.update s.process_pool i (f (s.process_pool i)) }

/-- The conversion of a `uint32_t` to the `int` returned by `process_create`. -/
def int_of_u32 (n : Nat) : Int :=
  if n % WORD < 2147483648 then ((n % WORD : Nat) : Int) else ((n % WORD : Nat) : Int) - 4294967296

/-! ## Process manager: the functions of `process.c` -/

/-- The loop of `allocate_pcb`: the first slot from `i` on, among `n` slots,
that is not in use. -/
def first_unused (used : Nat → Bool) : Nat → Nat → Option Nat
  | _, 0 => none
  | i, n + 1 => if used i = false then some i else first_unused used (i + 1) n

/-- Source: `allocate_pcb`. -/
def allocate_pcb (s : ProcState) : ProcState × Option Nat :=
  match first_unused s.process_pool_used 0 MAX_PROCESSES with
  | some i =>
    ({ s with
        process_pool_used := Function.update s.process_pool_used i true
        process_pool := Function.update s.process_pool i pcb_t.zero }, some i)
  | none => (s, none)

/-- Source: `deallocate_pcb`. -/
def deallocate_pcb (s : ProcState) (pcb : Option Nat) : ProcState :=
  match pcb with
  | none => s
  | some i =>
    if i < MAX_PROCESSES then
      { s with process_pool_used := Function.update s.process_pool_used i false }
    else s

/-- Source: `add_to_queue`. -/
def add_to_queue (s : ProcState) (queue : queue_t) (process : Option Nat) : ProcState :=
  match process with
  | none => s
  | some p =>
    let s1 := update_pcb s p (fun b => { b with next := queue_head s.g_process_manager queue })
    let s2 :=
      match queue_head s1.g_process_manager queue with
      | some h => update_pcb s1 h (fun b => { b with prev := some p })
      | none => s1
    let s3 := update_pcb s2 p (fun b => { b with prev := none })
    { s3 with g_process_manager := set_queue_head s3.g_process_manager queue (some p) }

/-- Source: `remove_from_queue`. -/
def remove_from_queue (s : ProcState) (queue : queue_t) (process : Option Nat) : ProcState :=
  match process with
  | none => s
  | some p =>
    let s1 :=
      match (s.process_pool p).prev with
      | some q => update_pcb s q (fun b => { b with next := (s.process_pool p).next })
      | none =>
        { s with
          g_process_manager :=
            set_queue_head s.g_process_manager queue (s.process_pool p).next }
    let s2 :=
      match (s1.process_pool p).next with
      | some n => update_pcb s1 n (fun b => { b with prev := (s1.process_pool p).prev })
      | none => s1
    let s3 := update_pcb s2 p (fun b => { b with next := none })
    update_pcb s3 p (fun b => { b with prev := none })

/-- Source: `find_process_in_queue`.  `none` when the fuel runs out before the
loop ends; otherwise `some` of the pointer returned. -/
def find_process_in_queue (pool : Nat → pcb_t) :
    Nat → Option Nat → Nat → Option (Option Nat)
  | _, none, _ => some none
  | 0, some _, _ => none
  | fuel + 1, some c, pid =>
    if (pool c).pid = pid then some (some c)
    else find_process_in_queue pool fuel (pool c).next pid

/-- Source: `process_get_by_pid`. -/
def process_get_by_pid (fuel : Nat) (s : ProcState) (pid : Nat) : Option (Option Nat) :=
  let m := s.g_process_manager
  let in_queues : Option (Option Nat) :=
    match find_process_in_queue s.process_pool fuel m.ready_queue pid with
    | none => none
    | some (some p) => some (some p)
    | some none =>
      match find_process_in_queue s.process_pool fuel m.blocked_queue pid with
      | none => none
      | some (some p) => some (some p)
      | some none =>
        match find_process_in_queue s.process_pool fuel m.terminated_queue pid with
        | none => none
        | some (some p) => some (some p)
        | some none => some none
  match m.running_process with
  | some r => if (s.process_pool r).pid = pid then some (some r) else in_queues
  | none => in_queues

/-- Source: `process_manager_init`, run on the memory globals `mem`. -/
def process_manager_init (mem : MemState) : ProcState × Int :=
  let s0 : ProcState :=
    { g_process_manager :=
        { running_process := none, ready_queue := none, blocked_queue := none
          terminated_queue := none
          next_pid := 1
          process_count := 0
          max_processes := MAX_PROCESSES
          time_slice_quantum := DEFAULT_TIME_SLICE
          current_tick := 0
          scheduler_ticks := 0 }
      process_pool := fun _ => pcb_t.zero
      process_pool_used := fun _ => false
      mem := mem }
  match allocate_pcb s0 with
  | (s1, none) => (s1, PROCESS_ERROR_NO_MEMORY)
  | (s1, some idle) =>
    let s2 :=
      update_pcb s1 idle (fun b =>
        { b with
          pid := 0
          name := ['i', 'd', 'l', 'e']
          state := PROCESS_STATE_RUNNING
          priority := PROCESS_PRIORITY_LOW
          time_slice := 0
          remaining_slice := 0 })
    ({ s2 with
        g_process_manager :=
          { s2.g_process_manager with running_process := some idle, process_count := 1 } },
      PROCESS_SUCCESS)

/-- Source: `setup_process_stack`.  `entry_point` is the address of the entry
function, `0` for `NULL`. -/
def setup_process_stack (s : ProcState) (pcb : Option Nat) (entry_point : Nat) : ProcState :=
  match pcb with
  | none => s
  | some p =>
    if entry_point = 0 then s
    else
      let s1 := update_pcb s p (fun b => { b with stack_size := DEFAULT_STACK_SIZE })
      let r := kmalloc s1.mem (s1.process_pool p).stack_size
      let s2 := update_pcb { s1 with mem := r.1 } p (fun b => { b with stack_base := r.2 })
      if (s2.process_pool p).stack_base = 0 then s2
      else
        update_pcb s2 p (fun b =>
          { b with
            esp := sub32 (add32 b.stack_base b.stack_size) 16
            ebp := sub32 (add32 b.stack_base b.stack_size) 16
            eip := entry_point
            cs := 0x08
            ds := 0x10
            es := 0x10
            fs := 0x10
            gs := 0x10
            ss := 0x10
            eflags := 0x202 })

/-- Source: `process_create`.  `name` is `none` for a `NULL` name; the
argument `stack_size` is ignored by the source. -/
def process_create (s : ProcState) (name : Option (List Char)) (entry_point : Nat)
    (priority : Nat) (_stack_size : Nat) : ProcState × Int :=
  match name with
  | none => (s, PROCESS_ERROR_INVALID_PARAM)
  | some nm =>
    if entry_point = 0 then (s, PROCESS_ERROR_INVALID_PARAM)
    else if s.g_process_manager.max_processes ≤ s.g_process_manager.process_count then
      (s, PROCESS_ERROR_QUEUE_FULL)
    else
      match allocate_pcb s with
      | (s1, none) => (s1, PROCESS_ERROR_NO_MEMORY)
      | (s1, some p) =>
        let m := s1.g_process_manager
        let s2 := { s1 with g_process_manager := { m with next_pid := add32 m.next_pid 1 } }
        let s3 :=
          update_pcb s2 p (fun b =>
            { b with
              pid := m.next_pid
              name := nm.take PROCESS_NAME_MAX
              state := PROCESS_STATE_NEW
              priority := priority
              time_slice := m.time_slice_quantum
              remaining_slice := m.time_slice_quantum
              creation_time := m.current_tick
              last_run_time := 0
              cpu_time := 0
              exit_code := 0
              file_count := 0 })
        let s4 := setup_process_stack s3 (some p) entry_point
        let s5 := update_pcb s4 p (fun b => { b with state := PROCESS_STATE_READY })
        let s6 := add_to_queue s5 queue_t.ready (some p)
        let s7 :=
          { s6 with
            g_process_manager :=
              { s6.g_process_manager with
                process_count := add32 s6.g_process_manager.process_count 1 } }
        (s7, int_of_u32 (s7.process_pool p).pid)

/-- Source: `process_switch`.  `process_save_context` and
`process_restore_context` have empty bodies. -/
def process_switch (s : ProcState) (new_process : Option Nat) : ProcState :=
  match new_process with
  | none => s
  | some p =>
    let s1 :=
      { s with g_process_manager := { s.g_process_manager with running_process := some p } }
    update_pcb s1 p (fun b =>
      { b with
        state := PROCESS_STATE_RUNNING
        remaining_slice := b.time_slice
        last_run_time := s1.g_process_manager.current_tick })

/-- Source: `schedule_next_process`. -/
def schedule_next_process (fuel : Nat) (s : ProcState) : Option ProcState :=
  match s.g_process_manager.ready_queue with
  | some n => some (process_switch (remove_from_queue s queue_t.ready (some n)) (some n))
  | none =>
    match process_get_by_pid fuel s 0 with
    | none => none
    | some next_process => some (process_switch s next_process)

/-- Source: `process_terminate`. -/
def process_terminate (fuel : Nat) (s : ProcState) (pid : Nat) : Option (ProcState × Int) :=
  match process_get_by_pid fuel s pid with
  | none => none
  | some none => some (s, PROCESS_ERROR_NOT_FOUND)
  | some (some p) =>
    let s1 :=
      if some p = s.g_process_manager.running_process then
        { s with g_process_manager := { s.g_process_manager with running_process := none } }
      else
        remove_from_queue (remove_from_queue s queue_t.ready (some p)) queue_t.blocked (some p)
    let s2 := update_pcb s1 p (fun b => { b with state := PROCESS_STATE_TERMINATED })
    let s3 := add_to_queue s2 queue_t.terminated (some p)
    let s4 :=
      if (s3.process_pool p).stack_base ≠ 0 then
        { s3 with mem := kfree s3.mem (s3.process_pool p).stack_base }
      else s3
    let s5 :=
      if (s4.process_pool p).heap_base ≠ 0 then
        { s4 with mem := kfree s4.mem (s4.process_pool p).heap_base }
      else s4
    let s6 := deallocate_pcb s5 (some p)
    let s7 :=
      { s6 with
        g_process_manager :=
          { s6.g_process_manager with
            process_count := sub32 s6.g_process_manager.process_count 1 } }
    if some p = s7.g_process_manager.running_process then
      match schedule_next_process fuel s7 with
      | none => none
      | some s8 => some (s8, PROCESS_SUCCESS)
    else some (s7, PROCESS_SUCCESS)

/-- Source: `process_kill`. -/
def process_kill (fuel : Nat) (s : ProcState) (pid : Nat) : Option (ProcState × Int) :=
  process_terminate fuel s pid

/-- Source: `process_scheduler`. -/
def process_scheduler (fuel : Nat) (s : ProcState) : Option ProcState :=
  let s1 :=
    { s with
      g_process_manager :=
        { s.g_process_manager with
          scheduler_ticks := add32 s.g_process_manager.scheduler_ticks 1 } }
  match s1.g_process_manager.running_process with
  | none => some s1
  | some r =>
    if (s1.process_pool r).remaining_slice = 0 then
      let s2 :=
        if (s1.process_pool r).state = PROCESS_STATE_RUNNING then
          add_to_queue (update_pcb s1 r (fun b => { b with state := PROCESS_STATE_READY }))
            queue_t.ready (some r)
        else s1
      schedule_next_process fuel s2
    else some s1

/-- Source: `process_yield`. -/
def process_yield (fuel : Nat) (s : ProcState) : Option ProcState :=
  match s.g_process_manager.running_process with
  | none => some s
  | some r =>
    process_scheduler fuel (update_pcb s r (fun b => { b with remaining_slice := 0 }))

/-- Source: `process_set_priority`. -/
def process_set_priority (fuel : Nat) (s : ProcState) (pid : Nat) (priority : Nat) :
    Option (ProcState × Int) :=
  match process_get_by_pid fuel s pid with
  | none => none
  | some none => some (s, PROCESS_ERROR_NOT_FOUND)
  | some (some p) =>
    some (update_pcb s p (fun b => { b with priority := priority }), PROCESS_SUCCESS)

/-- The pool slots met by following `next` from a queue head, in order;
`none` when the fuel runs out before `NULL` is reached. -/
def queue_slots (pool : Nat → pcb_t) : Nat → Option Nat → Option (List Nat)
  | _, none => some []
  | 0, some _ => none
  | fuel + 1, some c =>
    match queue_slots pool fuel (pool c).next with
    | none => none
    | some l => some (c :: l)

/-- The kernel after boot: `memory_init` followed by `process_manager_init`. -/
def boot_state : ProcState :=
  (process_manager_init (memory_init MemState.zero)).1

/-- The kernel after boot and `process_create("a", entry, NORMAL, 4096)`. -/
def one_process_state : ProcState :=
  (process_create boot_state (some ['a']) 0x100000 PROCESS_PRIORITY_NORMAL
    DEFAULT_STACK_SIZE).1

/-- The outcome of boot, `process_create("a")`, `process_terminate(1)` and
`process_create("b")`: the final state and the value returned by the second
create. -/
def slot_reuse_result : Option (ProcState × Int) :=
  (process_terminate 64 one_process_state 1).map
    (fun r =>
      process_create r.1 (some ['b']) 0x100000 PROCESS_PRIORITY_NORMAL DEFAULT_STACK_SIZE)

/-- The kernel after boot with the whole heap handed out by
`kmalloc(0xFFFEC)`. -/
def heap_exhausted_state : ProcState :=
  (process_manager_init (kmalloc (memory_init MemState.zero) 0xFFFEC).1).1

/-- The block list is address-ordered, non-overlapping and exactly tiles the
heap window. -/
def HeapTiled (l : List memory_block_t) : Prop :=
  (∃ b rest, l = b :: rest ∧ b.addr = KERNEL_HEAP_START ∧
      b.start_addr = KERNEL_HEAP_START + BLOCK_HEADER) ∧
  List.Chain' (fun b c => c.start_addr = b.start_addr + b.size + BLOCK_HEADER) l ∧
  (∀ b ∈ l.getLast?, b.start_addr + b.size = KERNEL_HEAP_START + KERNEL_HEAP_SIZE) ∧
  List.Pairwise (fun b c => b.start_addr < c.start_addr ∧ b.start_addr + b.size ≤ c.addr) l ∧
  (∀ b ∈ l, b.start_addr = b.addr + BLOCK_HEADER)

/-- The invariant of the heap block list. -/
def HeapInv (l : List memory_block_t) : Prop :=
  Tiles KERNEL_HEAP_START l ∧ NoAdjFree l

/-! ## Address translation: data model and functions of `memory.c`

The page directory and the page tables are page-aligned arrays of 1024 entries
in memory.  Memory is viewed through `tables base idx`, the `page_entry_t` at
index `idx` of the array that starts at address `base`; the directory is the
array at `current_page_directory`, and the table of a directory entry is the
array at `entry.address << 12`. -/

def PAGE_DIRECTORY_SIZE : Nat := 1024
def PAGE_TABLE_SIZE : Nat := 1024
def PAGE_PRESENT : Nat := 0x1
def PAGE_WRITABLE : Nat := 0x2
def PAGE_USER : Nat := 0x4
def PAGE_GLOBAL : Nat := 0x100

/-- The address `paging_init` assigns to `current_page_directory`. -/
def PAGE_DIRECTORY_ADDR : Nat := 0x1000000

/-- The initial value of the static `next_page_table_addr` of
`create_page_table`. -/
def PAGE_TABLE_AREA : Nat := 0x700000

/-- The bit fields of a page directory or page table entry; `address` has 20
bits and `available` 3. -/
structure page_entry_t where
  present : Bool
  rw : Bool
  user : Bool
  pwt : Bool
  pcd : Bool
  accessed : Bool
  dirty : Bool
  size : Bool
  global : Bool
  available : Nat
  address : Nat
  deriving DecidableEq, Repr

/-- An entry after `memset(.., 0, ..)`. -/
def page_entry_t.zero : page_entry_t :=
  { present := false, rw := false, user := false, pwt := false, pcd := false
    accessed := false, dirty := false, size := false, global := false
    available := 0, address := 0 }

/-- The globals of the address-translation code: `current_page_directory`,
the static `next_page_table_addr` of `create_page_table`, and the memory that
holds directory and tables. -/
structure PagingState where
  current_page_directory : Nat
  next_page_table_addr : Nat
  tables : Nat → Nat → page_entry_t

/-- The paging globals at program start, over zeroed memory. -/
def PagingState.boot : PagingState :=
  { current_page_directory := 0
    next_page_table_addr := PAGE_TABLE_AREA
    tables := fun _ _ => page_entry_t.zero }

/-- Source: `get_page_directory_index`. -/
def get_page_directory_index (virtual_addr : Nat) : Nat :=
  (virtual_addr >>> 22) &&& 0x3FF

/-- Source: `get_page_table_index`. -/
def get_page_table_index (virtual_addr : Nat) : Nat :=
  (virtual_addr >>> 12) &&& 0x3FF

/-- Source: `get_page_offset`. -/
def get_page_offset (virtual_addr : Nat) : Nat :=
  virtual_addr &&& 0xFFF

/-- The store of one entry: `base->entries[idx] = e`. -/
def write_entry (t : Nat → Nat → page_entry_t) (base idx : Nat) (e : page_entry_t) :
    Nat → Nat → page_entry_t :=
  fun b i => if b = base ∧ i = idx then e else t b i

/-- The pointer `(page_table_t*)(entry.address << 12)`. -/
def table_of (e : page_entry_t) : Nat :=
  (e.address <<< 12) % WORD

/-- Source: `create_page_table`.  Returns the new state and the pointer to the
zeroed table. -/
def create_page_table (s : PagingState) : PagingState × Nat :=
  let page_addr := s.next_page_table_addr
  ({ s with
      next_page_table_addr := add32 s.next_page_table_addr PAGE_SIZE
      tables := fun b i =>
        if b = page_addr ∧ i < PAGE_TABLE_SIZE then page_entry_t.zero else s.tables b i },
    page_addr)

/-- Source: `map_page`. -/
def map_page (s : PagingState) (virtual_addr physical_addr flags : Nat) :
    PagingState × Bool :=
  let pd_index := get_page_directory_index virtual_addr
  let pt_index := get_page_table_index virtual_addr
  let r : Option PagingState :=
    if (s.tables s.current_page_directory pd_index).present = false then
      let c := create_page_table s
      if c.2 = 0 then none
      else
        some
          { c.1 with
            tables :=
              write_entry c.1.tables c.1.current_page_directory pd_index
                { c.1.tables c.1.current_page_directory pd_index with
                  address := (c.2 >>> 12) % 1048576
                  present := true
                  rw := true
                  user := true } }
    else some s
  match r with
  | none => ((create_page_table s).1, false)
  | some s1 =>
    let pt := table_of (s1.tables s1.current_page_directory pd_index)
    ({ s1 with
        tables :=
          write_entry s1.tables pt pt_index
            { s1.tables pt pt_index with
              address := (physical_addr >>> 12) % 1048576
              present := decide (flags &&& PAGE_PRESENT ≠ 0)
              rw := decide (flags &&& PAGE_WRITABLE ≠ 0)
              user := decide (flags &&& PAGE_USER ≠ 0)
              global := decide (flags &&& PAGE_GLOBAL ≠ 0) } }, true)

/-- Source: `unmap_page`. -/
def unmap_page (s : PagingState) (virtual_addr : Nat) : PagingState × Bool :=
  let pd_index := get_page_directory_index virtual_addr
  let pt_index := get_page_table_index virtual_addr
  if (s.tables s.current_page_directory pd_index).present = false then (s, false)
  else
    let pt := table_of (s.tables s.current_page_directory pd_index)
    ({ s with
        tables :=
          write_entry s.tables pt pt_index { s.tables pt pt_index with present := false } },
      true)

/-- Source: `get_physical_address`. -/
def get_physical_address (s : PagingState) (virtual_addr : Nat) : Nat :=
  let pd_index := get_page_directory_index virtual_addr
  let pt_index := get_page_table_index virtual_addr
  if (s.tables s.current_page_directory pd_index).present = false then 0
  else
    let pt := table_of (s.tables s.current_page_directory pd_index)
    if (s.tables pt pt_index).present = false then 0
    else ((s.tables pt pt_index).address <<< 12) % WORD ||| get_page_offset virtual_addr

/-- The loop of `setup_identity_paging`, by the number of iterations. -/
def identity_loop : Nat → PagingState → PagingState
  | 0, s => s
  | n + 1, s =>
    (map_page (identity_loop n s) (n * PAGE_SIZE) (n * PAGE_SIZE)
      (PAGE_PRESENT ||| PAGE_WRITABLE ||| PAGE_GLOBAL)).1

/-- Source: `setup_identity_paging`. -/
def setup_identity_paging (s : PagingState) : PagingState :=
  identity_loop 1024 s

/-- The loop of `setup_kernel_paging`, by the number of iterations. -/
def kernel_loop : Nat → PagingState → PagingState
  | 0, s => s
  | n + 1, s =>
    (map_page (kernel_loop n s) (0x100000 + n * PAGE_SIZE) (0x100000 + n * PAGE_SIZE)
      (PAGE_PRESENT ||| PAGE_WRITABLE)).1

/-- Source: `setup_kernel_paging`. -/
def setup_kernel_paging (s : PagingState) : PagingState :=
  kernel_loop (0x100000 / PAGE_SIZE) s

/-- The first two statements of `paging_init`: the assignment of
`current_page_directory` and the `memset` of the directory. -/
def clear_directory (s : PagingState) : PagingState :=
  { s with
    current_page_directory := PAGE_DIRECTORY_ADDR
    tables := fun b i =>
      if b = PAGE_DIRECTORY_ADDR ∧ i < PAGE_DIRECTORY_SIZE then page_entry_t.zero
      else s.tables b i }

/-- Source: `paging_init`. -/
def paging_init (s : PagingState) : PagingState :=
  setup_kernel_paging (setup_identity_paging (clear_directory s))

/-- The number of present entries among the first `n` of an array. -/
def count_present (t : Nat → page_entry_t) : Nat → Nat
  | 0 => 0
  | n + 1 => count_present t n + (if (t n).present = true then 1 else 0)

/-- The invariant of the translation structures: the directory lies at
`PAGE_DIRECTORY_ADDR`, every present directory entry points to one of the
tables handed out so far, and one table has been handed out per present
entry. -/
def PagingInv (s : PagingState) : Prop :=
  s.current_page_directory = PAGE_DIRECTORY_ADDR ∧
  s.next_page_table_addr =
    PAGE_TABLE_AREA + PAGE_SIZE * count_present (s.tables PAGE_DIRECTORY_ADDR) 1024 ∧
  ∀ i, i < 1024 → (s.tables PAGE_DIRECTORY_ADDR i).present = true →
    ∃ j, j < count_present (s.tables PAGE_DIRECTORY_ADDR) 1024 ∧
      (s.tables PAGE_DIRECTORY_ADDR i).address = 0x700 + j

/-- Paging states reachable from `paging_init`, run at program start, by
`map_page` and `unmap_page`. -/
inductive PagingReach : PagingState → Prop where
  | init (s0 : PagingState) :
      s0.next_page_table_addr = PAGE_TABLE_AREA → PagingReach (paging_init s0)
  | map {s : PagingState} (virtual_addr physical_addr flags : Nat) :
      PagingReach s → virtual_addr < WORD → physical_addr < WORD →
      PagingReach (map_page s virtual_addr physical_addr flags).1
  | unmap {s : PagingState} (virtual_addr : Nat) :
      PagingReach s → virtual_addr < WORD → PagingReach (unmap_page s virtual_addr).1

/-- The leaf entry that translates `virtual_addr`: the entry
`pt->entries[pt_index]` of the table named by the directory entry of the
address. -/
def leaf_entry (s : PagingState) (virtual_addr : Nat) : page_entry_t :=
  s.tables
    (table_of (s.tables s.current_page_directory (get_page_directory_index virtual_addr)))
    (get_page_table_index virtual_addr)

/-- The leaf entry written by `setup_identity_paging` for page `j` into a
zeroed table: frame `j`, present, writable, global. -/
def identity_leaf (j : Nat) : page_entry_t :=
  { page_entry_t.zero with address := j, present := true, rw := true, global := true }

/-- The leaf entry left by `setup_kernel_paging` for page `j`: frame `j`,
present, writable, not global. -/
def kernel_leaf (j : Nat) : page_entry_t :=
  { page_entry_t.zero with address := j, present := true, rw := true }

/-- The state of the translation structures while `setup_identity_paging` runs,
after `n >= 1` iterations: only directory entry 0 is present, it names the
table at `PAGE_TABLE_AREA`, whose first `n` entries are identity leaves and
whose other entries are zero. -/
def IdentityMapped (n : Nat) (s : PagingState) : Prop :=
  s.current_page_directory = PAGE_DIRECTORY_ADDR ∧
  (s.tables PAGE_DIRECTORY_ADDR 0).present = true ∧
  (s.tables PAGE_DIRECTORY_ADDR 0).address = 0x700 ∧
  (∀ i, 0 < i → i < 1024 → (s.tables PAGE_DIRECTORY_ADDR i).present = false) ∧
  (∀ j, j < n → s.tables PAGE_TABLE_AREA j = identity_leaf j) ∧
  (∀ j, n ≤ j → j < 1024 → s.tables PAGE_TABLE_AREA j = page_entry_t.zero)

/-- The state of the translation structures while `setup_kernel_paging` runs,
after `m` iterations: as after `setup_identity_paging`, except that the `m`
pages from 1MB on carry kernel leaves. -/
def KernelMapped (m : Nat) (s : PagingState) : Prop :=
  s.current_page_directory = PAGE_DIRECTORY_ADDR ∧
  (s.tables PAGE_DIRECTORY_ADDR 0).present = true ∧
  (s.tables PAGE_DIRECTORY_ADDR 0).address = 0x700 ∧
  (∀ i, 0 < i → i < 1024 → (s.tables PAGE_DIRECTORY_ADDR i).present = false) ∧
  (∀ j, j < 1024 →
    s.tables PAGE_TABLE_AREA j =
      if 256 ≤ j ∧ j < 256 + m then kernel_leaf j else identity_leaf j)

/-! ## Process manager: listing and sequences of calls -/

/-- The queue loops of `process_get_list`: the PCBs copied from a queue while
`room` entries of the buffer are left. -/
def list_queue (pool : Nat → pcb_t) : Nat → Option Nat → List pcb_t
  | 0, _ => []
  | _ + 1, none => []
  | room + 1, some c => pool c :: list_queue pool room (pool c).next

/-- Source: `process_get_list`.  `processes` and `count` tell whether the two
pointers are non-NULL; the result is the value returned together with the
entries `processes[0 .. *count - 1]`, so that `*count` is the length of the
list. -/
def process_get_list (s : ProcState) (processes count : Bool) (max_count : Nat) :
    Int × List pcb_t :=
  if processes = false ∨ count = false then (PROCESS_ERROR_INVALID_PARAM, [])
  else
    let m := s.g_process_manager
    let l1 : List pcb_t :=
      match m.running_process with
      | some r => if 0 < max_count then [s.process_pool r] else []
      | none => []
    let l2 := l1 ++ list_queue s.process_pool (max_count - l1.length) m.ready_queue
    let l3 := l2 ++ list_queue s.process_pool (max_count - l2.length) m.blocked_queue
    (PROCESS_SUCCESS, l3)

/-- One call of the process API. -/
inductive proc_op where
  | create (name : Option (List Char)) (entry_point priority stack_size : Nat)
  | terminate (pid : Nat)
  | kill (pid : Nat)
  | yield
  | scheduler
  | set_priority (pid priority : Nat)
  deriving DecidableEq, Repr

/-- The state after one call of the process API and the value returned (`0`
for `process_yield` and `process_scheduler`, which return nothing); `none`
when a lookup runs out of fuel. -/
def proc_step (fuel : Nat) (s : ProcState) : proc_op → Option (ProcState × Int)
  | proc_op.create name entry_point priority stack_size =>
    some (process_create s name entry_point priority stack_size)
  | proc_op.terminate pid => process_terminate fuel s pid
  | proc_op.kill pid => process_kill fuel s pid
  | proc_op.yield => (process_yield fuel s).map (fun t => (t, 0))
  | proc_op.scheduler => (process_scheduler fuel s).map (fun t => (t, 0))
  | proc_op.set_priority pid priority => process_set_priority fuel s pid priority

/-- The state after a sequence of calls, with the values returned in order. -/
def proc_run (fuel : Nat) : ProcState → List proc_op → Option (ProcState × List Int)
  | s, [] => some (s, [])
  | s, op :: ops =>
    match proc_step fuel s op with
    | none => none
    | some (s1, r) =>
      match proc_run fuel s1 ops with
      | none => none
      | some (s2, rs) => some (s2, r :: rs)

/-- The values returned by a sequence of calls; `none` when a call does not
return. -/
def returns_of (fuel : Nat) (s : ProcState) (ops : List proc_op) : Option (List Int) :=
  (proc_run fuel s ops).map (fun r => r.2)

/-- The state after a sequence of calls that all return. -/
def state_after (fuel : Nat) (s : ProcState) (ops : List proc_op) : ProcState :=
  match proc_run fuel s ops with
  | some r => r.1
  | none => s

/-- The call `process_create(name, entry, NORMAL, 4096)` with a valid entry
point. -/
def create_op (name : List Char) : proc_op :=
  proc_op.create (some name) 0x100000 PROCESS_PRIORITY_NORMAL DEFAULT_STACK_SIZE

/-- The PIDs and states of the entries returned by `process_get_list` with a
buffer of `MAX_PROCESSES` entries. -/
def listed (s : ProcState) : List (Nat × process_state_t) :=
  (process_get_list s true true MAX_PROCESSES).2.map (fun b => (b.pid, b.state))

/-- The calls after boot that leave PID 2 in the ready queue behind a stale
`prev` link: create PID 1, terminate it, create PID 2 in the freed pool slot
1, create PID 3, terminate PID 3. -/
def stale_link_calls : List proc_op :=
  [create_op ['a'], proc_op.terminate 1, create_op ['b'], create_op ['c'],
    proc_op.terminate 3]

/-- The calls after boot that terminate PID 1 twice. -/
def terminate_twice_calls : List proc_op :=
  [create_op ['a'], proc_op.terminate 1, proc_op.terminate 1]

/-- The calls after boot that terminate PID 1 and PID 2 and then PID 2 once
more. -/
def relisted_calls : List proc_op :=
  [create_op ['a'], create_op ['b'], proc_op.terminate 1, proc_op.terminate 2,
    proc_op.terminate 2]

/-- The calls after boot that free the stack of the live PID 2 through the
stale PCB of PID 1: create PID 1, terminate the idle process and PID 1, create
PID 2 (pool slot 0, the stack block of PID 1), terminate PID 1 again. -/
def stale_stack_calls : List proc_op :=
  [create_op ['a'], proc_op.terminate 0, proc_op.terminate 1, create_op ['c'],
    proc_op.terminate 1]

/-! ## Process manager: queues as lists -/

/-- Following `next` from `head` visits exactly the slots of the list, in
order, and then reaches `NULL`. -/
def NextList (pool : Nat → pcb_t) : Option Nat → List Nat → Prop
  | head, [] => head = none
  | head, c :: l => head = some c ∧ NextList pool (pool c).next l

/-- The `prev` link of every slot of the list names the slot before it, `prev`
for the first one. -/
def PrevList (pool : Nat → pcb_t) : Option Nat → List Nat → Prop
  | _, [] => True
  | prev, c :: l => (pool c).prev = prev ∧ PrevList pool (some c) l

/-- The idle process runs in pool slot 0, the blocked queue is empty, and the
ready queue is a well-formed doubly linked list of the slots `R`, each holding
the PID equal to its index; the head of the terminated queue is not among
them. -/
def IdleRuns (s : ProcState) (R : List Nat) : Prop :=
  s.g_process_manager.running_process = some 0 ∧
  (s.process_pool 0).pid = 0 ∧
  (s.process_pool 0).state = PROCESS_STATE_RUNNING ∧
  s.g_process_manager.blocked_queue = none ∧
  NextList s.process_pool s.g_process_manager.ready_queue R ∧
  PrevList s.process_pool none R ∧
  R.Nodup ∧ 0 ∉ R ∧
  (∀ c ∈ R, (s.process_pool c).pid = c) ∧
  (∀ h, s.g_process_manager.terminated_queue = some h → h ∉ R ∧ h ≠ 0)

/-- The slots `k, k-1, .., 1`. -/
def slots_down : Nat → List Nat
  | 0 => []
  | k + 1 => (k + 1) :: slots_down k

/-- The manager after `k` successful calls of `process_create` and no other
call since `process_manager_init`. -/
def Fresh (k : Nat) (s : ProcState) : Prop :=
  IdleRuns s (slots_down k) ∧
  s.g_process_manager.terminated_queue = none ∧
  s.g_process_manager.next_pid = k + 1 ∧
  s.g_process_manager.process_count = k + 1 ∧
  s.g_process_manager.max_processes = MAX_PROCESSES ∧
  (∀ i, s.process_pool_used i = decide (i ≤ k))

/-- A call of `process_create`. -/
def is_create : proc_op → Bool
  | proc_op.create _ _ _ _ => true
  | _ => false

/-- A call of `process_create` with a name and an entry point. -/
def valid_create : proc_op → Bool
  | proc_op.create (some _) entry_point _ _ => decide (entry_point ≠ 0)
  | _ => false

/-- The values returned by the successful calls of `process_create` in a run:
the non-negative values returned by the create calls, in order. -/
def created_pids : List proc_op → List Int → List Int
  | op :: ops, r :: rs =>
    if is_create op = true ∧ 0 ≤ r then r :: created_pids ops rs else created_pids ops rs
  | _, _ => []

/-- The calls `process_create("a", ..)`, `process_terminate(i)` for
`i = 1, .., n`. -/
def create_terminate_rounds : Nat → List proc_op
  | 0 => []
  | n + 1 => create_terminate_rounds n ++ [create_op ['a'], proc_op.terminate (n + 1)]

/-- The manager between two rounds of create and terminate, after `n` of
them: only the idle process is left, in pool slot 0, and `next_pid` is `n + 1`
as a 32-bit value. -/
def RoundInv (s : ProcState) (n : Nat) : Prop :=
  s.g_process_manager.running_process = some 0 ∧
  (s.process_pool 0).pid = 0 ∧
  s.g_process_manager.ready_queue = none ∧
  s.g_process_manager.blocked_queue = none ∧
  (s.g_process_manager.terminated_queue = none ∨
    s.g_process_manager.terminated_queue = some 1) ∧
  s.g_process_manager.next_pid = (n + 1) % WORD ∧
  s.g_process_manager.process_count = 1 ∧
  s.g_process_manager.max_processes = MAX_PROCESSES ∧
  s.process_pool_used 0 = true ∧
  s.process_pool_used 1 = false

/-! ## Heap: statistics -/

/-- Source: `get_memory_stats`.  The record the returned pointer designates. -/
def get_memory_stats (s : MemState) : memory_stats_t := s.memory_stats

/-- Sum of the sizes of all allocated blocks. -/
def total_used (l : List memory_block_t) : Nat :=
  ((l.filter (fun b => b.type = MEMORY_ALLOCATED)).map (fun b => b.size)).sum

/-- The statistics agree with the heap: `free_memory` is the sum of the sizes
of the free blocks, `used_memory` the sum of the sizes of the allocated blocks,
and together with the headers they make up the heap window. -/
def StatsAgree (s : MemState) : Prop :=
  (get_memory_stats s).free_memory = total_free s.memory_map ∧
  (get_memory_stats s).used_memory = total_used s.memory_map ∧
  (get_memory_stats s).used_memory + (get_memory_stats s).free_memory +
      s.memory_map.length * BLOCK_HEADER = KERNEL_HEAP_SIZE

/-! ## System calls of `syscall.c` that reach the process manager -/

/-- Number of pool slots marked in use. -/
def used_slots (s : ProcState) : Nat :=
  ((List.range MAX_PROCESSES).filter (fun i => s.process_pool_used i)).length

/-! ## Process manager: what a call may change -/

/-- Pool slot `c` is referenced by the manager: it is the running process, the
head of a queue, or the `next` of some PCB. -/
def Linked (s : ProcState) (c : Nat) : Prop :=
  s.g_process_manager.running_process = some c ∨
  s.g_process_manager.ready_queue = some c ∨
  s.g_process_manager.blocked_queue = some c ∨
  s.g_process_manager.terminated_queue = some c ∨
  ∃ d, (s.process_pool d).next = some c

/-- The invariant of the PIDs while `next_pid` has not wrapped: every PID in
the pool is below `next_pid`; two different slots hold the same PID only when
one of them has never been allocated (state new); the running process has
state running and its slot is in use; no referenced slot has state new. -/
def PidInv (s : ProcState) : Prop :=
  (∀ c, (s.process_pool c).pid < s.g_process_manager.next_pid) ∧
  (∀ c d, (s.process_pool c).pid = (s.process_pool d).pid →
    c = d ∨ (s.process_pool c).state = PROCESS_STATE_NEW ∨
      (s.process_pool d).state = PROCESS_STATE_NEW) ∧
  (∀ r, s.g_process_manager.running_process = some r →
    (s.process_pool r).state = PROCESS_STATE_RUNNING ∧ s.process_pool_used r = true) ∧
  (∀ c, Linked s c → (s.process_pool c).state ≠ PROCESS_STATE_NEW)

/-- PID `p` has been handed out, and every PCB that carries it is terminated
or has never been allocated. -/
def Absorbed (p : Nat) (s : ProcState) : Prop :=
  p < s.g_process_manager.next_pid ∧
  ∀ c, (s.process_pool c).pid = p →
    (s.process_pool c).state = PROCESS_STATE_TERMINATED ∨
      (s.process_pool c).state = PROCESS_STATE_NEW

/-- A call that changes no PID, no state, no pool flag, neither the running
slot nor `next_pid`, and references no new slot. -/
def Quiet (s t : ProcState) : Prop :=
  (∀ c, (t.process_pool c).pid = (s.process_pool c).pid ∧
    (t.process_pool c).state = (s.process_pool c).state) ∧
  t.g_process_manager.running_process = s.g_process_manager.running_process ∧
  t.process_pool_used = s.process_pool_used ∧
  t.g_process_manager.next_pid = s.g_process_manager.next_pid ∧
  ∀ x, Linked t x → Linked s x

/-- A successful `process_create` that has allocated pool slot `c`. -/
def CreatedIn (s t : ProcState) (c : Nat) : Prop :=
  first_unused s.process_pool_used 0 MAX_PROCESSES = some c ∧
  s.process_pool_used c = false ∧
  (t.process_pool c).pid = s.g_process_manager.next_pid ∧
  (t.process_pool c).state = PROCESS_STATE_READY ∧
  (∀ d, d ≠ c → (t.process_pool d).pid = (s.process_pool d).pid ∧
    (t.process_pool d).state = (s.process_pool d).state) ∧
  t.g_process_manager.running_process = s.g_process_manager.running_process ∧
  t.process_pool_used = Function.update s.process_pool_used c true ∧
  t.g_process_manager.next_pid = add32 s.g_process_manager.next_pid 1 ∧
  ∀ x, Linked t x → Linked s x ∨ x = c

/-- A successful `process_terminate` of the PCB in pool slot `c`. -/
def TerminatedIn (s t : ProcState) (c : Nat) : Prop :=
  Linked s c ∧
  (∀ d, (t.process_pool d).pid = (s.process_pool d).pid) ∧
  (t.process_pool c).state = PROCESS_STATE_TERMINATED ∧
  (∀ d, d ≠ c → (t.process_pool d).state = (s.process_pool d).state) ∧
  (∀ r, t.g_process_manager.running_process = some r →
    s.g_process_manager.running_process = some r ∧ r ≠ c) ∧
  (∀ d, d ≠ c → t.process_pool_used d = s.process_pool_used d) ∧
  t.g_process_manager.next_pid = s.g_process_manager.next_pid ∧
  ∀ x, Linked t x → Linked s x

/-- The calls after boot that fill the pool while `process_count` lags behind:
create PID 1, terminate it twice, then 63 creates. -/
def full_pool_calls : List proc_op :=
  terminate_twice_calls ++ List.replicate 63 (create_op ['b'])

theorem add32_of_lt {a b : Nat} (h : a + b < WORD) : add32 a b = a + b := by
  unfold add32; exact Nat.mod_eq_of_lt h

theorem sub32_of_le {a b : Nat} (hb : b ≤ a) (ha : a < WORD) : sub32 a b = a - b := by
  unfold sub32 WORD at *; omega

theorem find_free_block_some {l : List memory_block_t} {size : Nat}
    {pre post : List memory_block_t} {b : memory_block_t}
    (h : find_free_block l size = some (pre, b, post)) :
    l = pre ++ b :: post ∧ b.type = MEMORY_FREE ∧ size ≤ b.size ∧
      ∀ x ∈ pre, ¬ (x.type = MEMORY_FREE ∧ size ≤ x.size) := by
  induction l generalizing pre with
  | nil => simp [find_free_block] at h
  | cons a rest ih =>
    unfold find_free_block at h
    split at h
    · rename_i hc
      simp only [Option.some.injEq, Prod.mk.injEq] at h
      obtain ⟨rfl, rfl, rfl⟩ := h
      exact ⟨rfl, hc.1, hc.2, by simp⟩
    · rename_i hc
      split at h
      · simp at h
      · rename_i pre1 c post1 heq
        simp only [Option.some.injEq, Prod.mk.injEq] at h
        obtain ⟨rfl, rfl, rfl⟩ := h
        obtain ⟨h1, h2, h3, h4⟩ := ih heq
        refine ⟨by rw [h1]; rfl, h2, h3, ?_⟩
        intro x hx
        rcases List.mem_cons.1 hx with rfl | hx
        · exact hc
        · exact h4 x hx

theorem find_free_block_none {l : List memory_block_t} {size : Nat}
    (h : find_free_block l size = none) :
    ∀ x ∈ l, ¬ (x.type = MEMORY_FREE ∧ size ≤ x.size) := by
  induction l with
  | nil => simp
  | cons a rest ih =>
    unfold find_free_block at h
    split at h
    · simp at h
    · rename_i hc
      split at h
      · rename_i heq
        intro x hx
        rcases List.mem_cons.1 hx with rfl | hx
        · exact hc
        · exact ih heq x hx
      · simp at h

theorem find_free_block_eq_none {l : List memory_block_t} {size : Nat}
    (h : ∀ x ∈ l, ¬ (x.type = MEMORY_FREE ∧ size ≤ x.size)) :
    find_free_block l size = none := by
  induction l with
  | nil => rfl
  | cons a rest ih =>
    unfold find_free_block
    rw [if_neg (h a (List.mem_cons_self _ _)),
      ih (fun x hx => h x (List.mem_cons_of_mem _ hx))]

theorem find_block_at_some {l : List memory_block_t} {a : Nat}
    {pre post : List memory_block_t} {b : memory_block_t}
    (h : find_block_at l a = some (pre, b, post)) :
    l = pre ++ b :: post ∧ b.addr = a ∧ ∀ x ∈ pre, x.addr ≠ a := by
  induction l generalizing pre with
  | nil => simp [find_block_at] at h
  | cons c rest ih =>
    unfold find_block_at at h
    split at h
    · rename_i hc
      simp only [Option.some.injEq, Prod.mk.injEq] at h
      obtain ⟨rfl, rfl, rfl⟩ := h
      exact ⟨rfl, hc, by simp⟩
    · rename_i hc
      split at h
      · simp at h
      · rename_i pre1 c1 post1 heq
        simp only [Option.some.injEq, Prod.mk.injEq] at h
        obtain ⟨rfl, rfl, rfl⟩ := h
        obtain ⟨h1, h2, h3⟩ := ih heq
        refine ⟨by rw [h1]; rfl, h2, ?_⟩
        intro x hx
        rcases List.mem_cons.1 hx with rfl | hx
        · exact hc
        · exact h3 x hx

theorem find_block_at_append {pre post : List memory_block_t} {b : memory_block_t}
    (h : ∀ x ∈ pre, x.addr ≠ b.addr) :
    find_block_at (pre ++ b :: post) b.addr = some (pre, b, post) := by
  induction pre with
  | nil => simp [find_block_at]
  | cons c rest ih =>
    have hc : c.addr ≠ b.addr := h c (List.mem_cons_self _ _)
    have := ih (fun x hx => h x (List.mem_cons_of_mem _ hx))
    simp [find_block_at, hc, this]

theorem Tiles_le {a : Nat} {l : List memory_block_t} (h : Tiles a l) :
    a ≤ KERNEL_HEAP_START + KERNEL_HEAP_SIZE := by
  induction l generalizing a with
  | nil => exact Nat.le_of_eq h
  | cons b rest ih =>
    obtain ⟨_, h2, h3⟩ := h
    have := ih h3
    omega

theorem Tiles_addr_ge {a : Nat} {l : List memory_block_t} (h : Tiles a l) :
    ∀ x ∈ l, a ≤ x.addr := by
  induction l generalizing a with
  | nil => simp
  | cons b rest ih =>
    obtain ⟨h1, h2, h3⟩ := h
    intro x hx
    rcases List.mem_cons.1 hx with rfl | hx
    · omega
    · have := ih h3 x hx
      omega

theorem Tiles_mem {a : Nat} {l : List memory_block_t} (h : Tiles a l) :
    ∀ x ∈ l, x.start_addr = x.addr + BLOCK_HEADER ∧ a ≤ x.addr ∧
      x.start_addr + x.size ≤ KERNEL_HEAP_START + KERNEL_HEAP_SIZE := by
  induction l generalizing a with
  | nil => simp
  | cons b rest ih =>
    obtain ⟨h1, h2, h3⟩ := h
    intro x hx
    rcases List.mem_cons.1 hx with rfl | hx
    · exact ⟨by omega, by omega, Tiles_le h3⟩
    · obtain ⟨k1, k2, k3⟩ := ih h3 x hx
      exact ⟨k1, by omega, k3⟩

theorem Tiles_append {a : Nat} {pre x : List memory_block_t} (h : Tiles a (pre ++ x)) :
    ∃ a', Tiles a' x ∧ a ≤ a' ∧ (∀ p ∈ pre, p.addr < a') ∧
      ∀ y, Tiles a' y → Tiles a (pre ++ y) := by
  induction pre generalizing a with
  | nil => exact ⟨a, h, Nat.le_refl _, by simp, fun y hy => hy⟩
  | cons b rest ih =>
    obtain ⟨h1, h2, h3⟩ := h
    obtain ⟨a', k1, k2, k3, k4⟩ := ih h3
    refine ⟨a', k1, by omega, ?_, fun y hy => ⟨h1, h2, k4 y hy⟩⟩
    intro p hp
    rcases List.mem_cons.1 hp with rfl | hp
    · have : BLOCK_HEADER = 20 := rfl
      omega
    · exact k3 p hp

theorem merge_from_head (cur : memory_block_t) (rest : List memory_block_t) :
    ∃ c r, merge_from cur rest = c :: r ∧ c.type = cur.type ∧ c.addr = cur.addr ∧
      c.start_addr = cur.start_addr := by
  induction rest generalizing cur with
  | nil => exact ⟨cur, [], rfl, rfl, rfl, rfl⟩
  | cons nxt rest ih =>
    unfold merge_from
    split
    · obtain ⟨c, r, h1, h2, h3, h4⟩ :=
        ih { cur with size := add32 cur.size (add32 nxt.size BLOCK_HEADER) }
      exact ⟨c, r, h1, h2, h3, h4⟩
    · exact ⟨cur, _, rfl, rfl, rfl, rfl⟩

theorem Tiles_merge_from {a : Nat} {cur : memory_block_t} {rest : List memory_block_t}
    (h : Tiles a (cur :: rest)) : Tiles a (merge_from cur rest) := by
  induction rest generalizing cur a with
  | nil => exact h
  | cons nxt rest ih =>
    obtain ⟨h1, h2, k1, k2, k3⟩ := h
    have hb := Tiles_le k3
    unfold merge_from
    split
    · apply ih
      refine ⟨h1, h2, ?_⟩
      have e : add32 cur.size (add32 nxt.size BLOCK_HEADER) = cur.size + nxt.size + BLOCK_HEADER := by
        unfold add32 WORD
        unfold KERNEL_HEAP_START KERNEL_HEAP_SIZE at hb
        unfold BLOCK_HEADER at *
        omega
      show Tiles (cur.start_addr + add32 cur.size (add32 nxt.size BLOCK_HEADER)) rest
      rw [e]
      have e2 : cur.start_addr + (cur.size + nxt.size + BLOCK_HEADER) = nxt.start_addr + nxt.size := by
        omega
      rw [e2]; exact k3
    · exact ⟨h1, h2, ih ⟨k1, k2, k3⟩⟩

theorem NoAdjFree_merge_from {a : Nat} {cur : memory_block_t} {rest : List memory_block_t}
    (h : Tiles a (cur :: rest)) : NoAdjFree (merge_from cur rest) := by
  induction rest generalizing cur a with
  | nil => exact List.chain'_singleton _
  | cons nxt rest ih =>
    obtain ⟨h1, h2, k1, k2, k3⟩ := h
    have hb := Tiles_le k3
    unfold merge_from
    split
    · apply ih (a := a)
      refine ⟨h1, h2, ?_⟩
      have e : add32 cur.size (add32 nxt.size BLOCK_HEADER) = cur.size + nxt.size + BLOCK_HEADER := by
        unfold add32 WORD
        unfold KERNEL_HEAP_START KERNEL_HEAP_SIZE at hb
        unfold BLOCK_HEADER at *
        omega
      show Tiles (cur.start_addr + add32 cur.size (add32 nxt.size BLOCK_HEADER)) rest
      rw [e]
      have e2 : cur.start_addr + (cur.size + nxt.size + BLOCK_HEADER) = nxt.start_addr + nxt.size := by
        omega
      rw [e2]; exact k3
    · rename_i hc
      have hadj : add32 (add32 cur.start_addr cur.size) BLOCK_HEADER = nxt.start_addr := by
        unfold add32 WORD
        unfold KERNEL_HEAP_START KERNEL_HEAP_SIZE at hb
        unfold BLOCK_HEADER at *
        omega
      have hn : ¬ (cur.type = MEMORY_FREE ∧ nxt.type = MEMORY_FREE) :=
        fun hh => hc ⟨hh.1, hh.2, hadj⟩
      have ih' := @ih _ nxt ⟨k1, k2, k3⟩
      obtain ⟨c, r, e1, e2, _, _⟩ := merge_from_head nxt rest
      rw [e1] at ih' ⊢
      exact List.Chain'.cons (by rw [e2]; exact hn) ih'

theorem merge_from_id {cur : memory_block_t} {rest : List memory_block_t}
    (h : NoAdjFree (cur :: rest)) : merge_from cur rest = cur :: rest := by
  induction rest generalizing cur with
  | nil => rfl
  | cons nxt rest ih =>
    have h1 := List.chain'_cons.1 h
    unfold merge_from
    rw [if_neg (fun hh => h1.1 ⟨hh.1, hh.2.1⟩), ih h1.2]

theorem merge_adjacent_blocks_id {l : List memory_block_t} (h : NoAdjFree l) :
    merge_adjacent_blocks l = l := by
  cases l with
  | nil => rfl
  | cons b rest => exact merge_from_id h

theorem merge_adjacent_blocks_append {pre : List memory_block_t} {x : memory_block_t}
    {tail : List memory_block_t} (h : NoAdjFree (pre ++ [x])) :
    merge_adjacent_blocks (pre ++ x :: tail) = pre ++ merge_from x tail := by
  cases pre with
  | nil => rfl
  | cons p pre =>
    show merge_from p (pre ++ x :: tail) = p :: pre ++ merge_from x tail
    induction pre generalizing p with
    | nil =>
      have h1 := List.chain'_cons.1 (show NoAdjFree (p :: [x]) from h)
      show merge_from p (x :: tail) = p :: merge_from x tail
      conv => lhs; unfold merge_from
      rw [if_neg (fun hh => h1.1 ⟨hh.1, hh.2.1⟩)]
    | cons q pre ih =>
      have h1 := List.chain'_cons.1 (show NoAdjFree (p :: q :: (pre ++ [x])) from h)
      show merge_from p (q :: (pre ++ x :: tail)) = p :: q :: pre ++ merge_from x tail
      conv => lhs; unfold merge_from
      rw [if_neg (fun hh => h1.1 ⟨hh.1, hh.2.1⟩), ih q h1.2]
      rfl

theorem Tiles_merge {a : Nat} {l : List memory_block_t} (h : Tiles a l) :
    Tiles a (merge_adjacent_blocks l) := by
  cases l with
  | nil => exact h
  | cons b rest => exact Tiles_merge_from h

theorem NoAdjFree_merge {a : Nat} {l : List memory_block_t} (h : Tiles a l) :
    NoAdjFree (merge_adjacent_blocks l) := by
  cases l with
  | nil => exact List.chain'_nil
  | cons b rest => exact NoAdjFree_merge_from h

theorem NoAdjFree_append_singleton {pre : List memory_block_t} {x y : memory_block_t}
    (h : NoAdjFree (pre ++ [x])) (hy : y.type = MEMORY_FREE → x.type = MEMORY_FREE) :
    NoAdjFree (pre ++ [y]) := by
  unfold NoAdjFree at *
  rw [List.chain'_append] at h ⊢
  refine ⟨h.1, List.chain'_singleton _, ?_⟩
  intro a ha b hb
  simp only [List.head?_cons, Option.mem_def, Option.some.injEq] at hb
  subst hb
  intro hh
  exact h.2.2 a ha x (by simp) ⟨hh.1, hy hh.2⟩

theorem kmalloc_result {s : MemState} (size : Nat)
    (hT : Tiles KERNEL_HEAP_START s.memory_map) :
    ((kmalloc s size).1 = s ∧ (kmalloc s size).2 = 0) ∨
    ∃ pre b post sz, s.memory_map = pre ++ b :: post ∧ b.type = MEMORY_FREE ∧
      sz = (add32 size 3) &&& 0xFFFFFFFC ∧ size ≠ 0 ∧
      sz ≤ b.size ∧ (∀ x ∈ pre, ¬ (x.type = MEMORY_FREE ∧ sz ≤ x.size)) ∧
      (kmalloc s size).2 = b.start_addr ∧
      (((kmalloc s size).1.memory_map = pre ++ { b with type := MEMORY_ALLOCATED } :: post ∧
          b.size ≤ sz + BLOCK_HEADER) ∨
       ((kmalloc s size).1.memory_map =
          pre ++ { b with size := sz, type := MEMORY_ALLOCATED } ::
            { addr := b.start_addr + sz, start_addr := b.start_addr + sz + BLOCK_HEADER,
              size := b.size - sz - BLOCK_HEADER, type := MEMORY_FREE } :: post ∧
          sz + BLOCK_HEADER < b.size)) := by
  by_cases h0 : size = 0
  · left; simp [kmalloc, h0]
  · cases hf : find_free_block s.memory_map ((add32 size 3) &&& 0xFFFFFFFC) with
    | none => left; simp [kmalloc, h0, hf]
    | some r =>
      obtain ⟨pre, b, post⟩ := r
      right
      obtain ⟨e, hfree, hle, hpre⟩ := find_free_block_some hf
      have hb := (Tiles_mem hT) b (by rw [e]; simp)
      have hH : BLOCK_HEADER = 20 := rfl
      have hS : KERNEL_HEAP_START + KERNEL_HEAP_SIZE = 0x300000 := rfl
      have hadd : add32 ((add32 size 3) &&& 0xFFFFFFFC) BLOCK_HEADER =
          ((add32 size 3) &&& 0xFFFFFFFC) + BLOCK_HEADER := by
        apply add32_of_lt; unfold WORD; omega
      refine ⟨pre, b, post, _, e, hfree, rfl, h0, hle, hpre, ?_⟩
      by_cases hc : ((add32 size 3) &&& 0xFFFFFFFC) + BLOCK_HEADER < b.size
      · have hnc : ¬ b.size ≤ ((add32 size 3) &&& 0xFFFFFFFC) + BLOCK_HEADER := by omega
        have e1 : add32 b.start_addr ((add32 size 3) &&& 0xFFFFFFFC) =
            b.start_addr + ((add32 size 3) &&& 0xFFFFFFFC) := by
          apply add32_of_lt; unfold WORD; omega
        have e2 : add32 (b.start_addr + ((add32 size 3) &&& 0xFFFFFFFC)) BLOCK_HEADER =
            b.start_addr + ((add32 size 3) &&& 0xFFFFFFFC) + BLOCK_HEADER := by
          apply add32_of_lt; unfold WORD; omega
        have e3 : sub32 (sub32 b.size ((add32 size 3) &&& 0xFFFFFFFC)) BLOCK_HEADER =
            b.size - ((add32 size 3) &&& 0xFFFFFFFC) - BLOCK_HEADER := by
          rw [sub32_of_le hle (by unfold WORD; omega),
            sub32_of_le (by omega) (by unfold WORD; omega)]
        refine ⟨?_, Or.inr ⟨?_, hc⟩⟩
        · simp [kmalloc, h0, hf, hadd, hc, split_block, hnc]
        · simp [kmalloc, h0, hf, hadd, hc, split_block, hnc, e1, e2, e3, update_memory_stats]
      · refine ⟨?_, Or.inl ⟨?_, by omega⟩⟩
        · simp [kmalloc, h0, hf, hadd, hc]
        · simp [kmalloc, h0, hf, hadd, hc, update_memory_stats]

theorem kfree_result (s : MemState) (ptr : Nat) :
    kfree s ptr = s ∨
    ∃ pre b post, s.memory_map = pre ++ b :: post ∧ b.addr = sub32 ptr BLOCK_HEADER ∧
      b.type = MEMORY_ALLOCATED ∧ (∀ x ∈ pre, x.addr ≠ b.addr) ∧
      (kfree s ptr).memory_map =
        merge_adjacent_blocks (pre ++ { b with type := MEMORY_FREE } :: post) := by
  by_cases h0 : ptr = 0
  · left; simp [kfree, h0]
  · cases hf : find_block_at s.memory_map (sub32 ptr BLOCK_HEADER) with
    | none => left; simp [kfree, h0, hf]
    | some r =>
      obtain ⟨pre, b, post⟩ := r
      obtain ⟨e, ha, hpre⟩ := find_block_at_some hf
      by_cases ht : b.type = MEMORY_ALLOCATED
      · right
        refine ⟨pre, b, post, e, ha, ht, fun x hx => by rw [ha]; exact hpre x hx, ?_⟩
        simp [kfree, h0, hf, ht, update_memory_stats]
      · left; simp [kfree, h0, hf, ht]

theorem heap_init_inv (s0 : MemState) : HeapInv (heap_init s0).memory_map := by
  refine ⟨⟨rfl, ?_, ?_⟩, List.chain'_singleton _⟩
  · show add32 KERNEL_HEAP_START BLOCK_HEADER = KERNEL_HEAP_START + BLOCK_HEADER
    decide
  · show add32 KERNEL_HEAP_START BLOCK_HEADER + sub32 KERNEL_HEAP_SIZE BLOCK_HEADER =
      KERNEL_HEAP_START + KERNEL_HEAP_SIZE
    decide

theorem kmalloc_inv {s : MemState} (size : Nat) (h : HeapInv s.memory_map) :
    HeapInv (kmalloc s size).1.memory_map := by
  obtain ⟨hT, hN⟩ := h
  rcases kmalloc_result size hT with ⟨e, _⟩ | ⟨pre, b, post, sz, e, hfree, _, _, hle, _, _, hm⟩
  · rw [e]; exact ⟨hT, hN⟩
  · rw [e] at hT hN
    obtain ⟨a', k1, _, _, k4⟩ := Tiles_append hT
    have hN1 := (List.chain'_split.1 hN)
    have hpost : ∀ y ∈ post.head?, y.type ≠ MEMORY_FREE := by
      intro y hy hyf
      exact (List.chain'_cons'.1 hN1.2).1 y hy ⟨hfree, hyf⟩
    rcases hm with ⟨em, _⟩ | ⟨em, hlt⟩
    · rw [em]
      refine ⟨k4 _ k1, ?_⟩
      unfold NoAdjFree
      rw [List.chain'_split]
      refine ⟨NoAdjFree_append_singleton hN1.1 (by simp), ?_⟩
      rw [List.chain'_cons']
      exact ⟨fun y _ hh => by simp at hh, (List.chain'_cons'.1 hN1.2).2⟩
    · rw [em]
      refine ⟨k4 _ ?_, ?_⟩
      · obtain ⟨t1, t2, t3⟩ := k1
        refine ⟨t1, t2, rfl, rfl, ?_⟩
        have hH : BLOCK_HEADER = 20 := rfl
        have : b.start_addr + sz + BLOCK_HEADER + (b.size - sz - BLOCK_HEADER) =
            b.start_addr + b.size := by omega
        show Tiles (b.start_addr + sz + BLOCK_HEADER + (b.size - sz - BLOCK_HEADER)) post
        rw [this]; exact t3
      · unfold NoAdjFree
        rw [List.chain'_split]
        refine ⟨NoAdjFree_append_singleton hN1.1 (by simp), ?_⟩
        rw [List.chain'_cons']
        refine ⟨fun y _ hh => by simp at hh, ?_⟩
        rw [List.chain'_cons']
        exact ⟨fun y hy hh => hpost y hy hh.2, (List.chain'_cons'.1 hN1.2).2⟩

theorem kfree_inv {s : MemState} (ptr : Nat) (h : HeapInv s.memory_map) :
    HeapInv (kfree s ptr).memory_map := by
  obtain ⟨hT, hN⟩ := h
  rcases kfree_result s ptr with e | ⟨pre, b, post, e, _, _, _, em⟩
  · rw [e]; exact ⟨hT, hN⟩
  · rw [e] at hT
    obtain ⟨a', k1, _, _, k4⟩ := Tiles_append hT
    have hT' : Tiles KERNEL_HEAP_START (pre ++ { b with type := MEMORY_FREE } :: post) :=
      k4 _ k1
    rw [em]
    exact ⟨Tiles_merge hT', NoAdjFree_merge hT'⟩

theorem HeapReach_inv {s : MemState} {issued : List Nat} (h : HeapReach s issued) :
    HeapInv s.memory_map := by
  induction h with
  | init s0 => exact heap_init_inv s0
  | malloc size _ _ ih => exact kmalloc_inv size ih
  | free ptr _ _ ih => exact kfree_inv ptr ih

theorem Tiles_chain {a : Nat} {l : List memory_block_t} (h : Tiles a l) :
    List.Chain' (fun b c => c.start_addr = b.start_addr + b.size + BLOCK_HEADER) l := by
  induction l generalizing a with
  | nil => exact List.chain'_nil
  | cons b rest ih =>
    obtain ⟨_, _, h3⟩ := h
    rw [List.chain'_cons']
    refine ⟨?_, ih h3⟩
    intro y hy
    cases rest with
    | nil => simp at hy
    | cons c rest =>
      simp only [List.head?_cons, Option.mem_def, Option.some.injEq] at hy
      subst hy
      exact h3.2.1

theorem Tiles_last {a : Nat} {l : List memory_block_t} (h : Tiles a l) :
    ∀ b ∈ l.getLast?, b.start_addr + b.size = KERNEL_HEAP_START + KERNEL_HEAP_SIZE := by
  induction l generalizing a with
  | nil => simp
  | cons b rest ih =>
    obtain ⟨_, _, h3⟩ := h
    cases rest with
    | nil =>
      intro x hx
      simp only [List.getLast?_singleton, Option.mem_def, Option.some.injEq] at hx
      subst hx
      exact h3
    | cons c rest =>
      intro x hx
      rw [List.getLast?_cons_cons] at hx
      exact ih h3 x hx

theorem Tiles_pairwise {a : Nat} {l : List memory_block_t} (h : Tiles a l) :
    List.Pairwise
      (fun b c => b.start_addr < c.start_addr ∧ b.start_addr + b.size ≤ c.addr) l := by
  induction l generalizing a with
  | nil => exact List.Pairwise.nil
  | cons b rest ih =>
    obtain ⟨_, _, h3⟩ := h
    refine List.Pairwise.cons ?_ (ih h3)
    intro c hc
    obtain ⟨k1, k2, _⟩ := Tiles_mem h3 c hc
    have hH : BLOCK_HEADER = 20 := rfl
    exact ⟨by omega, k2⟩

theorem Tiles_tiled {l : List memory_block_t} (h : Tiles KERNEL_HEAP_START l) :
    HeapTiled l := by
  refine ⟨?_, Tiles_chain h, Tiles_last h, Tiles_pairwise h, fun b hb => (Tiles_mem h b hb).1⟩
  cases l with
  | nil =>
    have h' : KERNEL_HEAP_START = KERNEL_HEAP_START + KERNEL_HEAP_SIZE := h
    exact absurd h' (by decide)
  | cons b rest => exact ⟨b, rest, rfl, h.1, h.2.1⟩

/-- C1: in every heap state reachable from `heap_init` by `kmalloc` calls and
by `kfree` calls on addresses returned earlier by `kmalloc`, the block list is
address-ordered, non-overlapping and tiles the heap window exactly: the first
header sits at the heap start, every successor's data starts at its
predecessor's `start_addr + size + header size`, and the last block ends at
heap start + `KERNEL_HEAP_SIZE`. -/
theorem C1_heap_tiling_invariant (s : MemState) (issued : List Nat)
    (h : HeapReach s issued) : HeapTiled s.memory_map :=
  Tiles_tiled (HeapReach_inv h).1

/-- C1, instance: the heap after `kmalloc(16)`, `kmalloc(32)` and the release
of the first of the two blocks. -/
theorem C1_heap_tiling_invariant_witness :
    HeapReach
        (kfree (kmalloc (kmalloc (heap_init MemState.zero) 16).1 32).1
          (kmalloc (heap_init MemState.zero) 16).2)
        [(kmalloc (kmalloc (heap_init MemState.zero) 16).1 32).2,
          (kmalloc (heap_init MemState.zero) 16).2] ∧
      HeapTiled
        (kfree (kmalloc (kmalloc (heap_init MemState.zero) 16).1 32).1
          (kmalloc (heap_init MemState.zero) 16).2).memory_map :=
  have hr : HeapReach
        (kfree (kmalloc (kmalloc (heap_init MemState.zero) 16).1 32).1
          (kmalloc (heap_init MemState.zero) 16).2)
        [(kmalloc (kmalloc (heap_init MemState.zero) 16).1 32).2,
          (kmalloc (heap_init MemState.zero) 16).2] :=
    HeapReach.free _
      (HeapReach.malloc 32 (HeapReach.malloc 16 (HeapReach.init MemState.zero) (by decide))
        (by decide))
      (List.mem_cons_of_mem _ (List.mem_cons_self _ _))
  ⟨hr, C1_heap_tiling_invariant _ _ hr⟩

theorem kfree_map_of_find {s : MemState} {ptr : Nat} {pre post : List memory_block_t}
    {b : memory_block_t} (h0 : ptr ≠ 0)
    (hf : find_block_at s.memory_map (sub32 ptr BLOCK_HEADER) = some (pre, b, post))
    (ht : b.type = MEMORY_ALLOCATED) :
    (kfree s ptr).memory_map =
      merge_adjacent_blocks (pre ++ { b with type := MEMORY_FREE } :: post) := by
  simp [kfree, h0, hf, ht, update_memory_stats]

theorem kfree_kmalloc_map {s : MemState} (size : Nat) (h : HeapInv s.memory_map)
    (hok : (kmalloc s size).2 ≠ 0) :
    (kfree (kmalloc s size).1 (kmalloc s size).2).memory_map = s.memory_map := by
  obtain ⟨hT, hN⟩ := h
  rcases kmalloc_result size hT with ⟨_, e0⟩ | ⟨pre, b, post, sz, e, hfree, _, _, hle, _, hp, hm⟩
  · exact absurd e0 hok
  · have hH : BLOCK_HEADER = 20 := rfl
    have hS : KERNEL_HEAP_START + KERNEL_HEAP_SIZE = 0x300000 := rfl
    have hb := (Tiles_mem hT) b (by rw [e]; simp)
    rw [e] at hT hN
    obtain ⟨a', k1, _, k3, _⟩ := Tiles_append hT
    have hpre : ∀ x ∈ pre, x.addr ≠ b.addr := by
      intro x hx
      have := k3 x hx
      have := k1.1
      omega
    have hsub : sub32 (kmalloc s size).2 BLOCK_HEADER = b.addr := by
      rw [hp, sub32_of_le (by omega) (by unfold WORD; omega)]
      omega
    have hN1 := List.chain'_split.1 hN
    have hbeq : ({ b with type := MEMORY_FREE } : memory_block_t) = b := by
      cases b; simp at hfree; simp [hfree]
    rcases hm with ⟨em, _⟩ | ⟨em, hlt⟩
    · have hf : find_block_at (kmalloc s size).1.memory_map
          (sub32 (kmalloc s size).2 BLOCK_HEADER) =
          some (pre, { b with type := MEMORY_ALLOCATED }, post) := by
        rw [em, hsub]
        exact find_block_at_append (b := { b with type := MEMORY_ALLOCATED }) hpre
      rw [kfree_map_of_find hok hf rfl, e]
      show merge_adjacent_blocks (pre ++ { b with type := MEMORY_FREE } :: post) = _
      rw [hbeq]
      exact merge_adjacent_blocks_id hN
    · have hf : find_block_at (kmalloc s size).1.memory_map
          (sub32 (kmalloc s size).2 BLOCK_HEADER) =
          some (pre, { b with size := sz, type := MEMORY_ALLOCATED },
            { addr := b.start_addr + sz, start_addr := b.start_addr + sz + BLOCK_HEADER,
              size := b.size - sz - BLOCK_HEADER, type := MEMORY_FREE } :: post) := by
        rw [em, hsub]
        exact find_block_at_append (b := { b with size := sz, type := MEMORY_ALLOCATED }) hpre
      rw [kfree_map_of_find hok hf rfl, e]
      show merge_adjacent_blocks (pre ++ { b with size := sz, type := MEMORY_FREE } :: _) = _
      rw [merge_adjacent_blocks_append
        (NoAdjFree_append_singleton (x := b) hN1.1 (fun _ => hfree))]
      refine congrArg (fun t => pre ++ t) ?_
      have hadj : add32 (add32 b.start_addr sz) BLOCK_HEADER =
          b.start_addr + sz + BLOCK_HEADER := by
        unfold add32 WORD; omega
      have hsz : add32 sz (add32 (b.size - sz - BLOCK_HEADER) BLOCK_HEADER) = b.size := by
        unfold add32 WORD; omega
      conv => lhs; unfold merge_from
      simp only [hadj, hsz, and_self, if_true]
      show merge_from { b with type := MEMORY_FREE } post = b :: post
      rw [hbeq]
      exact merge_from_id hN1.2

/-- C2: for every reachable heap state and every size for which `kmalloc`
succeeds, `kfree` of the returned address immediately afterwards gives a heap
whose total free bytes (the sum of the sizes of the free blocks) equal the
total before the `kmalloc`. -/
theorem C2_heap_idempotence (s : MemState) (issued : List Nat) (size : Nat)
    (h : HeapReach s issued) (hok : (kmalloc s size).2 ≠ 0) :
    total_free (kfree (kmalloc s size).1 (kmalloc s size).2).memory_map =
      total_free s.memory_map := by
  rw [kfree_kmalloc_map size (HeapReach_inv h) hok]

/-- C2, instance: `kmalloc(100)` and `kfree` on the heap left by an earlier
`kmalloc(16)`. -/
theorem C2_heap_idempotence_witness :
    HeapReach (kmalloc (heap_init MemState.zero) 16).1
        [(kmalloc (heap_init MemState.zero) 16).2] ∧
      (kmalloc (kmalloc (heap_init MemState.zero) 16).1 100).2 ≠ 0 ∧
      total_free
          (kfree (kmalloc (kmalloc (heap_init MemState.zero) 16).1 100).1
            (kmalloc (kmalloc (heap_init MemState.zero) 16).1 100).2).memory_map =
        total_free (kmalloc (heap_init MemState.zero) 16).1.memory_map :=
  have hr : HeapReach (kmalloc (heap_init MemState.zero) 16).1
        [(kmalloc (heap_init MemState.zero) 16).2] :=
    HeapReach.malloc 16 (HeapReach.init MemState.zero) (by decide)
  ⟨hr, by decide, C2_heap_idempotence _ _ 100 hr (by decide)⟩

/-! ## Frame allocator: auxiliary facts -/

theorem and_shift_eq_zero (w j : Nat) : w &&& (1 <<< j) = 0 ↔ w.testBit j = false := by
  rw [Nat.one_shiftLeft]
  constructor
  · intro h
    have := congrArg (fun x => x.testBit j) h
    simpa [Nat.testBit_two_pow_self] using this
  · intro h
    apply Nat.eq_of_testBit_eq
    intro i
    simp only [Nat.testBit_and, Nat.testBit_two_pow, Nat.zero_testBit]
    by_cases hji : j = i
    · subst hji; simp [h]
    · simp [hji]

theorem get_bitmap_bit_eq (s : MemState) (q : Nat) :
    get_bitmap_bit s q = (s.physical_page_bitmap (q / 32)).testBit (q % 32) := by
  unfold get_bitmap_bit
  cases hb : (s.physical_page_bitmap (q / 32)).testBit (q % 32) with
  | false => simp [(and_shift_eq_zero _ _).2 hb]
  | true =>
    have : s.physical_page_bitmap (q / 32) &&& (1 <<< (q % 32)) ≠ 0 := by
      intro h
      rw [and_shift_eq_zero] at h
      rw [h] at hb
      exact Bool.noConfusion hb
    simp [this]

theorem full_word_testBit {j : Nat} (hj : j < 32) : (0xFFFFFFFF : Nat).testBit j = true := by
  have e : (0xFFFFFFFF : Nat) = 2 ^ 32 - 1 := by norm_num
  rw [e, Nat.testBit_two_pow_sub_one]
  simp [hj]

theorem page_eq_iff (p q : Nat) : p = q ↔ p / 32 = q / 32 ∧ p % 32 = q % 32 := by
  constructor
  · rintro rfl; exact ⟨rfl, rfl⟩
  · rintro ⟨h1, h2⟩; omega

theorem get_set_true (s : MemState) (p q : Nat) :
    get_bitmap_bit (set_bitmap_bit s p true) q = (decide (p = q) || get_bitmap_bit s q) := by
  rw [get_bitmap_bit_eq, get_bitmap_bit_eq]
  simp only [set_bitmap_bit, if_true]
  by_cases hi : q / 32 = p / 32
  · rw [hi, Function.update_same, Nat.testBit_or, Nat.one_shiftLeft, Nat.testBit_two_pow]
    by_cases hb : p % 32 = q % 32
    · have : p = q := (page_eq_iff p q).2 ⟨hi.symm, hb⟩
      simp [hb, this]
    · have : p ≠ q := fun h => hb (by rw [h])
      simp [hb, this, Bool.or_comm]
  · rw [Function.update_noteq hi]
    have : p ≠ q := fun h => hi (by rw [h])
    simp [this]

theorem get_set_false (s : MemState) (p q : Nat) :
    get_bitmap_bit (set_bitmap_bit s p false) q =
      (!decide (p = q) && get_bitmap_bit s q) := by
  rw [get_bitmap_bit_eq, get_bitmap_bit_eq]
  simp only [set_bitmap_bit, Bool.false_eq_true, if_false]
  by_cases hi : q / 32 = p / 32
  · rw [hi, Function.update_same, Nat.testBit_and, Nat.testBit_xor, Nat.one_shiftLeft,
      Nat.testBit_two_pow, full_word_testBit (Nat.mod_lt _ (by norm_num))]
    by_cases hb : p % 32 = q % 32
    · have : p = q := (page_eq_iff p q).2 ⟨hi.symm, hb⟩
      simp [hb, this]
    · have : p ≠ q := fun h => hb (by rw [h])
      simp [hb, this]
  · rw [Function.update_noteq hi]
    have : p ≠ q := fun h => hi (by rw [h])
    simp [this]

theorem scan_bits_some {w j n k : Nat} (h : scan_bits w j n = some k) :
    j ≤ k ∧ k < j + n ∧ w.testBit k = false ∧ ∀ i, j ≤ i → i < k → w.testBit i = true := by
  induction n generalizing j with
  | zero => simp [scan_bits] at h
  | succ n ih =>
    unfold scan_bits at h
    split at h
    · rename_i hz
      simp only [Option.some.injEq] at h
      subst h
      exact ⟨Nat.le_refl _, by omega, (and_shift_eq_zero _ _).1 hz, fun i h1 h2 => by omega⟩
    · rename_i hz
      obtain ⟨h1, h2, h3, h4⟩ := ih h
      refine ⟨by omega, by omega, h3, ?_⟩
      intro i hi1 hi2
      by_cases hij : i = j
      · subst hij
        cases hb : w.testBit i with
        | true => rfl
        | false => exact absurd ((and_shift_eq_zero _ _).2 hb) hz
      · exact h4 i (by omega) hi2

theorem scan_bits_none {w j n : Nat} (h : scan_bits w j n = none) :
    ∀ i, j ≤ i → i < j + n → w.testBit i = true := by
  induction n generalizing j with
  | zero => intro i h1 h2; omega
  | succ n ih =>
    unfold scan_bits at h
    split at h
    · simp at h
    · rename_i hz
      intro i hi1 hi2
      by_cases hij : i = j
      · subst hij
        cases hb : w.testBit i with
        | true => rfl
        | false => exact absurd ((and_shift_eq_zero _ _).2 hb) hz
      · exact ih h i (by omega) (by omega)

theorem scan_words_spec (bm : Nat → Nat) (i n : Nat) :
    (scan_words bm i n = 0 ∧
        ∀ k, i ≤ k → k < i + n → ∀ j, j < 32 → (bm k).testBit j = true) ∨
    ∃ k j, scan_words bm i n = k * 32 + j ∧ i ≤ k ∧ k < i + n ∧ j < 32 ∧
      (bm k).testBit j = false ∧ (∀ j', j' < j → (bm k).testBit j' = true) ∧
      ∀ k', i ≤ k' → k' < k → ∀ j', j' < 32 → (bm k').testBit j' = true := by
  induction n generalizing i with
  | zero => left; exact ⟨rfl, fun k h1 h2 => by omega⟩
  | succ n ih =>
    have skip : (∀ j, j < 32 → (bm i).testBit j = true) →
        ((scan_words bm (i + 1) n = 0 ∧
            ∀ k, i ≤ k → k < i + (n + 1) → ∀ j, j < 32 → (bm k).testBit j = true) ∨
          ∃ k j, scan_words bm (i + 1) n = k * 32 + j ∧ i ≤ k ∧ k < i + (n + 1) ∧ j < 32 ∧
            (bm k).testBit j = false ∧ (∀ j', j' < j → (bm k).testBit j' = true) ∧
            ∀ k', i ≤ k' → k' < k → ∀ j', j' < 32 → (bm k').testBit j' = true) := by
      intro hfull
      rcases ih (i + 1) with ⟨h0, hall⟩ | ⟨k, j, e, h1, h2, h3, h4, h5, h6⟩
      · left
        refine ⟨h0, ?_⟩
        intro k hk1 hk2 j hj
        by_cases hki : k = i
        · subst hki; exact hfull j hj
        · exact hall k (by omega) (by omega) j hj
      · right
        refine ⟨k, j, e, by omega, by omega, h3, h4, h5, ?_⟩
        intro k' hk1 hk2 j' hj'
        by_cases hki : k' = i
        · subst hki; exact hfull j' hj'
        · exact h6 k' (by omega) hk2 j' hj'
    unfold scan_words
    split
    · split
      · rename_i j hs
        obtain ⟨_, h2, h3, h4⟩ := scan_bits_some hs
        right
        exact ⟨i, j, rfl, Nat.le_refl _, by omega, by omega, h3,
          fun j' hj' => h4 j' (Nat.zero_le _) hj', fun k' h1 h2 => by omega⟩
      · rename_i hs
        exact skip (fun j hj => scan_bits_none hs j (Nat.zero_le _) (by omega))
    · rename_i hw
      have hw' : bm i = 0xFFFFFFFF := by
        by_contra hne; exact hw hne
      exact skip (fun j hj => by rw [hw']; exact full_word_testBit hj)

theorem find_free_physical_page_spec (s : MemState) :
    (find_free_physical_page s = 0 ∧
        ∀ q, q < s.bitmap_size * 32 → get_bitmap_bit s q = true) ∨
    (FrameFree s (find_free_physical_page s) ∧
        ∀ q, q < find_free_physical_page s → get_bitmap_bit s q = true) := by
  unfold find_free_physical_page
  rcases scan_words_spec s.physical_page_bitmap 0 s.bitmap_size with
    ⟨h0, hall⟩ | ⟨k, j, e, _, h2, h3, h4, h5, h6⟩
  · left
    refine ⟨h0, ?_⟩
    intro q hq
    rw [get_bitmap_bit_eq]
    exact hall (q / 32) (Nat.zero_le _) (by omega) (q % 32) (Nat.mod_lt _ (by norm_num))
  · right
    rw [e]
    have hd : (k * 32 + j) / 32 = k := by omega
    have hm : (k * 32 + j) % 32 = j := by omega
    refine ⟨⟨by omega, ?_⟩, ?_⟩
    · rw [get_bitmap_bit_eq, hd, hm]; exact h4
    · intro q hq
      rw [get_bitmap_bit_eq]
      by_cases hk : q / 32 = k
      · rw [hk]; exact h5 (q % 32) (by omega)
      · exact h6 (q / 32) (Nat.zero_le _) (by omega) (q % 32) (Nat.mod_lt _ (by norm_num))

theorem alloc_fail {s : MemState} (h : find_free_physical_page s = 0) :
    alloc_physical_page s = (s, 0) := by
  simp [alloc_physical_page, h]

theorem alloc_get (s : MemState) (q : Nat) :
    get_bitmap_bit (alloc_physical_page s).1 q =
      (decide (find_free_physical_page s ≠ 0 ∧ find_free_physical_page s = q) ||
        get_bitmap_bit s q) := by
  by_cases h : find_free_physical_page s = 0
  · simp [alloc_fail h, h]
  · have e : get_bitmap_bit (alloc_physical_page s).1 q =
        get_bitmap_bit (set_bitmap_bit s (find_free_physical_page s) true) q := by
      simp [alloc_physical_page, h, get_bitmap_bit, update_memory_stats]
    rw [e, get_set_true]
    simp [h]

theorem alloc_bitmap_size (s : MemState) :
    (alloc_physical_page s).1.bitmap_size = s.bitmap_size := by
  by_cases h : find_free_physical_page s = 0
  · simp [alloc_fail h]
  · simp only [alloc_physical_page, ne_eq, h, not_false_eq_true, if_true, update_memory_stats,
      set_bitmap_bit]

theorem find_free_lt {s : MemState} (h : find_free_physical_page s ≠ 0) :
    find_free_physical_page s < s.bitmap_size * 32 := by
  rcases find_free_physical_page_spec s with ⟨h0, _⟩ | ⟨hf, _⟩
  · exact absurd h0 h
  · exact hf.1

theorem alloc_addr {s : MemState} (hs : s.bitmap_size = BITMAP_WORDS) :
    (alloc_physical_page s).2 = find_free_physical_page s * PAGE_SIZE := by
  by_cases h : find_free_physical_page s = 0
  · simp [alloc_fail h, h]
  · have hlt := find_free_lt h
    rw [hs] at hlt
    have hB : BITMAP_WORDS = 2048 := by decide
    have : (alloc_physical_page s).2 = (find_free_physical_page s * PAGE_SIZE) % WORD := by
      simp [alloc_physical_page, h]
    rw [this]
    apply Nat.mod_eq_of_lt
    unfold PAGE_SIZE WORD
    omega

theorem free_get (s : MemState) (page q : Nat) :
    get_bitmap_bit (free_physical_page s page) q =
      (!decide (page / PAGE_SIZE < (s.bitmap_size * 32) % WORD ∧ page / PAGE_SIZE = q) &&
        get_bitmap_bit s q) := by
  by_cases h : page / PAGE_SIZE < (s.bitmap_size * 32) % WORD
  · have e : get_bitmap_bit (free_physical_page s page) q =
        get_bitmap_bit (set_bitmap_bit s (page / PAGE_SIZE) false) q := by
      simp [free_physical_page, h, get_bitmap_bit, update_memory_stats]
    rw [e, get_set_false]
    simp [h]
  · simp [free_physical_page, h]

theorem free_bitmap_size (s : MemState) (page : Nat) :
    (free_physical_page s page).bitmap_size = s.bitmap_size := by
  unfold free_physical_page
  by_cases h : page / PAGE_SIZE < (s.bitmap_size * 32) % WORD
  · simp only [h, if_true, update_memory_stats, set_bitmap_bit, Bool.false_eq_true, if_false]
  · simp [h]

theorem frame_run_bitmap_size (s : MemState) (ops : List FrameOp) :
    (frame_run s ops).bitmap_size = s.bitmap_size := by
  induction ops generalizing s with
  | nil => rfl
  | cons op rest ih =>
    unfold frame_run
    rw [ih]
    cases op with
    | alloc => exact alloc_bitmap_size s
    | free page => exact free_bitmap_size s page

theorem frame_run_stays_allocated {s : MemState} {a : Nat} {ops : List FrameOp}
    (h : is_page_allocated s a = true) (ho : FreesOtherFrames a ops) :
    is_page_allocated (frame_run s ops) a = true := by
  induction ops generalizing s with
  | nil => exact h
  | cons op rest ih =>
    unfold frame_run
    apply ih _ (fun p hp => ho p (List.mem_cons_of_mem _ hp))
    cases op with
    | alloc =>
      unfold is_page_allocated frame_step at *
      rw [alloc_get, h, Bool.or_true]
    | free page =>
      have hne := ho page (List.mem_cons_self _ _)
      unfold is_page_allocated frame_step at *
      rw [free_get, h]
      simp [hne]

theorem frame_run_stays_free {s : MemState} {a : Nat} {ops : List FrameOp}
    (hs : s.bitmap_size = BITMAP_WORDS) (ha : a % PAGE_SIZE = 0)
    (h : is_page_allocated s a = false) (ho : NoAllocReturns a s ops) :
    is_page_allocated (frame_run s ops) a = false := by
  induction ops generalizing s with
  | nil => exact h
  | cons op rest ih =>
    unfold frame_run
    cases op with
    | alloc =>
      obtain ⟨h1, h2⟩ := ho
      apply ih (by rw [← hs]; exact alloc_bitmap_size s) _ h2
      unfold is_page_allocated at *
      show get_bitmap_bit (alloc_physical_page s).1 (a / PAGE_SIZE) = false
      rw [alloc_get, h, Bool.or_false]
      rw [alloc_addr hs] at h1
      have : find_free_physical_page s ≠ a / PAGE_SIZE := by
        intro e
        apply h1
        rw [e]
        unfold PAGE_SIZE at *
        omega
      simp [this]
    | free page =>
      apply ih (by rw [← hs]; exact free_bitmap_size s page) _ ho
      unfold is_page_allocated at *
      show get_bitmap_bit (free_physical_page s page) (a / PAGE_SIZE) = false
      rw [free_get, h, Bool.and_false]

/-- C7: for every allocator state (the bitmap having the size set at
initialisation), when `alloc_physical_page` returns a non-zero address `a`,
the frame of `a` is reported allocated, and stays so across any further allocations and
any frees of other frames; right after `free_physical_page(a)`, in whatever
later state, the frame is reported free, and stays so across any calls among
which no allocation returns `a`. -/
theorem C7_bitmap_soundness (s : MemState) (hs : s.bitmap_size = BITMAP_WORDS)
    (ha : (alloc_physical_page s).2 ≠ 0) :
    is_page_allocated (alloc_physical_page s).1 (alloc_physical_page s).2 = true ∧
    (∀ ops, FreesOtherFrames (alloc_physical_page s).2 ops →
      is_page_allocated (frame_run (alloc_physical_page s).1 ops)
        (alloc_physical_page s).2 = true) ∧
    (∀ ops1,
      is_page_allocated
          (free_physical_page (frame_run (alloc_physical_page s).1 ops1)
            (alloc_physical_page s).2)
          (alloc_physical_page s).2 = false ∧
      ∀ ops2,
        NoAllocReturns (alloc_physical_page s).2
          (free_physical_page (frame_run (alloc_physical_page s).1 ops1)
            (alloc_physical_page s).2) ops2 →
        is_page_allocated
          (frame_run
            (free_physical_page (frame_run (alloc_physical_page s).1 ops1)
              (alloc_physical_page s).2) ops2)
          (alloc_physical_page s).2 = false) := by
  have haddr := alloc_addr hs
  have hne : find_free_physical_page s ≠ 0 := by
    intro h0; apply ha; rw [haddr, h0]; rfl
  have hlt := find_free_lt hne
  have hB : BITMAP_WORDS = 2048 := by decide
  have hdiv : (alloc_physical_page s).2 / PAGE_SIZE = find_free_physical_page s := by
    rw [haddr]; unfold PAGE_SIZE; omega
  have hmod : (alloc_physical_page s).2 % PAGE_SIZE = 0 := by
    rw [haddr]; unfold PAGE_SIZE; omega
  have h1 : is_page_allocated (alloc_physical_page s).1 (alloc_physical_page s).2 = true := by
    unfold is_page_allocated
    rw [hdiv, alloc_get]
    simp [hne]
  refine ⟨h1, fun ops ho => frame_run_stays_allocated h1 ho, ?_⟩
  intro ops1
  have hsz : (frame_run (alloc_physical_page s).1 ops1).bitmap_size = BITMAP_WORDS := by
    rw [frame_run_bitmap_size, alloc_bitmap_size, hs]
  have h2 : is_page_allocated
      (free_physical_page (frame_run (alloc_physical_page s).1 ops1)
        (alloc_physical_page s).2) (alloc_physical_page s).2 = false := by
    unfold is_page_allocated
    rw [free_get, hsz, hdiv]
    have : find_free_physical_page s < (BITMAP_WORDS * 32) % WORD := by
      rw [hs] at hlt
      rw [hB] at hlt ⊢
      unfold WORD
      omega
    simp [this]
  refine ⟨h2, fun ops2 ho => frame_run_stays_free ?_ hmod h2 ho⟩
  rw [free_bitmap_size, hsz]

theorem mark_used_bitmap_size (n : Nat) (s : MemState) :
    (mark_used n s).bitmap_size = s.bitmap_size := by
  induction n with
  | zero => rfl
  | succ n ih =>
    show (set_bitmap_bit (mark_used n s) n true).bitmap_size = s.bitmap_size
    rw [← ih]
    simp only [set_bitmap_bit, if_true]

theorem mark_used_get (n : Nat) (s : MemState) (q : Nat) :
    get_bitmap_bit (mark_used n s) q = (decide (q < n) || get_bitmap_bit s q) := by
  induction n with
  | zero => simp [mark_used]
  | succ n ih =>
    show get_bitmap_bit (set_bitmap_bit (mark_used n s) n true) q = _
    rw [get_set_true, ih]
    by_cases h1 : n = q
    · have : q < n + 1 := by omega
      simp [h1]
    · by_cases h2 : q < n
      · have : q < n + 1 := by omega
        simp [h1, h2, this]
      · have : ¬ q < n + 1 := by omega
        simp [h1, h2, this]

theorem mark_used_stats (n : Nat) (s : MemState) :
    (mark_used n s).memory_stats = s.memory_stats := by
  induction n with
  | zero => rfl
  | succ n ih =>
    show (set_bitmap_bit (mark_used n s) n true).memory_stats = s.memory_stats
    rw [← ih]
    simp only [set_bitmap_bit, if_true]

theorem heap_init_bitmap_size (s : MemState) : (heap_init s).bitmap_size = s.bitmap_size :=
  rfl

theorem heap_init_get (s : MemState) (q : Nat) :
    get_bitmap_bit (heap_init s) q = get_bitmap_bit s q := rfl

theorem heap_init_stats (s : MemState) : (heap_init s).memory_stats = s.memory_stats := rfl

theorem memory_init_bitmap_size (s0 : MemState) :
    (memory_init s0).bitmap_size = BITMAP_WORDS := by
  unfold memory_init
  rw [heap_init_bitmap_size]
  unfold init_physical_page_bitmap
  rw [mark_used_bitmap_size]

theorem memory_init_get (s0 : MemState) (q : Nat) (hq : q < BITMAP_WORDS * 32) :
    get_bitmap_bit (memory_init s0) q = decide (q < USED_PAGES) := by
  unfold memory_init
  rw [heap_init_get]
  unfold init_physical_page_bitmap
  rw [mark_used_get]
  have hw : q / 32 < BITMAP_WORDS := by omega
  simp [get_bitmap_bit, hw]

theorem memory_init_stats (s0 : MemState) :
    (memory_init s0).memory_stats =
      { total_memory := 0x10000000
        free_memory := 0x10000000
        used_memory := 0
        kernel_memory := 0
        user_memory := 0
        page_faults := 0
        page_allocations := 0
        page_deallocations := 0 } := by
  unfold memory_init
  rw [heap_init_stats]
  unfold init_physical_page_bitmap
  rw [mark_used_stats]

theorem alloc_stats (s : MemState) (h : find_free_physical_page s ≠ 0) :
    (alloc_physical_page s).1.memory_stats.page_allocations =
        add32 s.memory_stats.page_allocations 1 ∧
      (alloc_physical_page s).1.memory_stats.page_deallocations =
        s.memory_stats.page_deallocations := by
  simp [alloc_physical_page, h, update_memory_stats, set_bitmap_bit]

theorem alloc_frame0_free {s : MemState} (h : get_bitmap_bit s 0 = false) :
    alloc_physical_page s = (s, 0) := by
  apply alloc_fail
  rcases find_free_physical_page_spec s with ⟨h0, _⟩ | ⟨_, hall⟩
  · exact h0
  · by_contra hne
    have := hall 0 (Nat.pos_of_ne_zero hne)
    rw [h] at this
    exact Bool.noConfusion this

theorem free_frame0_then_alloc (s : MemState) (hsz : s.bitmap_size = BITMAP_WORDS) :
    FrameFree (free_physical_page s 0) 0 ∧
    (alloc_physical_page (free_physical_page s 0)).2 = 0 ∧
    get_bitmap_bit (alloc_physical_page (free_physical_page s 0)).1 0 = false ∧
    (alloc_physical_page (free_physical_page s 0)).1.memory_stats.page_allocations =
      (free_physical_page s 0).memory_stats.page_allocations := by
  have h0 : get_bitmap_bit (free_physical_page s 0) 0 = false := by
    rw [free_get, hsz]
    have : (0 : Nat) / PAGE_SIZE < (BITMAP_WORDS * 32) % WORD ∧ (0 : Nat) / PAGE_SIZE = 0 := by
      decide
    rw [decide_eq_true this]
    simp only [Bool.not_true, Bool.false_and]
  have hal := alloc_frame0_free h0
  refine ⟨⟨?_, h0⟩, ?_, ?_, ?_⟩
  · rw [free_bitmap_size, hsz]; decide
  · rw [hal]
  · rw [hal]; exact h0
  · rw [hal]

/-- C8, counterexample: after `memory_init` and `free_physical_page(0)` frame 0
is the free frame of lowest index, yet `alloc_physical_page` returns 0 without
setting its bit and without counting an allocation. -/
theorem C8_counterexample_frame0 :
    FrameFree (free_physical_page (memory_init MemState.zero) 0) 0 ∧
    (alloc_physical_page (free_physical_page (memory_init MemState.zero) 0)).2 = 0 ∧
    get_bitmap_bit
      (alloc_physical_page (free_physical_page (memory_init MemState.zero) 0)).1 0 = false ∧
    (alloc_physical_page
        (free_physical_page (memory_init MemState.zero) 0)).1.memory_stats.page_allocations =
      (free_physical_page (memory_init MemState.zero) 0).memory_stats.page_allocations :=
  free_frame0_then_alloc (memory_init MemState.zero) (memory_init_bitmap_size _)

/-- C8, amended: in every bitmap state (of the size set at initialisation) in
which frame 0 is used, if some frame is free then `alloc_physical_page` returns the address `index * 4096` of the
free frame of lowest index, sets that frame's bit, leaves every other bit
unchanged and increments the page-allocation counter by one (as a 32-bit
counter), the deallocation counter being unchanged; if no frame is free it
returns 0 and leaves the state unchanged. -/
theorem C8_lowest_index_first (s : MemState) (hs : s.bitmap_size = BITMAP_WORDS)
    (h0 : get_bitmap_bit s 0 = true) :
    ((∃ p, FrameFree s p) →
      ∃ p, FrameFree s p ∧ (∀ q, FrameFree s q → p ≤ q) ∧
        (alloc_physical_page s).2 = p * PAGE_SIZE ∧
        get_bitmap_bit (alloc_physical_page s).1 p = true ∧
        (∀ q, q ≠ p →
          get_bitmap_bit (alloc_physical_page s).1 q = get_bitmap_bit s q) ∧
        (alloc_physical_page s).1.memory_stats.page_allocations =
          add32 s.memory_stats.page_allocations 1 ∧
        (alloc_physical_page s).1.memory_stats.page_deallocations =
          s.memory_stats.page_deallocations) ∧
    ((∀ p, ¬ FrameFree s p) → alloc_physical_page s = (s, 0)) := by
  constructor
  · rintro ⟨p0, hp0, hp0'⟩
    rcases find_free_physical_page_spec s with ⟨_, hall⟩ | ⟨hf, hall⟩
    · have := hall p0 hp0
      rw [hp0'] at this
      exact Bool.noConfusion this
    · have hne : find_free_physical_page s ≠ 0 := by
        intro e
        have := hf.2
        rw [e, h0] at this
        exact Bool.noConfusion this
      refine ⟨find_free_physical_page s, hf, ?_, alloc_addr hs, ?_, ?_, alloc_stats s hne⟩
      · intro q hq
        by_contra hlt
        have := hall q (by omega)
        rw [hq.2] at this
        exact Bool.noConfusion this
      · rw [alloc_get]; simp [hne]
      · intro q hq
        rw [alloc_get]
        have : ¬ (find_free_physical_page s ≠ 0 ∧ find_free_physical_page s = q) :=
          fun h => hq h.2.symm
        simp [this]
  · intro hnone
    apply alloc_fail
    rcases find_free_physical_page_spec s with ⟨h, _⟩ | ⟨hf, _⟩
    · exact h
    · exact absurd hf (hnone _)

theorem memory_init_usedBelow (s0 : MemState) : UsedBelow (memory_init s0) USED_PAGES :=
  ⟨memory_init_bitmap_size s0, fun q hq => memory_init_get s0 q hq⟩

theorem usedBelow_find {s : MemState} {m : Nat} (h : UsedBelow s m) :
    find_free_physical_page s = if m < BITMAP_WORDS * 32 then m else 0 := by
  obtain ⟨hsz, hbits⟩ := h
  rcases find_free_physical_page_spec s with ⟨h0, hall⟩ | ⟨hf, hall⟩
  · rw [h0]
    split
    · rename_i hlt
      have := hall m (by rw [hsz]; exact hlt)
      rw [hbits m hlt] at this
      simp at this
    · rfl
  · have hp := hf.1
    rw [hsz] at hp
    have hpm : ¬ find_free_physical_page s < m := by
      intro hlt
      have := hf.2
      rw [hbits _ hp] at this
      simp at this
      omega
    have hmp : ¬ m < find_free_physical_page s := by
      intro hlt
      have := hall m hlt
      rw [hbits m (by omega)] at this
      simp at this
    have : m < BITMAP_WORDS * 32 := by omega
    rw [if_pos this]
    omega

theorem usedBelow_alloc {s : MemState} {m : Nat} (h : UsedBelow s m) (hm : 0 < m)
    (hlt : m < BITMAP_WORDS * 32) :
    (alloc_physical_page s).2 = m * PAGE_SIZE ∧ UsedBelow (alloc_physical_page s).1 (m + 1) := by
  have hf := usedBelow_find h
  rw [if_pos hlt] at hf
  refine ⟨by rw [alloc_addr h.1, hf], ?_, ?_⟩
  · rw [alloc_bitmap_size]; exact h.1
  · intro q hq
    rw [alloc_get, hf, h.2 q hq]
    by_cases h1 : m = q
    · have : q < m + 1 := by omega
      simp [h1]
      omega
    · by_cases h2 : q < m
      · have : q < m + 1 := by omega
        simp [h1, h2, this]
      · have : ¬ q < m + 1 := by omega
        simp [h1, h2, this]

theorem usedBelow_alloc_full {s : MemState} {m : Nat} (h : UsedBelow s m)
    (hge : BITMAP_WORDS * 32 ≤ m) : alloc_physical_page s = (s, 0) := by
  apply alloc_fail
  rw [usedBelow_find h, if_neg (by omega)]

theorem alloc_pages_usedBelow (n : Nat) {s : MemState} {m : Nat} (h : UsedBelow s m)
    (hm : 0 < m) (hm2 : m ≤ BITMAP_WORDS * 32) :
    (m + n ≤ BITMAP_WORDS * 32 →
      (alloc_pages n s).2 = List.map (fun k => (m + k) * PAGE_SIZE) (List.range n)) ∧
    (BITMAP_WORDS * 32 < m + n → 0 ∈ (alloc_pages n s).2) := by
  induction n generalizing s m with
  | zero =>
    refine ⟨fun _ => rfl, fun hlt => ?_⟩
    omega
  | succ n ih =>
    by_cases hlt : m < BITMAP_WORDS * 32
    · obtain ⟨ha, hU⟩ := usedBelow_alloc h hm hlt
      obtain ⟨ih1, ih2⟩ := ih hU (Nat.succ_pos m) (by omega)
      constructor
      · intro hb
        show (alloc_physical_page s).2 :: (alloc_pages n (alloc_physical_page s).1).2 = _
        rw [ha, ih1 (by omega), List.range_succ_eq_map, List.map_cons, List.map_map]
        refine congrArg₂ List.cons rfl (List.map_congr_left ?_)
        intro k _
        show (m + 1 + k) * PAGE_SIZE = (m + (k + 1)) * PAGE_SIZE
        rw [Nat.add_assoc, Nat.add_comm 1 k]
      · intro hb
        show 0 ∈ (alloc_physical_page s).2 :: (alloc_pages n (alloc_physical_page s).1).2
        exact List.mem_cons_of_mem _ (ih2 (by omega))
    · constructor
      · intro hb; omega
      · intro _
        show 0 ∈ (alloc_physical_page s).2 :: (alloc_pages n (alloc_physical_page s).1).2
        rw [usedBelow_alloc_full h (by omega)]
        exact List.mem_cons_self _ _

theorem alloc_pages_init (s0 : MemState) (n : Nat)
    (h : ∀ a ∈ (alloc_pages n (memory_init s0)).2, a ≠ 0) :
    (alloc_pages n (memory_init s0)).2 =
      List.map (fun k => (USED_PAGES + k) * PAGE_SIZE) (List.range n) := by
  have hU := alloc_pages_usedBelow n (memory_init_usedBelow s0) (by decide : 0 < USED_PAGES)
    (by decide)
  by_cases hb : USED_PAGES + n ≤ BITMAP_WORDS * 32
  · exact hU.1 hb
  · exact absurd rfl (h 0 (hU.2 (by omega)))

theorem alloc_pages_init_succeed (s0 : MemState) (n : Nat)
    (hn : USED_PAGES + n ≤ BITMAP_WORDS * 32) :
    ∀ a ∈ (alloc_pages n (memory_init s0)).2, a ≠ 0 := by
  rw [(alloc_pages_usedBelow n (memory_init_usedBelow s0) (by decide : 0 < USED_PAGES)
    (by decide)).1 hn]
  intro a ha
  obtain ⟨k, _, rfl⟩ := List.mem_map.1 ha
  have : 0 < USED_PAGES := by decide
  have : 0 < PAGE_SIZE := by decide
  exact Nat.ne_of_gt (Nat.mul_pos (by omega) this)

/-- C7, instance: the first allocation after `memory_init`, which returns
frame 1536. -/
theorem C7_bitmap_soundness_witness :
    (memory_init MemState.zero).bitmap_size = BITMAP_WORDS ∧
    (alloc_physical_page (memory_init MemState.zero)).2 ≠ 0 ∧
    is_page_allocated (alloc_physical_page (memory_init MemState.zero)).1
      (alloc_physical_page (memory_init MemState.zero)).2 = true :=
  have ha : (alloc_physical_page (memory_init MemState.zero)).2 ≠ 0 :=
    alloc_pages_init_succeed MemState.zero 1 (by decide) _ (List.mem_cons_self _ _)
  ⟨memory_init_bitmap_size MemState.zero, ha,
    (C7_bitmap_soundness (memory_init MemState.zero)
      (memory_init_bitmap_size MemState.zero) ha).1⟩

/-- C8, instance: the state after `memory_init`, in which frame 0 is used and
frame 1536 is free. -/
theorem C8_lowest_index_first_witness :
    (memory_init MemState.zero).bitmap_size = BITMAP_WORDS ∧
    get_bitmap_bit (memory_init MemState.zero) 0 = true ∧
    ∃ p, FrameFree (memory_init MemState.zero) p ∧
      (alloc_physical_page (memory_init MemState.zero)).2 = p * PAGE_SIZE ∧
      get_bitmap_bit (alloc_physical_page (memory_init MemState.zero)).1 p = true :=
  have hsz : (memory_init MemState.zero).bitmap_size = BITMAP_WORDS :=
    memory_init_bitmap_size MemState.zero
  have h0 : get_bitmap_bit (memory_init MemState.zero) 0 = true :=
    (memory_init_get MemState.zero 0 (by decide)).trans (by decide)
  have hfree : FrameFree (memory_init MemState.zero) 1536 :=
    ⟨by rw [hsz]; decide, (memory_init_get MemState.zero 1536 (by decide)).trans (by decide)⟩
  match (C8_lowest_index_first (memory_init MemState.zero) hsz h0).1 ⟨1536, hfree⟩ with
  | ⟨p, hp, _, ha, hb, _⟩ => ⟨hsz, h0, p, hp, ha, hb⟩

/-- C9: whenever `N` consecutive `alloc_physical_page` calls on a freshly
initialised allocator all succeed, the `k`-th returned frame (counting from 0)
is frame `USED_PAGES + k`, the `k`-th frame above the region reserved at boot,
so the returned frame indices are strictly increasing. -/
theorem C9_lowest_index_allocation_order (s0 : MemState) (N : Nat)
    (h : ∀ a ∈ (alloc_pages N (memory_init s0)).2, a ≠ 0) :
    (alloc_pages N (memory_init s0)).2.map (fun a => a / PAGE_SIZE) =
        List.map (fun k => USED_PAGES + k) (List.range N) ∧
      List.Pairwise (fun i j => i < j)
        ((alloc_pages N (memory_init s0)).2.map (fun a => a / PAGE_SIZE)) := by
  have e : (alloc_pages N (memory_init s0)).2.map (fun a => a / PAGE_SIZE) =
      List.map (fun k => USED_PAGES + k) (List.range N) := by
    rw [alloc_pages_init s0 N h, List.map_map]
    refine List.map_congr_left ?_
    intro k _
    show (USED_PAGES + k) * PAGE_SIZE / PAGE_SIZE = USED_PAGES + k
    exact Nat.mul_div_cancel _ (by decide)
  refine ⟨e, ?_⟩
  rw [e, List.pairwise_map]
  exact List.Pairwise.imp (fun hab => by omega) (List.pairwise_lt_range N)

/-- C9, instance: three allocations after `memory_init` of the zeroed
globals. -/
theorem C9_lowest_index_allocation_order_witness :
    (∀ a ∈ (alloc_pages 3 (memory_init MemState.zero)).2, a ≠ 0) ∧
      (alloc_pages 3 (memory_init MemState.zero)).2.map (fun a => a / PAGE_SIZE) =
        List.map (fun k => USED_PAGES + k) (List.range 3) :=
  ⟨alloc_pages_init_succeed MemState.zero 3 (by decide),
    (C9_lowest_index_allocation_order MemState.zero 3
      (alloc_pages_init_succeed MemState.zero 3 (by decide))).1⟩

theorem free_stats {s : MemState} {page : Nat}
    (h : page / PAGE_SIZE < (s.bitmap_size * 32) % WORD) :
    (free_physical_page s page).memory_stats.page_deallocations =
        add32 s.memory_stats.page_deallocations 1 ∧
      (free_physical_page s page).memory_stats.page_allocations =
        s.memory_stats.page_allocations := by
  simp [free_physical_page, h, update_memory_stats, set_bitmap_bit]

theorem free_already_free (s : MemState) (hs : s.bitmap_size = BITMAP_WORDS) (page : Nat) :
    (is_page_allocated s page = false →
      (∀ q, get_bitmap_bit (free_physical_page s page) q = get_bitmap_bit s q) ∧
      (free_physical_page s page).memory_stats.page_allocations =
        s.memory_stats.page_allocations ∧
      (page / PAGE_SIZE < BITMAP_WORDS * 32 →
        (free_physical_page s page).memory_stats.page_deallocations =
          add32 s.memory_stats.page_deallocations 1)) ∧
    (BITMAP_WORDS * 32 ≤ page / PAGE_SIZE → free_physical_page s page = s) := by
  have hB : (BITMAP_WORDS * 32) % WORD = BITMAP_WORDS * 32 := by decide
  constructor
  · intro hfree
    unfold is_page_allocated at hfree
    refine ⟨?_, ?_, ?_⟩
    · intro q
      rw [free_get]
      by_cases hq : page / PAGE_SIZE = q
      · rw [← hq, hfree, Bool.and_false]
      · have : ¬ (page / PAGE_SIZE < (s.bitmap_size * 32) % WORD ∧ page / PAGE_SIZE = q) :=
          fun h => hq h.2
        simp [this]
    · by_cases h : page / PAGE_SIZE < (s.bitmap_size * 32) % WORD
      · exact (free_stats h).2
      · simp [free_physical_page, h]
    · intro hlt
      exact (free_stats (by rw [hs, hB]; exact hlt)).1
  · intro hge
    have : ¬ page / PAGE_SIZE < (s.bitmap_size * 32) % WORD := by
      rw [hs, hB]; omega
    simp [free_physical_page, this]

/-- C10, counterexample: right after `memory_init` frame 1536 (address
0x600000) is free; `free_physical_page(0x600000)` nevertheless changes the
deallocation counter from 0 to 1. -/
theorem C10_counterexample_counter :
    is_page_allocated (memory_init MemState.zero) 0x600000 = false ∧
    (memory_init MemState.zero).memory_stats.page_deallocations = 0 ∧
    (free_physical_page (memory_init MemState.zero) 0x600000).memory_stats.page_deallocations
      = 1 := by
  have hget : is_page_allocated (memory_init MemState.zero) 0x600000 = false := by
    unfold is_page_allocated
    rw [memory_init_get _ _ (by decide)]
    decide
  have hst : (memory_init MemState.zero).memory_stats.page_deallocations = 0 := by
    rw [memory_init_stats]
  refine ⟨hget, hst, ?_⟩
  rw [((free_already_free _ (memory_init_bitmap_size MemState.zero) 0x600000).1 hget).2.2
    (by decide), hst]
  decide

/-- C10, amended: `free_physical_page` applied to a frame that is already free
leaves every bit of the bitmap and the allocation counter unchanged, while the
deallocation counter is still incremented (as a 32-bit counter) when the frame
index lies inside the bitmap; applied to an address whose frame index lies
beyond the bitmap range (index >= 65536) it leaves the whole allocator state
unchanged. -/
theorem C10_free_non_allocated (s : MemState) (hs : s.bitmap_size = BITMAP_WORDS)
    (page : Nat) :
    (is_page_allocated s page = false →
      (∀ q, get_bitmap_bit (free_physical_page s page) q = get_bitmap_bit s q) ∧
      (free_physical_page s page).memory_stats.page_allocations =
        s.memory_stats.page_allocations ∧
      (page / PAGE_SIZE < 65536 →
        (free_physical_page s page).memory_stats.page_deallocations =
          add32 s.memory_stats.page_deallocations 1)) ∧
    (65536 ≤ page / PAGE_SIZE → free_physical_page s page = s) :=
  free_already_free s hs page

/-- C10, instance: the frames of addresses 0x600000 (free after boot) and
0x10000000 (frame 65536, beyond the bitmap) in the state after `memory_init`. -/
theorem C10_free_non_allocated_witness :
    (memory_init MemState.zero).bitmap_size = BITMAP_WORDS ∧
    (65536 ≤ 0x10000000 / PAGE_SIZE →
      free_physical_page (memory_init MemState.zero) 0x10000000 = memory_init MemState.zero) :=
  ⟨memory_init_bitmap_size MemState.zero,
    (C10_free_non_allocated (memory_init MemState.zero)
      (memory_init_bitmap_size MemState.zero) 0x10000000).2⟩

/-! ## Heap: rounding of the requested size -/

theorem mask_testBit (i : Nat) :
    (0xFFFFFFFC : Nat).testBit i = (decide (2 ≤ i) && decide (i < 32)) := by
  have e : (0xFFFFFFFC : Nat) = 2 ^ 2 * (2 ^ 30 - 1) := by norm_num
  rw [e, Nat.testBit_mul_pow_two, Nat.testBit_two_pow_sub_one]
  by_cases h : 2 ≤ i
  · by_cases h2 : i < 32
    · have : i - 2 < 30 := by omega
      simp [h, h2, this]
    · have : ¬ i - 2 < 30 := by omega
      simp [h, h2, this]
  · simp [h]

theorem and_mask_eq (x : Nat) (hx : x < WORD) : x &&& 0xFFFFFFFC = x / 4 * 4 := by
  apply Nat.eq_of_testBit_eq
  intro i
  have e4 : x / 4 * 4 = 2 ^ 2 * (x / 4) := by omega
  rw [Nat.testBit_and, mask_testBit, e4, Nat.testBit_mul_pow_two]
  by_cases h : 2 ≤ i
  · have hs : (x / 4).testBit (i - 2) = x.testBit i := by
      have : x / 4 = x >>> 2 := by rw [Nat.shiftRight_eq_div_pow]
      rw [this, Nat.testBit_shiftRight]
      congr 1; omega
    by_cases h2 : i < 32
    · simp [h, h2, hs]
    · have : x.testBit i = false := by
        apply Nat.testBit_lt_two_pow
        calc x < 2 ^ 32 := hx
          _ ≤ 2 ^ i := Nat.pow_le_pow_right (by norm_num) (by omega)
      simp [h, h2, hs, this]
  · simp [h]

/-- The size after `(size + 3) & ~3`, for a request that does not wrap. -/
theorem rounded_size_eq {size : Nat} (h : size ≤ 0xFFFFFFFC) :
    (add32 size 3) &&& 0xFFFFFFFC = (size + 3) / 4 * 4 := by
  have e : add32 size 3 = size + 3 := add32_of_lt (by unfold WORD; omega)
  rw [e, and_mask_eq _ (by unfold WORD; omega)]

/-- For a request of at most 0xFFFFFFFC bytes, `kmalloc` returns `NULL` and
leaves the state unchanged when no free block has the requested size. -/
theorem kmalloc_no_fit (s : MemState) {size : Nat} (h : size ≤ 0xFFFFFFFC)
    (hno : ∀ b ∈ s.memory_map, ¬ (b.type = MEMORY_FREE ∧ size ≤ b.size)) :
    kmalloc s size = (s, 0) := by
  by_cases h0 : size = 0
  · simp [kmalloc, h0]
  · have hf : find_free_block s.memory_map ((add32 size 3) &&& 0xFFFFFFFC) = none := by
      apply find_free_block_eq_none
      intro x hx hc
      apply hno x hx
      refine ⟨hc.1, ?_⟩
      have := hc.2
      rw [rounded_size_eq h] at this
      omega
    simp [kmalloc, h0, hf]

/-- C3, failing input: on the freshly initialised heap no free block has
0xFFFFFFFD bytes, but `kmalloc(0xFFFFFFFD)` rounds the size to 0 in 32-bit
arithmetic, returns the non-null address 0x200014 and splits a zero-length
allocated block off the list. -/
theorem C3_kmalloc_rounding_wraps :
    (∀ b ∈ (heap_init MemState.zero).memory_map,
      ¬ (b.type = MEMORY_FREE ∧ 0xFFFFFFFD ≤ b.size)) ∧
    (kmalloc (heap_init MemState.zero) 0xFFFFFFFD).2 = 0x200014 ∧
    (kmalloc (heap_init MemState.zero) 0xFFFFFFFD).1.memory_map =
      [{ addr := 0x200000, start_addr := 0x200014, size := 0, type := MEMORY_ALLOCATED },
       { addr := 0x200014, start_addr := 0x200028, size := 0xFFFD8, type := MEMORY_FREE }] := by
  refine ⟨by decide, by decide, by decide⟩

/-! ## Process manager -/

/-- C4, failing input: boot, `process_create("a")` (PID 1, pool slot 1),
`process_terminate(1)`, `process_create("b")`.  The second create reuses slot 1
while the terminated queue still starts at it: afterwards the PCB of the live
PID 2, in state ready, is the head of the ready queue and of the terminated
queue at once. -/
theorem C4_reused_slot_in_two_queues :
    (process_create boot_state (some ['a']) 0x100000 PROCESS_PRIORITY_NORMAL
      DEFAULT_STACK_SIZE).2 = 1 ∧
    (process_terminate 64 one_process_state 1).map (fun r => r.2) = some PROCESS_SUCCESS ∧
    slot_reuse_result.map (fun r => r.2) = some 2 ∧
    slot_reuse_result.map
        (fun r => queue_slots r.1.process_pool 64 r.1.g_process_manager.ready_queue) =
      some (some [1]) ∧
    slot_reuse_result.map
        (fun r => queue_slots r.1.process_pool 64 r.1.g_process_manager.terminated_queue) =
      some (some [1]) ∧
    slot_reuse_result.map (fun r => r.1.g_process_manager.running_process) =
      some (some 0) ∧
    slot_reuse_result.map (fun r => ((r.1.process_pool 1).pid, (r.1.process_pool 1).state)) =
      some (2, PROCESS_STATE_READY) ∧
    slot_reuse_result.map (fun r => r.1.process_pool_used 1) = some true := by
  refine ⟨by decide, by decide, by decide, by decide, by decide, by decide, by decide,
    by decide⟩

/-- C5, failing input: boot and one `process_create`, so that the idle process
(PID 0) is running and PID 1 heads the ready queue; `process_terminate(0)`
returns Success and leaves the running slot empty, the ready process not being
dispatched. -/
theorem C5_terminate_running_leaves_no_process :
    one_process_state.g_process_manager.running_process = some 0 ∧
    (one_process_state.process_pool 0).pid = 0 ∧
    (process_terminate 64 one_process_state 0).map
        (fun r =>
          (r.2, r.1.g_process_manager.running_process,
            queue_slots r.1.process_pool 64 r.1.g_process_manager.ready_queue,
            (r.1.process_pool 1).state)) =
      some (PROCESS_SUCCESS, none, some [1], PROCESS_STATE_READY) := by
  refine ⟨by decide, by decide, by decide⟩

/-- C6, failing input: after boot with the whole heap allocated no free block
of 4096 bytes exists and the pool holds only the idle process; `process_create`
then returns the new PID 1 instead of NoMemory, queues a PCB whose
`stack_base` is `NULL` on the ready queue and raises `process_count` from 1 to
2. -/
theorem C6_create_ignores_stack_failure :
    (∀ b ∈ heap_exhausted_state.mem.memory_map,
      ¬ (b.type = MEMORY_FREE ∧ DEFAULT_STACK_SIZE ≤ b.size)) ∧
    heap_exhausted_state.g_process_manager.process_count = 1 ∧
    heap_exhausted_state.g_process_manager.ready_queue = none ∧
    (process_create heap_exhausted_state (some ['a']) 0x100000 PROCESS_PRIORITY_NORMAL
      DEFAULT_STACK_SIZE).2 = 1 ∧
    (process_create heap_exhausted_state (some ['a']) 0x100000 PROCESS_PRIORITY_NORMAL
      DEFAULT_STACK_SIZE).1.g_process_manager.ready_queue = some 1 ∧
    (process_create heap_exhausted_state (some ['a']) 0x100000 PROCESS_PRIORITY_NORMAL
      DEFAULT_STACK_SIZE).1.g_process_manager.process_count = 2 ∧
    ((process_create heap_exhausted_state (some ['a']) 0x100000 PROCESS_PRIORITY_NORMAL
      DEFAULT_STACK_SIZE).1.process_pool 1).stack_base = 0 := by
  refine ⟨by decide, by decide, by decide, by decide, by decide, by decide, by decide⟩

/-! ## Heap: first fit, split rule, coalescing -/

theorem kmalloc_of_find {s : MemState} {size : Nat} {pre post : List memory_block_t}
    {b : memory_block_t} (h0 : size ≠ 0)
    (hf : find_free_block s.memory_map ((add32 size 3) &&& 0xFFFFFFFC) = some (pre, b, post)) :
    (kmalloc s size).2 = b.start_addr ∧
    (kmalloc s size).1.memory_map =
      pre ++
        { (if add32 ((add32 size 3) &&& 0xFFFFFFFC) BLOCK_HEADER < b.size then
              split_block b post ((add32 size 3) &&& 0xFFFFFFFC)
            else (b, post)).1 with type := MEMORY_ALLOCATED } ::
          (if add32 ((add32 size 3) &&& 0xFFFFFFFC) BLOCK_HEADER < b.size then
              split_block b post ((add32 size 3) &&& 0xFFFFFFFC)
            else (b, post)).2 := by
  constructor
  · by_cases hc : add32 ((add32 size 3) &&& 0xFFFFFFFC) BLOCK_HEADER < b.size
    · have hnc : ¬ b.size ≤ add32 ((add32 size 3) &&& 0xFFFFFFFC) BLOCK_HEADER := by omega
      simp [kmalloc, h0, hf, hc, split_block, hnc]
    · simp [kmalloc, h0, hf, hc]
  · simp [kmalloc, h0, hf, update_memory_stats]

theorem kmalloc_find_of_ok {s : MemState} {size : Nat} (hok : (kmalloc s size).2 ≠ 0) :
    size ≠ 0 ∧ ∃ pre b post,
      find_free_block s.memory_map ((add32 size 3) &&& 0xFFFFFFFC) = some (pre, b, post) := by
  by_cases h0 : size = 0
  · exact absurd (by simp [kmalloc, h0]) hok
  · refine ⟨h0, ?_⟩
    cases hf : find_free_block s.memory_map ((add32 size 3) &&& 0xFFFFFFFC) with
    | none => exact absurd (by simp [kmalloc, h0, hf]) hok
    | some r => exact ⟨r.1, r.2.1, r.2.2, rfl⟩

/-- C12: for every heap state and every size with 0 < size <= 0xFFFFFFFC (a
successful call implies 0 < size), a successful `kmalloc(size)` returns the data address of the first block in list
order that is free and whose size is at least the size rounded up to a multiple
of 4; the blocks before it in the list are unchanged, and the block keeps its
place and its addresses. -/
theorem C12_first_fit (s : MemState) (size : Nat) (h1 : size ≤ 0xFFFFFFFC)
    (hok : (kmalloc s size).2 ≠ 0) :
    ∃ pre b post, s.memory_map = pre ++ b :: post ∧
      b.type = MEMORY_FREE ∧ (size + 3) / 4 * 4 ≤ b.size ∧
      (∀ x ∈ pre, ¬ (x.type = MEMORY_FREE ∧ (size + 3) / 4 * 4 ≤ x.size)) ∧
      (kmalloc s size).2 = b.start_addr ∧
      ∃ b' rest, (kmalloc s size).1.memory_map = pre ++ b' :: rest ∧
        b'.addr = b.addr ∧ b'.start_addr = b.start_addr ∧ b'.type = MEMORY_ALLOCATED := by
  obtain ⟨hne, pre, b, post, hf⟩ := kmalloc_find_of_ok hok
  obtain ⟨e, hfree, hle, hpre⟩ := find_free_block_some hf
  obtain ⟨hp, hm⟩ := kmalloc_of_find hne hf
  rw [rounded_size_eq h1] at hle hpre
  refine ⟨pre, b, post, e, hfree, hle, hpre, hp, _, _, hm, ?_, ?_, rfl⟩
  · by_cases hc : add32 ((add32 size 3) &&& 0xFFFFFFFC) BLOCK_HEADER < b.size
    · have hnc : ¬ b.size ≤ add32 ((add32 size 3) &&& 0xFFFFFFFC) BLOCK_HEADER := by omega
      simp [hc, split_block, hnc]
    · simp [hc]
  · by_cases hc : add32 ((add32 size 3) &&& 0xFFFFFFFC) BLOCK_HEADER < b.size
    · have hnc : ¬ b.size ≤ add32 ((add32 size 3) &&& 0xFFFFFFFC) BLOCK_HEADER := by omega
      simp [hc, split_block, hnc]
    · simp [hc]

/-- C12, instance: `kmalloc(10)` on the freshly initialised heap. -/
theorem C12_first_fit_witness :
    0 < 10 ∧ 10 ≤ 0xFFFFFFFC ∧ (kmalloc (heap_init MemState.zero) 10).2 ≠ 0 ∧
    ∃ pre b post, (heap_init MemState.zero).memory_map = pre ++ b :: post ∧
      b.type = MEMORY_FREE ∧ (10 + 3) / 4 * 4 ≤ b.size ∧
      (∀ x ∈ pre, ¬ (x.type = MEMORY_FREE ∧ (10 + 3) / 4 * 4 ≤ x.size)) ∧
      (kmalloc (heap_init MemState.zero) 10).2 = b.start_addr ∧
      ∃ b' rest, (kmalloc (heap_init MemState.zero) 10).1.memory_map = pre ++ b' :: rest ∧
        b'.addr = b.addr ∧ b'.start_addr = b.start_addr ∧ b'.type = MEMORY_ALLOCATED :=
  ⟨by decide, by decide, by decide,
    C12_first_fit (heap_init MemState.zero) 10 (by decide) (by decide)⟩

/-- C13: when `kmalloc` selects the free block `b` of size `B` (a block whose
header and data fit in the 32-bit address space) for the rounded request `r`,
then if `B > r + header size` the block becomes an allocated block of size
exactly `r`, immediately followed in the list by a new free block of size
`B - r - header size` whose successor is the old successor; otherwise the whole
block is marked allocated with its size unchanged and no block is added.  The
blocks before `b` are unchanged in both cases; the `next`/`prev` links are the
list order. -/
theorem C13_split_rule (s : MemState) (size : Nat) (pre post : List memory_block_t)
    (b : memory_block_t) (h0 : size ≠ 0)
    (hf : find_free_block s.memory_map ((add32 size 3) &&& 0xFFFFFFFC) = some (pre, b, post))
    (hb : b.size + BLOCK_HEADER < WORD) :
    (((add32 size 3) &&& 0xFFFFFFFC) + BLOCK_HEADER < b.size →
      ∃ nb, (kmalloc s size).1.memory_map =
          pre ++ { b with size := (add32 size 3) &&& 0xFFFFFFFC, type := MEMORY_ALLOCATED } ::
            nb :: post ∧
        nb.type = MEMORY_FREE ∧
        nb.size = b.size - ((add32 size 3) &&& 0xFFFFFFFC) - BLOCK_HEADER ∧
        nb.addr = add32 b.start_addr ((add32 size 3) &&& 0xFFFFFFFC) ∧
        nb.start_addr = add32 nb.addr BLOCK_HEADER) ∧
    (b.size ≤ ((add32 size 3) &&& 0xFFFFFFFC) + BLOCK_HEADER →
      (kmalloc s size).1.memory_map = pre ++ { b with type := MEMORY_ALLOCATED } :: post) := by
  obtain ⟨_, _, hle, _⟩ := find_free_block_some hf
  obtain ⟨_, hm⟩ := kmalloc_of_find h0 hf
  have hH : BLOCK_HEADER = 20 := rfl
  have hadd : add32 ((add32 size 3) &&& 0xFFFFFFFC) BLOCK_HEADER =
      ((add32 size 3) &&& 0xFFFFFFFC) + BLOCK_HEADER := by
    apply add32_of_lt; omega
  rw [hadd] at hm
  constructor
  · intro hc
    have hnc : ¬ b.size ≤ ((add32 size 3) &&& 0xFFFFFFFC) + BLOCK_HEADER := by omega
    refine ⟨{ addr := add32 b.start_addr ((add32 size 3) &&& 0xFFFFFFFC)
              start_addr :=
                add32 (add32 b.start_addr ((add32 size 3) &&& 0xFFFFFFFC)) BLOCK_HEADER
              size := sub32 (sub32 b.size ((add32 size 3) &&& 0xFFFFFFFC)) BLOCK_HEADER
              type := MEMORY_FREE }, ?_, rfl, ?_, rfl, rfl⟩
    · rw [hm]
      simp only [hc, if_true, split_block, hadd, hnc, if_false]
    · show sub32 (sub32 b.size ((add32 size 3) &&& 0xFFFFFFFC)) BLOCK_HEADER = _
      rw [sub32_of_le hle (by omega), sub32_of_le (by omega) (by omega)]
  · intro hc
    have hnc : ¬ ((add32 size 3) &&& 0xFFFFFFFC) + BLOCK_HEADER < b.size := by omega
    rw [hm]
    simp only [hnc, if_false]

/-- C13, instance: `kmalloc(10)` on the freshly initialised heap splits the
initial block into an allocated block of 12 bytes and a free remainder. -/
theorem C13_split_rule_witness :
    (10 : Nat) ≠ 0 ∧
    find_free_block (heap_init MemState.zero).memory_map ((add32 10 3) &&& 0xFFFFFFFC) =
      some ([], { addr := 0x200000, start_addr := 0x200014, size := 0xFFFEC,
                  type := MEMORY_FREE }, []) ∧
    (0xFFFEC : Nat) + BLOCK_HEADER < WORD ∧
    ∃ nb, (kmalloc (heap_init MemState.zero) 10).1.memory_map =
        [{ addr := 0x200000, start_addr := 0x200014, size := 12, type := MEMORY_ALLOCATED },
          nb] ∧
      nb.type = MEMORY_FREE ∧ nb.size = 0xFFFEC - 12 - BLOCK_HEADER :=
  ⟨by decide, by decide, by decide,
    match (C13_split_rule (heap_init MemState.zero) 10 [] []
        { addr := 0x200000, start_addr := 0x200014, size := 0xFFFEC, type := MEMORY_FREE }
        (by decide) (by decide) (by decide)).1 (by decide) with
    | ⟨nb, h1, h2, h3, _, _⟩ => ⟨nb, h1, h2, h3⟩⟩

/-- C16: for every heap state `kmalloc(0)` returns `NULL` and leaves the state,
in particular the block list and the memory statistics, unchanged. -/
theorem C16_zero_size_allocation_fails (s : MemState) :
    (kmalloc s 0).2 = 0 ∧ (kmalloc s 0).1 = s ∧
      (kmalloc s 0).1.memory_map = s.memory_map ∧
      (kmalloc s 0).1.memory_stats = s.memory_stats := by
  simp [kmalloc]

theorem merge_from_step {cur nxt : memory_block_t} (rest : List memory_block_t)
    (h1 : cur.type = MEMORY_FREE) (h2 : nxt.type = MEMORY_FREE)
    (h3 : nxt.start_addr = cur.start_addr + cur.size + BLOCK_HEADER)
    (hb : nxt.start_addr + nxt.size < WORD) :
    merge_from cur (nxt :: rest) =
      merge_from { cur with size := cur.size + nxt.size + BLOCK_HEADER } rest := by
  have hH : BLOCK_HEADER = 20 := rfl
  have e1 : add32 (add32 cur.start_addr cur.size) BLOCK_HEADER = nxt.start_addr := by
    unfold add32 WORD at *; omega
  have e2 : add32 cur.size (add32 nxt.size BLOCK_HEADER) =
      cur.size + nxt.size + BLOCK_HEADER := by
    unfold add32 WORD at *; omega
  conv => lhs; unfold merge_from
  simp only [h1, h2, e1, e2, and_self, if_true]

/-- C14: in every heap state reachable from `heap_init` by `kmalloc` and by
`kfree` of previously returned addresses, after a `kfree` no two consecutive
blocks of the list are both free and the list still tiles the heap window; the
coalescing pass replaces a free block followed by an address-adjacent free
block by one block whose size is the sum of both sizes plus one header. -/
theorem C14_full_coalescing (s : MemState) (issued : List Nat) (ptr : Nat)
    (h : HeapReach s issued) (hp : ptr ∈ issued) :
    NoAdjFree (kfree s ptr).memory_map ∧ HeapTiled (kfree s ptr).memory_map ∧
    ∀ (cur nxt : memory_block_t) (rest : List memory_block_t),
      cur.type = MEMORY_FREE → nxt.type = MEMORY_FREE →
      nxt.start_addr = cur.start_addr + cur.size + BLOCK_HEADER →
      nxt.start_addr + nxt.size < WORD →
      merge_adjacent_blocks (cur :: nxt :: rest) =
        merge_adjacent_blocks
          ({ cur with size := cur.size + nxt.size + BLOCK_HEADER } :: rest) := by
  have hinv := HeapReach_inv (HeapReach.free ptr h hp)
  exact ⟨hinv.2, Tiles_tiled hinv.1, fun cur nxt rest h1 h2 h3 hb =>
    merge_from_step rest h1 h2 h3 hb⟩

/-- C14, instance: `kmalloc(16)`, `kmalloc(32)`, release of the second block
and then of the first. -/
theorem C14_full_coalescing_witness :
    HeapReach
        (kfree (kmalloc (kmalloc (heap_init MemState.zero) 16).1 32).1
          (kmalloc (kmalloc (heap_init MemState.zero) 16).1 32).2)
        [(kmalloc (kmalloc (heap_init MemState.zero) 16).1 32).2,
          (kmalloc (heap_init MemState.zero) 16).2] ∧
      (kmalloc (heap_init MemState.zero) 16).2 ∈
        [(kmalloc (kmalloc (heap_init MemState.zero) 16).1 32).2,
          (kmalloc (heap_init MemState.zero) 16).2] ∧
      NoAdjFree
        (kfree
          (kfree (kmalloc (kmalloc (heap_init MemState.zero) 16).1 32).1
            (kmalloc (kmalloc (heap_init MemState.zero) 16).1 32).2)
          (kmalloc (heap_init MemState.zero) 16).2).memory_map :=
  have hr : HeapReach
        (kfree (kmalloc (kmalloc (heap_init MemState.zero) 16).1 32).1
          (kmalloc (kmalloc (heap_init MemState.zero) 16).1 32).2)
        [(kmalloc (kmalloc (heap_init MemState.zero) 16).1 32).2,
          (kmalloc (heap_init MemState.zero) 16).2] :=
    HeapReach.free _
      (HeapReach.malloc 32 (HeapReach.malloc 16 (HeapReach.init MemState.zero) (by decide))
        (by decide))
      (List.mem_cons_self _ _)
  ⟨hr, List.mem_cons_of_mem _ (List.mem_cons_self _ _),
    (C14_full_coalescing _ _ _ hr (List.mem_cons_of_mem _ (List.mem_cons_self _ _))).1⟩

/-! ## Heap: reuse of a released block -/

theorem singleton_eq_append_cons {x b : memory_block_t} {pre post : List memory_block_t}
    (h : [x] = pre ++ b :: post) : pre = [] ∧ b = x ∧ post = [] := by
  cases pre with
  | nil =>
    simp only [List.nil_append, List.cons.injEq] at h
    exact ⟨rfl, h.1.symm, h.2.symm⟩
  | cons y pre =>
    simp only [List.cons_append, List.cons.injEq] at h
    have := congrArg List.length h.2
    simp at this
    omega

/-- On a freshly initialised heap, for every `a` of at most 0xFFFFFFFC bytes
and every `b` such that `A = kmalloc(a)` and `B = kmalloc(b)` both succeed, and
every `c` with `1 <= c <= a`: after `kfree(A)`, `kmalloc(c)` returns `A`. -/
theorem heap_reuse (s0 : MemState) (a b c : Nat) (ha : a ≤ 0xFFFFFFFC)
    (hA : (kmalloc (heap_init s0) a).2 ≠ 0)
    (hB : (kmalloc (kmalloc (heap_init s0) a).1 b).2 ≠ 0)
    (hc1 : 1 ≤ c) (hc2 : c ≤ a) :
    (kmalloc
        (kfree (kmalloc (kmalloc (heap_init s0) a).1 b).1 (kmalloc (heap_init s0) a).2)
        c).2 = (kmalloc (heap_init s0) a).2 := by
  have hinv0 := heap_init_inv s0
  have hinv1 := kmalloc_inv a hinv0
  have hH : BLOCK_HEADER = 20 := rfl
  -- the first allocation splits the initial block
  rcases kmalloc_result a hinv0.1 with
    ⟨_, e0⟩ | ⟨pre, F, post, sz, e, hfree, hsz, _, hle, _, hp, hm⟩
  · exact absurd e0 hA
  obtain ⟨rfl, hF, rfl⟩ := singleton_eq_append_cons e
  have hFaddr : F.addr = KERNEL_HEAP_START := by rw [hF]
  have hFstart : F.start_addr = add32 KERNEL_HEAP_START BLOCK_HEADER := by rw [hF]
  -- the second allocation takes the remainder
  rcases kmalloc_result b hinv1.1 with
    ⟨_, e0⟩ | ⟨pre2, T, post2, sz2, e2, hfree2, _, _, _, _, _, hm2⟩
  · exact absurd e0 hB
  have hmap2 : ∃ Tb rest2, (kmalloc (kmalloc (heap_init s0) a).1 b).1.memory_map =
      { F with size := sz, type := MEMORY_ALLOCATED } :: Tb :: rest2 ∧
      Tb.type = MEMORY_ALLOCATED := by
    rcases hm with ⟨em, _⟩ | ⟨em, _⟩
    · rw [em] at e2
      obtain ⟨_, hT, _⟩ := singleton_eq_append_cons e2
      rw [hT] at hfree2
      exact absurd hfree2 (by simp)
    · rw [em] at e2
      cases pre2 with
      | nil =>
        simp only [List.nil_append, List.cons.injEq] at e2
        rw [← e2.1] at hfree2
        exact absurd hfree2 (by simp)
      | cons y pre2 =>
        simp only [List.nil_append, List.cons_append, List.cons.injEq] at e2
        obtain ⟨hy, e3⟩ := e2
        obtain ⟨rfl, _, rfl⟩ := singleton_eq_append_cons e3
        rcases hm2 with ⟨em2, _⟩ | ⟨em2, _⟩
        · exact ⟨_, _, by rw [em2, ← hy]; rfl, rfl⟩
        · exact ⟨_, _, by rw [em2, ← hy]; rfl, rfl⟩
  obtain ⟨Tb, rest2, hmap2, hTb⟩ := hmap2
  -- the release of the first block merges nothing
  have hsub : sub32 (kmalloc (heap_init s0) a).2 BLOCK_HEADER = F.addr := by
    rw [hp, hFstart, hFaddr]; decide
  have hfind : find_block_at (kmalloc (kmalloc (heap_init s0) a).1 b).1.memory_map
      (sub32 (kmalloc (heap_init s0) a).2 BLOCK_HEADER) =
      some ([], { F with size := sz, type := MEMORY_ALLOCATED }, Tb :: rest2) := by
    rw [hmap2, hsub]
    simp [find_block_at]
  have hmap3 : (kfree (kmalloc (kmalloc (heap_init s0) a).1 b).1
      (kmalloc (heap_init s0) a).2).memory_map =
      { F with size := sz, type := MEMORY_FREE } :: merge_from Tb rest2 := by
    rw [kfree_map_of_find hA hfind rfl]
    show merge_from { F with size := sz, type := MEMORY_FREE } (Tb :: rest2) = _
    conv => lhs; unfold merge_from
    simp [hTb]
  -- the third allocation finds the released block first
  have hc0 : c ≠ 0 := by omega
  have hrc : (add32 c 3) &&& 0xFFFFFFFC ≤ sz := by
    rw [hsz, rounded_size_eq ha, rounded_size_eq (by omega : c ≤ 0xFFFFFFFC)]
    omega
  have hfind3 : find_free_block
      (kfree (kmalloc (kmalloc (heap_init s0) a).1 b).1
        (kmalloc (heap_init s0) a).2).memory_map ((add32 c 3) &&& 0xFFFFFFFC) =
      some ([], { F with size := sz, type := MEMORY_FREE }, merge_from Tb rest2) := by
    rw [hmap3]
    simp [find_free_block, hrc]
  rw [(kmalloc_of_find hc0 hfind3).1, hp]

/-- The instance of the specification: `a = b = 16`, `c = 8`. -/
theorem heap_reuse_instance :
    (kmalloc
        (kfree (kmalloc (kmalloc (heap_init MemState.zero) 16).1 16).1
          (kmalloc (heap_init MemState.zero) 16).2)
        8).2 = (kmalloc (heap_init MemState.zero) 16).2 :=
  heap_reuse MemState.zero 16 16 8 (by decide) (by decide) (by decide) (by decide) (by decide)

/-- C15, failing input: on the freshly initialised heap with `a = 0xFFFFFFFD`,
`b = 16`, `c = 8` both allocations succeed (`A = 0x200014` is a zero-length
block because the rounded size wraps to 0, `B = 0x200028`); after `kfree(A)`
the block of `A` is too small for 8 bytes and `C = kmalloc(8)` is placed after
`B`, at `0x20004C`, so `C ≠ A`. -/
theorem C15_heap_reuse_wrapped_request :
    (1 ≤ 0xFFFFFFFD ∧ 1 ≤ 16 ∧ 1 ≤ 8 ∧ 8 ≤ 0xFFFFFFFD) ∧
    (kmalloc (heap_init MemState.zero) 0xFFFFFFFD).2 = 0x200014 ∧
    (kmalloc (kmalloc (heap_init MemState.zero) 0xFFFFFFFD).1 16).2 = 0x200028 ∧
    (kmalloc
        (kfree (kmalloc (kmalloc (heap_init MemState.zero) 0xFFFFFFFD).1 16).1
          (kmalloc (heap_init MemState.zero) 0xFFFFFFFD).2)
        8).2 = 0x20004C := by
  refine ⟨by decide, by decide, by decide, by decide⟩

/-! ## Address translation: auxiliary facts -/

theorem pd_index_eq (va : Nat) : get_page_directory_index va = va / 4194304 % 1024 := by
  unfold get_page_directory_index
  have e : (0x3FF : Nat) = 2 ^ 10 - 1 := by norm_num
  rw [Nat.shiftRight_eq_div_pow, e, Nat.and_pow_two_sub_one_eq_mod]

theorem pt_index_eq (va : Nat) : get_page_table_index va = va / 4096 % 1024 := by
  unfold get_page_table_index
  have e : (0x3FF : Nat) = 2 ^ 10 - 1 := by norm_num
  rw [Nat.shiftRight_eq_div_pow, e, Nat.and_pow_two_sub_one_eq_mod]

theorem page_offset_eq (va : Nat) : get_page_offset va = va % 4096 := by
  unfold get_page_offset
  have e : (0xFFF : Nat) = 2 ^ 12 - 1 := by norm_num
  rw [e, Nat.and_pow_two_sub_one_eq_mod]

theorem pd_index_lt (va : Nat) : get_page_directory_index va < 1024 := by
  rw [pd_index_eq]; omega

theorem pt_index_lt (va : Nat) : get_page_table_index va < 1024 := by
  rw [pt_index_eq]; omega

theorem table_of_address {e : page_entry_t} {a : Nat} (h : e.address = a)
    (ha : a < 1048576) : table_of e = a * 4096 := by
  unfold table_of
  rw [h, Nat.shiftLeft_eq]
  apply Nat.mod_eq_of_lt
  unfold WORD
  omega

theorem frame_number_eq (w : Nat) (hw : w < WORD) : (w >>> 12) % 1048576 = w / 4096 := by
  rw [Nat.shiftRight_eq_div_pow]
  apply Nat.mod_eq_of_lt
  unfold WORD at hw
  omega

theorem write_entry_same (t : Nat → Nat → page_entry_t) (base idx : Nat) (e : page_entry_t) :
    write_entry t base idx e base idx = e := by
  simp [write_entry]

theorem write_entry_other (t : Nat → Nat → page_entry_t) (base idx : Nat) (e : page_entry_t)
    (b i : Nat) (h : ¬ (b = base ∧ i = idx)) : write_entry t base idx e b i = t b i := by
  simp [write_entry, h]

theorem map_page_present_eq {s : PagingState} (va pa flags : Nat)
    (h : (s.tables s.current_page_directory (get_page_directory_index va)).present = true) :
    map_page s va pa flags =
      ({ s with
          tables :=
            write_entry s.tables
              (table_of (s.tables s.current_page_directory (get_page_directory_index va)))
              (get_page_table_index va)
              { s.tables
                    (table_of (s.tables s.current_page_directory (get_page_directory_index va)))
                    (get_page_table_index va) with
                address := (pa >>> 12) % 1048576
                present := decide (flags &&& PAGE_PRESENT ≠ 0)
                rw := decide (flags &&& PAGE_WRITABLE ≠ 0)
                user := decide (flags &&& PAGE_USER ≠ 0)
                global := decide (flags &&& PAGE_GLOBAL ≠ 0) } }, true) := by
  simp [map_page, h]

theorem map_page_absent_eq {s : PagingState} (va pa flags : Nat) {k : Nat}
    (h : (s.tables s.current_page_directory (get_page_directory_index va)).present = false)
    (hD : s.current_page_directory = PAGE_DIRECTORY_ADDR)
    (hW : s.next_page_table_addr = PAGE_TABLE_AREA + PAGE_SIZE * k) (hk : k < 1024) :
    map_page s va pa flags =
      ({ current_page_directory := PAGE_DIRECTORY_ADDR
         next_page_table_addr := PAGE_TABLE_AREA + PAGE_SIZE * (k + 1)
         tables :=
           write_entry
             (write_entry
               (fun b i =>
                 if b = PAGE_TABLE_AREA + PAGE_SIZE * k ∧ i < PAGE_TABLE_SIZE then
                   page_entry_t.zero
                 else s.tables b i)
               PAGE_DIRECTORY_ADDR (get_page_directory_index va)
               { s.tables PAGE_DIRECTORY_ADDR (get_page_directory_index va) with
                 address := 0x700 + k
                 present := true
                 rw := true
                 user := true })
             (PAGE_TABLE_AREA + PAGE_SIZE * k) (get_page_table_index va)
             { page_entry_t.zero with
               address := (pa >>> 12) % 1048576
               present := decide (flags &&& PAGE_PRESENT ≠ 0)
               rw := decide (flags &&& PAGE_WRITABLE ≠ 0)
               user := decide (flags &&& PAGE_USER ≠ 0)
               global := decide (flags &&& PAGE_GLOBAL ≠ 0) } }, true) := by
  have hpt := pt_index_lt va
  have hdir : (s.tables PAGE_DIRECTORY_ADDR (get_page_directory_index va)).present = false := by
    rw [← hD]; exact h
  simp only [PAGE_TABLE_AREA, PAGE_SIZE, PAGE_DIRECTORY_ADDR, PAGE_TABLE_SIZE] at *
  have hW0 : 0x700000 + 4096 * k ≠ 0 := by omega
  have hWD : ¬ 0x1000000 = 0x700000 + 4096 * k := by omega
  have hWD' : ¬ 0x700000 + 4096 * k = 0x1000000 := by omega
  have hfr : ((0x700000 + 4096 * k) >>> 12) % 1048576 = 0x700 + k := by
    rw [frame_number_eq _ (by unfold WORD; omega)]; omega
  have htab : ∀ e : page_entry_t, e.address = 0x700 + k →
      table_of e = 0x700000 + 4096 * k := by
    intro e he
    rw [table_of_address he (by omega)]; omega
  have hadd : add32 (0x700000 + 4096 * k) 4096 = 0x700000 + 4096 * (k + 1) := by
    rw [add32_of_lt (by unfold WORD; omega)]; omega
  unfold map_page create_page_table
  simp only [PAGE_SIZE, PAGE_TABLE_SIZE, hD, hW, hdir, hW0, if_true, if_false, hfr, hadd,
    write_entry_same]
  rw [htab _ rfl]
  simp only [write_entry, hWD, hWD', false_and, if_false, true_and, hpt, and_self, if_true]

theorem count_present_le (t : Nat → page_entry_t) (n : Nat) : count_present t n ≤ n := by
  induction n with
  | zero => exact Nat.le_refl _
  | succ n ih =>
    unfold count_present
    split <;> omega

theorem count_present_lt {t : Nat → page_entry_t} {n i : Nat} (hi : i < n)
    (h : (t i).present = false) : count_present t n < n := by
  induction n with
  | zero => omega
  | succ n ih =>
    unfold count_present
    by_cases hin : i = n
    · subst hin
      have := count_present_le t i
      simp [h]
      omega
    · have := ih (by omega)
      split <;> omega

theorem count_present_congr {t t' : Nat → page_entry_t} {n : Nat}
    (h : ∀ j, j < n → (t' j).present = (t j).present) :
    count_present t' n = count_present t n := by
  induction n with
  | zero => rfl
  | succ n ih =>
    unfold count_present
    rw [ih (fun j hj => h j (by omega)), h n (by omega)]

theorem count_present_zero {t : Nat → page_entry_t} {n : Nat}
    (h : ∀ j, j < n → (t j).present = false) : count_present t n = 0 := by
  induction n with
  | zero => rfl
  | succ n ih =>
    unfold count_present
    rw [ih (fun j hj => h j (by omega)), h n (by omega)]
    simp

theorem count_present_new {t t' : Nat → page_entry_t} {n i : Nat} (hi : i < n)
    (h : (t i).present = false) (h1 : (t' i).present = true)
    (h2 : ∀ j, j ≠ i → (t' j).present = (t j).present) :
    count_present t' n = count_present t n + 1 := by
  induction n with
  | zero => omega
  | succ n ih =>
    unfold count_present
    by_cases hin : i = n
    · subst hin
      rw [count_present_congr (fun j hj => h2 j (by omega)), h, h1]
      simp
    · rw [ih (by omega), h2 n (fun e => hin e.symm)]
      omega

theorem inv_table_of {s : PagingState} (hI : PagingInv s) {i : Nat} (hi : i < 1024)
    (hp : (s.tables PAGE_DIRECTORY_ADDR i).present = true) :
    ∃ j, j < 1024 ∧ table_of (s.tables PAGE_DIRECTORY_ADDR i) = 0x700000 + 4096 * j := by
  obtain ⟨j, hj, ha⟩ := hI.2.2 i hi hp
  have hc := count_present_le (s.tables PAGE_DIRECTORY_ADDR) 1024
  refine ⟨j, by omega, ?_⟩
  rw [table_of_address ha (by omega)]
  omega

theorem PagingInv_of_dir {s s' : PagingState} (hI : PagingInv s)
    (hD : s'.current_page_directory = s.current_page_directory)
    (hW : s'.next_page_table_addr = s.next_page_table_addr)
    (hrow : ∀ i, s'.tables PAGE_DIRECTORY_ADDR i = s.tables PAGE_DIRECTORY_ADDR i) :
    PagingInv s' := by
  have hfun : s'.tables PAGE_DIRECTORY_ADDR = s.tables PAGE_DIRECTORY_ADDR := funext hrow
  unfold PagingInv
  rw [hD, hW, hfun]
  exact hI

theorem PagingInv_new_table {s s' : PagingState} (hI : PagingInv s) {pd : Nat}
    (hpd : pd < 1024) (habs : (s.tables PAGE_DIRECTORY_ADDR pd).present = false)
    (hD : s'.current_page_directory = PAGE_DIRECTORY_ADDR)
    (hW : s'.next_page_table_addr =
      PAGE_TABLE_AREA + PAGE_SIZE * (count_present (s.tables PAGE_DIRECTORY_ADDR) 1024 + 1))
    (hrow : ∀ i, i ≠ pd → s'.tables PAGE_DIRECTORY_ADDR i = s.tables PAGE_DIRECTORY_ADDR i)
    (hp : (s'.tables PAGE_DIRECTORY_ADDR pd).present = true)
    (ha : (s'.tables PAGE_DIRECTORY_ADDR pd).address =
      0x700 + count_present (s.tables PAGE_DIRECTORY_ADDR) 1024) :
    PagingInv s' := by
  have hcount := count_present_new hpd habs hp
    (fun j hj => congrArg page_entry_t.present (hrow j hj))
  refine ⟨hD, by rw [hW, hcount], ?_⟩
  intro i hi hpi
  rw [hcount]
  by_cases hip : i = pd
  · subst hip
    exact ⟨_, Nat.lt_succ_self _, ha⟩
  · rw [hrow i hip] at hpi ⊢
    obtain ⟨j, hj, haj⟩ := hI.2.2 i hi hpi
    exact ⟨j, by omega, haj⟩

theorem map_page_present_tables {s : PagingState} (va pa flags : Nat)
    (h : (s.tables s.current_page_directory (get_page_directory_index va)).present = true) :
    (map_page s va pa flags).1.current_page_directory = s.current_page_directory ∧
    (map_page s va pa flags).1.next_page_table_addr = s.next_page_table_addr ∧
    (map_page s va pa flags).1.tables =
      write_entry s.tables
        (table_of (s.tables s.current_page_directory (get_page_directory_index va)))
        (get_page_table_index va)
        { s.tables
              (table_of (s.tables s.current_page_directory (get_page_directory_index va)))
              (get_page_table_index va) with
          address := (pa >>> 12) % 1048576
          present := decide (flags &&& PAGE_PRESENT ≠ 0)
          rw := decide (flags &&& PAGE_WRITABLE ≠ 0)
          user := decide (flags &&& PAGE_USER ≠ 0)
          global := decide (flags &&& PAGE_GLOBAL ≠ 0) } := by
  rw [map_page_present_eq va pa flags h]
  exact ⟨rfl, rfl, rfl⟩

theorem map_page_absent_tables {s : PagingState} (va pa flags : Nat) (hI : PagingInv s)
    (h : (s.tables PAGE_DIRECTORY_ADDR (get_page_directory_index va)).present = false) :
    (map_page s va pa flags).1.current_page_directory = PAGE_DIRECTORY_ADDR ∧
    (map_page s va pa flags).1.next_page_table_addr =
      PAGE_TABLE_AREA + PAGE_SIZE * (count_present (s.tables PAGE_DIRECTORY_ADDR) 1024 + 1) ∧
    (map_page s va pa flags).1.tables =
      write_entry
        (write_entry
          (fun b i =>
            if b = PAGE_TABLE_AREA +
                PAGE_SIZE * count_present (s.tables PAGE_DIRECTORY_ADDR) 1024 ∧
                i < PAGE_TABLE_SIZE then
              page_entry_t.zero
            else s.tables b i)
          PAGE_DIRECTORY_ADDR (get_page_directory_index va)
          { s.tables PAGE_DIRECTORY_ADDR (get_page_directory_index va) with
            address := 0x700 + count_present (s.tables PAGE_DIRECTORY_ADDR) 1024
            present := true
            rw := true
            user := true })
        (PAGE_TABLE_AREA + PAGE_SIZE * count_present (s.tables PAGE_DIRECTORY_ADDR) 1024)
        (get_page_table_index va)
        { page_entry_t.zero with
          address := (pa >>> 12) % 1048576
          present := decide (flags &&& PAGE_PRESENT ≠ 0)
          rw := decide (flags &&& PAGE_WRITABLE ≠ 0)
          user := decide (flags &&& PAGE_USER ≠ 0)
          global := decide (flags &&& PAGE_GLOBAL ≠ 0) } := by
  have hk := count_present_lt (pd_index_lt va) h
  rw [map_page_absent_eq va pa flags (by rw [hI.1]; exact h) hI.1 hI.2.1 hk]
  exact ⟨rfl, rfl, rfl⟩

theorem table_area_ne_dir (k : Nat) (hk : k < 1024) :
    PAGE_DIRECTORY_ADDR ≠ PAGE_TABLE_AREA + PAGE_SIZE * k := by
  unfold PAGE_DIRECTORY_ADDR PAGE_TABLE_AREA PAGE_SIZE
  omega

theorem map_page_inv {s : PagingState} (va pa flags : Nat) (hI : PagingInv s) :
    PagingInv (map_page s va pa flags).1 := by
  have hpd := pd_index_lt va
  cases hp : (s.tables PAGE_DIRECTORY_ADDR (get_page_directory_index va)).present with
  | true =>
    have hp' : (s.tables s.current_page_directory (get_page_directory_index va)).present
        = true := by rw [hI.1]; exact hp
    obtain ⟨e1, e2, e3⟩ := map_page_present_tables va pa flags hp'
    obtain ⟨j, hj, hT⟩ := inv_table_of hI hpd hp
    refine PagingInv_of_dir hI e1 e2 ?_
    intro i
    rw [e3]
    apply write_entry_other
    rw [hI.1, hT]
    intro h
    have := h.1
    unfold PAGE_DIRECTORY_ADDR at this
    omega
  | false =>
    obtain ⟨e1, e2, e3⟩ := map_page_absent_tables va pa flags hI hp
    have hk := count_present_lt hpd hp
    have hne := table_area_ne_dir _ hk
    refine PagingInv_new_table hI hpd hp e1 e2 ?_ ?_ ?_
    · intro i hi
      rw [e3, write_entry_other _ _ _ _ _ _ (fun h => hne h.1),
        write_entry_other _ _ _ _ _ _ (fun h => hi h.2)]
      simp only [hne, false_and, if_false]
    · rw [e3, write_entry_other _ _ _ _ _ _ (fun h => hne h.1), write_entry_same]
    · rw [e3, write_entry_other _ _ _ _ _ _ (fun h => hne h.1), write_entry_same]

theorem unmap_page_tables (s : PagingState) (va : Nat) :
    (unmap_page s va).1.current_page_directory = s.current_page_directory ∧
    (unmap_page s va).1.next_page_table_addr = s.next_page_table_addr := by
  cases h : (s.tables s.current_page_directory (get_page_directory_index va)).present with
  | true => simp [unmap_page, h]
  | false => simp [unmap_page, h]

theorem unmap_page_present_tables {s : PagingState} (va : Nat)
    (h : (s.tables s.current_page_directory (get_page_directory_index va)).present = true) :
    (unmap_page s va).2 = true ∧
    (unmap_page s va).1.tables =
      write_entry s.tables
        (table_of (s.tables s.current_page_directory (get_page_directory_index va)))
        (get_page_table_index va)
        { s.tables
              (table_of (s.tables s.current_page_directory (get_page_directory_index va)))
              (get_page_table_index va) with
          present := false } := by
  simp [unmap_page, h]

theorem unmap_page_absent {s : PagingState} (va : Nat)
    (h : (s.tables s.current_page_directory (get_page_directory_index va)).present = false) :
    unmap_page s va = (s, false) := by
  simp [unmap_page, h]

theorem unmap_page_inv {s : PagingState} (va : Nat) (hI : PagingInv s) :
    PagingInv (unmap_page s va).1 := by
  have hpd := pd_index_lt va
  cases hp : (s.tables PAGE_DIRECTORY_ADDR (get_page_directory_index va)).present with
  | false =>
    rw [unmap_page_absent va (by rw [hI.1]; exact hp)]
    exact hI
  | true =>
    have hp' : (s.tables s.current_page_directory (get_page_directory_index va)).present
        = true := by rw [hI.1]; exact hp
    obtain ⟨_, e3⟩ := unmap_page_present_tables va hp'
    obtain ⟨e1, e2⟩ := unmap_page_tables s va
    obtain ⟨j, hj, hT⟩ := inv_table_of hI hpd hp
    refine PagingInv_of_dir hI e1 e2 ?_
    intro i
    rw [e3]
    apply write_entry_other
    rw [hI.1, hT]
    intro h
    have := h.1
    unfold PAGE_DIRECTORY_ADDR at this
    omega

theorem clear_directory_inv {s0 : PagingState}
    (h : s0.next_page_table_addr = PAGE_TABLE_AREA) : PagingInv (clear_directory s0) := by
  have hz : ∀ j, j < 1024 →
      ((clear_directory s0).tables PAGE_DIRECTORY_ADDR j).present = false := by
    intro j hj
    simp [clear_directory, PAGE_DIRECTORY_SIZE, hj, page_entry_t.zero]
  refine ⟨rfl, ?_, ?_⟩
  · rw [count_present_zero hz]
    exact h
  · intro i hi hp
    rw [hz i hi] at hp
    exact Bool.noConfusion hp

theorem identity_loop_inv (n : Nat) {s : PagingState} (hI : PagingInv s) :
    PagingInv (identity_loop n s) := by
  induction n with
  | zero => exact hI
  | succ n ih => exact map_page_inv _ _ _ ih

theorem kernel_loop_inv (n : Nat) {s : PagingState} (hI : PagingInv s) :
    PagingInv (kernel_loop n s) := by
  induction n with
  | zero => exact hI
  | succ n ih => exact map_page_inv _ _ _ ih

theorem paging_init_inv {s0 : PagingState} (h : s0.next_page_table_addr = PAGE_TABLE_AREA) :
    PagingInv (paging_init s0) :=
  kernel_loop_inv _ (identity_loop_inv _ (clear_directory_inv h))

theorem PagingReach_inv {s : PagingState} (h : PagingReach s) : PagingInv s := by
  induction h with
  | init s0 h0 => exact paging_init_inv h0
  | map va pa flags _ _ _ ih => exact map_page_inv va pa flags ih
  | unmap va _ _ ih => exact unmap_page_inv va ih

/-! ## Address translation: round trip and unmap -/

theorem page_mask_testBit (i : Nat) :
    (0xFFFFF000 : Nat).testBit i = (decide (12 ≤ i) && decide (i < 32)) := by
  have e : (0xFFFFF000 : Nat) = 2 ^ 12 * (2 ^ 20 - 1) := by norm_num
  rw [e, Nat.testBit_mul_pow_two, Nat.testBit_two_pow_sub_one]
  by_cases h : 12 ≤ i
  · by_cases h2 : i < 32
    · have : i - 12 < 20 := by omega
      simp [h, h2, this]
    · have : ¬ i - 12 < 20 := by omega
      simp [h, h2, this]
  · simp [h]

theorem and_page_mask_eq (x : Nat) (hx : x < WORD) : x &&& 0xFFFFF000 = x / 4096 * 4096 := by
  apply Nat.eq_of_testBit_eq
  intro i
  have e4 : x / 4096 * 4096 = 2 ^ 12 * (x / 4096) := by omega
  rw [Nat.testBit_and, page_mask_testBit, e4, Nat.testBit_mul_pow_two]
  by_cases h : 12 ≤ i
  · have hs : (x / 4096).testBit (i - 12) = x.testBit i := by
      have : x / 4096 = x >>> 12 := by rw [Nat.shiftRight_eq_div_pow]
      rw [this, Nat.testBit_shiftRight]
      congr 1; omega
    by_cases h2 : i < 32
    · simp [h, h2, hs]
    · have : x.testBit i = false := by
        apply Nat.testBit_lt_two_pow
        calc x < 2 ^ 32 := hx
          _ ≤ 2 ^ i := Nat.pow_le_pow_right (by norm_num) (by omega)
      simp [h, h2, hs, this]
  · simp [h]

theorem get_physical_address_of {s : PagingState} {v : Nat} {e : page_entry_t}
    (hd : (s.tables s.current_page_directory (get_page_directory_index v)).present = true)
    (hl : leaf_entry s v = e) (he : e.present = true) :
    get_physical_address s v = (e.address <<< 12) % WORD ||| get_page_offset v := by
  unfold leaf_entry at hl
  simp [get_physical_address, hd, hl, he]

theorem same_page_indices {v va : Nat} (h : v / PAGE_SIZE = va / PAGE_SIZE) :
    get_page_directory_index v = get_page_directory_index va ∧
      get_page_table_index v = get_page_table_index va := by
  unfold PAGE_SIZE at h
  rw [pd_index_eq, pd_index_eq, pt_index_eq, pt_index_eq, h]
  have e1 : v / 4194304 = v / 4096 / 1024 := by rw [Nat.div_div_eq_div_mul]
  have e2 : va / 4194304 = va / 4096 / 1024 := by rw [Nat.div_div_eq_div_mul]
  rw [e1, e2, h]
  exact ⟨rfl, rfl⟩

theorem map_page_leaf {s : PagingState} (va pa flags : Nat) (hI : PagingInv s) :
    (map_page s va pa flags).2 = true ∧
    ((map_page s va pa flags).1.tables (map_page s va pa flags).1.current_page_directory
      (get_page_directory_index va)).present = true ∧
    (leaf_entry (map_page s va pa flags).1 va).address = (pa >>> 12) % 1048576 ∧
    (leaf_entry (map_page s va pa flags).1 va).present = decide (flags &&& PAGE_PRESENT ≠ 0) ∧
    (leaf_entry (map_page s va pa flags).1 va).rw = decide (flags &&& PAGE_WRITABLE ≠ 0) ∧
    (leaf_entry (map_page s va pa flags).1 va).user = decide (flags &&& PAGE_USER ≠ 0) ∧
    (leaf_entry (map_page s va pa flags).1 va).global = decide (flags &&& PAGE_GLOBAL ≠ 0) := by
  have hpd := pd_index_lt va
  cases hp : (s.tables PAGE_DIRECTORY_ADDR (get_page_directory_index va)).present with
  | true =>
    have hp' : (s.tables s.current_page_directory (get_page_directory_index va)).present
        = true := by rw [hI.1]; exact hp
    obtain ⟨e1, _, e3⟩ := map_page_present_tables va pa flags hp'
    obtain ⟨j, hj, hT⟩ := inv_table_of hI hpd hp
    have hdir : (map_page s va pa flags).1.tables PAGE_DIRECTORY_ADDR
        (get_page_directory_index va) =
        s.tables PAGE_DIRECTORY_ADDR (get_page_directory_index va) := by
      rw [e3]
      apply write_entry_other
      rw [hI.1, hT]
      intro h
      have := h.1
      unfold PAGE_DIRECTORY_ADDR at this
      omega
    have hleaf : leaf_entry (map_page s va pa flags).1 va =
        { s.tables (table_of (s.tables PAGE_DIRECTORY_ADDR (get_page_directory_index va)))
              (get_page_table_index va) with
          address := (pa >>> 12) % 1048576
          present := decide (flags &&& PAGE_PRESENT ≠ 0)
          rw := decide (flags &&& PAGE_WRITABLE ≠ 0)
          user := decide (flags &&& PAGE_USER ≠ 0)
          global := decide (flags &&& PAGE_GLOBAL ≠ 0) } := by
      unfold leaf_entry
      rw [e1, hI.1, hdir, e3, hI.1, write_entry_same]
    refine ⟨by rw [map_page_present_eq va pa flags hp'], ?_, ?_, ?_, ?_, ?_, ?_⟩
    · rw [e1, hI.1, hdir]; exact hp
    all_goals rw [hleaf]
  | false =>
    obtain ⟨e1, _, e3⟩ := map_page_absent_tables va pa flags hI hp
    have hk := count_present_lt hpd hp
    have hne := table_area_ne_dir _ hk
    have hdir : (map_page s va pa flags).1.tables PAGE_DIRECTORY_ADDR
        (get_page_directory_index va) =
        { s.tables PAGE_DIRECTORY_ADDR (get_page_directory_index va) with
          address := 0x700 + count_present (s.tables PAGE_DIRECTORY_ADDR) 1024
          present := true
          rw := true
          user := true } := by
      rw [e3, write_entry_other _ _ _ _ _ _ (fun h => hne h.1), write_entry_same]
    have htab : table_of ((map_page s va pa flags).1.tables PAGE_DIRECTORY_ADDR
        (get_page_directory_index va)) =
        PAGE_TABLE_AREA + PAGE_SIZE * count_present (s.tables PAGE_DIRECTORY_ADDR) 1024 := by
      have haddr : ((map_page s va pa flags).1.tables PAGE_DIRECTORY_ADDR
          (get_page_directory_index va)).address =
          0x700 + count_present (s.tables PAGE_DIRECTORY_ADDR) 1024 := by rw [hdir]
      have hlt : 0x700 + count_present (s.tables PAGE_DIRECTORY_ADDR) 1024 < 1048576 := by
        omega
      rw [table_of_address haddr hlt]
      unfold PAGE_TABLE_AREA PAGE_SIZE
      omega
    have hleaf : leaf_entry (map_page s va pa flags).1 va =
        { page_entry_t.zero with
          address := (pa >>> 12) % 1048576
          present := decide (flags &&& PAGE_PRESENT ≠ 0)
          rw := decide (flags &&& PAGE_WRITABLE ≠ 0)
          user := decide (flags &&& PAGE_USER ≠ 0)
          global := decide (flags &&& PAGE_GLOBAL ≠ 0) } := by
      unfold leaf_entry
      rw [e1, htab, e3, write_entry_same]
    have hmp : (map_page s va pa flags).2 = true := by
      rw [map_page_absent_eq va pa flags (by rw [hI.1]; exact hp) hI.1 hI.2.1 hk]
    refine ⟨hmp, ?_, ?_, ?_, ?_, ?_, ?_⟩
    · rw [e1, hdir]
    all_goals rw [hleaf]

/-- C17: in every state of the translation structures reachable from
`paging_init` by `map_page` and `unmap_page`, for every virtual address `va`,
physical address `pa` and flags containing `PAGE_PRESENT`, `map_page(va, pa,
flags)` returns true and afterwards `get_physical_address(v)` is `pa` with its
low 12 bits cleared, or-ed with `v & 0xFFF`, for every `v` in the 4KB page of
`va`. -/
theorem C17_map_translate_round_trip (s : PagingState) (va pa flags v : Nat)
    (hs : PagingReach s) (hpa : pa < WORD)
    (hf : flags &&& PAGE_PRESENT ≠ 0) (hv : v / PAGE_SIZE = va / PAGE_SIZE) :
    (map_page s va pa flags).2 = true ∧
    get_physical_address (map_page s va pa flags).1 v =
      (pa &&& 0xFFFFF000) ||| (v &&& 0xFFF) := by
  obtain ⟨h1, h2, h3, h4, _⟩ := map_page_leaf va pa flags (PagingReach_inv hs)
  obtain ⟨i1, i2⟩ := same_page_indices hv
  refine ⟨h1, ?_⟩
  have hleaf : leaf_entry (map_page s va pa flags).1 v =
      leaf_entry (map_page s va pa flags).1 va := by
    unfold leaf_entry
    rw [i1, i2]
  rw [get_physical_address_of (by rw [i1]; exact h2) hleaf (by rw [h4]; simp [hf]), h3,
    frame_number_eq pa hpa, and_page_mask_eq pa hpa, Nat.shiftLeft_eq]
  have : pa / 4096 * 2 ^ 12 % WORD = pa / 4096 * 4096 := by
    unfold WORD at *
    omega
  rw [this]
  rfl

/-- C17, instance: mapping `0x00801234` to `0x00345678` after `paging_init`. -/
theorem C17_map_translate_round_trip_witness :
    PagingReach (paging_init PagingState.boot) ∧ 0x00345678 < WORD ∧
    (PAGE_PRESENT ||| PAGE_WRITABLE) &&& PAGE_PRESENT ≠ 0 ∧
    0x00801FFF / PAGE_SIZE = 0x00801234 / PAGE_SIZE ∧
    get_physical_address
        (map_page (paging_init PagingState.boot) 0x00801234 0x00345678
          (PAGE_PRESENT ||| PAGE_WRITABLE)).1 0x00801FFF =
      (0x00345678 &&& 0xFFFFF000) ||| (0x00801FFF &&& 0xFFF) :=
  ⟨PagingReach.init _ rfl, by decide, by decide, by decide,
    (C17_map_translate_round_trip (paging_init PagingState.boot) 0x00801234 0x00345678
      (PAGE_PRESENT ||| PAGE_WRITABLE) 0x00801FFF (PagingReach.init _ rfl) (by decide)
      (by decide) (by decide)).2⟩

theorem get_physical_address_unmapped {s : PagingState} {v : Nat}
    (hl : (leaf_entry s v).present = false) : get_physical_address s v = 0 := by
  unfold leaf_entry at hl
  unfold get_physical_address
  simp only [hl, if_true]
  split <;> rfl

/-- C18: in every reachable state of the translation structures,
`unmap_page(va)` returns false and changes nothing when the directory entry of
`va` is not present; otherwise it returns true, clears the present bit of the
leaf entry of `va` and keeps its frame address and other flags, leaves every
other entry of every table and every directory entry unchanged, and
`get_physical_address(va)` afterwards returns 0. -/
theorem C18_unmap_clears_present_only (s : PagingState) (va : Nat) (hs : PagingReach s) :
    ((s.tables s.current_page_directory (get_page_directory_index va)).present = false →
      unmap_page s va = (s, false)) ∧
    ((s.tables s.current_page_directory (get_page_directory_index va)).present = true →
      (unmap_page s va).2 = true ∧
      leaf_entry (unmap_page s va).1 va = { leaf_entry s va with present := false } ∧
      (∀ b i,
        ¬ (b = table_of (s.tables s.current_page_directory (get_page_directory_index va)) ∧
            i = get_page_table_index va) →
        (unmap_page s va).1.tables b i = s.tables b i) ∧
      (∀ i, (unmap_page s va).1.tables s.current_page_directory i =
        s.tables s.current_page_directory i) ∧
      (unmap_page s va).1.current_page_directory = s.current_page_directory ∧
      (unmap_page s va).1.next_page_table_addr = s.next_page_table_addr ∧
      get_physical_address (unmap_page s va).1 va = 0) := by
  have hI := PagingReach_inv hs
  have hpd := pd_index_lt va
  refine ⟨fun h => unmap_page_absent va h, ?_⟩
  intro hp
  obtain ⟨e0, e3⟩ := unmap_page_present_tables va hp
  obtain ⟨e1, e2⟩ := unmap_page_tables s va
  obtain ⟨j, hj, hT⟩ := inv_table_of hI hpd (by rw [← hI.1]; exact hp)
  have hother : ∀ b i,
      ¬ (b = table_of (s.tables s.current_page_directory (get_page_directory_index va)) ∧
          i = get_page_table_index va) →
      (unmap_page s va).1.tables b i = s.tables b i := by
    intro b i h
    rw [e3]
    exact write_entry_other _ _ _ _ _ _ h
  have hdir : ∀ i, (unmap_page s va).1.tables s.current_page_directory i =
      s.tables s.current_page_directory i := by
    intro i
    apply hother
    rw [hI.1, hT]
    intro h
    have := h.1
    unfold PAGE_DIRECTORY_ADDR at this
    omega
  have hleaf : leaf_entry (unmap_page s va).1 va = { leaf_entry s va with present := false } := by
    unfold leaf_entry
    rw [e1, hdir, e3, write_entry_same]
  refine ⟨e0, hleaf, hother, hdir, e1, e2, ?_⟩
  exact get_physical_address_unmapped (by rw [hleaf])

/-- C18, instance: unmapping the page at `0x00801000` in the state after
`paging_init`. -/
theorem C18_unmap_clears_present_only_witness :
    PagingReach (paging_init PagingState.boot) ∧
    (((paging_init PagingState.boot).tables
          (paging_init PagingState.boot).current_page_directory
          (get_page_directory_index 0x00801000)).present = false →
      unmap_page (paging_init PagingState.boot) 0x00801000 =
        (paging_init PagingState.boot, false)) :=
  ⟨PagingReach.init _ rfl,
    (C18_unmap_clears_present_only (paging_init PagingState.boot) 0x00801000
      (PagingReach.init _ rfl)).1⟩

/-! ## Address translation: the tables built by `paging_init` -/

theorem page_indices_low {v : Nat} (h : v < 0x400000) :
    get_page_directory_index v = 0 ∧ get_page_table_index v = v / 4096 ∧
      (v >>> 12) % 1048576 = v / 4096 := by
  rw [pd_index_eq, pt_index_eq, frame_number_eq v (by unfold WORD; omega)]
  omega

theorem identity_flags :
    decide ((PAGE_PRESENT ||| PAGE_WRITABLE ||| PAGE_GLOBAL) &&& PAGE_PRESENT ≠ 0) = true ∧
    decide ((PAGE_PRESENT ||| PAGE_WRITABLE ||| PAGE_GLOBAL) &&& PAGE_WRITABLE ≠ 0) = true ∧
    decide ((PAGE_PRESENT ||| PAGE_WRITABLE ||| PAGE_GLOBAL) &&& PAGE_USER ≠ 0) = false ∧
    decide ((PAGE_PRESENT ||| PAGE_WRITABLE ||| PAGE_GLOBAL) &&& PAGE_GLOBAL ≠ 0) = true := by
  decide

theorem kernel_flags :
    decide ((PAGE_PRESENT ||| PAGE_WRITABLE) &&& PAGE_PRESENT ≠ 0) = true ∧
    decide ((PAGE_PRESENT ||| PAGE_WRITABLE) &&& PAGE_WRITABLE ≠ 0) = true ∧
    decide ((PAGE_PRESENT ||| PAGE_WRITABLE) &&& PAGE_USER ≠ 0) = false ∧
    decide ((PAGE_PRESENT ||| PAGE_WRITABLE) &&& PAGE_GLOBAL ≠ 0) = false := by
  decide

theorem clear_directory_row (s0 : PagingState) (i : Nat) (hi : i < 1024) :
    (clear_directory s0).tables PAGE_DIRECTORY_ADDR i = page_entry_t.zero := by
  simp [clear_directory, PAGE_DIRECTORY_SIZE, hi]

theorem identity_loop_zero (s : PagingState) : identity_loop 0 s = s := rfl

theorem identity_loop_succ (n : Nat) (s : PagingState) :
    identity_loop (n + 1) s =
      (map_page (identity_loop n s) (n * PAGE_SIZE) (n * PAGE_SIZE)
        (PAGE_PRESENT ||| PAGE_WRITABLE ||| PAGE_GLOBAL)).1 := rfl

theorem kernel_loop_zero (s : PagingState) : kernel_loop 0 s = s := rfl

theorem kernel_loop_succ (n : Nat) (s : PagingState) :
    kernel_loop (n + 1) s =
      (map_page (kernel_loop n s) (0x100000 + n * PAGE_SIZE) (0x100000 + n * PAGE_SIZE)
        (PAGE_PRESENT ||| PAGE_WRITABLE)).1 := rfl

theorem identity_first {s0 : PagingState} (h : s0.next_page_table_addr = PAGE_TABLE_AREA) :
    IdentityMapped (0 + 1)
      (map_page (clear_directory s0) (0 * PAGE_SIZE) (0 * PAGE_SIZE)
        (PAGE_PRESENT ||| PAGE_WRITABLE ||| PAGE_GLOBAL)).1 := by
  have hI := clear_directory_inv h
  have hc : count_present ((clear_directory s0).tables PAGE_DIRECTORY_ADDR) 1024 = 0 :=
    count_present_zero (fun j hj => by rw [clear_directory_row s0 j hj]; rfl)
  obtain ⟨i1, i2, i3⟩ := page_indices_low (show 0 * PAGE_SIZE < 0x400000 by decide)
  have i2' : get_page_table_index (0 * PAGE_SIZE) = 0 := by
    rw [i2]; unfold PAGE_SIZE; omega
  have i3' : (0 * PAGE_SIZE) >>> 12 % 1048576 = 0 := by
    rw [i3]; unfold PAGE_SIZE; omega
  have hp : ((clear_directory s0).tables PAGE_DIRECTORY_ADDR
      (get_page_directory_index (0 * PAGE_SIZE))).present = false := by
    rw [i1, clear_directory_row s0 0 (by omega)]; rfl
  obtain ⟨e1, _, e3⟩ := map_page_absent_tables (0 * PAGE_SIZE) (0 * PAGE_SIZE)
    (PAGE_PRESENT ||| PAGE_WRITABLE ||| PAGE_GLOBAL) hI hp
  rw [hc, i1, i2', i3'] at e3
  obtain ⟨f1, f2, f3, f4⟩ := identity_flags
  rw [f1, f2, f3, f4] at e3
  have hA : PAGE_TABLE_AREA + PAGE_SIZE * 0 = PAGE_TABLE_AREA := rfl
  rw [hA] at e3
  have hne : ¬ PAGE_DIRECTORY_ADDR = PAGE_TABLE_AREA := by decide
  have hne' : ¬ PAGE_TABLE_AREA = PAGE_DIRECTORY_ADDR := by decide
  refine ⟨e1, ?_, ?_, ?_, ?_, ?_⟩
  · rw [e3, write_entry_other _ _ _ _ _ _ (fun h => hne h.1), write_entry_same]
  · rw [e3, write_entry_other _ _ _ _ _ _ (fun h => hne h.1), write_entry_same]
  · intro i hi0 hi
    rw [e3, write_entry_other _ _ _ _ _ _ (fun h => hne h.1),
      write_entry_other _ _ _ _ _ _ (fun h => by omega)]
    simp only [hne, false_and, if_false]
    rw [clear_directory_row s0 i hi]; rfl
  · intro j hj
    have hj0 : j = 0 := by omega
    subst hj0
    rw [e3, write_entry_same]
    rfl
  · intro j hj1 hj
    rw [e3, write_entry_other _ _ _ _ _ _ (fun h => by omega),
      write_entry_other _ _ _ _ _ _ (fun h => hne' h.1)]
    simp [PAGE_TABLE_SIZE, hj]

theorem identity_step {n : Nat} {s : PagingState} (hn : n < 1024) (h : IdentityMapped n s) :
    IdentityMapped (n + 1)
      (map_page s (n * PAGE_SIZE) (n * PAGE_SIZE)
        (PAGE_PRESENT ||| PAGE_WRITABLE ||| PAGE_GLOBAL)).1 := by
  obtain ⟨hD, hp0, ha0, hrest, hleaf, hzero⟩ := h
  have hlow : n * PAGE_SIZE < 0x400000 := by unfold PAGE_SIZE; omega
  obtain ⟨i1, i2, i3⟩ := page_indices_low hlow
  have i2' : get_page_table_index (n * PAGE_SIZE) = n := by
    rw [i2]; unfold PAGE_SIZE; omega
  have i3' : (n * PAGE_SIZE) >>> 12 % 1048576 = n := by
    rw [i3]; unfold PAGE_SIZE; omega
  have hp : (s.tables s.current_page_directory
      (get_page_directory_index (n * PAGE_SIZE))).present = true := by
    rw [hD, i1]; exact hp0
  obtain ⟨e1, _, e3⟩ := map_page_present_tables (n * PAGE_SIZE) (n * PAGE_SIZE)
    (PAGE_PRESENT ||| PAGE_WRITABLE ||| PAGE_GLOBAL) hp
  have hT : table_of (s.tables PAGE_DIRECTORY_ADDR 0) = PAGE_TABLE_AREA := by
    rw [table_of_address ha0 (by omega)]; rfl
  obtain ⟨f1, f2, f3, f4⟩ := identity_flags
  rw [hD, i1, hT, i2', i3', f1, f2, f3, f4, hzero n (Nat.le_refl _) hn] at e3
  have hne : ¬ PAGE_DIRECTORY_ADDR = PAGE_TABLE_AREA := by decide
  refine ⟨by rw [e1]; exact hD, ?_, ?_, ?_, ?_, ?_⟩
  · rw [e3, write_entry_other _ _ _ _ _ _ (fun h => hne h.1)]; exact hp0
  · rw [e3, write_entry_other _ _ _ _ _ _ (fun h => hne h.1)]; exact ha0
  · intro i hi0 hi
    rw [e3, write_entry_other _ _ _ _ _ _ (fun h => hne h.1)]
    exact hrest i hi0 hi
  · intro j hj
    by_cases hjn : j = n
    · subst hjn
      rw [e3, write_entry_same]
      rfl
    · rw [e3, write_entry_other _ _ _ _ _ _ (fun h => hjn h.2)]
      exact hleaf j (by omega)
  · intro j hj1 hj
    rw [e3, write_entry_other _ _ _ _ _ _ (fun h => by omega)]
    exact hzero j (by omega) hj

theorem identity_loop_mapped {s0 : PagingState} (h : s0.next_page_table_addr = PAGE_TABLE_AREA)
    (n : Nat) (hn : n + 1 ≤ 1024) :
    IdentityMapped (n + 1) (identity_loop (n + 1) (clear_directory s0)) := by
  induction n with
  | zero =>
    rw [identity_loop_succ, identity_loop_zero]
    exact identity_first h
  | succ n ih =>
    rw [identity_loop_succ]
    exact identity_step (by omega) (ih (by omega))

theorem kernel_step {m : Nat} {s : PagingState} (hm : m < 256) (h : KernelMapped m s) :
    KernelMapped (m + 1)
      (map_page s (0x100000 + m * PAGE_SIZE) (0x100000 + m * PAGE_SIZE)
        (PAGE_PRESENT ||| PAGE_WRITABLE)).1 := by
  obtain ⟨hD, hp0, ha0, hrest, hleaf⟩ := h
  have hlow : 0x100000 + m * PAGE_SIZE < 0x400000 := by unfold PAGE_SIZE; omega
  obtain ⟨i1, i2, i3⟩ := page_indices_low hlow
  have i2' : get_page_table_index (0x100000 + m * PAGE_SIZE) = 256 + m := by
    rw [i2]; unfold PAGE_SIZE; omega
  have i3' : (0x100000 + m * PAGE_SIZE) >>> 12 % 1048576 = 256 + m := by
    rw [i3]; unfold PAGE_SIZE; omega
  have hp : (s.tables s.current_page_directory
      (get_page_directory_index (0x100000 + m * PAGE_SIZE))).present = true := by
    rw [hD, i1]; exact hp0
  obtain ⟨e1, _, e3⟩ := map_page_present_tables (0x100000 + m * PAGE_SIZE)
    (0x100000 + m * PAGE_SIZE) (PAGE_PRESENT ||| PAGE_WRITABLE) hp
  have hT : table_of (s.tables PAGE_DIRECTORY_ADDR 0) = PAGE_TABLE_AREA := by
    rw [table_of_address ha0 (by omega)]; rfl
  obtain ⟨f1, f2, f3, f4⟩ := kernel_flags
  have hold : s.tables PAGE_TABLE_AREA (256 + m) = identity_leaf (256 + m) := by
    rw [hleaf (256 + m) (by omega), if_neg (by omega)]
  rw [hD, i1, hT, i2', i3', f1, f2, f3, f4, hold] at e3
  have hne : ¬ PAGE_DIRECTORY_ADDR = PAGE_TABLE_AREA := by decide
  refine ⟨by rw [e1]; exact hD, ?_, ?_, ?_, ?_⟩
  · rw [e3, write_entry_other _ _ _ _ _ _ (fun h => hne h.1)]; exact hp0
  · rw [e3, write_entry_other _ _ _ _ _ _ (fun h => hne h.1)]; exact ha0
  · intro i hi0 hi
    rw [e3, write_entry_other _ _ _ _ _ _ (fun h => hne h.1)]
    exact hrest i hi0 hi
  · intro j hj
    by_cases hjn : j = 256 + m
    · subst hjn
      rw [e3, write_entry_same, if_pos (by omega)]
      rfl
    · rw [e3, write_entry_other _ _ _ _ _ _ (fun h => hjn h.2), hleaf j hj]
      by_cases hc : 256 ≤ j ∧ j < 256 + m
      · rw [if_pos hc, if_pos (by omega)]
      · rw [if_neg hc, if_neg (by omega)]

theorem kernel_loop_mapped {s : PagingState} (h : IdentityMapped 1024 s) (m : Nat)
    (hm : m ≤ 256) : KernelMapped m (kernel_loop m s) := by
  induction m with
  | zero =>
    obtain ⟨hD, hp0, ha0, hrest, hleaf, _⟩ := h
    refine ⟨hD, hp0, ha0, hrest, ?_⟩
    intro j hj
    rw [if_neg (by omega)]
    exact hleaf j hj
  | succ m ih =>
    rw [kernel_loop_succ]
    exact kernel_step (by omega) (ih (by omega))

theorem identity_loop_full {s0 : PagingState} (h : s0.next_page_table_addr = PAGE_TABLE_AREA)
    (n : Nat) (hn : n = 1024) : IdentityMapped n (identity_loop n (clear_directory s0)) := by
  obtain ⟨m, rfl⟩ : ∃ m, n = m + 1 := ⟨1023, hn⟩
  exact identity_loop_mapped h m (by omega)

theorem paging_init_mapped {s0 : PagingState} (h : s0.next_page_table_addr = PAGE_TABLE_AREA) :
    KernelMapped 256 (paging_init s0) := by
  unfold paging_init setup_kernel_paging setup_identity_paging
  have e : 0x100000 / PAGE_SIZE = 256 := by decide
  rw [e]
  have hid := identity_loop_full h 1024 rfl
  exact kernel_loop_mapped hid 256 (Nat.le_refl _)

theorem mapped_leaf {s : PagingState} (hK : KernelMapped 256 s)
    {v : Nat} (hv : v < 0x400000) :
    (s.tables s.current_page_directory (get_page_directory_index v)).present = true ∧
    leaf_entry s v =
      if 0x100000 ≤ v ∧ v < 0x200000 then kernel_leaf (v / 4096) else identity_leaf (v / 4096) := by
  obtain ⟨hD, hp0, ha0, _, hleaf⟩ := hK
  obtain ⟨i1, i2, _⟩ := page_indices_low hv
  have hT : table_of (s.tables PAGE_DIRECTORY_ADDR 0) = PAGE_TABLE_AREA := by
    rw [table_of_address ha0 (by omega)]; rfl
  refine ⟨by rw [hD, i1]; exact hp0, ?_⟩
  unfold leaf_entry
  rw [hD, i1, hT, i2, hleaf (v / 4096) (by omega)]
  by_cases hc : 0x100000 ≤ v ∧ v < 0x200000
  · rw [if_pos hc, if_pos (by omega)]
  · rw [if_neg hc, if_neg (by omega)]

theorem initial_leaf {s0 : PagingState} (h : s0.next_page_table_addr = PAGE_TABLE_AREA)
    {v : Nat} (hv : v < 0x400000) :
    ((paging_init s0).tables (paging_init s0).current_page_directory
        (get_page_directory_index v)).present = true ∧
    leaf_entry (paging_init s0) v =
      if 0x100000 ≤ v ∧ v < 0x200000 then kernel_leaf (v / 4096) else identity_leaf (v / 4096) :=
  mapped_leaf (paging_init_mapped h) hv

theorem get_physical_address_no_directory {s : PagingState} {v : Nat}
    (h : (s.tables s.current_page_directory (get_page_directory_index v)).present = false) :
    get_physical_address s v = 0 := by
  simp [get_physical_address, h]

theorem frame_or_offset (v : Nat) (hv : v < WORD) :
    ((v / 4096) <<< 12) % WORD ||| get_page_offset v = v := by
  rw [page_offset_eq, Nat.shiftLeft_eq]
  have e : v / 4096 * 2 ^ 12 % WORD = 2 ^ 12 * (v / 4096) := by
    unfold WORD at *
    omega
  rw [e, ← Nat.mul_add_lt_is_or (by omega : v % 4096 < 2 ^ 12)]
  omega

/-- C19: after `paging_init`, run at program start, `get_physical_address(va)`
is `va` for every `va` below 4MB and 0 (unmapped) for every `va` at or above
4MB. -/
theorem C19_initial_identity_map (s0 : PagingState) (va : Nat)
    (h : s0.next_page_table_addr = PAGE_TABLE_AREA) (hva : va < WORD) :
    (va < 0x400000 → get_physical_address (paging_init s0) va = va) ∧
    (0x400000 ≤ va → get_physical_address (paging_init s0) va = 0) := by
  constructor
  · intro hlow
    obtain ⟨hd, hl⟩ := initial_leaf h hlow
    by_cases hc : 0x100000 ≤ va ∧ va < 0x200000
    · rw [if_pos hc] at hl
      rw [get_physical_address_of hd hl rfl]
      exact frame_or_offset va hva
    · rw [if_neg hc] at hl
      rw [get_physical_address_of hd hl rfl]
      exact frame_or_offset va hva
  · intro hhigh
    obtain ⟨hD, _, _, hrest, _⟩ := paging_init_mapped h
    apply get_physical_address_no_directory
    rw [hD]
    have hpd : get_page_directory_index va = va / 4194304 := by
      rw [pd_index_eq]
      unfold WORD at hva
      omega
    apply hrest
    · rw [hpd]; omega
    · exact pd_index_lt va

/-- C19, instance: the address `0x00123456` after `paging_init` at program
start. -/
theorem C19_initial_identity_map_witness :
    PagingState.boot.next_page_table_addr = PAGE_TABLE_AREA ∧ 0x00123456 < WORD ∧
    (0x00123456 < 0x400000 →
      get_physical_address (paging_init PagingState.boot) 0x00123456 = 0x00123456) :=
  ⟨rfl, by decide,
    (C19_initial_identity_map PagingState.boot 0x00123456 rfl (by decide)).1⟩

/-- C20, counterexample: after `paging_init` the leaf entry of the page at
1MB (`0x100000`), which lies in the first 4MB, has the global flag clear. -/
theorem C20_counterexample_kernel_page :
    0x100000 < 0x400000 ∧
    (leaf_entry (paging_init PagingState.boot) 0x100000).present = true ∧
    (leaf_entry (paging_init PagingState.boot) 0x100000).global = false := by
  have hboot : PagingState.boot.next_page_table_addr = PAGE_TABLE_AREA := rfl
  have hl := (initial_leaf hboot (show 0x100000 < 0x400000 by decide)).2
  rw [if_pos (by decide)] at hl
  refine ⟨by decide, ?_, ?_⟩
  · rw [hl]; rfl
  · rw [hl]; rfl

/-- C20, amended: after `paging_init`, the leaf entry of every 4KB page in the
first 4MB has the present and writable flags set and the user flag clear; the
global flag is set for the pages outside the range 1MB-2MB, which
`setup_kernel_paging` maps again with present and writable only, and clear for
the pages inside it. -/
theorem C20_initial_flags (s0 : PagingState) (va : Nat)
    (h : s0.next_page_table_addr = PAGE_TABLE_AREA) (hva : va < 0x400000) :
    (leaf_entry (paging_init s0) va).present = true ∧
    (leaf_entry (paging_init s0) va).rw = true ∧
    (leaf_entry (paging_init s0) va).user = false ∧
    ((leaf_entry (paging_init s0) va).global = true ↔ ¬ (0x100000 ≤ va ∧ va < 0x200000)) := by
  have hl := (initial_leaf h hva).2
  by_cases hc : 0x100000 ≤ va ∧ va < 0x200000
  · rw [if_pos hc] at hl
    rw [hl]
    simp [kernel_leaf, page_entry_t.zero, hc]
  · rw [if_neg hc] at hl
    rw [hl]
    simp [identity_leaf, page_entry_t.zero, hc]

/-- C20, instance: the page at `0x00003000` after `paging_init` at program
start. -/
theorem C20_initial_flags_witness :
    PagingState.boot.next_page_table_addr = PAGE_TABLE_AREA ∧ 0x00003000 < 0x400000 ∧
    (leaf_entry (paging_init PagingState.boot) 0x00003000).present = true ∧
    (leaf_entry (paging_init PagingState.boot) 0x00003000).rw = true ∧
    (leaf_entry (paging_init PagingState.boot) 0x00003000).user = false :=
  ⟨rfl, by decide,
    (C20_initial_flags PagingState.boot 0x00003000 rfl (by decide)).1,
    (C20_initial_flags PagingState.boot 0x00003000 rfl (by decide)).2.1,
    (C20_initial_flags PagingState.boot 0x00003000 rfl (by decide)).2.2.1⟩

/-! ## Frames reserved at boot -/

theorem mapped_table {s : PagingState} (hK : KernelMapped 256 s) :
    s.current_page_directory = 0x1000000 ∧ table_of (s.tables 0x1000000 0) = 0x700000 := by
  obtain ⟨hD, _, ha0, _, _⟩ := hK
  have e : PAGE_DIRECTORY_ADDR = 0x1000000 := rfl
  rw [e] at hD ha0
  refine ⟨hD, ?_⟩
  rw [table_of_address ha0 (by omega)]

theorem init_page_allocated (s : MemState) (a : Nat) (ha : a / PAGE_SIZE < BITMAP_WORDS * 32) :
    is_page_allocated (memory_init s) a = decide (a / PAGE_SIZE < USED_PAGES) := by
  unfold is_page_allocated
  exact memory_init_get _ _ ha

theorem init_alloc_257 (s : MemState) : 0x700000 ∈ (alloc_pages 257 (memory_init s)).2 := by
  rw [(alloc_pages_usedBelow 257 (memory_init_usedBelow s)
    (by decide : 0 < USED_PAGES) (by decide)).1 (by decide)]
  exact List.mem_map.2 ⟨256, List.mem_range.2 (by decide), by decide⟩

/-- C11, failing input: the state after `memory_init`.  Frame 0 and the two
frames of the bitmap at `0x500000` are marked used, but the frame of the page
directory (`0x1000000`) and the frame of the page table created by
`paging_init` (`0x700000`) are free, and the 257th `alloc_physical_page`
returns `0x700000`. -/
theorem C11_table_storage_not_reserved :
    (paging_init PagingState.boot).current_page_directory = 0x1000000 ∧
    table_of ((paging_init PagingState.boot).tables 0x1000000 0) = 0x700000 ∧
    is_page_allocated (memory_init MemState.zero) 0 = true ∧
    is_page_allocated (memory_init MemState.zero) 0x500000 = true ∧
    is_page_allocated (memory_init MemState.zero) 0x501000 = true ∧
    is_page_allocated (memory_init MemState.zero) 0x1000000 = false ∧
    is_page_allocated (memory_init MemState.zero) 0x700000 = false ∧
    0x700000 ∈ (alloc_pages 257 (memory_init MemState.zero)).2 := by
  have hboot : PagingState.boot.next_page_table_addr = PAGE_TABLE_AREA := rfl
  have hm := mapped_table (paging_init_mapped hboot)
  refine ⟨hm.1, hm.2, ?_, ?_, ?_, ?_, ?_, init_alloc_257 _⟩
  · rw [init_page_allocated _ 0 (by decide)]; decide
  · rw [init_page_allocated _ 0x500000 (by decide)]; decide
  · rw [init_page_allocated _ 0x501000 (by decide)]; decide
  · rw [init_page_allocated _ 0x1000000 (by decide)]; decide
  · rw [init_page_allocated _ 0x700000 (by decide)]; decide

/-! ## Address translation: lazy creation of page tables -/

/-- C21: in a state reachable from `paging_init`, `map_page(va, pa, flags)`
returns true.  When the directory entry of `va` is not present, exactly one
table is handed out (the watermark of `create_page_table` advances by one
page); the directory entry becomes present, writable and user and names the
new table, the other directory entries are unchanged, every entry of the new
table other than the leaf of `va` is zero, and the leaf holds the frame of `pa`
with exactly the present, writable, user and global bits of `flags`.  When the
directory entry is present, no table is handed out, the whole directory and
every other entry of the table are unchanged, and the leaf of `va` carries
exactly the requested flags. -/
theorem C21_lazy_page_table_creation (s : PagingState) (va pa flags : Nat)
    (hs : PagingReach s) :
    (map_page s va pa flags).2 = true ∧
    ((s.tables s.current_page_directory (get_page_directory_index va)).present = false →
      (map_page s va pa flags).1.current_page_directory = s.current_page_directory ∧
      (map_page s va pa flags).1.next_page_table_addr = s.next_page_table_addr + PAGE_SIZE ∧
      ((map_page s va pa flags).1.tables s.current_page_directory
        (get_page_directory_index va)).present = true ∧
      ((map_page s va pa flags).1.tables s.current_page_directory
        (get_page_directory_index va)).rw = true ∧
      ((map_page s va pa flags).1.tables s.current_page_directory
        (get_page_directory_index va)).user = true ∧
      table_of ((map_page s va pa flags).1.tables s.current_page_directory
        (get_page_directory_index va)) = s.next_page_table_addr ∧
      (∀ i, i ≠ get_page_directory_index va →
        (map_page s va pa flags).1.tables s.current_page_directory i =
          s.tables s.current_page_directory i) ∧
      (∀ j, j < 1024 → j ≠ get_page_table_index va →
        (map_page s va pa flags).1.tables s.next_page_table_addr j = page_entry_t.zero) ∧
      (map_page s va pa flags).1.tables s.next_page_table_addr (get_page_table_index va) =
        { page_entry_t.zero with
          address := (pa >>> 12) % 1048576
          present := decide (flags &&& PAGE_PRESENT ≠ 0)
          rw := decide (flags &&& PAGE_WRITABLE ≠ 0)
          user := decide (flags &&& PAGE_USER ≠ 0)
          global := decide (flags &&& PAGE_GLOBAL ≠ 0) }) ∧
    ((s.tables s.current_page_directory (get_page_directory_index va)).present = true →
      (map_page s va pa flags).1.current_page_directory = s.current_page_directory ∧
      (map_page s va pa flags).1.next_page_table_addr = s.next_page_table_addr ∧
      (∀ i, (map_page s va pa flags).1.tables s.current_page_directory i =
          s.tables s.current_page_directory i) ∧
      (∀ j, j ≠ get_page_table_index va →
        (map_page s va pa flags).1.tables
            (table_of (s.tables s.current_page_directory (get_page_directory_index va))) j =
          s.tables
            (table_of (s.tables s.current_page_directory (get_page_directory_index va))) j) ∧
      (map_page s va pa flags).1.tables
          (table_of (s.tables s.current_page_directory (get_page_directory_index va)))
          (get_page_table_index va) =
        { s.tables
              (table_of (s.tables s.current_page_directory (get_page_directory_index va)))
              (get_page_table_index va) with
          address := (pa >>> 12) % 1048576
          present := decide (flags &&& PAGE_PRESENT ≠ 0)
          rw := decide (flags &&& PAGE_WRITABLE ≠ 0)
          user := decide (flags &&& PAGE_USER ≠ 0)
          global := decide (flags &&& PAGE_GLOBAL ≠ 0) }) := by
  have hI := PagingReach_inv hs
  obtain ⟨hD, hW, hA⟩ := hI
  have hcl := count_present_le (s.tables PAGE_DIRECTORY_ADDR) 1024
  refine ⟨(map_page_leaf va pa flags ⟨hD, hW, hA⟩).1, ?_, ?_⟩
  · intro hp
    rw [hD] at hp
    have hk := count_present_lt (pd_index_lt va) hp
    obtain ⟨e1, e2, e3⟩ := map_page_absent_tables va pa flags ⟨hD, hW, hA⟩ hp
    have hne := table_area_ne_dir _ hk
    rw [hD, hW, e1, e2, e3]
    refine ⟨rfl, ?_, ?_, ?_, ?_, ?_, ?_, ?_, ?_⟩
    · simp only [PAGE_SIZE]; omega
    · rw [write_entry_other _ _ _ _ _ _ (fun h => hne h.1), write_entry_same]
    · rw [write_entry_other _ _ _ _ _ _ (fun h => hne h.1), write_entry_same]
    · rw [write_entry_other _ _ _ _ _ _ (fun h => hne h.1), write_entry_same]
    · rw [write_entry_other _ _ _ _ _ _ (fun h => hne h.1), write_entry_same]
      rw [@table_of_address _ (0x700 + count_present (s.tables PAGE_DIRECTORY_ADDR) 1024) rfl
        (by omega)]
      simp only [PAGE_TABLE_AREA, PAGE_SIZE]; omega
    · intro i hi
      rw [write_entry_other _ _ _ _ _ _ (fun h => hne h.1),
        write_entry_other _ _ _ _ _ _ (fun h => hi h.2)]
      exact if_neg (fun h => hne h.1)
    · intro j hj hjn
      rw [write_entry_other _ _ _ _ _ _ (fun h => hjn h.2),
        write_entry_other _ _ _ _ _ _ (fun h => hne h.1.symm)]
      exact if_pos ⟨rfl, hj⟩
    · rw [write_entry_same]
  · intro hp
    obtain ⟨e1, e2, e3⟩ := map_page_present_tables va pa flags hp
    rw [hD] at hp e3 ⊢
    obtain ⟨j, hj, hT⟩ := inv_table_of ⟨hD, hW, hA⟩ (pd_index_lt va) hp
    have hne : PAGE_DIRECTORY_ADDR ≠ 0x700000 + 4096 * j := table_area_ne_dir j hj
    rw [e2, e3, hT]
    refine ⟨by rw [e1, hD], rfl, ?_, ?_, ?_⟩
    · intro i
      rw [write_entry_other _ _ _ _ _ _ (fun h => hne h.1)]
    · intro i hi
      rw [write_entry_other _ _ _ _ _ _ (fun h => hi h.2)]
    · rw [write_entry_same]

/-- C21, instance: after `paging_init` at program start, the mapping of the
address `0x00400000`, whose directory entry is not yet present. -/
theorem C21_lazy_page_table_creation_witness :
    PagingReach (paging_init PagingState.boot) ∧
    (map_page (paging_init PagingState.boot) 0x400000 0x800000
      (PAGE_PRESENT ||| PAGE_WRITABLE)).2 = true :=
  ⟨PagingReach.init _ rfl,
    (C21_lazy_page_table_creation (paging_init PagingState.boot) 0x400000 0x800000
      (PAGE_PRESENT ||| PAGE_WRITABLE) (PagingReach.init _ rfl)).1⟩

/-! ## Process manager: failing call sequences -/

theorem find_self_loop (pool : Nat → pcb_t) (c pid : Nat) (hn : (pool c).next = some c)
    (hp : (pool c).pid ≠ pid) (fuel : Nat) :
    find_process_in_queue pool fuel (some c) pid = none := by
  induction fuel with
  | zero => rfl
  | succ n ih => simp [find_process_in_queue, hp, hn, ih]

theorem find_none (pool : Nat → pcb_t) (pid : Nat) (fuel : Nat) :
    find_process_in_queue pool fuel none pid = some none := by
  cases fuel <;> rfl

/-- No amount of fuel lets `process_get_by_pid` return when the terminated
queue is a PCB linked to itself and the PID is found nowhere. -/
theorem get_by_pid_hangs (s : ProcState) (pid r t : Nat)
    (hr : s.g_process_manager.running_process = some r) (hrp : (s.process_pool r).pid ≠ pid)
    (h1 : s.g_process_manager.ready_queue = none)
    (h2 : s.g_process_manager.blocked_queue = none)
    (h3 : s.g_process_manager.terminated_queue = some t)
    (hn : (s.process_pool t).next = some t) (hp : (s.process_pool t).pid ≠ pid)
    (fuel : Nat) : process_get_by_pid fuel s pid = none := by
  simp [process_get_by_pid, hr, hrp, h1, h2, h3, find_none, find_self_loop _ _ _ hn hp]

theorem terminate_twice_hangs (fuel : Nat) :
    process_get_by_pid fuel (state_after 64 boot_state terminate_twice_calls) 9999 = none :=
  get_by_pid_hangs (state_after 64 boot_state terminate_twice_calls) 9999 0 1
    (by decide) (by decide) (by decide) (by decide) (by decide) (by decide) (by decide) fuel

/-- C24, failing input: boot with the whole heap allocated, then
`process_create("a", 0x100000, NORMAL, 4096)`.  The call returns PID 1 and
`process_get_by_pid(1)` is the ready PCB at the head of the ready queue, but no
stack was allocated (the heap is unchanged, `stack_base` is `NULL`): the
instruction pointer is 0, not the entry point, and the stack pointer is 0, not
`stack_base + stack_size - 16`. -/
theorem C24_create_without_stack :
    (process_create heap_exhausted_state (some ['a']) 0x100000 PROCESS_PRIORITY_NORMAL
      DEFAULT_STACK_SIZE).2 = 1 ∧
    process_get_by_pid 64
      (process_create heap_exhausted_state (some ['a']) 0x100000 PROCESS_PRIORITY_NORMAL
        DEFAULT_STACK_SIZE).1 1 = some (some 1) ∧
    (process_create heap_exhausted_state (some ['a']) 0x100000 PROCESS_PRIORITY_NORMAL
      DEFAULT_STACK_SIZE).1.g_process_manager.ready_queue = some 1 ∧
    ((process_create heap_exhausted_state (some ['a']) 0x100000 PROCESS_PRIORITY_NORMAL
      DEFAULT_STACK_SIZE).1.process_pool 1).state = PROCESS_STATE_READY ∧
    ((process_create heap_exhausted_state (some ['a']) 0x100000 PROCESS_PRIORITY_NORMAL
      DEFAULT_STACK_SIZE).1.process_pool 1).eip = 0 ∧
    ((process_create heap_exhausted_state (some ['a']) 0x100000 PROCESS_PRIORITY_NORMAL
      DEFAULT_STACK_SIZE).1.process_pool 1).esp = 0 ∧
    ((process_create heap_exhausted_state (some ['a']) 0x100000 PROCESS_PRIORITY_NORMAL
      DEFAULT_STACK_SIZE).1.process_pool 1).stack_base = 0 ∧
    ((process_create heap_exhausted_state (some ['a']) 0x100000 PROCESS_PRIORITY_NORMAL
      DEFAULT_STACK_SIZE).1.process_pool 1).stack_size = 4096 ∧
    (process_create heap_exhausted_state (some ['a']) 0x100000 PROCESS_PRIORITY_NORMAL
      DEFAULT_STACK_SIZE).1.mem.memory_map = heap_exhausted_state.mem.memory_map := by
  refine ⟨by decide, by decide, by decide, by decide, by decide, by decide, by decide,
    by decide, by decide⟩

/-- C25, failing input: boot, create PID 1, terminate it, create PID 2 (which
reuses pool slot 1), create PID 3, terminate PID 3; every call succeeds.  PID 2
is then the only PCB of the ready queue, in state ready, and the list is idle
and PID 2.  `process_terminate(2)` returns Success, but afterwards the ready
queue still starts at the PCB of PID 2 and continues with the PCB of PID 3, and
the list has three entries, PID 2 among them, instead of one. -/
theorem C25_terminated_pid_stays_in_ready_queue :
    returns_of 64 boot_state stale_link_calls = some [1, 0, 2, 3, 0] ∧
    queue_slots (state_after 64 boot_state stale_link_calls).process_pool 64
      (state_after 64 boot_state stale_link_calls).g_process_manager.ready_queue = some [1] ∧
    ((state_after 64 boot_state stale_link_calls).process_pool 1).pid = 2 ∧
    ((state_after 64 boot_state stale_link_calls).process_pool 1).state = PROCESS_STATE_READY ∧
    (state_after 64 boot_state stale_link_calls).process_pool_used 1 = true ∧
    listed (state_after 64 boot_state stale_link_calls) =
      [(0, PROCESS_STATE_RUNNING), (2, PROCESS_STATE_READY)] ∧
    returns_of 64 boot_state (stale_link_calls ++ [proc_op.terminate 2]) =
      some [1, 0, 2, 3, 0, 0] ∧
    queue_slots
        (state_after 64 boot_state (stale_link_calls ++ [proc_op.terminate 2])).process_pool 64
        (state_after 64 boot_state
          (stale_link_calls ++ [proc_op.terminate 2])).g_process_manager.ready_queue =
      some [1, 2] ∧
    listed (state_after 64 boot_state (stale_link_calls ++ [proc_op.terminate 2])) =
      [(0, PROCESS_STATE_RUNNING), (2, PROCESS_STATE_TERMINATED),
        (3, PROCESS_STATE_TERMINATED)] := by
  refine ⟨by decide, by decide, by decide, by decide, by decide, by decide, by decide,
    by decide, by decide⟩

/-- C26, failing input: boot, create PID 1, `process_terminate(1)` twice; all
three calls succeed.  No PCB of the pool has PID 9999, yet
`process_terminate(9999)` does not return, whatever the fuel: the second
termination has linked the PCB of PID 1 to itself on the terminated queue. -/
theorem C26_terminate_unknown_pid_never_returns :
    returns_of 64 boot_state terminate_twice_calls = some [1, 0, 0] ∧
    (∀ i, i < 64 →
      ((state_after 64 boot_state terminate_twice_calls).process_pool i).pid ≠ 9999) ∧
    (state_after 64 boot_state terminate_twice_calls).g_process_manager.terminated_queue =
      some 1 ∧
    ((state_after 64 boot_state terminate_twice_calls).process_pool 1).next = some 1 ∧
    ∀ fuel,
      process_terminate fuel (state_after 64 boot_state terminate_twice_calls) 9999 = none := by
  refine ⟨by decide, by decide, by decide, by decide, ?_⟩
  intro fuel
  simp [process_terminate, terminate_twice_hangs fuel]

/-- C27, failing input: boot, create PID 1, `process_terminate(1)` twice, a
state reached through create and terminate.  `process_set_priority(9999, 3)`
does not return, whatever the fuel, although PID 9999 belongs to no process. -/
theorem C27_set_priority_unknown_pid_never_returns :
    returns_of 64 boot_state terminate_twice_calls = some [1, 0, 0] ∧
    (∀ i, i < 64 →
      ((state_after 64 boot_state terminate_twice_calls).process_pool i).pid ≠ 9999) ∧
    ∀ fuel,
      process_set_priority fuel (state_after 64 boot_state terminate_twice_calls) 9999
        PROCESS_PRIORITY_HIGH = none := by
  refine ⟨by decide, by decide, ?_⟩
  intro fuel
  simp [process_set_priority, terminate_twice_hangs fuel]

/-- C28, failing input: boot, create PID 1 and PID 2, terminate PID 1, PID 2
and PID 2 again; every call returns Success.  The PCB of PID 1 is terminated
and its pool slot is free, but the last call has made it the head of the ready
queue, and `process_get_list` returns it after the idle process. -/
theorem C28_terminated_process_listed :
    returns_of 64 boot_state relisted_calls = some [1, 2, 0, 0, 0] ∧
    process_get_by_pid 64 (state_after 64 boot_state relisted_calls) 1 = some (some 1) ∧
    ((state_after 64 boot_state relisted_calls).process_pool 1).state =
      PROCESS_STATE_TERMINATED ∧
    (state_after 64 boot_state relisted_calls).process_pool_used 1 = false ∧
    (process_get_list (state_after 64 boot_state relisted_calls) true true MAX_PROCESSES).1 =
      PROCESS_SUCCESS ∧
    listed (state_after 64 boot_state relisted_calls) =
      [(0, PROCESS_STATE_RUNNING), (1, PROCESS_STATE_TERMINATED)] := by
  refine ⟨by decide, by decide, by decide, by decide, by decide, by decide⟩

/-- C30, failing input: boot, create PID 1, terminate the idle process (PID 0)
and PID 1, create PID 2, terminate PID 1 again; every call succeeds.  PID 2 is
a live ready process in pool slot 0 whose 4096-byte stack at `0x200014` was
allocated by its `process_create` (the free total was then 1044440); the
terminated PCB of PID 1 in slot 1 still holds `stack_base = 0x200014`, and the
second termination of PID 1 has freed that block through it.
`process_terminate(2)` returns Success and the total of free bytes is 1048556
before and after. -/
theorem C30_stack_already_freed :
    returns_of 64 boot_state stale_stack_calls = some [1, 0, 0, 2, 0] ∧
    (kmalloc (state_after 64 boot_state
      [create_op ['a'], proc_op.terminate 0, proc_op.terminate 1]).mem 4096).2 = 0x200014 ∧
    ((state_after 64 boot_state
      [create_op ['a'], proc_op.terminate 0, proc_op.terminate 1,
        create_op ['c']]).process_pool 1).pid = 1 ∧
    ((state_after 64 boot_state
      [create_op ['a'], proc_op.terminate 0, proc_op.terminate 1,
        create_op ['c']]).process_pool 1).state = PROCESS_STATE_TERMINATED ∧
    ((state_after 64 boot_state
      [create_op ['a'], proc_op.terminate 0, proc_op.terminate 1,
        create_op ['c']]).process_pool 1).stack_base = 0x200014 ∧
    total_free (state_after 64 boot_state
      [create_op ['a'], proc_op.terminate 0, proc_op.terminate 1,
        create_op ['c']]).mem.memory_map = 1044440 ∧
    process_get_by_pid 64 (state_after 64 boot_state stale_stack_calls) 2 = some (some 0) ∧
    ((state_after 64 boot_state stale_stack_calls).process_pool 0).state =
      PROCESS_STATE_READY ∧
    (state_after 64 boot_state stale_stack_calls).process_pool_used 0 = true ∧
    ((state_after 64 boot_state stale_stack_calls).process_pool 0).stack_base = 0x200014 ∧
    ((state_after 64 boot_state stale_stack_calls).process_pool 0).stack_size = 4096 ∧
    total_free (state_after 64 boot_state stale_stack_calls).mem.memory_map = 1048556 ∧
    returns_of 64 boot_state (stale_stack_calls ++ [proc_op.terminate 2]) =
      some [1, 0, 0, 2, 0, 0] ∧
    total_free (state_after 64 boot_state
      (stale_stack_calls ++ [proc_op.terminate 2])).mem.memory_map = 1048556 := by
  refine ⟨by decide, by decide, by decide, by decide, by decide, by decide, by decide,
    by decide, by decide, by decide, by decide, by decide, by decide, by decide⟩

/-! ## Process manager: queue operations on well-formed lists -/

theorem first_unused_spec (used : Nat → Bool) (d : Nat) :
    ∀ i n, (∀ j, i ≤ j → j < i + d → used j = true) → used (i + d) = false → d < n →
      first_unused used i n = some (i + d) := by
  induction d with
  | zero =>
    intro i n _ h0 hn
    obtain ⟨m, rfl⟩ : ∃ m, n = m + 1 := ⟨n - 1, by omega⟩
    simp [first_unused, show used i = false from h0]
  | succ d ih =>
    intro i n h1 h0 hn
    obtain ⟨m, rfl⟩ : ∃ m, n = m + 1 := ⟨n - 1, by omega⟩
    have hi : used i = true := h1 i (Nat.le_refl _) (by omega)
    have := ih (i + 1) m (fun j hj1 hj2 => h1 j (by omega) (by omega))
      (by rw [show i + 1 + d = i + (d + 1) by omega]; exact h0) (by omega)
    simp [first_unused, hi, this]
    omega

theorem NextList_congr {pool pool2 : Nat → pcb_t} {l : List Nat} :
    ∀ {head : Option Nat}, (∀ c ∈ l, (pool2 c).next = (pool c).next) →
      NextList pool head l → NextList pool2 head l := by
  induction l with
  | nil => intro head _ h; exact h
  | cons a l ih =>
    intro head hc h
    refine ⟨h.1, ?_⟩
    rw [hc a (List.mem_cons_self _ _)]
    exact ih (fun c hcm => hc c (List.mem_cons_of_mem _ hcm)) h.2

theorem PrevList_congr {pool pool2 : Nat → pcb_t} {l : List Nat} :
    ∀ {prev : Option Nat}, (∀ c ∈ l, (pool2 c).prev = (pool c).prev) →
      PrevList pool prev l → PrevList pool2 prev l := by
  induction l with
  | nil => intro prev _ h; exact h
  | cons a l ih =>
    intro prev hc h
    refine ⟨by rw [hc a (List.mem_cons_self _ _)]; exact h.1, ?_⟩
    exact ih (fun c hcm => hc c (List.mem_cons_of_mem _ hcm)) h.2

/-- The search of a well-formed queue for the PID of one of its slots. -/
theorem find_in_NextList {pool : Nat → pcb_t} {l : List Nat} (hpid : ∀ c ∈ l, (pool c).pid = c) :
    ∀ {head : Option Nat} (fuel : Nat), NextList pool head l → l.length ≤ fuel →
      ∀ p, p ∈ l → find_process_in_queue pool fuel head p = some (some p) := by
  induction l with
  | nil => intro head fuel _ _ p hp; cases hp
  | cons a l ih =>
    intro head fuel h hf p hp
    obtain ⟨m, rfl⟩ : ∃ m, fuel = m + 1 := ⟨fuel - 1, by simp at hf; omega⟩
    rw [h.1]
    by_cases hpa : p = a
    · subst hpa
      simp [find_process_in_queue, hpid p (List.mem_cons_self _ _)]
    · have hmem : p ∈ l := by
        rcases List.mem_cons.1 hp with h1 | h1
        · exact absurd h1 hpa
        · exact h1
      have hne : ¬ (pool a).pid = p := by
        rw [hpid a (List.mem_cons_self _ _)]; exact fun h => hpa h.symm
      simp only [find_process_in_queue, hne, if_false]
      exact ih (fun c hc => hpid c (List.mem_cons_of_mem _ hc)) m h.2
        (by simp at hf; omega) p hmem

theorem update_pcb_pool (s : ProcState) (i : Nat) (f : pcb_t → pcb_t) (c : Nat) :
    (update_pcb s i f).process_pool c = if c = i then f (s.process_pool i) else s.process_pool c := by
  unfold update_pcb
  by_cases h : c = i
  · subst h; simp
  · simp [Function.update_noteq h, h]

theorem update_pcb_mgr (s : ProcState) (i : Nat) (f : pcb_t → pcb_t) :
    (update_pcb s i f).g_process_manager = s.g_process_manager := rfl

theorem update_pcb_used (s : ProcState) (i : Nat) (f : pcb_t → pcb_t) :
    (update_pcb s i f).process_pool_used = s.process_pool_used := rfl

theorem update_pcb_mem (s : ProcState) (i : Nat) (f : pcb_t → pcb_t) :
    (update_pcb s i f).mem = s.mem := rfl

/-- The effect of `remove_from_queue` on the links, queue heads and other
fields, for a PCB that is not linked to itself. -/
theorem remove_from_queue_spec (s : ProcState) (q : queue_t) (p : Nat)
    (hX : (s.process_pool p).prev ≠ some p) (hY : (s.process_pool p).next ≠ some p) :
    (∀ c, c ≠ p → ((remove_from_queue s q (some p)).process_pool c).next =
      if (s.process_pool p).prev = some c then (s.process_pool p).next
      else (s.process_pool c).next) ∧
    (∀ c, c ≠ p → ((remove_from_queue s q (some p)).process_pool c).prev =
      if (s.process_pool p).next = some c then (s.process_pool p).prev
      else (s.process_pool c).prev) ∧
    ((remove_from_queue s q (some p)).process_pool p).next = none ∧
    ((remove_from_queue s q (some p)).process_pool p).prev = none ∧
    (∀ c, ((remove_from_queue s q (some p)).process_pool c).pid = (s.process_pool c).pid) ∧
    (∀ c, ((remove_from_queue s q (some p)).process_pool c).state = (s.process_pool c).state) ∧
    (remove_from_queue s q (some p)).g_process_manager =
      (if (s.process_pool p).prev = none then
        set_queue_head s.g_process_manager q (s.process_pool p).next
      else s.g_process_manager) ∧
    (remove_from_queue s q (some p)).process_pool_used = s.process_pool_used ∧
    (remove_from_queue s q (some p)).mem = s.mem := by
  cases hx : (s.process_pool p).prev with
  | none =>
    cases hy : (s.process_pool p).next with
    | none =>
      refine ⟨?_, ?_, ?_, ?_, ?_, ?_, ?_, ?_, ?_⟩
      · intro c hc
        simp [remove_from_queue, hx, hy, update_pcb_pool, hc]
      · intro c hc
        simp [remove_from_queue, hx, hy, update_pcb_pool, hc]
      · simp [remove_from_queue, hx, hy, update_pcb_pool]
      · simp [remove_from_queue, hx, hy, update_pcb_pool]
      · intro c
        by_cases hc : c = p <;> simp [remove_from_queue, hx, hy, update_pcb_pool, hc]
      · intro c
        by_cases hc : c = p <;> simp [remove_from_queue, hx, hy, update_pcb_pool, hc]
      · simp [remove_from_queue, hx, hy, update_pcb_mgr]
      · simp [remove_from_queue, hx, hy, update_pcb_used]
      · simp [remove_from_queue, hx, hy, update_pcb_mem]
    | some n =>
      have hn : n ≠ p := fun h => hY (by rw [hy, h])
      have hn2 : p ≠ n := fun h => hn h.symm
      refine ⟨?_, ?_, ?_, ?_, ?_, ?_, ?_, ?_, ?_⟩
      · intro c hc
        by_cases hcn : c = n <;>
          simp [remove_from_queue, hx, hy, update_pcb_pool, hc, hn, hn2, hcn]
      · intro c hc
        by_cases hcn : c = n
        · simp [remove_from_queue, hx, hy, update_pcb_pool, hc, hn, hn2, hcn]
        · have hcn2 : ¬ n = c := fun h => hcn h.symm
          simp [remove_from_queue, hx, hy, update_pcb_pool, hc, hn, hn2, hcn, hcn2]
      · simp [remove_from_queue, hx, hy, update_pcb_pool, hn, hn2]
      · simp [remove_from_queue, hx, hy, update_pcb_pool, hn, hn2]
      · intro c
        by_cases hc : c = p <;> by_cases hcn : c = n <;>
          simp [remove_from_queue, hx, hy, update_pcb_pool, hc, hn, hn2, hcn]
      · intro c
        by_cases hc : c = p <;> by_cases hcn : c = n <;>
          simp [remove_from_queue, hx, hy, update_pcb_pool, hc, hn, hn2, hcn]
      · simp [remove_from_queue, hx, hy, update_pcb_mgr]
      · simp [remove_from_queue, hx, hy, update_pcb_used]
      · simp [remove_from_queue, hx, hy, update_pcb_mem]
  | some x =>
    have hxp : x ≠ p := fun h => hX (by rw [hx, h])
    have hxp2 : p ≠ x := fun h => hxp h.symm
    cases hy : (s.process_pool p).next with
    | none =>
      refine ⟨?_, ?_, ?_, ?_, ?_, ?_, ?_, ?_, ?_⟩
      · intro c hc
        by_cases hcx : c = x
        · simp [remove_from_queue, hx, hy, update_pcb_pool, hc, hxp, hxp2, hcx]
        · have hcx2 : ¬ x = c := fun h => hcx h.symm
          simp [remove_from_queue, hx, hy, update_pcb_pool, hc, hxp, hxp2, hcx, hcx2]
      · intro c hc
        by_cases hcx : c = x <;>
          simp [remove_from_queue, hx, hy, update_pcb_pool, hc, hxp, hxp2, hcx]
      · simp [remove_from_queue, hx, hy, update_pcb_pool, hxp, hxp2]
      · simp [remove_from_queue, hx, hy, update_pcb_pool, hxp, hxp2]
      · intro c
        by_cases hc : c = p <;> by_cases hcx : c = x <;>
          simp [remove_from_queue, hx, hy, update_pcb_pool, hc, hxp, hxp2, hcx]
      · intro c
        by_cases hc : c = p <;> by_cases hcx : c = x <;>
          simp [remove_from_queue, hx, hy, update_pcb_pool, hc, hxp, hxp2, hcx]
      · simp [remove_from_queue, hx, hy, update_pcb_pool, update_pcb_mgr, hxp, hxp2]
      · simp [remove_from_queue, hx, hy, update_pcb_pool, update_pcb_used, hxp, hxp2]
      · simp [remove_from_queue, hx, hy, update_pcb_pool, update_pcb_mem, hxp, hxp2]
    | some n =>
      have hn : n ≠ p := fun h => hY (by rw [hy, h])
      have hn2 : p ≠ n := fun h => hn h.symm
      refine ⟨?_, ?_, ?_, ?_, ?_, ?_, ?_, ?_, ?_⟩
      · intro c hc
        by_cases hcx : x = c
        · subst hcx
          by_cases hcn : n = x
          · subst hcn
            simp [remove_from_queue, hx, hy, update_pcb_pool, hc, hxp, hxp2]
          · have hcn2 : ¬ x = n := fun h => hcn h.symm
            simp [remove_from_queue, hx, hy, update_pcb_pool, hc, hxp, hxp2, hn, hn2, hcn, hcn2]
        · have hcx2 : ¬ c = x := fun h => hcx h.symm
          by_cases hcn : n = c
          · subst hcn
            simp [remove_from_queue, hx, hy, update_pcb_pool, hc, hxp, hxp2, hcx, hcx2, hn, hn2]
          · have hcn2 : ¬ c = n := fun h => hcn h.symm
            simp [remove_from_queue, hx, hy, update_pcb_pool, hc, hxp, hxp2, hcx, hcx2, hn, hn2,
              hcn, hcn2]
      · intro c hc
        by_cases hcx : x = c
        · subst hcx
          by_cases hcn : n = x
          · subst hcn
            simp [remove_from_queue, hx, hy, update_pcb_pool, hc, hxp, hxp2]
          · have hcn2 : ¬ x = n := fun h => hcn h.symm
            simp [remove_from_queue, hx, hy, update_pcb_pool, hc, hxp, hxp2, hn, hn2, hcn, hcn2]
        · have hcx2 : ¬ c = x := fun h => hcx h.symm
          by_cases hcn : n = c
          · subst hcn
            simp [remove_from_queue, hx, hy, update_pcb_pool, hc, hxp, hxp2, hcx, hcx2, hn, hn2]
          · have hcn2 : ¬ c = n := fun h => hcn h.symm
            simp [remove_from_queue, hx, hy, update_pcb_pool, hc, hxp, hxp2, hcx, hcx2, hn, hn2,
              hcn, hcn2]
      · simp [remove_from_queue, hx, hy, update_pcb_pool, hxp, hxp2, hn, hn2]
      · simp [remove_from_queue, hx, hy, update_pcb_pool, hxp, hxp2, hn, hn2]
      · intro c
        by_cases hc : c = p
        · subst hc
          simp [remove_from_queue, hx, hy, update_pcb_pool, hxp, hxp2, hn, hn2]
        · by_cases hcx : x = c
          · subst hcx
            by_cases hcn : n = x
            · subst hcn
              simp [remove_from_queue, hx, hy, update_pcb_pool, hc, hxp, hxp2]
            · have hcn2 : ¬ x = n := fun h => hcn h.symm
              simp [remove_from_queue, hx, hy, update_pcb_pool, hc, hxp, hxp2, hn, hn2, hcn, hcn2]
          · have hcx2 : ¬ c = x := fun h => hcx h.symm
            by_cases hcn : n = c
            · subst hcn
              simp [remove_from_queue, hx, hy, update_pcb_pool, hc, hxp, hxp2, hcx, hcx2, hn, hn2]
            · have hcn2 : ¬ c = n := fun h => hcn h.symm
              simp [remove_from_queue, hx, hy, update_pcb_pool, hc, hxp, hxp2, hcx, hcx2, hn,
                hn2, hcn, hcn2]
      · intro c
        by_cases hc : c = p
        · subst hc
          simp [remove_from_queue, hx, hy, update_pcb_pool, hxp, hxp2, hn, hn2]
        · by_cases hcx : x = c
          · subst hcx
            by_cases hcn : n = x
            · subst hcn
              simp [remove_from_queue, hx, hy, update_pcb_pool, hc, hxp, hxp2]
            · have hcn2 : ¬ x = n := fun h => hcn h.symm
              simp [remove_from_queue, hx, hy, update_pcb_pool, hc, hxp, hxp2, hn, hn2, hcn, hcn2]
          · have hcx2 : ¬ c = x := fun h => hcx h.symm
            by_cases hcn : n = c
            · subst hcn
              simp [remove_from_queue, hx, hy, update_pcb_pool, hc, hxp, hxp2, hcx, hcx2, hn, hn2]
            · have hcn2 : ¬ c = n := fun h => hcn h.symm
              simp [remove_from_queue, hx, hy, update_pcb_pool, hc, hxp, hxp2, hcx, hcx2, hn,
                hn2, hcn, hcn2]
      · simp [remove_from_queue, hx, hy, update_pcb_pool, update_pcb_mgr, hxp, hxp2]
      · simp [remove_from_queue, hx, hy, update_pcb_pool, update_pcb_used, hxp, hxp2]
      · simp [remove_from_queue, hx, hy, update_pcb_pool, update_pcb_mem, hxp, hxp2]

theorem NextList_mid {pool : Nat → pcb_t} {p : Nat} {l2 : List Nat} :
    ∀ (l1 : List Nat) {head : Option Nat}, NextList pool head (l1 ++ p :: l2) →
      (pool p).next = l2.head? ∧ NextList pool (pool p).next l2 := by
  intro l1
  induction l1 with
  | nil =>
    intro head h
    refine ⟨?_, h.2⟩
    have h2 := h.2
    cases l2 with
    | nil => exact h2
    | cons b l => exact h2.1
  | cons a l1 ih => intro head h; exact ih h.2

theorem PrevList_mid {pool : Nat → pcb_t} {p : Nat} {l2 : List Nat} :
    ∀ (l1 : List Nat) {prev : Option Nat}, PrevList pool prev (l1 ++ p :: l2) →
      (pool p).prev = (match l1.getLast? with
        | some x => some x
        | none => prev) := by
  intro l1
  induction l1 with
  | nil => intro prev h; exact h.1
  | cons a l1 ih =>
    intro prev h
    have := ih h.2
    rw [this]
    cases l1 with
    | nil => rfl
    | cons b l =>
      rw [List.getLast?_cons_cons]
      cases hl : (b :: l).getLast? with
      | none => exact absurd (List.getLast?_eq_none_iff.1 hl) (List.cons_ne_nil _ _)
      | some x => rfl

theorem getLast_mem {l : List Nat} {x : Nat} (h : l.getLast? = some x) : x ∈ l :=
  List.mem_of_getLast?_eq_some h

/-- Unlinking the slot `p` from a well-formed list: the `next` links. -/
theorem NextList_remove {pool poolF : Nat → pcb_t} {p : Nat} {l2 : List Nat}
    (hF : ∀ c, c ≠ p → (poolF c).next =
      if (pool p).prev = some c then (pool p).next else (pool c).next) :
    ∀ (l1 : List Nat) {head prev : Option Nat}, NextList pool head (l1 ++ p :: l2) →
      PrevList pool prev (l1 ++ p :: l2) → (l1 ++ p :: l2).Nodup →
      (∀ x, prev = some x → x ∉ l1 ++ p :: l2) →
      NextList poolF (if l1 = [] then (pool p).next else head) (l1 ++ l2) := by
  intro l1
  induction l1 with
  | nil =>
    intro head prev hN hP hnd hprev
    simp only [List.nil_append, if_true] at *
    refine NextList_congr ?_ hN.2
    intro c hc
    have hcp : c ≠ p := fun h => (List.nodup_cons.1 hnd).1 (h ▸ hc)
    rw [hF c hcp, if_neg]
    rw [hP.1]
    intro h
    exact hprev c h (List.mem_cons_of_mem _ hc)
  | cons a l1 ih =>
    intro head prev hN hP hnd hprev
    have hnd2 : (l1 ++ p :: l2).Nodup := (List.nodup_cons.1 hnd).2
    have ha : a ∉ l1 ++ p :: l2 := (List.nodup_cons.1 hnd).1
    have hap : a ≠ p := fun h => ha (by rw [h]; simp)
    have hrec := ih hN.2 hP.2 hnd2 (fun x hx => by cases hx; exact ha)
    have hpp := PrevList_mid l1 hP.2
    simp only [List.cons_append, if_false, List.cons_ne_nil]
    refine ⟨hN.1, ?_⟩
    rw [hF a hap]
    cases l1 with
    | nil =>
      simp only [List.getLast?_nil] at hpp
      rw [if_pos hpp]
      simpa using hrec
    | cons b l =>
      have hne : ¬ (pool p).prev = some a := by
        rw [hpp]
        cases hl : (b :: l).getLast? with
        | none => exact absurd (List.getLast?_eq_none_iff.1 hl) (List.cons_ne_nil _ _)
        | some x =>
          simp only [Option.some.injEq]
          intro hxa
          apply ha
          rw [← hxa]
          exact List.mem_append_left _ (getLast_mem hl)
      rw [if_neg hne]
      simpa using hrec

/-- Unlinking the slot `p` from a well-formed list: the `prev` links. -/
theorem PrevList_remove {pool poolF : Nat → pcb_t} {p : Nat} {l2 : List Nat}
    (hF : ∀ c, c ≠ p → (poolF c).prev =
      if (pool p).next = some c then (pool p).prev else (pool c).prev) :
    ∀ (l1 : List Nat) {head prev : Option Nat}, NextList pool head (l1 ++ p :: l2) →
      PrevList pool prev (l1 ++ p :: l2) → (l1 ++ p :: l2).Nodup →
      PrevList poolF prev (l1 ++ l2) := by
  intro l1
  induction l1 with
  | nil =>
    intro head prev hN hP hnd
    simp only [List.nil_append] at *
    have hnx := (NextList_mid [] hN).1
    cases l2 with
    | nil => trivial
    | cons n l =>
      have hnp : n ≠ p := fun h => (List.nodup_cons.1 hnd).1 (by rw [h]; simp)
      refine ⟨?_, ?_⟩
      · rw [hF n hnp, if_pos (by simpa using hnx)]
        exact hP.1
      · refine PrevList_congr ?_ hP.2.2
        intro c hc
        have hcp : c ≠ p := fun h =>
          (List.nodup_cons.1 hnd).1 (by rw [← h]; exact List.mem_cons_of_mem _ hc)
        have hcn : c ≠ n := fun h =>
          (List.nodup_cons.1 (List.nodup_cons.1 hnd).2).1 (by rw [← h]; exact hc)
        rw [hF c hcp, if_neg]
        rw [hnx]
        simpa using fun h => hcn h.symm
  | cons a l1 ih =>
    intro head prev hN hP hnd
    have hnd2 : (l1 ++ p :: l2).Nodup := (List.nodup_cons.1 hnd).2
    have ha : a ∉ l1 ++ p :: l2 := (List.nodup_cons.1 hnd).1
    have hap : a ≠ p := fun h => ha (by rw [h]; simp)
    have hnx := (NextList_mid (a :: l1) hN).1
    refine ⟨?_, ih hN.2 hP.2 hnd2⟩
    rw [hF a hap, if_neg]
    · exact hP.1
    · rw [hnx]
      intro h
      apply ha
      have : a ∈ l2 := List.mem_of_mem_head? (Option.mem_def.2 h)
      exact List.mem_append_right _ (List.mem_cons_of_mem _ this)

/-- The effect of `add_to_queue` on the links, queue heads and other fields. -/
theorem add_to_queue_spec (s : ProcState) (q : queue_t) (p : Nat) :
    ((add_to_queue s q (some p)).process_pool p).next = queue_head s.g_process_manager q ∧
    ((add_to_queue s q (some p)).process_pool p).prev = none ∧
    (∀ c, c ≠ p → ((add_to_queue s q (some p)).process_pool c).next = (s.process_pool c).next) ∧
    (∀ c, c ≠ p → ((add_to_queue s q (some p)).process_pool c).prev =
      if queue_head s.g_process_manager q = some c then some p else (s.process_pool c).prev) ∧
    (∀ c, ((add_to_queue s q (some p)).process_pool c).pid = (s.process_pool c).pid) ∧
    (∀ c, ((add_to_queue s q (some p)).process_pool c).state = (s.process_pool c).state) ∧
    (add_to_queue s q (some p)).g_process_manager =
      set_queue_head s.g_process_manager q (some p) ∧
    (add_to_queue s q (some p)).process_pool_used = s.process_pool_used ∧
    (add_to_queue s q (some p)).mem = s.mem := by
  cases hq : queue_head s.g_process_manager q with
  | none =>
    refine ⟨?_, ?_, ?_, ?_, ?_, ?_, ?_, ?_, ?_⟩
    · simp [add_to_queue, hq, update_pcb_pool, update_pcb_mgr]
    · simp [add_to_queue, hq, update_pcb_pool, update_pcb_mgr]
    · intro c hc
      simp [add_to_queue, hq, update_pcb_pool, update_pcb_mgr, hc]
    · intro c hc
      simp [add_to_queue, hq, update_pcb_pool, update_pcb_mgr, hc]
    · intro c
      by_cases hc : c = p
      · subst hc; simp [add_to_queue, hq, update_pcb_pool, update_pcb_mgr]
      · simp [add_to_queue, hq, update_pcb_pool, update_pcb_mgr, hc]
    · intro c
      by_cases hc : c = p
      · subst hc; simp [add_to_queue, hq, update_pcb_pool, update_pcb_mgr]
      · simp [add_to_queue, hq, update_pcb_pool, update_pcb_mgr, hc]
    · simp [add_to_queue, hq, update_pcb_pool, update_pcb_mgr]
    · simp [add_to_queue, hq, update_pcb_pool, update_pcb_mgr, update_pcb_used]
    · simp [add_to_queue, hq, update_pcb_pool, update_pcb_mgr, update_pcb_mem]
  | some h =>
    by_cases hhp : h = p
    · subst hhp
      refine ⟨?_, ?_, ?_, ?_, ?_, ?_, ?_, ?_, ?_⟩
      · simp [add_to_queue, hq, update_pcb_pool, update_pcb_mgr]
      · simp [add_to_queue, hq, update_pcb_pool, update_pcb_mgr]
      · intro c hc
        simp [add_to_queue, hq, update_pcb_pool, update_pcb_mgr, hc]
      · intro c hc
        have hc2 : ¬ h = c := fun e => hc e.symm
        simp [add_to_queue, hq, update_pcb_pool, update_pcb_mgr, hc, hc2]
      · intro c
        by_cases hc : c = h
        · subst hc; simp [add_to_queue, hq, update_pcb_pool, update_pcb_mgr]
        · simp [add_to_queue, hq, update_pcb_pool, update_pcb_mgr, hc]
      · intro c
        by_cases hc : c = h
        · subst hc; simp [add_to_queue, hq, update_pcb_pool, update_pcb_mgr]
        · simp [add_to_queue, hq, update_pcb_pool, update_pcb_mgr, hc]
      · simp [add_to_queue, hq, update_pcb_pool, update_pcb_mgr]
      · simp [add_to_queue, hq, update_pcb_pool, update_pcb_mgr, update_pcb_used]
      · simp [add_to_queue, hq, update_pcb_pool, update_pcb_mgr, update_pcb_mem]
    · have hhp2 : ¬ p = h := fun e => hhp e.symm
      refine ⟨?_, ?_, ?_, ?_, ?_, ?_, ?_, ?_, ?_⟩
      · simp [add_to_queue, hq, update_pcb_pool, update_pcb_mgr, hhp, hhp2]
      · simp [add_to_queue, hq, update_pcb_pool, update_pcb_mgr, hhp, hhp2]
      · intro c hc
        by_cases hch : c = h
        · subst hch; simp [add_to_queue, hq, update_pcb_pool, update_pcb_mgr, hhp, hhp2]
        · simp [add_to_queue, hq, update_pcb_pool, update_pcb_mgr, hhp, hhp2, hc, hch]
      · intro c hc
        by_cases hch : h = c
        · subst hch; simp [add_to_queue, hq, update_pcb_pool, update_pcb_mgr, hhp, hhp2]
        · have hch2 : ¬ c = h := fun e => hch e.symm
          simp [add_to_queue, hq, update_pcb_pool, update_pcb_mgr, hhp, hhp2, hc, hch, hch2]
      · intro c
        by_cases hc : c = p
        · subst hc; simp [add_to_queue, hq, update_pcb_pool, update_pcb_mgr, hhp, hhp2]
        · by_cases hch : c = h
          · subst hch; simp [add_to_queue, hq, update_pcb_pool, update_pcb_mgr, hhp, hhp2]
          · simp [add_to_queue, hq, update_pcb_pool, update_pcb_mgr, hhp, hhp2, hc, hch]
      · intro c
        by_cases hc : c = p
        · subst hc; simp [add_to_queue, hq, update_pcb_pool, update_pcb_mgr, hhp, hhp2]
        · by_cases hch : c = h
          · subst hch; simp [add_to_queue, hq, update_pcb_pool, update_pcb_mgr, hhp, hhp2]
          · simp [add_to_queue, hq, update_pcb_pool, update_pcb_mgr, hhp, hhp2, hc, hch]
      · simp [add_to_queue, hq, update_pcb_pool, update_pcb_mgr]
      · simp [add_to_queue, hq, update_pcb_pool, update_pcb_mgr, update_pcb_used]
      · simp [add_to_queue, hq, update_pcb_pool, update_pcb_mgr, update_pcb_mem]

theorem set_queue_head_running (m : process_manager_t) (q : queue_t) (v : Option Nat) :
    (set_queue_head m q v).running_process = m.running_process := by
  cases q <;> rfl

/-- The steps of `process_terminate` after the PCB has been moved to the
terminated queue, for a PCB that is not the running one. -/
theorem terminate_tail (fuel : Nat) (s3 : ProcState) (p : Nat)
    (hr3 : s3.g_process_manager.running_process ≠ some p) :
    ∃ t,
      (let s4 :=
          if (s3.process_pool p).stack_base ≠ 0 then
            { s3 with mem := kfree s3.mem (s3.process_pool p).stack_base }
          else s3
        let s5 :=
          if (s4.process_pool p).heap_base ≠ 0 then
            { s4 with mem := kfree s4.mem (s4.process_pool p).heap_base }
          else s4
        let s6 := deallocate_pcb s5 (some p)
        let s7 :=
          { s6 with
            g_process_manager :=
              { s6.g_process_manager with
                process_count := sub32 s6.g_process_manager.process_count 1 } }
        if some p = s7.g_process_manager.running_process then
          match schedule_next_process fuel s7 with
          | none => none
          | some s8 => some (s8, PROCESS_SUCCESS)
        else some (s7, PROCESS_SUCCESS)) = some (t, PROCESS_SUCCESS) ∧
      t.process_pool = s3.process_pool ∧
      t.g_process_manager.running_process = s3.g_process_manager.running_process ∧
      t.g_process_manager.ready_queue = s3.g_process_manager.ready_queue ∧
      t.g_process_manager.blocked_queue = s3.g_process_manager.blocked_queue ∧
      t.g_process_manager.terminated_queue = s3.g_process_manager.terminated_queue ∧
      t.g_process_manager.next_pid = s3.g_process_manager.next_pid ∧
      t.g_process_manager.max_processes = s3.g_process_manager.max_processes ∧
      t.g_process_manager.process_count = sub32 s3.g_process_manager.process_count 1 ∧
      t.process_pool_used = (deallocate_pcb s3 (some p)).process_pool_used := by
  have hr4 : ¬ some p = s3.g_process_manager.running_process := fun e => hr3 e.symm
  lift_lets
  intro s4 s5 s6 m6 s7
  have d4 : s4 = if (s3.process_pool p).stack_base ≠ 0 then
      { s3 with mem := kfree s3.mem (s3.process_pool p).stack_base } else s3 := rfl
  have d5 : s5 = if (s4.process_pool p).heap_base ≠ 0 then
      { s4 with mem := kfree s4.mem (s4.process_pool p).heap_base } else s4 := rfl
  have d6 : s6 = deallocate_pcb s5 (some p) := rfl
  have dm : m6 = s6.g_process_manager := rfl
  have d7 : ∃ n, n = sub32 s6.g_process_manager.process_count 1 ∧
      s7 = { s6 with g_process_manager := { m6 with process_count := n } } := ⟨_, rfl, rfl⟩
  clear_value s7 m6 s6 s5 s4
  obtain ⟨n, hn, d7⟩ := d7
  have e4 : s4.process_pool = s3.process_pool ∧ s4.g_process_manager = s3.g_process_manager ∧
      s4.process_pool_used = s3.process_pool_used := by
    rw [d4]; split_ifs <;> exact ⟨rfl, rfl, rfl⟩
  have e5 : s5.process_pool = s4.process_pool ∧ s5.g_process_manager = s4.g_process_manager ∧
      s5.process_pool_used = s4.process_pool_used := by
    rw [d5]; split_ifs <;> exact ⟨rfl, rfl, rfl⟩
  have e6 : s6.process_pool = s5.process_pool ∧ s6.g_process_manager = s5.g_process_manager ∧
      s6.process_pool_used = (deallocate_pcb s3 (some p)).process_pool_used := by
    rw [d6]
    unfold deallocate_pcb
    simp only []
    split_ifs
    · refine ⟨rfl, rfl, ?_⟩
      show Function.update s5.process_pool_used p false = Function.update s3.process_pool_used p false
      rw [e5.2.2, e4.2.2]
    · exact ⟨rfl, rfl, by rw [e5.2.2, e4.2.2]⟩
  have eg : s6.g_process_manager = s3.g_process_manager := by rw [e6.2.1, e5.2.1, e4.2.1]
  have ep : s6.process_pool = s3.process_pool := by rw [e6.1, e5.1, e4.1]
  have hrun : s7.g_process_manager.running_process = s3.g_process_manager.running_process := by
    rw [d7, dm, ← eg]
  refine ⟨s7, ?_, ?_, hrun, ?_, ?_, ?_, ?_, ?_, ?_, ?_⟩
  · rw [hrun]; exact if_neg hr4
  · rw [d7, ← ep]
  · rw [d7, dm, ← eg]
  · rw [d7, dm, ← eg]
  · rw [d7, dm, ← eg]
  · rw [d7, dm, ← eg]
  · rw [d7, dm, ← eg]
  · rw [d7, hn, ← eg]
  · rw [d7]
    exact e6.2.2

theorem remove_from_queue_mgr (s : ProcState) (q : queue_t) (p : Nat) :
    (remove_from_queue s q (some p)).g_process_manager =
      (if (s.process_pool p).prev = none then
        set_queue_head s.g_process_manager q (s.process_pool p).next
      else s.g_process_manager) := by
  cases hx : (s.process_pool p).prev with
  | none =>
    cases hy : (s.process_pool p).next <;>
      simp [remove_from_queue, hx, hy, update_pcb_pool, update_pcb_mgr]
  | some x =>
    by_cases hpx : p = x
    · subst hpx
      cases hy : (s.process_pool p).next <;>
        simp [remove_from_queue, hx, hy, update_pcb_pool, update_pcb_mgr]
    · cases hy : (s.process_pool p).next <;>
        simp [remove_from_queue, hx, hy, update_pcb_pool, update_pcb_mgr, hpx]

theorem remove_from_queue_running (s : ProcState) (q : queue_t) (p : Nat) :
    (remove_from_queue s q (some p)).g_process_manager.running_process =
      s.g_process_manager.running_process := by
  rw [remove_from_queue_mgr]
  split_ifs
  · exact set_queue_head_running _ _ _
  · rfl

/-- The result of `process_terminate` for a PID found in a PCB that is not
the running one. -/
theorem terminate_found (fuel : Nat) (s : ProcState) (pid p : Nat)
    (h : process_get_by_pid fuel s pid = some (some p))
    (hr : s.g_process_manager.running_process ≠ some p) :
    ∃ t, process_terminate fuel s pid = some (t, PROCESS_SUCCESS) ∧
      t.process_pool =
        (add_to_queue
          (update_pcb
            (remove_from_queue (remove_from_queue s queue_t.ready (some p)) queue_t.blocked
              (some p))
            p (fun b => { b with state := PROCESS_STATE_TERMINATED }))
          queue_t.terminated (some p)).process_pool ∧
      t.g_process_manager.running_process = s.g_process_manager.running_process ∧
      t.g_process_manager.ready_queue =
        (remove_from_queue (remove_from_queue s queue_t.ready (some p)) queue_t.blocked
          (some p)).g_process_manager.ready_queue ∧
      t.g_process_manager.blocked_queue =
        (remove_from_queue (remove_from_queue s queue_t.ready (some p)) queue_t.blocked
          (some p)).g_process_manager.blocked_queue ∧
      t.g_process_manager.terminated_queue = some p := by
  have hr2 : ¬ some p = s.g_process_manager.running_process := fun e => hr e.symm
  have hg := (add_to_queue_spec
    (update_pcb
      (remove_from_queue (remove_from_queue s queue_t.ready (some p)) queue_t.blocked
        (some p))
      p (fun b => { b with state := PROCESS_STATE_TERMINATED }))
    queue_t.terminated p).2.2.2.2.2.2.1
  rw [update_pcb_mgr] at hg
  have hr3 : (add_to_queue
      (update_pcb
        (remove_from_queue (remove_from_queue s queue_t.ready (some p)) queue_t.blocked
          (some p))
        p (fun b => { b with state := PROCESS_STATE_TERMINATED }))
      queue_t.terminated (some p)).g_process_manager.running_process =
      s.g_process_manager.running_process := by
    rw [hg, set_queue_head_running, remove_from_queue_running, remove_from_queue_running]
  obtain ⟨t, ht, hp, h1, h2, h3, h4, _⟩ := terminate_tail fuel _ p (by rw [hr3]; exact hr)
  refine ⟨t, ?_, hp, by rw [h1, hr3], by rw [h2, hg]; rfl, by rw [h3, hg]; rfl,
    by rw [h4, hg]; rfl⟩
  unfold process_terminate
  rw [h]
  simp -zeta only []
  rw [if_neg hr2]
  exact ht

theorem set_queue_head_ready_other (m : process_manager_t) (v : Option Nat) :
    (set_queue_head m queue_t.ready v).ready_queue = v ∧
    (set_queue_head m queue_t.ready v).blocked_queue = m.blocked_queue ∧
    (set_queue_head m queue_t.ready v).terminated_queue = m.terminated_queue :=
  ⟨rfl, rfl, rfl⟩

theorem set_queue_head_blocked_other (m : process_manager_t) (v : Option Nat) :
    (set_queue_head m queue_t.blocked v).ready_queue = m.ready_queue ∧
    (set_queue_head m queue_t.blocked v).blocked_queue = v ∧
    (set_queue_head m queue_t.blocked v).terminated_queue = m.terminated_queue :=
  ⟨rfl, rfl, rfl⟩

/-- Terminating a process of a well-formed ready queue while the idle process
runs: the call returns Success and the process leaves the ready queue, whose
other members keep their order. -/
theorem terminate_ready {s : ProcState} {R : List Nat} (hI : IdleRuns s R) {p : Nat}
    (hp : p ∈ R) (fuel : Nat) (hf : R.length ≤ fuel) :
    ∃ t, process_terminate fuel s p = some (t, PROCESS_SUCCESS) ∧ IdleRuns t (R.erase p) := by
  obtain ⟨hrun, hpid0, hst0, hblk, hN, hP, hnd, h0, hpids, hterm⟩ := hI
  have hp0 : p ≠ 0 := fun e => h0 (e ▸ hp)
  have hlook : process_get_by_pid fuel s p = some (some p) := by
    have hfind := find_in_NextList hpids fuel hN hf p hp
    simp [process_get_by_pid, hrun, hpid0, Ne.symm hp0, hfind]
  obtain ⟨l1, l2, rfl⟩ := List.append_of_mem hp
  have hp1 : p ∉ l1 := fun h => by
    have := List.nodup_append.1 hnd
    exact this.2.2 h (List.mem_cons_self _ _)
  have hp2 : p ∉ l2 := fun h => by
    have := (List.nodup_append.1 hnd).2.1
    exact (List.nodup_cons.1 this).1 h
  have hnd' : (l1 ++ l2).Nodup := by
    have h1 := List.nodup_append.1 hnd
    refine List.nodup_append.2 ⟨h1.1, (List.nodup_cons.1 h1.2.1).2, ?_⟩
    intro a ha hb
    exact h1.2.2 ha (List.mem_cons_of_mem _ hb)
  have herase : (l1 ++ p :: l2).erase p = l1 ++ l2 := by
    rw [List.erase_append_right _ hp1, List.erase_cons_head]
  have hprev := PrevList_mid l1 hP
  have hnext := (NextList_mid l1 hN).1
  have hX : (s.process_pool p).prev ≠ some p := by
    rw [hprev]
    cases hl : l1.getLast? with
    | none => simp
    | some x =>
      simp only [ne_eq, Option.some.injEq]
      intro e
      exact hp1 (e ▸ getLast_mem hl)
  have hY : (s.process_pool p).next ≠ some p := by
    rw [hnext]
    intro e
    exact hp2 (List.mem_of_mem_head? (Option.mem_def.2 e))
  have hprev_nil : (s.process_pool p).prev = none ↔ l1 = [] := by
    rw [hprev]
    cases hl : l1.getLast? with
    | none => simpa using List.getLast?_eq_none_iff.1 hl
    | some x =>
      constructor
      · intro e; cases e
      · intro e
        rw [e] at hl
        cases hl
  obtain ⟨A1, A2, A3, A4, A5, A6, A7, _, _⟩ := remove_from_queue_spec s queue_t.ready p hX hY
  have hNA := NextList_remove A1 l1 hN hP hnd (fun x hx => by cases hx)
  have hPA := PrevList_remove A2 l1 hN hP hnd
  have hX2 : ((remove_from_queue s queue_t.ready (some p)).process_pool p).prev ≠ some p := by
    rw [A4]; simp
  have hY2 : ((remove_from_queue s queue_t.ready (some p)).process_pool p).next ≠ some p := by
    rw [A3]; simp
  obtain ⟨B1, B2, _, _, B5, B6, B7, _, _⟩ :=
    remove_from_queue_spec (remove_from_queue s queue_t.ready (some p)) queue_t.blocked p hX2 hY2
  rw [A4, A3] at B1 B2 B7
  simp only [if_true] at B7
  obtain ⟨C1, C2, C3, C4, C5, C6, C7, _, _⟩ := add_to_queue_spec
    (update_pcb
      (remove_from_queue (remove_from_queue s queue_t.ready (some p)) queue_t.blocked
        (some p))
      p (fun b => { b with state := PROCESS_STATE_TERMINATED }))
    queue_t.terminated p
  obtain ⟨t, ht, tp, trun, tready, tblk, tterm⟩ :=
    terminate_found fuel s p p hlook (by rw [hrun]; simpa using Ne.symm hp0)
  have hterm_eq : queue_head
      (update_pcb
        (remove_from_queue (remove_from_queue s queue_t.ready (some p)) queue_t.blocked
          (some p))
        p (fun b => { b with state := PROCESS_STATE_TERMINATED })).g_process_manager
      queue_t.terminated = s.g_process_manager.terminated_queue := by
    rw [update_pcb_mgr, B7, A7]
    split_ifs <;> rfl
  have hready_eq : t.g_process_manager.ready_queue =
      if l1 = [] then (s.process_pool p).next else s.g_process_manager.ready_queue := by
    rw [tready, B7, A7]
    by_cases hl : l1 = []
    · rw [if_pos (hprev_nil.2 hl), if_pos hl]; rfl
    · rw [if_neg (fun h => hl (hprev_nil.1 h)), if_neg hl]; rfl
  refine ⟨t, ht, ?_⟩
  rw [herase]
  have hmem : ∀ c ∈ l1 ++ l2, c ≠ p ∧ c ∈ l1 ++ p :: l2 := by
    intro c hc
    rcases List.mem_append.1 hc with h | h
    · exact ⟨fun e => hp1 (e ▸ h), List.mem_append_left _ h⟩
    · exact ⟨fun e => hp2 (e ▸ h), List.mem_append_right _ (List.mem_cons_of_mem _ h)⟩
  have hpid : ∀ c, (t.process_pool c).pid = (s.process_pool c).pid := by
    intro c
    rw [tp, C5, update_pcb_pool]
    by_cases hc : c = p
    · subst hc; rw [if_pos rfl]; show (_ : pcb_t).pid = _; rw [B5, A5]
    · rw [if_neg hc, B5, A5]
  refine ⟨by rw [trun, hrun], by rw [hpid, hpid0], ?_, ?_, ?_, ?_, hnd', ?_, ?_, ?_⟩
  · rw [tp, C6, update_pcb_pool, if_neg (Ne.symm hp0), B6, A6, hst0]
  · rw [tblk, B7]; rfl
  · rw [hready_eq]
    refine NextList_congr ?_ hNA
    intro c hc
    have hcp := (hmem c hc).1
    rw [tp, C3 c hcp, update_pcb_pool, if_neg hcp, B1 c hcp]
    simp
  · refine PrevList_congr ?_ hPA
    intro c hc
    obtain ⟨hcp, hcR⟩ := hmem c hc
    rw [tp, C4 c hcp, hterm_eq, if_neg, update_pcb_pool, if_neg hcp, B2 c hcp]
    · simp
    · intro e
      exact (hterm c e).1 hcR
  · intro h
    exact h0 (hmem 0 h).2
  · intro c hc
    rw [hpid]
    exact hpids c (hmem c hc).2
  · intro h hh
    rw [tterm] at hh
    cases hh
    refine ⟨fun hm => (hmem p hm).1 rfl, hp0⟩

theorem stack_fields (x : pcb_t) (v e : Nat) :
    ({ x with
        esp := v, ebp := v, eip := e, cs := 0x08, ds := 0x10, es := 0x10, fs := 0x10
        gs := 0x10, ss := 0x10, eflags := 0x202 } : pcb_t).pid = x.pid ∧
    ({ x with
        esp := v, ebp := v, eip := e, cs := 0x08, ds := 0x10, es := 0x10, fs := 0x10
        gs := 0x10, ss := 0x10, eflags := 0x202 } : pcb_t).next = x.next ∧
    ({ x with
        esp := v, ebp := v, eip := e, cs := 0x08, ds := 0x10, es := 0x10, fs := 0x10
        gs := 0x10, ss := 0x10, eflags := 0x202 } : pcb_t).prev = x.prev ∧
    ({ x with
        esp := v, ebp := v, eip := e, cs := 0x08, ds := 0x10, es := 0x10, fs := 0x10
        gs := 0x10, ss := 0x10, eflags := 0x202 } : pcb_t).state = x.state :=
  ⟨rfl, rfl, rfl, rfl⟩

/-- `setup_process_stack` changes neither the manager nor the pool flags, nor
the PID, links and state of any PCB. -/
theorem setup_process_stack_spec (s : ProcState) (p e : Nat) :
    (setup_process_stack s (some p) e).g_process_manager = s.g_process_manager ∧
    (setup_process_stack s (some p) e).process_pool_used = s.process_pool_used ∧
    ∀ c, ((setup_process_stack s (some p) e).process_pool c).pid = (s.process_pool c).pid ∧
      ((setup_process_stack s (some p) e).process_pool c).next = (s.process_pool c).next ∧
      ((setup_process_stack s (some p) e).process_pool c).prev = (s.process_pool c).prev ∧
      ((setup_process_stack s (some p) e).process_pool c).state = (s.process_pool c).state := by
  unfold setup_process_stack
  simp -zeta only []
  by_cases he : e = 0
  · rw [if_pos he]
    exact ⟨rfl, rfl, fun c => ⟨rfl, rfl, rfl, rfl⟩⟩
  · rw [if_neg he]
    lift_lets
    intro s1 r s2
    have d1 : s1 = update_pcb s p (fun b => { b with stack_size := DEFAULT_STACK_SIZE }) := rfl
    have d2 : s2 = update_pcb { s1 with mem := r.1 } p (fun b => { b with stack_base := r.2 }) :=
      rfl
    clear_value s2 r s1
    have k1 : s1.g_process_manager = s.g_process_manager ∧
        s1.process_pool_used = s.process_pool_used ∧
        ∀ c, (s1.process_pool c).pid = (s.process_pool c).pid ∧
          (s1.process_pool c).next = (s.process_pool c).next ∧
          (s1.process_pool c).prev = (s.process_pool c).prev ∧
          (s1.process_pool c).state = (s.process_pool c).state := by
      rw [d1]
      refine ⟨rfl, rfl, fun c => ?_⟩
      rw [update_pcb_pool]
      by_cases hc : c = p
      · subst hc; rw [if_pos rfl]; exact ⟨rfl, rfl, rfl, rfl⟩
      · rw [if_neg hc]; exact ⟨rfl, rfl, rfl, rfl⟩
    have k2 : s2.g_process_manager = s.g_process_manager ∧
        s2.process_pool_used = s.process_pool_used ∧
        ∀ c, (s2.process_pool c).pid = (s.process_pool c).pid ∧
          (s2.process_pool c).next = (s.process_pool c).next ∧
          (s2.process_pool c).prev = (s.process_pool c).prev ∧
          (s2.process_pool c).state = (s.process_pool c).state := by
      rw [d2]
      refine ⟨k1.1, k1.2.1, fun c => ?_⟩
      rw [update_pcb_pool]
      by_cases hc : c = p
      · subst hc; rw [if_pos rfl]; exact k1.2.2 c
      · rw [if_neg hc]; exact k1.2.2 c
    by_cases hb : (s2.process_pool p).stack_base = 0
    · rw [if_pos hb]; exact k2
    · rw [if_neg hb, update_pcb_mgr, update_pcb_used]
      refine ⟨k2.1, k2.2.1, fun c => ?_⟩
      rw [update_pcb_pool]
      by_cases hc : c = p
      · subst hc
        rw [if_pos rfl]
        obtain ⟨f1, f2, f3, f4⟩ := stack_fields (s2.process_pool c)
          (sub32 (add32 (s2.process_pool c).stack_base (s2.process_pool c).stack_size) 16) e
        obtain ⟨g1, g2, g3, g4⟩ := k2.2.2 c
        exact ⟨f1.trans g1, f2.trans g2, f3.trans g3, f4.trans g4⟩
      · rw [if_neg hc]; exact k2.2.2 c

theorem allocate_pcb_eq (s : ProcState) (p : Nat)
    (h : first_unused s.process_pool_used 0 MAX_PROCESSES = some p) :
    allocate_pcb s =
      ({ s with
          process_pool_used := Function.update s.process_pool_used p true
          process_pool := Function.update s.process_pool p pcb_t.zero }, some p) := by
  unfold allocate_pcb
  rw [h]

/-- The result of `process_create` when the arguments are valid, the count is
below the maximum and `allocate_pcb` hands out the slot `p`. -/
theorem create_ok (s : ProcState) (nm : List Char) (e pr ss p : Nat) (he : e ≠ 0)
    (hcnt : ¬ s.g_process_manager.max_processes ≤ s.g_process_manager.process_count)
    (halloc : first_unused s.process_pool_used 0 MAX_PROCESSES = some p) :
    ∃ t, process_create s (some nm) e pr ss = (t, int_of_u32 s.g_process_manager.next_pid) ∧
      (t.process_pool p).pid = s.g_process_manager.next_pid ∧
      (t.process_pool p).state = PROCESS_STATE_READY ∧
      (t.process_pool p).next = s.g_process_manager.ready_queue ∧
      (t.process_pool p).prev = none ∧
      (∀ c, c ≠ p →
        (t.process_pool c).pid = (s.process_pool c).pid ∧
        (t.process_pool c).state = (s.process_pool c).state ∧
        (t.process_pool c).next = (s.process_pool c).next ∧
        (t.process_pool c).prev =
          if s.g_process_manager.ready_queue = some c then some p
          else (s.process_pool c).prev) ∧
      t.g_process_manager.running_process = s.g_process_manager.running_process ∧
      t.g_process_manager.ready_queue = some p ∧
      t.g_process_manager.blocked_queue = s.g_process_manager.blocked_queue ∧
      t.g_process_manager.terminated_queue = s.g_process_manager.terminated_queue ∧
      t.g_process_manager.next_pid = add32 s.g_process_manager.next_pid 1 ∧
      t.g_process_manager.process_count = add32 s.g_process_manager.process_count 1 ∧
      t.g_process_manager.max_processes = s.g_process_manager.max_processes ∧
      t.process_pool_used = Function.update s.process_pool_used p true := by
  unfold process_create
  simp -zeta only []
  rw [if_neg he, if_neg hcnt, allocate_pcb_eq s p halloc]
  simp -zeta only []
  lift_lets
  intro m s2 s3 s4 s5 s6 m6 s7
  have dm : m = s.g_process_manager := rfl
  have d2 : ∃ n, n = add32 m.next_pid 1 ∧
      s2 = { g_process_manager := { m with next_pid := n }
             process_pool := Function.update s.process_pool p pcb_t.zero
             process_pool_used := Function.update s.process_pool_used p true
             mem := s.mem } := ⟨_, rfl, rfl⟩
  have d3 : ∃ f : pcb_t → pcb_t, (∀ b, (f b).pid = m.next_pid ∧ (f b).next = b.next ∧
      (f b).prev = b.prev) ∧ s3 = update_pcb s2 p f :=
    ⟨fun b =>
        { b with
          pid := m.next_pid
          name := nm.take PROCESS_NAME_MAX
          state := PROCESS_STATE_NEW
          priority := pr
          time_slice := m.time_slice_quantum
          remaining_slice := m.time_slice_quantum
          creation_time := m.current_tick
          last_run_time := 0
          cpu_time := 0
          exit_code := 0
          file_count := 0 }, fun _ => ⟨rfl, rfl, rfl⟩, rfl⟩
  have d4 : s4 = setup_process_stack s3 (some p) e := rfl
  have d5 : s5 = update_pcb s4 p (fun b => { b with state := PROCESS_STATE_READY }) := rfl
  have d6 : s6 = add_to_queue s5 queue_t.ready (some p) := rfl
  have dm6 : m6 = s6.g_process_manager := rfl
  have d7 : ∃ n, n = add32 s6.g_process_manager.process_count 1 ∧
      s7 = { s6 with g_process_manager := { m6 with process_count := n } } := ⟨_, rfl, rfl⟩
  clear_value s7 m6 s6 s5 s4 s3 s2 m
  obtain ⟨n2, hn2, d2⟩ := d2
  obtain ⟨f, hf, d3⟩ := d3
  obtain ⟨n7, hn7, d7⟩ := d7
  obtain ⟨S1, S2, S3⟩ := setup_process_stack_spec s3 p e
  rw [← d4] at S1 S2 S3
  obtain ⟨Q1, Q2, Q3, Q4, Q5, Q6, Q7, Q8, _⟩ := add_to_queue_spec s5 queue_t.ready p
  rw [← d6] at Q1 Q2 Q3 Q4 Q5 Q6 Q7 Q8
  have g5 : s5.g_process_manager = { m with next_pid := n2 } := by
    rw [d5, update_pcb_mgr, S1, d3, update_pcb_mgr, d2]
  have u5 : s5.process_pool_used = Function.update s.process_pool_used p true := by
    rw [d5, update_pcb_used, S2, d3, update_pcb_used, d2]
  have p2 : ∀ c, c ≠ p → s2.process_pool c = s.process_pool c := by
    intro c hc
    rw [d2]
    exact Function.update_noteq hc _ _
  have p5 : ∀ c, c ≠ p → (s5.process_pool c).pid = (s.process_pool c).pid ∧
      (s5.process_pool c).state = (s.process_pool c).state ∧
      (s5.process_pool c).next = (s.process_pool c).next ∧
      (s5.process_pool c).prev = (s.process_pool c).prev := by
    intro c hc
    obtain ⟨a1, a2, a3, a4⟩ := S3 c
    rw [d5, update_pcb_pool, if_neg hc, a1, a2, a3, a4, d3, update_pcb_pool, if_neg hc, p2 c hc]
    exact ⟨rfl, rfl, rfl, rfl⟩
  have p5p : (s5.process_pool p).pid = m.next_pid := by
    obtain ⟨a1, _, _, _⟩ := S3 p
    rw [d5, update_pcb_pool, if_pos rfl]
    show (s4.process_pool p).pid = _
    rw [a1, d3, update_pcb_pool, if_pos rfl]
    exact (hf _).1
  have s5p : (s5.process_pool p).state = PROCESS_STATE_READY := by
    rw [d5, update_pcb_pool, if_pos rfl]
  have q5 : queue_head s5.g_process_manager queue_t.ready = s.g_process_manager.ready_queue := by
    rw [g5, dm]; rfl
  have e7p : s7.process_pool = s6.process_pool := by rw [d7]
  have e7u : s7.process_pool_used = s6.process_pool_used := by rw [d7]
  have g6 : s6.g_process_manager =
      set_queue_head { m with next_pid := n2 } queue_t.ready (some p) := by rw [Q7, g5]
  have hpid7 : (s7.process_pool p).pid = s.g_process_manager.next_pid := by
    rw [e7p, Q5, p5p, dm]
  refine ⟨s7, ?_, hpid7, ?_, ?_, ?_, ?_, ?_, ?_, ?_, ?_, ?_, ?_, ?_, ?_⟩
  · rw [hpid7]
  · rw [e7p, Q6, s5p]
  · rw [e7p, Q1, q5]
  · rw [e7p, Q2]
  · intro c hc
    obtain ⟨a1, a2, a3, a4⟩ := p5 c hc
    rw [e7p, Q5, Q6, Q3 c hc, Q4 c hc, q5, a1, a2, a3, a4]
    exact ⟨rfl, rfl, rfl, rfl⟩
  · rw [d7, dm6, g6, dm]; rfl
  · rw [d7, dm6, g6]; rfl
  · rw [d7, dm6, g6, dm]; rfl
  · rw [d7, dm6, g6, dm]; rfl
  · rw [d7, dm6, g6, hn2, dm]; rfl
  · rw [d7, hn7, g6, dm]; rfl
  · rw [d7, dm6, g6, dm]; rfl
  · rw [e7u, Q8, u5]

/-! ## Process manager: creation on a fresh manager -/

theorem mem_slots_down {k c : Nat} : c ∈ slots_down k ↔ 1 ≤ c ∧ c ≤ k := by
  induction k with
  | zero =>
    simp only [slots_down, List.not_mem_nil, false_iff]
    omega
  | succ k ih =>
    simp only [slots_down, List.mem_cons, ih]
    omega

theorem nodup_slots_down (k : Nat) : (slots_down k).Nodup := by
  induction k with
  | zero => exact List.nodup_nil
  | succ k ih =>
    refine List.nodup_cons.2 ⟨?_, ih⟩
    rw [mem_slots_down]
    omega

theorem length_slots_down (k : Nat) : (slots_down k).length = k := by
  induction k with
  | zero => rfl
  | succ k ih => simp [slots_down, ih]

theorem slots_down_perm (k : Nat) : (slots_down k).Perm (List.range' 1 k) := by
  induction k with
  | zero => exact List.Perm.refl _
  | succ k ih =>
    rw [List.range'_concat 1 k]
    have e : 1 + 1 * k = k + 1 := by omega
    rw [e]
    exact (List.Perm.cons _ ih).trans (List.perm_append_singleton _ _).symm

theorem PrevList_push {pool pool2 : Nat → pcb_t} {p : Nat} {R : List Nat} {head : Option Nat}
    (hN : NextList pool head R) (hP : PrevList pool none R) (hnd : R.Nodup)
    (h : ∀ c ∈ R, (pool2 c).prev = if head = some c then some p else (pool c).prev) :
    PrevList pool2 (some p) R := by
  cases R with
  | nil => trivial
  | cons a R =>
    refine ⟨?_, ?_⟩
    · rw [h a (List.mem_cons_self _ _), if_pos hN.1]
    · refine PrevList_congr ?_ hP.2
      intro c hc
      rw [h c (List.mem_cons_of_mem _ hc), if_neg]
      rw [hN.1]
      intro e
      cases e
      exact (List.nodup_cons.1 hnd).1 hc

theorem int_of_u32_small (n : Nat) (h : n < 2147483648) : int_of_u32 n = (n : Int) := by
  unfold int_of_u32
  have : n % WORD = n := Nat.mod_eq_of_lt (by unfold WORD; omega)
  rw [this, if_pos h]

/-- One more successful `process_create` on a manager that has only created
processes so far. -/
theorem create_fresh {k : Nat} {s : ProcState} (hF : Fresh k s) (hk : k < 63)
    (nm : List Char) (e pr ss : Nat) (he : e ≠ 0) :
    ∃ t, process_create s (some nm) e pr ss = (t, ((k + 1 : Nat) : Int)) ∧ Fresh (k + 1) t := by
  obtain ⟨⟨hrun, hpid0, hst0, hblk, hN, hP, hnd, h0, hpids, _⟩, hT, hnp, hcnt, hmax, hused⟩ := hF
  have hc : ¬ s.g_process_manager.max_processes ≤ s.g_process_manager.process_count := by
    rw [hmax, hcnt]; unfold MAX_PROCESSES; omega
  have halloc : first_unused s.process_pool_used 0 MAX_PROCESSES = some (k + 1) := by
    have := first_unused_spec s.process_pool_used (k + 1) 0 MAX_PROCESSES
      (fun j _ hj => by rw [hused]; exact decide_eq_true (by omega))
      (by rw [hused]; exact decide_eq_false (by omega))
      (by unfold MAX_PROCESSES; omega)
    simpa using this
  obtain ⟨t, ht, c1, c2, c3, c4, c5, g1, g2, g3, g4, g5, g6, g7, u⟩ :=
    create_ok s nm e pr ss (k + 1) he hc halloc
  have hmemR : ∀ c ∈ slots_down k, c ≠ k + 1 := by
    intro c hcm
    have := mem_slots_down.1 hcm
    omega
  refine ⟨t, ?_, ⟨?_, ?_, ?_, ?_, ?_, ?_, ?_, ?_, ?_, ?_⟩, ?_, ?_, ?_, ?_, ?_⟩
  · rw [ht, hnp, int_of_u32_small _ (by omega)]
  · rw [g1, hrun]
  · rw [(c5 0 (by omega)).1, hpid0]
  · rw [(c5 0 (by omega)).2.1, hst0]
  · rw [g3, hblk]
  · refine ⟨g2, ?_⟩
    rw [c3]
    exact NextList_congr (fun c hcm => (c5 c (hmemR c hcm)).2.2.1) hN
  · refine ⟨c4, ?_⟩
    exact PrevList_push hN hP hnd (fun c hcm => (c5 c (hmemR c hcm)).2.2.2)
  · refine List.nodup_cons.2 ⟨?_, hnd⟩
    intro hm
    exact hmemR _ hm rfl
  · intro hm
    rcases List.mem_cons.1 hm with h | h
    · omega
    · exact h0 h
  · intro c hcm
    rcases List.mem_cons.1 hcm with h | h
    · rw [h, c1, hnp]
    · rw [(c5 c (hmemR c h)).1]; exact hpids c h
  · intro h hh
    rw [g4, hT] at hh
    cases hh
  · rw [g4, hT]
  · rw [g5, hnp, add32_of_lt (by unfold WORD; omega)]
  · rw [g6, hcnt, add32_of_lt (by unfold WORD; omega)]
  · rw [g7, hmax]
  · intro i
    rw [u]
    by_cases hi : i = k + 1
    · subst hi; simp
    · rw [Function.update_noteq hi, hused]
      by_cases hik : i ≤ k
      · rw [decide_eq_true hik, decide_eq_true (by omega : i ≤ k + 1)]
      · rw [decide_eq_false hik, decide_eq_false (by omega : ¬ i ≤ k + 1)]

/-- The manager right after `process_manager_init`. -/
theorem init_fresh (mem : MemState) : Fresh 0 (process_manager_init mem).1 := by
  have ha : first_unused (fun _ => false) 0 MAX_PROCESSES = some 0 := rfl
  unfold process_manager_init
  simp only []
  rw [allocate_pcb_eq _ 0 ha]
  simp only []
  refine ⟨⟨rfl, ?_, ?_, rfl, rfl, trivial, List.nodup_nil, List.not_mem_nil _, ?_, ?_⟩,
    rfl, rfl, rfl, rfl, ?_⟩
  · simp [update_pcb_pool]
  · simp [update_pcb_pool]
  · intro c hc; cases hc
  · intro h hh; cases hh
  · intro i
    show Function.update (fun _ => false) 0 true i = decide (i ≤ 0)
    by_cases hi : i = 0
    · subst hi; simp
    · rw [Function.update_noteq hi]
      exact (decide_eq_false (by omega)).symm

theorem create_full (s : ProcState) (nm : List Char) (e pr ss : Nat) (he : e ≠ 0)
    (h : s.g_process_manager.max_processes ≤ s.g_process_manager.process_count) :
    process_create s (some nm) e pr ss = (s, PROCESS_ERROR_QUEUE_FULL) := by
  unfold process_create
  simp -zeta only []
  rw [if_neg he, if_pos h]

theorem valid_create_cases {op : proc_op} (h : valid_create op = true) :
    ∃ nm e pr ss, op = proc_op.create (some nm) e pr ss ∧ e ≠ 0 := by
  cases op with
  | create name e pr ss =>
    cases name with
    | none => cases h
    | some nm => exact ⟨nm, e, pr, ss, rfl, of_decide_eq_true h⟩
  | terminate pid => cases h
  | kill pid => cases h
  | yield => cases h
  | scheduler => cases h
  | set_priority pid pr => cases h

theorem proc_run_cons (fuel : Nat) (s s1 : ProcState) (op : proc_op) (ops : List proc_op)
    (r : Int) (h : proc_step fuel s op = some (s1, r)) :
    proc_run fuel s (op :: ops) =
      (proc_run fuel s1 ops).map (fun x => (x.1, r :: x.2)) := by
  rw [proc_run, h]
  simp only []
  cases hq : proc_run fuel s1 ops with
  | none => rfl
  | some y => rfl

theorem proc_run_append (fuel : Nat) (ops1 ops2 : List proc_op) :
    ∀ (s t : ProcState) (r1 : List Int), proc_run fuel s ops1 = some (t, r1) →
      proc_run fuel s (ops1 ++ ops2) =
        (proc_run fuel t ops2).map (fun x => (x.1, r1 ++ x.2)) := by
  induction ops1 with
  | nil =>
    intro s t r1 h
    simp only [proc_run, Option.some.injEq, Prod.mk.injEq] at h
    obtain ⟨rfl, rfl⟩ := h
    cases hq : proc_run fuel s ops2 <;> simp [hq]
  | cons op ops ih =>
    intro s t r1 h
    cases hs : proc_step fuel s op with
    | none => rw [proc_run, hs] at h; cases h
    | some x =>
      obtain ⟨s1, r⟩ := x
      rw [proc_run_cons fuel s s1 op ops r hs] at h
      cases hq : proc_run fuel s1 ops with
      | none => rw [hq] at h; cases h
      | some y =>
        obtain ⟨t1, rs⟩ := y
        rw [hq] at h
        simp only [Option.map_some', Option.some.injEq, Prod.mk.injEq] at h
        obtain ⟨rfl, rfl⟩ := h
        rw [List.cons_append, proc_run_cons fuel s s1 op (ops ++ ops2) r hs, ih s1 t1 rs hq]
        cases proc_run fuel t1 ops2 <;> simp

/-- A run of valid `process_create` calls below the capacity: the PIDs are
consecutive. -/
theorem run_valid_creates (fuel : Nat) (ops : List proc_op) :
    ∀ (k : Nat) (s : ProcState), Fresh k s → k + ops.length ≤ 63 →
      (∀ op ∈ ops, valid_create op = true) →
      ∃ t, proc_run fuel s ops = some (t, (List.range' (k + 1) ops.length).map Int.ofNat) ∧
        Fresh (k + ops.length) t := by
  induction ops with
  | nil => intro k s hF _ _; exact ⟨s, rfl, hF⟩
  | cons op ops ih =>
    intro k s hF hk hv
    obtain ⟨nm, e, pr, ss, rfl, he⟩ := valid_create_cases (hv op (List.mem_cons_self _ _))
    simp only [List.length_cons] at hk ⊢
    obtain ⟨s1, h1, hF1⟩ := create_fresh hF (by omega) nm e pr ss he
    obtain ⟨t, h2, hF2⟩ := ih (k + 1) s1 hF1 (by omega)
      (fun o ho => hv o (List.mem_cons_of_mem _ ho))
    refine ⟨t, ?_, ?_⟩
    · rw [proc_run_cons fuel s s1 _ ops _ (by rw [proc_step, h1]), h2]
      simp [List.range'_succ]
    · rw [show k + (ops.length + 1) = k + 1 + ops.length by omega]
      exact hF2

/-- The capacity test of `process_create`: with a name and an entry point the
call returns QueueFull (-7) and leaves the whole state unchanged whenever
`process_count` has reached `max_processes`; and on a freshly initialised manager, 64 calls with valid
arguments return the PIDs 1 to 63 and then QueueFull, the state after the 64th
call being the state after the 63rd. -/
theorem capacity_rejection_fresh (mem : MemState) (fuel : Nat) (ops : List proc_op)
    (hlen : ops.length = 64) (hv : ∀ op ∈ ops, valid_create op = true) :
    (∀ (s : ProcState) (nm : List Char) (e pr ss : Nat), e ≠ 0 →
      s.g_process_manager.max_processes ≤ s.g_process_manager.process_count →
      process_create s (some nm) e pr ss = (s, PROCESS_ERROR_QUEUE_FULL)) ∧
    ∃ t, proc_run fuel (process_manager_init mem).1 (ops.take 63) =
        some (t, (List.range' 1 63).map Int.ofNat) ∧
      proc_run fuel (process_manager_init mem).1 ops =
        some (t, (List.range' 1 63).map Int.ofNat ++ [PROCESS_ERROR_QUEUE_FULL]) := by
  refine ⟨fun s nm e pr ss he h => create_full s nm e pr ss he h, ?_⟩
  have hlen63 : (ops.take 63).length = 63 := by rw [List.length_take, hlen]; rfl
  obtain ⟨t, ht, hF⟩ := run_valid_creates fuel (ops.take 63) 0 _ (init_fresh mem)
    (by rw [hlen63]) (fun op ho => hv op (List.mem_of_mem_take ho))
  rw [hlen63] at ht hF
  simp only [Nat.zero_add] at ht hF
  refine ⟨t, ht, ?_⟩
  obtain ⟨op, hop⟩ : ∃ op, ops.drop 63 = [op] := by
    have hl : (ops.drop 63).length = 1 := by rw [List.length_drop, hlen]
    cases hd : ops.drop 63 with
    | nil => rw [hd] at hl; cases hl
    | cons a l =>
      rw [hd] at hl
      cases l with
      | nil => exact ⟨a, rfl⟩
      | cons b l => simp at hl
  have hmem : op ∈ ops := by
    have : op ∈ ops.drop 63 := by rw [hop]; exact List.mem_cons_self _ _
    exact List.mem_of_mem_drop this
  obtain ⟨nm, e, pr, ss, rfl, he⟩ := valid_create_cases (hv op hmem)
  have hfull : t.g_process_manager.max_processes ≤ t.g_process_manager.process_count := by
    rw [hF.2.2.2.2.1, hF.2.2.2.1]
    decide
  have hlast : proc_run fuel t [proc_op.create (some nm) e pr ss] =
      some (t, [PROCESS_ERROR_QUEUE_FULL]) := by
    rw [proc_run_cons fuel t t _ [] PROCESS_ERROR_QUEUE_FULL
      (by rw [proc_step, create_full t nm e pr ss he hfull])]
    rfl
  have hsplit : ops = ops.take 63 ++ [proc_op.create (some nm) e pr ss] := by
    rw [← hop, List.take_append_drop]
  have key : proc_run fuel (process_manager_init mem).1
      (ops.take 63 ++ [proc_op.create (some nm) e pr ss]) =
      some (t, (List.range' 1 63).map Int.ofNat ++ [PROCESS_ERROR_QUEUE_FULL]) := by
    rw [proc_run_append fuel _ _ _ t _ ht, hlast]
    rfl
  rw [hsplit]
  exact key

/-- An instance: 64 calls `process_create("a", 0x100000, NORMAL, 4096)` after
boot. -/
theorem capacity_rejection_fresh_instance :
    (List.replicate 64 (create_op ['a'])).length = 64 ∧
    (∀ op ∈ List.replicate 64 (create_op ['a']), valid_create op = true) ∧
    ∃ t, proc_run 64 (process_manager_init (memory_init MemState.zero)).1
          ((List.replicate 64 (create_op ['a'])).take 63) =
        some (t, (List.range' 1 63).map Int.ofNat) ∧
      proc_run 64 (process_manager_init (memory_init MemState.zero)).1
          (List.replicate 64 (create_op ['a'])) =
        some (t, (List.range' 1 63).map Int.ofNat ++ [PROCESS_ERROR_QUEUE_FULL]) :=
  ⟨by decide, by decide,
    (capacity_rejection_fresh (memory_init MemState.zero) 64 (List.replicate 64 (create_op ['a']))
      (by decide) (by decide)).2⟩

/-! ## Process manager: idle fallback -/

theorem create_invalid (s : ProcState) (name : Option (List Char)) (e pr ss : Nat)
    (h : name = none ∨ e = 0) :
    process_create s name e pr ss = (s, PROCESS_ERROR_INVALID_PARAM) := by
  unfold process_create
  cases name with
  | none => rfl
  | some nm =>
    rcases h with h | h
    · cases h
    · simp -zeta only []
      rw [if_pos h]

theorem is_create_cases {op : proc_op} (h : is_create op = true) :
    ∃ name e pr ss, op = proc_op.create name e pr ss := by
  cases op with
  | create name e pr ss => exact ⟨name, e, pr, ss, rfl⟩
  | terminate pid => cases h
  | kill pid => cases h
  | yield => cases h
  | scheduler => cases h
  | set_priority pid pr => cases h

/-- A run of `process_create` calls, valid or not, on a manager that has only
created processes so far: the successful calls return consecutive PIDs and the
manager stays of that kind. -/
theorem run_any_creates (fuel : Nat) (ops : List proc_op) :
    ∀ (k : Nat) (s : ProcState), Fresh k s → k ≤ 63 → (∀ op ∈ ops, is_create op = true) →
      ∃ t rets n, proc_run fuel s ops = some (t, rets) ∧ Fresh (k + n) t ∧ k + n ≤ 63 ∧
        (rets.filter (fun r => decide (0 ≤ r))).map Int.toNat = List.range' (k + 1) n := by
  induction ops with
  | nil => intro k s hF hk _; exact ⟨s, [], 0, rfl, hF, hk, rfl⟩
  | cons op ops ih =>
    intro k s hF hk hv
    obtain ⟨name, e, pr, ss, rfl⟩ := is_create_cases (hv op (List.mem_cons_self _ _))
    have hv2 : ∀ o ∈ ops, is_create o = true := fun o ho => hv o (List.mem_cons_of_mem _ ho)
    by_cases hbad : name = none ∨ e = 0
    · obtain ⟨t, rets, n, h2, hF2, hk2, hr⟩ := ih k s hF hk hv2
      refine ⟨t, PROCESS_ERROR_INVALID_PARAM :: rets, n, ?_, hF2, hk2, ?_⟩
      · rw [proc_run_cons fuel s s _ ops PROCESS_ERROR_INVALID_PARAM
          (by rw [proc_step, create_invalid s name e pr ss hbad]), h2]
        rfl
      · rw [List.filter_cons_of_neg (by decide)]
        exact hr
    · have he : e ≠ 0 := fun h => hbad (Or.inr h)
      obtain ⟨nm, rfl⟩ : ∃ nm, name = some nm := by
        cases name with
        | none => exact absurd (Or.inl rfl) hbad
        | some nm => exact ⟨nm, rfl⟩
      by_cases hk63 : k < 63
      · obtain ⟨s1, h1, hF1⟩ := create_fresh hF hk63 nm e pr ss he
        obtain ⟨t, rets, n, h2, hF2, hk2, hr⟩ := ih (k + 1) s1 hF1 (by omega) hv2
        refine ⟨t, ((k + 1 : Nat) : Int) :: rets, n + 1, ?_, ?_, by omega, ?_⟩
        · rw [proc_run_cons fuel s s1 _ ops _ (by rw [proc_step, h1]), h2]
          rfl
        · rw [show k + (n + 1) = k + 1 + n by omega]; exact hF2
        · rw [List.filter_cons_of_pos (by simp; omega), List.map_cons, hr, List.range'_succ]
          simp
      · have hfull : s.g_process_manager.max_processes ≤ s.g_process_manager.process_count := by
          rw [hF.2.2.2.2.1, hF.2.2.2.1]
          unfold MAX_PROCESSES
          omega
        obtain ⟨t, rets, n, h2, hF2, hk2, hr⟩ := ih k s hF hk hv2
        refine ⟨t, PROCESS_ERROR_QUEUE_FULL :: rets, n, ?_, hF2, hk2, ?_⟩
        · rw [proc_run_cons fuel s s _ ops PROCESS_ERROR_QUEUE_FULL
            (by rw [proc_step, create_full s nm e pr ss he hfull]), h2]
          rfl
        · rw [List.filter_cons_of_neg (by decide)]
          exact hr

/-- Terminating, in any order, every process of the ready queue while the idle
process runs: every call returns Success and the ready queue ends empty. -/
theorem run_terminates (fuel : Nat) (pids : List Nat) :
    ∀ (s : ProcState) (R : List Nat), IdleRuns s R → pids.Perm R → R.length ≤ fuel →
      ∃ t, proc_run fuel s (pids.map proc_op.terminate) =
          some (t, List.replicate pids.length PROCESS_SUCCESS) ∧ IdleRuns t [] := by
  induction pids with
  | nil =>
    intro s R hI hp _
    have : R = [] := (List.Perm.nil_eq hp).symm
    subst this
    exact ⟨s, rfl, hI⟩
  | cons a ps ih =>
    intro s R hI hp hf
    have ha : a ∈ R := hp.subset (List.mem_cons_self _ _)
    obtain ⟨s1, h1, hI1⟩ := terminate_ready hI ha fuel hf
    have hp1 : ps.Perm (R.erase a) := by
      have := hp.erase a
      rwa [List.erase_cons_head] at this
    have hf1 : (R.erase a).length ≤ fuel :=
      Nat.le_trans (List.erase_sublist a R).length_le hf
    obtain ⟨t, h2, hI2⟩ := ih s1 (R.erase a) hI1 hp1 hf1
    refine ⟨t, ?_, hI2⟩
    rw [List.map_cons, proc_run_cons fuel s s1 _ _ PROCESS_SUCCESS (by rw [proc_step, h1]), h2]
    rfl

theorem process_switch_spec (s : ProcState) (p : Nat) :
    (process_switch s (some p)).g_process_manager.running_process = some p ∧
    (process_switch s (some p)).g_process_manager.ready_queue =
      s.g_process_manager.ready_queue ∧
    ((process_switch s (some p)).process_pool p).state = PROCESS_STATE_RUNNING ∧
    ∀ c, ((process_switch s (some p)).process_pool c).pid = (s.process_pool c).pid := by
  unfold process_switch
  simp -zeta only []
  lift_lets
  intro m0 s1
  have d1 : s1 = { s with
      g_process_manager := { s.g_process_manager with running_process := some p } } := rfl
  clear_value s1 m0
  rw [update_pcb_mgr, update_pcb_pool, if_pos rfl]
  refine ⟨by rw [d1], by rw [d1], rfl, fun c => ?_⟩
  rw [update_pcb_pool]
  by_cases hc : c = p
  · subst hc; rw [if_pos rfl, d1]
  · rw [if_neg hc, d1]

/-- The dispatch of `schedule_next_process` when the ready queue is empty and
the idle process runs. -/
theorem schedule_idle {s : ProcState} (hI : IdleRuns s []) (fuel : Nat) :
    ∃ u, schedule_next_process fuel s = some u ∧
      u.g_process_manager.running_process = some 0 ∧ (u.process_pool 0).pid = 0 ∧
      (u.process_pool 0).state = PROCESS_STATE_RUNNING ∧
      u.g_process_manager.ready_queue = none := by
  obtain ⟨hrun, hpid0, _, _, hN, _⟩ := hI
  have hready : s.g_process_manager.ready_queue = none := hN
  have hlook : process_get_by_pid fuel s 0 = some (some 0) := by
    simp [process_get_by_pid, hrun, hpid0]
  obtain ⟨w1, w2, w3, w4⟩ := process_switch_spec s 0
  refine ⟨process_switch s (some 0), ?_, w1, by rw [w4, hpid0], w3, by rw [w2, hready]⟩
  unfold schedule_next_process
  rw [hready]
  simp -zeta only []
  rw [hlook]

/-- `process_yield` when the ready queue is empty and the idle process runs:
the idle process is queued and dispatched again. -/
theorem yield_idle {s : ProcState} (hI : IdleRuns s []) (fuel : Nat) :
    ∃ u, process_yield fuel s = some u ∧
      u.g_process_manager.running_process = some 0 ∧ (u.process_pool 0).pid = 0 ∧
      (u.process_pool 0).state = PROCESS_STATE_RUNNING ∧
      u.g_process_manager.ready_queue = none := by
  obtain ⟨hrun, hpid0, hst0, _, hN, _⟩ := hI
  have hready : s.g_process_manager.ready_queue = none := hN
  unfold process_yield
  rw [hrun]
  simp -zeta only []
  unfold process_scheduler
  lift_lets
  intro m0 s1
  have d1 : ∃ n, s1 =
      { update_pcb s 0 (fun b => { b with remaining_slice := 0 }) with
        g_process_manager := { s.g_process_manager with scheduler_ticks := n } } := ⟨_, rfl⟩
  clear_value s1 m0
  obtain ⟨n, d1⟩ := d1
  have g1 : s1.g_process_manager = { s.g_process_manager with scheduler_ticks := n } := by
    rw [d1]
  have p1 : s1.process_pool =
      (update_pcb s 0 (fun b => { b with remaining_slice := 0 })).process_pool := by rw [d1]
  have r1 : s1.g_process_manager.running_process = some 0 := by rw [g1]; exact hrun
  have q1 : s1.g_process_manager.ready_queue = none := by rw [g1]; exact hready
  have sl1 : (s1.process_pool 0).remaining_slice = 0 := by
    rw [p1, update_pcb_pool, if_pos rfl]
  have st1 : (s1.process_pool 0).state = PROCESS_STATE_RUNNING := by
    rw [p1, update_pcb_pool, if_pos rfl]; exact hst0
  have pid1 : (s1.process_pool 0).pid = 0 := by
    rw [p1, update_pcb_pool, if_pos rfl]; exact hpid0
  rw [r1]
  simp -zeta only []
  rw [if_pos sl1, if_pos st1]
  obtain ⟨a1, a2, _, _, a5, _, a7, _, _⟩ := add_to_queue_spec
    (update_pcb s1 0 (fun b => { b with state := PROCESS_STATE_READY })) queue_t.ready 0
  rw [update_pcb_mgr] at a1 a7
  have hq : queue_head s1.g_process_manager queue_t.ready = none := q1
  rw [hq] at a1
  unfold schedule_next_process
  have hh : (add_to_queue (update_pcb s1 0 (fun b => { b with state := PROCESS_STATE_READY }))
      queue_t.ready (some 0)).g_process_manager.ready_queue = some 0 := by
    rw [a7]; rfl
  rw [hh]
  simp -zeta only []
  obtain ⟨_, _, _, _, b5, _, b7, _, _⟩ := remove_from_queue_spec
    (add_to_queue (update_pcb s1 0 (fun b => { b with state := PROCESS_STATE_READY }))
      queue_t.ready (some 0)) queue_t.ready 0 (by rw [a2]; simp) (by rw [a1]; simp)
  rw [a2, a1, if_pos rfl, a7] at b7
  obtain ⟨w1, w2, w3, w4⟩ := process_switch_spec
    (remove_from_queue
      (add_to_queue (update_pcb s1 0 (fun b => { b with state := PROCESS_STATE_READY }))
        queue_t.ready (some 0)) queue_t.ready (some 0)) 0
  refine ⟨_, rfl, w1, ?_, w3, ?_⟩
  · rw [w4, b5, a5, update_pcb_pool, if_pos rfl]
    exact pid1
  · rw [w2, b7]
    rfl

/-- C29: after `process_manager_init`, any calls of `process_create` (valid or
not) and then `process_terminate` of every PID that a create returned, each
once and in any order, every termination returns Success; a following
`process_yield`, and likewise a direct `schedule_next_process`, returns with
pool slot 0 as the running process, which is the idle process (PID 0) in
state running, and with an empty ready queue. -/
theorem C29_idle_fallback (mem : MemState) (fuel : Nat) (creates : List proc_op)
    (pids : List Nat) (rets : List Int) (hfuel : 64 ≤ fuel)
    (hc : ∀ op ∈ creates, is_create op = true)
    (hr : returns_of fuel (process_manager_init mem).1 creates = some rets)
    (hp : pids.Perm ((rets.filter (fun r => decide (0 ≤ r))).map Int.toNat)) :
    ∃ t, proc_run fuel (state_after fuel (process_manager_init mem).1 creates)
          (pids.map proc_op.terminate) =
        some (t, List.replicate pids.length PROCESS_SUCCESS) ∧
      (∃ u, process_yield fuel t = some u ∧
        u.g_process_manager.running_process = some 0 ∧ (u.process_pool 0).pid = 0 ∧
        (u.process_pool 0).state = PROCESS_STATE_RUNNING ∧
        u.g_process_manager.ready_queue = none) ∧
      (∃ u, schedule_next_process fuel t = some u ∧
        u.g_process_manager.running_process = some 0 ∧ (u.process_pool 0).pid = 0 ∧
        (u.process_pool 0).state = PROCESS_STATE_RUNNING ∧
        u.g_process_manager.ready_queue = none) := by
  obtain ⟨s1, rets1, n, h1, hF, hn, hret⟩ :=
    run_any_creates fuel creates 0 _ (init_fresh mem) (by omega) hc
  have hs : state_after fuel (process_manager_init mem).1 creates = s1 := by
    unfold state_after; rw [h1]
  have hrets : rets = rets1 := by
    unfold returns_of at hr
    rw [h1] at hr
    exact (Option.some.inj hr).symm
  subst hrets
  rw [hs]
  rw [hret] at hp
  simp only [Nat.zero_add] at hp hF hn
  have hperm : pids.Perm (slots_down n) := hp.trans (slots_down_perm n).symm
  obtain ⟨t, ht, hI⟩ := run_terminates fuel pids s1 (slots_down n) hF.1 hperm
    (by rw [length_slots_down]; omega)
  exact ⟨t, ht, yield_idle hI fuel, schedule_idle hI fuel⟩

/-- C29, instance: boot, two creates, then `process_terminate(2)` and
`process_terminate(1)`. -/
theorem C29_idle_fallback_witness :
    (64 ≤ 64) ∧
    (∀ op ∈ [create_op ['a'], create_op ['b']], is_create op = true) ∧
    returns_of 64 (process_manager_init (memory_init MemState.zero)).1
      [create_op ['a'], create_op ['b']] = some [1, 2] ∧
    [2, 1].Perm ((([1, 2] : List Int).filter (fun r => decide (0 ≤ r))).map Int.toNat) ∧
    ∃ t, proc_run 64
          (state_after 64 (process_manager_init (memory_init MemState.zero)).1
            [create_op ['a'], create_op ['b']])
          ([2, 1].map proc_op.terminate) =
        some (t, List.replicate [2, 1].length PROCESS_SUCCESS) ∧
      (∃ u, process_yield 64 t = some u ∧
        u.g_process_manager.running_process = some 0 ∧ (u.process_pool 0).pid = 0 ∧
        (u.process_pool 0).state = PROCESS_STATE_RUNNING ∧
        u.g_process_manager.ready_queue = none) ∧
      (∃ u, schedule_next_process 64 t = some u ∧
        u.g_process_manager.running_process = some 0 ∧ (u.process_pool 0).pid = 0 ∧
        (u.process_pool 0).state = PROCESS_STATE_RUNNING ∧
        u.g_process_manager.ready_queue = none) :=
  ⟨by decide, by decide, by decide, by decide,
    C29_idle_fallback (memory_init MemState.zero) 64 [create_op ['a'], create_op ['b']] [2, 1]
      [1, 2] (by decide) (by decide) (by decide) (by decide)⟩

/-! ## Process manager: PIDs -/

theorem set_queue_head_counters (m : process_manager_t) (q : queue_t) (v : Option Nat) :
    (set_queue_head m q v).next_pid = m.next_pid ∧
    (set_queue_head m q v).process_count = m.process_count ∧
    (set_queue_head m q v).max_processes = m.max_processes := by
  cases q <;> exact ⟨rfl, rfl, rfl⟩

theorem remove_from_queue_counters (s : ProcState) (q : queue_t) (p : Nat) :
    (remove_from_queue s q (some p)).g_process_manager.next_pid = s.g_process_manager.next_pid ∧
    (remove_from_queue s q (some p)).g_process_manager.process_count =
      s.g_process_manager.process_count ∧
    (remove_from_queue s q (some p)).g_process_manager.max_processes =
      s.g_process_manager.max_processes := by
  rw [remove_from_queue_mgr]
  split_ifs
  · exact set_queue_head_counters _ _ _
  · exact ⟨rfl, rfl, rfl⟩

theorem remove_from_queue_used (s : ProcState) (q : queue_t) (p : Nat) :
    (remove_from_queue s q (some p)).process_pool_used = s.process_pool_used := by
  cases hx : (s.process_pool p).prev with
  | none =>
    cases hy : (s.process_pool p).next <;>
      simp [remove_from_queue, hx, hy, update_pcb_pool, update_pcb_used]
  | some x =>
    by_cases hpx : p = x
    · subst hpx
      cases hy : (s.process_pool p).next <;>
        simp [remove_from_queue, hx, hy, update_pcb_pool, update_pcb_used]
    · cases hy : (s.process_pool p).next <;>
        simp [remove_from_queue, hx, hy, update_pcb_pool, update_pcb_used, hpx]

theorem add_to_queue_counters (s : ProcState) (q : queue_t) (p : Nat) :
    (add_to_queue s q (some p)).g_process_manager.next_pid = s.g_process_manager.next_pid ∧
    (add_to_queue s q (some p)).g_process_manager.process_count =
      s.g_process_manager.process_count ∧
    (add_to_queue s q (some p)).g_process_manager.max_processes =
      s.g_process_manager.max_processes ∧
    (add_to_queue s q (some p)).g_process_manager.running_process =
      s.g_process_manager.running_process := by
  rw [(add_to_queue_spec s q p).2.2.2.2.2.2.1]
  exact ⟨(set_queue_head_counters _ _ _).1, (set_queue_head_counters _ _ _).2.1,
    (set_queue_head_counters _ _ _).2.2, set_queue_head_running _ _ _⟩

theorem deallocate_pcb_used_congr (s t : ProcState) (p : Nat)
    (h : s.process_pool_used = t.process_pool_used) :
    (deallocate_pcb s (some p)).process_pool_used =
      (deallocate_pcb t (some p)).process_pool_used := by
  unfold deallocate_pcb
  simp only []
  split_ifs
  · show Function.update s.process_pool_used p false = Function.update t.process_pool_used p false
    rw [h]
  · exact h

/-- `process_terminate` of a PID that the lookup finds returns Success;
`next_pid` and `max_processes` are unchanged, `process_count` is decremented
and the pool slot is released. -/
theorem terminate_some (fuel : Nat) (s : ProcState) (pid p : Nat)
    (h : process_get_by_pid fuel s pid = some (some p)) :
    ∃ t, process_terminate fuel s pid = some (t, PROCESS_SUCCESS) ∧
      t.g_process_manager.next_pid = s.g_process_manager.next_pid ∧
      t.g_process_manager.max_processes = s.g_process_manager.max_processes ∧
      t.g_process_manager.process_count = sub32 s.g_process_manager.process_count 1 ∧
      t.process_pool_used = (deallocate_pcb s (some p)).process_pool_used := by
  by_cases hrun : some p = s.g_process_manager.running_process
  · obtain ⟨c1, c2, c3, c4⟩ := add_to_queue_counters
      (update_pcb
        { s with g_process_manager := { s.g_process_manager with running_process := none } }
        p (fun b => { b with state := PROCESS_STATE_TERMINATED }))
      queue_t.terminated p
    have hu := (add_to_queue_spec
      (update_pcb
        { s with g_process_manager := { s.g_process_manager with running_process := none } }
        p (fun b => { b with state := PROCESS_STATE_TERMINATED }))
      queue_t.terminated p).2.2.2.2.2.2.2.1
    rw [update_pcb_mgr] at c1 c2 c3 c4
    rw [update_pcb_used] at hu
    obtain ⟨t, ht, _, _, _, _, _, h5, h6, h7, h8⟩ := terminate_tail fuel
      (add_to_queue
        (update_pcb
          { s with g_process_manager := { s.g_process_manager with running_process := none } }
          p (fun b => { b with state := PROCESS_STATE_TERMINATED }))
        queue_t.terminated (some p)) p (by rw [c4]; simp)
    refine ⟨t, ?_, by rw [h5, c1], by rw [h6, c3], by rw [h7, c2], ?_⟩
    · unfold process_terminate
      rw [h]
      simp -zeta only []
      rw [if_pos hrun]
      exact ht
    · rw [h8]
      exact deallocate_pcb_used_congr _ _ p hu
  · obtain ⟨c1, c2, c3, c4⟩ := add_to_queue_counters
      (update_pcb
        (remove_from_queue (remove_from_queue s queue_t.ready (some p)) queue_t.blocked
          (some p))
        p (fun b => { b with state := PROCESS_STATE_TERMINATED }))
      queue_t.terminated p
    have hu := (add_to_queue_spec
      (update_pcb
        (remove_from_queue (remove_from_queue s queue_t.ready (some p)) queue_t.blocked
          (some p))
        p (fun b => { b with state := PROCESS_STATE_TERMINATED }))
      queue_t.terminated p).2.2.2.2.2.2.2.1
    rw [update_pcb_mgr] at c1 c2 c3 c4
    rw [update_pcb_used, remove_from_queue_used, remove_from_queue_used] at hu
    obtain ⟨r1, r2, r3⟩ := remove_from_queue_counters s queue_t.ready p
    obtain ⟨q1, q2, q3⟩ := remove_from_queue_counters
      (remove_from_queue s queue_t.ready (some p)) queue_t.blocked p
    rw [remove_from_queue_running, remove_from_queue_running] at c4
    obtain ⟨t, ht, _, _, _, _, _, h5, h6, h7, h8⟩ := terminate_tail fuel
      (add_to_queue
        (update_pcb
          (remove_from_queue (remove_from_queue s queue_t.ready (some p)) queue_t.blocked
            (some p))
          p (fun b => { b with state := PROCESS_STATE_TERMINATED }))
        queue_t.terminated (some p)) p (by rw [c4]; exact fun e => hrun e.symm)
    refine ⟨t, ?_, by rw [h5, c1, q1, r1], by rw [h6, c3, q3, r3], by rw [h7, c2, q2, r2], ?_⟩
    · unfold process_terminate
      rw [h]
      simp -zeta only []
      rw [if_neg hrun]
      exact ht
    · rw [h8]
      exact deallocate_pcb_used_congr _ _ p hu

theorem process_switch_next_pid (s : ProcState) (np : Option Nat) :
    (process_switch s np).g_process_manager.next_pid = s.g_process_manager.next_pid := by
  cases np with
  | none => rfl
  | some p =>
    unfold process_switch
    simp -zeta only []
    lift_lets
    intro m0 s1
    have d1 : s1 = { s with
        g_process_manager := { s.g_process_manager with running_process := some p } } := rfl
    clear_value s1 m0
    rw [update_pcb_mgr, d1]

theorem schedule_next_pid (fuel : Nat) (s t : ProcState)
    (h : schedule_next_process fuel s = some t) :
    t.g_process_manager.next_pid = s.g_process_manager.next_pid := by
  unfold schedule_next_process at h
  cases hq : s.g_process_manager.ready_queue with
  | some n =>
    rw [hq] at h
    simp -zeta only [Option.some.injEq] at h
    rw [← h, process_switch_next_pid]
    exact (remove_from_queue_counters s queue_t.ready n).1
  | none =>
    rw [hq] at h
    simp -zeta only [] at h
    cases hl : process_get_by_pid fuel s 0 with
    | none => rw [hl] at h; cases h
    | some np =>
      rw [hl] at h
      simp -zeta only [Option.some.injEq] at h
      rw [← h, process_switch_next_pid]

theorem scheduler_next_pid (fuel : Nat) (s t : ProcState)
    (h : process_scheduler fuel s = some t) :
    t.g_process_manager.next_pid = s.g_process_manager.next_pid := by
  unfold process_scheduler at h
  revert h
  lift_lets
  intro m0 s1
  have d1 : ∃ n, s1 = { s with
      g_process_manager := { s.g_process_manager with scheduler_ticks := n } } := ⟨_, rfl⟩
  clear_value s1 m0
  obtain ⟨n, d1⟩ := d1
  have g1 : s1.g_process_manager.next_pid = s.g_process_manager.next_pid := by rw [d1]
  intro h
  cases hr : s1.g_process_manager.running_process with
  | none =>
    rw [hr] at h
    simp -zeta only [Option.some.injEq] at h
    rw [← h, g1]
  | some r =>
    rw [hr] at h
    simp -zeta only [] at h
    by_cases hs : (s1.process_pool r).remaining_slice = 0
    · rw [if_pos hs] at h
      by_cases hst : (s1.process_pool r).state = PROCESS_STATE_RUNNING
      · rw [if_pos hst] at h
        rw [schedule_next_pid fuel _ t h, (add_to_queue_counters _ _ _).1, update_pcb_mgr, g1]
      · rw [if_neg hst] at h
        rw [schedule_next_pid fuel _ t h, g1]
    · rw [if_neg hs] at h
      simp only [Option.some.injEq] at h
      rw [← h, g1]

theorem yield_next_pid (fuel : Nat) (s t : ProcState) (h : process_yield fuel s = some t) :
    t.g_process_manager.next_pid = s.g_process_manager.next_pid := by
  unfold process_yield at h
  cases hr : s.g_process_manager.running_process with
  | none =>
    rw [hr] at h
    simp -zeta only [Option.some.injEq] at h
    rw [← h]
  | some r =>
    rw [hr] at h
    simp -zeta only [] at h
    rw [scheduler_next_pid fuel _ t h, update_pcb_mgr]

theorem set_priority_next_pid (fuel : Nat) (s t : ProcState) (pid pr : Nat) (r : Int)
    (h : process_set_priority fuel s pid pr = some (t, r)) :
    t.g_process_manager.next_pid = s.g_process_manager.next_pid := by
  unfold process_set_priority at h
  cases hl : process_get_by_pid fuel s pid with
  | none => rw [hl] at h; cases h
  | some o =>
    cases o with
    | none =>
      rw [hl] at h
      simp -zeta only [Option.some.injEq, Prod.mk.injEq] at h
      rw [← h.1]
    | some p =>
      rw [hl] at h
      simp -zeta only [Option.some.injEq, Prod.mk.injEq] at h
      rw [← h.1, update_pcb_mgr]

theorem terminate_next_pid (fuel : Nat) (s t : ProcState) (pid : Nat) (r : Int)
    (h : process_terminate fuel s pid = some (t, r)) :
    t.g_process_manager.next_pid = s.g_process_manager.next_pid := by
  cases hl : process_get_by_pid fuel s pid with
  | none =>
    unfold process_terminate at h
    rw [hl] at h
    cases h
  | some o =>
    cases o with
    | none =>
      unfold process_terminate at h
      rw [hl] at h
      simp -zeta only [Option.some.injEq, Prod.mk.injEq] at h
      rw [← h.1]
    | some p =>
      obtain ⟨t2, ht2, hn, _⟩ := terminate_some fuel s pid p hl
      rw [ht2] at h
      simp only [Option.some.injEq, Prod.mk.injEq] at h
      rw [← h.1, hn]

/-- The outcomes of `process_create`: an error code with the state unchanged,
or the PID `next_pid` with `next_pid` incremented. -/
theorem create_cases (s : ProcState) (name : Option (List Char)) (e pr ss : Nat) :
    (∃ r, process_create s name e pr ss = (s, r) ∧
      (r = PROCESS_ERROR_INVALID_PARAM ∨ r = PROCESS_ERROR_QUEUE_FULL ∨
        r = PROCESS_ERROR_NO_MEMORY)) ∨
    ∃ t, process_create s name e pr ss = (t, int_of_u32 s.g_process_manager.next_pid) ∧
      t.g_process_manager.next_pid = add32 s.g_process_manager.next_pid 1 := by
  by_cases hbad : name = none ∨ e = 0
  · exact Or.inl ⟨_, create_invalid s name e pr ss hbad, Or.inl rfl⟩
  · have he : e ≠ 0 := fun h => hbad (Or.inr h)
    obtain ⟨nm, rfl⟩ : ∃ nm, name = some nm := by
      cases name with
      | none => exact absurd (Or.inl rfl) hbad
      | some nm => exact ⟨nm, rfl⟩
    by_cases hfull : s.g_process_manager.max_processes ≤ s.g_process_manager.process_count
    · exact Or.inl ⟨_, create_full s nm e pr ss he hfull, Or.inr (Or.inl rfl)⟩
    · cases ha : first_unused s.process_pool_used 0 MAX_PROCESSES with
      | none =>
        refine Or.inl ⟨PROCESS_ERROR_NO_MEMORY, ?_, Or.inr (Or.inr rfl)⟩
        have hal : allocate_pcb s = (s, none) := by unfold allocate_pcb; rw [ha]
        unfold process_create
        simp -zeta only []
        rw [if_neg he, if_neg hfull, hal]
      | some p =>
        obtain ⟨t, ht, _, _, _, _, _, _, _, _, _, g5, _⟩ := create_ok s nm e pr ss p he hfull ha
        exact Or.inr ⟨t, ht, g5⟩

theorem proc_run_cons_some (fuel : Nat) (s t : ProcState) (op : proc_op) (ops : List proc_op)
    (rets : List Int) (h : proc_run fuel s (op :: ops) = some (t, rets)) :
    ∃ s1 r rs, proc_step fuel s op = some (s1, r) ∧ proc_run fuel s1 ops = some (t, rs) ∧
      rets = r :: rs := by
  cases hs : proc_step fuel s op with
  | none => rw [proc_run, hs] at h; cases h
  | some x =>
    obtain ⟨s1, r⟩ := x
    rw [proc_run_cons fuel s s1 op ops r hs] at h
    cases hq : proc_run fuel s1 ops with
    | none => rw [hq] at h; cases h
    | some y =>
      obtain ⟨t1, rs⟩ := y
      rw [hq] at h
      simp only [Option.map_some', Option.some.injEq, Prod.mk.injEq] at h
      exact ⟨s1, r, rs, rfl, by rw [hq, h.1], h.2.symm⟩

/-- One call of the process API: a create returns an error code and leaves
`next_pid` alone, or returns `next_pid` and increments it; every other call
leaves `next_pid` alone. -/
theorem step_next_pid (fuel : Nat) (s t : ProcState) (op : proc_op) (r : Int)
    (h : proc_step fuel s op = some (t, r)) :
    (is_create op = false ∧ t.g_process_manager.next_pid = s.g_process_manager.next_pid) ∨
    (is_create op = true ∧ r < 0 ∧
      t.g_process_manager.next_pid = s.g_process_manager.next_pid) ∨
    (is_create op = true ∧ r = int_of_u32 s.g_process_manager.next_pid ∧
      t.g_process_manager.next_pid = add32 s.g_process_manager.next_pid 1) := by
  cases op with
  | create name e pr ss =>
    rw [proc_step] at h
    simp only [Option.some.injEq] at h
    rcases create_cases s name e pr ss with ⟨r1, h1, hr1⟩ | ⟨t1, h1, hn⟩
    · rw [h1] at h
      simp only [Prod.mk.injEq] at h
      obtain ⟨rfl, rfl⟩ := h
      refine Or.inr (Or.inl ⟨rfl, ?_, rfl⟩)
      rcases hr1 with e1 | e1 | e1 <;> rw [e1] <;> decide
    · rw [h1] at h
      simp only [Prod.mk.injEq] at h
      obtain ⟨rfl, rfl⟩ := h
      exact Or.inr (Or.inr ⟨rfl, rfl, hn⟩)
  | terminate pid =>
    rw [proc_step] at h
    exact Or.inl ⟨rfl, terminate_next_pid fuel s t pid r h⟩
  | kill pid =>
    rw [proc_step, process_kill] at h
    exact Or.inl ⟨rfl, terminate_next_pid fuel s t pid r h⟩
  | yield =>
    rw [proc_step] at h
    cases hy : process_yield fuel s with
    | none => rw [hy] at h; cases h
    | some u =>
      rw [hy] at h
      simp only [Option.map_some', Option.some.injEq, Prod.mk.injEq] at h
      rw [← h.1]
      exact Or.inl ⟨rfl, yield_next_pid fuel s u hy⟩
  | scheduler =>
    rw [proc_step] at h
    cases hy : process_scheduler fuel s with
    | none => rw [hy] at h; cases h
    | some u =>
      rw [hy] at h
      simp only [Option.map_some', Option.some.injEq, Prod.mk.injEq] at h
      rw [← h.1]
      exact Or.inl ⟨rfl, scheduler_next_pid fuel s u hy⟩
  | set_priority pid pr =>
    rw [proc_step] at h
    exact Or.inl ⟨rfl, set_priority_next_pid fuel s t pid pr r h⟩

/-- The PIDs returned by the successful creates of a run are consecutive. -/
theorem run_pids (fuel : Nat) (ops : List proc_op) :
    ∀ (k : Nat) (s t : ProcState) (rets : List Int), s.g_process_manager.next_pid = k + 1 →
      k + ops.length < 2147483647 → proc_run fuel s ops = some (t, rets) →
      ∃ n, created_pids ops rets = (List.range' (k + 1) n).map Int.ofNat ∧
        t.g_process_manager.next_pid = k + n + 1 := by
  induction ops with
  | nil =>
    intro k s t rets hk _ h
    simp only [proc_run, Option.some.injEq, Prod.mk.injEq] at h
    obtain ⟨rfl, rfl⟩ := h
    exact ⟨0, rfl, hk⟩
  | cons op ops ih =>
    intro k s t rets hk hb h
    simp only [List.length_cons] at hb
    obtain ⟨s1, r, rs, h1, h2, rfl⟩ := proc_run_cons_some fuel s t op ops rets h
    rcases step_next_pid fuel s s1 op r h1 with ⟨hc, hn⟩ | ⟨hc, hr, hn⟩ | ⟨hc, hr, hn⟩
    · obtain ⟨n, e1, e2⟩ := ih k s1 t rs (by rw [hn, hk]) (by omega) h2
      refine ⟨n, ?_, e2⟩
      rw [created_pids, if_neg (by rw [hc]; simp)]
      exact e1
    · obtain ⟨n, e1, e2⟩ := ih k s1 t rs (by rw [hn, hk]) (by omega) h2
      refine ⟨n, ?_, e2⟩
      rw [created_pids, if_neg (by intro hh; omega)]
      exact e1
    · rw [hk] at hr hn
      rw [int_of_u32_small _ (by omega)] at hr
      rw [add32_of_lt (by unfold WORD; omega)] at hn
      obtain ⟨n, e1, e2⟩ := ih (k + 1) s1 t rs hn (by omega) h2
      refine ⟨n + 1, ?_, by omega⟩
      rw [created_pids, if_pos ⟨hc, by rw [hr]; omega⟩, e1, hr, List.range'_succ]
      rfl

/-- C22, amended: in every sequence of fewer than 2^31 - 1 calls of the
process API after `process_manager_init`, the values returned by the
successful calls of `process_create` are 1, 2, .., n in this order, and
`next_pid` ends as n + 1: the first PID is 1, each PID is the previous one plus
one, 0 is never returned, and the failed creates consume no PID. -/
theorem C22_pids_consecutive (mem : MemState) (fuel : Nat) (ops : List proc_op)
    (rets : List Int) (hb : ops.length < 2147483647)
    (hr : returns_of fuel (process_manager_init mem).1 ops = some rets) :
    ∃ n, created_pids ops rets = (List.range' 1 n).map Int.ofNat ∧
      (state_after fuel (process_manager_init mem).1 ops).g_process_manager.next_pid =
        n + 1 := by
  unfold returns_of at hr
  cases hq : proc_run fuel (process_manager_init mem).1 ops with
  | none => rw [hq] at hr; cases hr
  | some x =>
    obtain ⟨t, rs⟩ := x
    rw [hq] at hr
    simp only [Option.map_some', Option.some.injEq] at hr
    subst hr
    have hs : state_after fuel (process_manager_init mem).1 ops = t := by
      unfold state_after; rw [hq]
    rw [hs]
    obtain ⟨n, e1, e2⟩ := run_pids fuel ops 0 _ t rs (init_fresh mem).2.2.1 (by omega) hq
    simp only [Nat.zero_add] at e1 e2
    exact ⟨n, e1, e2⟩

/-- C22, instance: boot, a create, a create without a name, a create, the
termination of PID 1 and a create. -/
theorem C22_pids_consecutive_witness :
    [create_op ['a'], proc_op.create none 0 0 0, create_op ['b'], proc_op.terminate 1,
        create_op ['c']].length < 2147483647 ∧
    returns_of 64 (process_manager_init (memory_init MemState.zero)).1
        [create_op ['a'], proc_op.create none 0 0 0, create_op ['b'], proc_op.terminate 1,
          create_op ['c']] = some [1, -6, 2, 0, 3] ∧
    ∃ n, created_pids
          [create_op ['a'], proc_op.create none 0 0 0, create_op ['b'], proc_op.terminate 1,
            create_op ['c']] [1, -6, 2, 0, 3] = (List.range' 1 n).map Int.ofNat ∧
      (state_after 64 (process_manager_init (memory_init MemState.zero)).1
          [create_op ['a'], proc_op.create none 0 0 0, create_op ['b'], proc_op.terminate 1,
            create_op ['c']]).g_process_manager.next_pid = n + 1 :=
  ⟨by decide, by decide,
    C22_pids_consecutive (memory_init MemState.zero) 64
      [create_op ['a'], proc_op.create none 0 0 0, create_op ['b'], proc_op.terminate 1,
        create_op ['c']] [1, -6, 2, 0, 3] (by decide) (by decide)⟩

theorem boot_round (mem : MemState) : RoundInv (process_manager_init mem).1 0 := by
  obtain ⟨⟨hrun, hpid0, _, hblk, hN, _⟩, hT, hnp, hcnt, hmax, hused⟩ := init_fresh mem
  refine ⟨hrun, hpid0, hN, hblk, Or.inl hT, hnp, hcnt, hmax, ?_, ?_⟩
  · rw [hused]; rfl
  · rw [hused]; rfl

/-- One round: `process_create` of a process and `process_terminate` of the
PID it returned. -/
theorem round_step (fuel : Nat) (hf : 1 ≤ fuel) {s : ProcState} {n : Nat}
    (hI : RoundInv s n) (hn : n + 1 < WORD) :
    ∃ t, proc_run fuel s [create_op ['a'], proc_op.terminate (n + 1)] =
        some (t, [int_of_u32 (n + 1), PROCESS_SUCCESS]) ∧ RoundInv t (n + 1) := by
  obtain ⟨hrun, hpid0, hready, hblk, hterm, hnp, hcnt, hmax, hu0, hu1⟩ := hI
  rw [Nat.mod_eq_of_lt hn] at hnp
  obtain ⟨m, rfl⟩ : ∃ m, fuel = m + 1 := ⟨fuel - 1, by omega⟩
  have hc : ¬ s.g_process_manager.max_processes ≤ s.g_process_manager.process_count := by
    rw [hmax, hcnt]; decide
  have halloc : first_unused s.process_pool_used 0 MAX_PROCESSES = some 1 := by
    have := first_unused_spec s.process_pool_used 1 0 MAX_PROCESSES
      (fun j _ hj => by
        have : j = 0 := by omega
        rw [this]; exact hu0)
      hu1 (by decide)
    simpa using this
  obtain ⟨t1, ht1, c1, _, c3, c4, c5, g1, g2, g3, g4, g5, g6, g7, u⟩ :=
    create_ok s ['a'] 0x100000 PROCESS_PRIORITY_NORMAL DEFAULT_STACK_SIZE 1 (by decide) hc halloc
  rw [hnp] at ht1 c1 g5
  rw [hready] at c3
  have hp0 : (t1.process_pool 0).pid = 0 := by rw [(c5 0 (by decide)).1, hpid0]
  have hlook : process_get_by_pid (m + 1) t1 (n + 1) = some (some 1) := by
    have hne : ¬ (0 : Nat) = n + 1 := by omega
    simp [process_get_by_pid, g1, hrun, hp0, hne, g2, find_process_in_queue, c1]
  have hr1 : t1.g_process_manager.running_process ≠ some 1 := by rw [g1, hrun]; decide
  obtain ⟨t2, ht2, tp, trun, tready, tblk, tterm⟩ :=
    terminate_found (m + 1) t1 (n + 1) 1 hlook hr1
  obtain ⟨t3, ht3, k1, k2, k3, k4⟩ := terminate_some (m + 1) t1 (n + 1) 1 hlook
  have e23 : t3 = t2 := by
    rw [ht2] at ht3
    simp only [Option.some.injEq, Prod.mk.injEq, and_true] at ht3
    exact ht3.symm
  subst e23
  obtain ⟨_, _, A3, A4, A5, _, A7, _, _⟩ := remove_from_queue_spec t1 queue_t.ready 1
    (by rw [c4]; simp) (by rw [c3]; simp)
  rw [c4, c3] at A7
  simp only [if_true] at A7
  have B7 := remove_from_queue_mgr (remove_from_queue t1 queue_t.ready (some 1))
    queue_t.blocked 1
  have B5 := (remove_from_queue_spec (remove_from_queue t1 queue_t.ready (some 1))
    queue_t.blocked 1 (by rw [A4]; simp) (by rw [A3]; simp)).2.2.2.2.1
  rw [A4, A3, A7] at B7
  simp only [if_true] at B7
  have C5 := (add_to_queue_spec
    (update_pcb
      (remove_from_queue (remove_from_queue t1 queue_t.ready (some 1)) queue_t.blocked
        (some 1))
      1 (fun b => { b with state := PROCESS_STATE_TERMINATED }))
    queue_t.terminated 1).2.2.2.2.1
  refine ⟨t3, ?_, ?_, ?_, ?_, ?_, Or.inr tterm, ?_, ?_, ?_, ?_, ?_⟩
  · rw [proc_run_cons (m + 1) s t1 _ _ (int_of_u32 (n + 1)) (by rw [create_op, proc_step, ht1]),
      proc_run_cons (m + 1) t1 t3 _ [] PROCESS_SUCCESS (by rw [proc_step, ht2])]
    rfl
  · rw [trun, g1, hrun]
  · rw [tp, C5, update_pcb_pool, if_neg (by decide), B5, A5, hp0]
  · rw [tready, B7]; rfl
  · rw [tblk, B7]; rfl
  · rw [k1, g5]; rfl
  · rw [k3, g6, hcnt]; decide
  · rw [k2, g7, hmax]
  · rw [k4]
    unfold deallocate_pcb
    simp only []
    rw [if_pos (by decide)]
    show Function.update t1.process_pool_used 1 false 0 = true
    rw [Function.update_noteq (by decide), u, Function.update_noteq (by decide), hu0]
  · rw [k4]
    unfold deallocate_pcb
    simp only []
    rw [if_pos (by decide)]
    show Function.update t1.process_pool_used 1 false 1 = false
    rw [Function.update_same]

theorem rounds_run (mem : MemState) (fuel : Nat) (hf : 1 ≤ fuel) (n : Nat) (hn : n < WORD) :
    ∃ t rets, proc_run fuel (process_manager_init mem).1 (create_terminate_rounds n) =
        some (t, rets) ∧ RoundInv t n := by
  induction n with
  | zero => exact ⟨_, [], rfl, boot_round mem⟩
  | succ n ih =>
    obtain ⟨t, rets, h1, hI⟩ := ih (by omega)
    obtain ⟨t2, h2, hI2⟩ := round_step fuel hf hI hn
    refine ⟨t2, rets ++ [int_of_u32 (n + 1), PROCESS_SUCCESS], ?_, hI2⟩
    rw [create_terminate_rounds, proc_run_append fuel _ _ _ t rets h1, h2]
    rfl

/-- C22, counterexample: after boot and 4294967295 rounds of `process_create`
and `process_terminate` of the PID returned, `next_pid` has wrapped to 0; the
next `process_create` with valid arguments queues a new ready PCB (pool slot
1) and returns its PID, which is 0. -/
theorem C22_counterexample_pid_wraps :
    ∃ t rets, proc_run 64 boot_state (create_terminate_rounds 4294967295 ++ [create_op ['a']]) =
        some (t, rets ++ [0]) ∧
      t.g_process_manager.ready_queue = some 1 ∧ (t.process_pool 1).pid = 0 ∧
      (t.process_pool 1).state = PROCESS_STATE_READY := by
  obtain ⟨s, rets, h1, hI⟩ := rounds_run (memory_init MemState.zero) 64 (by decide) 4294967295
    (by decide)
  obtain ⟨hrun, hpid0, hready, hblk, hterm, hnp, hcnt, hmax, hu0, hu1⟩ := hI
  have hnp0 : s.g_process_manager.next_pid = 0 := by rw [hnp]; decide
  have hc : ¬ s.g_process_manager.max_processes ≤ s.g_process_manager.process_count := by
    rw [hmax, hcnt]; decide
  have halloc : first_unused s.process_pool_used 0 MAX_PROCESSES = some 1 := by
    have := first_unused_spec s.process_pool_used 1 0 MAX_PROCESSES
      (fun j _ hj => by
        have : j = 0 := by omega
        rw [this]; exact hu0)
      hu1 (by decide)
    simpa using this
  obtain ⟨t1, ht1, c1, c2, _, _, _, _, g2, _⟩ :=
    create_ok s ['a'] 0x100000 PROCESS_PRIORITY_NORMAL DEFAULT_STACK_SIZE 1 (by decide) hc halloc
  rw [hnp0] at ht1 c1
  refine ⟨t1, rets, ?_, g2, c1, c2⟩
  have hlast : proc_run 64 s [create_op ['a']] = some (t1, [0]) := by
    rw [proc_run_cons 64 s t1 _ [] (int_of_u32 0) (by rw [create_op, proc_step, ht1])]
    rfl
  show proc_run 64 (process_manager_init (memory_init MemState.zero)).1 _ = _
  rw [proc_run_append 64 _ _ _ s rets h1, hlast]
  rfl

/-! ## Process manager: lookups that return, and listing -/

/-- `process_terminate` of a PID that the lookup does not find returns
NotFound and leaves the whole state unchanged. -/
theorem terminate_not_found (fuel : Nat) (s : ProcState) (pid : Nat)
    (h : process_get_by_pid fuel s pid = some none) :
    process_terminate fuel s pid = some (s, PROCESS_ERROR_NOT_FOUND) := by
  unfold process_terminate
  rw [h]

theorem list_queue_of_NextList {pool : Nat → pcb_t} {R : List Nat} :
    ∀ {head : Option Nat} (room : Nat), NextList pool head R →
      list_queue pool room head = (R.take room).map pool := by
  induction R with
  | nil =>
    intro head room h
    rw [show head = none from h]
    cases room <;> rfl
  | cons a R ih =>
    intro head room h
    rw [h.1]
    cases room with
    | zero => rfl
    | succ n =>
      rw [list_queue, ih n h.2]
      rfl

/-- `process_get_list` on NULL-terminated ready and blocked queues: the
running process, then the ready queue from its head, then the blocked queue,
truncated to `max_count` entries. -/
theorem process_get_list_wellformed (s : ProcState) (R B : List Nat) (max_count : Nat)
    (hR : NextList s.process_pool s.g_process_manager.ready_queue R)
    (hB : NextList s.process_pool s.g_process_manager.blocked_queue B) :
    process_get_list s true true max_count =
      (PROCESS_SUCCESS,
        ((s.g_process_manager.running_process.toList ++ R ++ B).take max_count).map
          s.process_pool) := by
  unfold process_get_list
  simp only [Bool.true_eq_false, or_self, if_false]
  rw [list_queue_of_NextList _ hR, list_queue_of_NextList _ hB]
  refine congrArg (fun l => (PROCESS_SUCCESS, l)) ?_
  cases hr : s.g_process_manager.running_process with
  | none =>
    simp only [Option.toList, List.nil_append, List.length_nil, Nat.sub_zero, List.length_map,
      List.length_take]
    rw [List.take_append_eq_append_take, List.map_append]
    rw [show max_count - max_count ⊓ R.length = max_count - R.length by omega]
  | some r =>
    by_cases hm : 0 < max_count
    · simp only [if_pos hm, Option.toList, List.singleton_append, List.cons_append,
        List.length_cons, List.length_nil, List.length_append, List.length_map, List.length_take]
      obtain ⟨m, rfl⟩ : ∃ m, max_count = m + 1 := ⟨max_count - 1, by omega⟩
      rw [List.take_succ_cons, List.map_cons, List.take_append_eq_append_take, List.map_append]
      simp only [Nat.zero_add, Nat.add_sub_cancel, List.nil_append, List.cons_append,
        List.cons.injEq, true_and]
      rw [show m + 1 - (m ⊓ R.length + 1) = m - R.length by omega]
    · have : max_count = 0 := by omega
      subst this
      simp

/-- After `k <= 63` successful creates on a fresh manager, `process_get_list`
with a buffer of 64 entries returns `k + 1` entries, the idle process first. -/
theorem listed_fresh {k : Nat} {s : ProcState} (hF : Fresh k s) (hk : k ≤ 63) :
    (process_get_list s true true MAX_PROCESSES).1 = PROCESS_SUCCESS ∧
    (process_get_list s true true MAX_PROCESSES).2.length = k + 1 ∧
    (process_get_list s true true MAX_PROCESSES).2.map (fun b => b.pid) = 0 :: slots_down k := by
  obtain ⟨⟨hrun, hpid0, _, hblk, hN, _, _, _, hpids, _⟩, _⟩ := hF
  have hB : NextList s.process_pool s.g_process_manager.blocked_queue [] := hblk
  rw [process_get_list_wellformed s (slots_down k) [] MAX_PROCESSES hN hB, hrun]
  have hlen : ([0] ++ slots_down k ++ ([] : List Nat)).length ≤ MAX_PROCESSES := by
    simp only [List.append_nil, List.length_append, List.length_cons, List.length_nil,
      length_slots_down]
    unfold MAX_PROCESSES
    omega
  simp only [Option.toList]
  rw [List.take_of_length_le hlen]
  refine ⟨trivial, ?_, ?_⟩
  · simp [length_slots_down]
  · simp only [List.append_nil, List.singleton_append, List.map_cons, List.map_map, hpid0,
      List.cons.injEq, true_and]
    conv_rhs => rw [← List.map_id (slots_down k)]
    exact List.map_congr_left (fun c hc => hpids c hc)

/-! ## Process manager: creation without a free slot, and the stack of a new process -/

/-- `process_create` when `process_count` is below `max_processes` but no pool
slot is free: NoMemory, with the state unchanged. -/
theorem create_no_slot (s : ProcState) (nm : List Char) (e pr ss : Nat) (he : e ≠ 0)
    (hcnt : ¬ s.g_process_manager.max_processes ≤ s.g_process_manager.process_count)
    (ha : first_unused s.process_pool_used 0 MAX_PROCESSES = none) :
    process_create s (some nm) e pr ss = (s, PROCESS_ERROR_NO_MEMORY) := by
  have hal : allocate_pcb s = (s, none) := by unfold allocate_pcb; rw [ha]
  unfold process_create
  simp -zeta only []
  rw [if_neg he, if_neg hcnt, hal]

/-- The stack set up by `setup_process_stack` when `kmalloc` succeeds. -/
theorem setup_process_stack_ok (s : ProcState) (p e : Nat) (he : e ≠ 0)
    (hk : (kmalloc s.mem DEFAULT_STACK_SIZE).2 ≠ 0) :
    (setup_process_stack s (some p) e).mem = (kmalloc s.mem DEFAULT_STACK_SIZE).1 ∧
    ((setup_process_stack s (some p) e).process_pool p).stack_base =
      (kmalloc s.mem DEFAULT_STACK_SIZE).2 ∧
    ((setup_process_stack s (some p) e).process_pool p).stack_size = DEFAULT_STACK_SIZE ∧
    ((setup_process_stack s (some p) e).process_pool p).eip = e ∧
    ((setup_process_stack s (some p) e).process_pool p).esp =
      sub32 (add32 (kmalloc s.mem DEFAULT_STACK_SIZE).2 DEFAULT_STACK_SIZE) 16 ∧
    ((setup_process_stack s (some p) e).process_pool p).priority = (s.process_pool p).priority ∧
    ((setup_process_stack s (some p) e).process_pool p).name = (s.process_pool p).name ∧
    ((setup_process_stack s (some p) e).process_pool p).time_slice =
      (s.process_pool p).time_slice ∧
    ((setup_process_stack s (some p) e).process_pool p).remaining_slice =
      (s.process_pool p).remaining_slice := by
  unfold setup_process_stack
  simp -zeta only []
  rw [if_neg he]
  lift_lets
  intro s1 r s2
  have d1 : s1 = update_pcb s p (fun b => { b with stack_size := DEFAULT_STACK_SIZE }) := rfl
  have dr : r = kmalloc s1.mem (s1.process_pool p).stack_size := rfl
  have d2 : s2 = update_pcb { s1 with mem := r.1 } p (fun b => { b with stack_base := r.2 }) :=
    rfl
  clear_value s2 r s1
  have m1 : s1.mem = s.mem := by rw [d1, update_pcb_mem]
  have z1 : (s1.process_pool p).stack_size = DEFAULT_STACK_SIZE := by
    rw [d1, update_pcb_pool, if_pos rfl]
  rw [m1, z1] at dr
  have b2 : (s2.process_pool p).stack_base = r.2 := by
    rw [d2, update_pcb_pool, if_pos rfl]
  have z2 : (s2.process_pool p).stack_size = DEFAULT_STACK_SIZE := by
    rw [d2, update_pcb_pool, if_pos rfl]
    exact z1
  have f2 : (s2.process_pool p).priority = (s.process_pool p).priority ∧
      (s2.process_pool p).name = (s.process_pool p).name ∧
      (s2.process_pool p).time_slice = (s.process_pool p).time_slice ∧
      (s2.process_pool p).remaining_slice = (s.process_pool p).remaining_slice := by
    rw [d2, update_pcb_pool, if_pos rfl]
    show (s1.process_pool p).priority = _ ∧ (s1.process_pool p).name = _ ∧
      (s1.process_pool p).time_slice = _ ∧ (s1.process_pool p).remaining_slice = _
    rw [d1, update_pcb_pool, if_pos rfl]
    exact ⟨rfl, rfl, rfl, rfl⟩
  have mem2 : s2.mem = r.1 := by rw [d2, update_pcb_mem]
  have hb : ¬ (s2.process_pool p).stack_base = 0 := by rw [b2, dr]; exact hk
  rw [if_neg hb, update_pcb_mem, update_pcb_pool, if_pos rfl]
  have key : ∀ (x : pcb_t) (v : Nat),
      ({ x with
          esp := v, ebp := v, eip := e, cs := 0x08, ds := 0x10, es := 0x10, fs := 0x10
          gs := 0x10, ss := 0x10, eflags := 0x202 } : pcb_t).stack_base = x.stack_base ∧
      ({ x with
          esp := v, ebp := v, eip := e, cs := 0x08, ds := 0x10, es := 0x10, fs := 0x10
          gs := 0x10, ss := 0x10, eflags := 0x202 } : pcb_t).stack_size = x.stack_size ∧
      ({ x with
          esp := v, ebp := v, eip := e, cs := 0x08, ds := 0x10, es := 0x10, fs := 0x10
          gs := 0x10, ss := 0x10, eflags := 0x202 } : pcb_t).eip = e ∧
      ({ x with
          esp := v, ebp := v, eip := e, cs := 0x08, ds := 0x10, es := 0x10, fs := 0x10
          gs := 0x10, ss := 0x10, eflags := 0x202 } : pcb_t).esp = v ∧
      ({ x with
          esp := v, ebp := v, eip := e, cs := 0x08, ds := 0x10, es := 0x10, fs := 0x10
          gs := 0x10, ss := 0x10, eflags := 0x202 } : pcb_t).priority = x.priority ∧
      ({ x with
          esp := v, ebp := v, eip := e, cs := 0x08, ds := 0x10, es := 0x10, fs := 0x10
          gs := 0x10, ss := 0x10, eflags := 0x202 } : pcb_t).name = x.name ∧
      ({ x with
          esp := v, ebp := v, eip := e, cs := 0x08, ds := 0x10, es := 0x10, fs := 0x10
          gs := 0x10, ss := 0x10, eflags := 0x202 } : pcb_t).time_slice = x.time_slice ∧
      ({ x with
          esp := v, ebp := v, eip := e, cs := 0x08, ds := 0x10, es := 0x10, fs := 0x10
          gs := 0x10, ss := 0x10, eflags := 0x202 } : pcb_t).remaining_slice =
        x.remaining_slice :=
    fun _ _ => ⟨rfl, rfl, rfl, rfl, rfl, rfl, rfl, rfl⟩
  obtain ⟨k1, k2, k3, k4, k5, k6, k7, k8⟩ := key (s2.process_pool p)
    (sub32 (add32 (s2.process_pool p).stack_base (s2.process_pool p).stack_size) 16)
  refine ⟨by rw [mem2, dr], k1.trans (by rw [b2, dr]), k2.trans z2, k3, ?_, k5.trans f2.1,
    k6.trans f2.2.1, k7.trans f2.2.2.1, k8.trans f2.2.2.2⟩
  rw [k4, b2, z2, dr]
/-- `add_to_queue` changes no field of a PCB other than its links. -/
theorem add_to_queue_fields (s : ProcState) (q : queue_t) (p : Nat) (c : Nat) :
    ((add_to_queue s q (some p)).process_pool c).stack_base = (s.process_pool c).stack_base ∧
    ((add_to_queue s q (some p)).process_pool c).stack_size = (s.process_pool c).stack_size ∧
    ((add_to_queue s q (some p)).process_pool c).eip = (s.process_pool c).eip ∧
    ((add_to_queue s q (some p)).process_pool c).esp = (s.process_pool c).esp ∧
    ((add_to_queue s q (some p)).process_pool c).priority = (s.process_pool c).priority ∧
    ((add_to_queue s q (some p)).process_pool c).name = (s.process_pool c).name ∧
    ((add_to_queue s q (some p)).process_pool c).time_slice = (s.process_pool c).time_slice ∧
    ((add_to_queue s q (some p)).process_pool c).remaining_slice =
      (s.process_pool c).remaining_slice := by
  cases hq : queue_head s.g_process_manager q with
  | none =>
    by_cases hc : c = p
    · subst hc; simp [add_to_queue, hq, update_pcb_pool, update_pcb_mgr]
    · simp [add_to_queue, hq, update_pcb_pool, update_pcb_mgr, hc]
  | some h =>
    by_cases hhp : h = p
    · subst hhp
      by_cases hc : c = h
      · subst hc; simp [add_to_queue, hq, update_pcb_pool, update_pcb_mgr]
      · simp [add_to_queue, hq, update_pcb_pool, update_pcb_mgr, hc]
    · have hhp2 : ¬ p = h := fun e => hhp e.symm
      by_cases hc : c = p
      · subst hc; simp [add_to_queue, hq, update_pcb_pool, update_pcb_mgr, hhp, hhp2]
      · by_cases hch : c = h
        · subst hch; simp [add_to_queue, hq, update_pcb_pool, update_pcb_mgr, hhp, hhp2]
        · simp [add_to_queue, hq, update_pcb_pool, update_pcb_mgr, hhp, hhp2, hc, hch]

theorem add_to_queue_mem (s : ProcState) (q : queue_t) (p : Nat) :
    (add_to_queue s q (some p)).mem = s.mem :=
  (add_to_queue_spec s q p).2.2.2.2.2.2.2.2

/-- The PCB built by a `process_create` whose stack allocation succeeds:
the given priority, the first 31 characters of the name, the quantum as time
slice and remaining slice, the entry point as instruction pointer, and a stack
pointer 16 bytes below the end of the block of 4096 bytes that `kmalloc` has
just returned. -/
theorem create_with_stack (s : ProcState) (nm : List Char) (e pr ss p : Nat) (he : e ≠ 0)
    (hcnt : ¬ s.g_process_manager.max_processes ≤ s.g_process_manager.process_count)
    (halloc : first_unused s.process_pool_used 0 MAX_PROCESSES = some p)
    (hk : (kmalloc s.mem DEFAULT_STACK_SIZE).2 ≠ 0) :
    ∃ t, process_create s (some nm) e pr ss = (t, int_of_u32 s.g_process_manager.next_pid) ∧
      t.mem = (kmalloc s.mem DEFAULT_STACK_SIZE).1 ∧
      (t.process_pool p).stack_base = (kmalloc s.mem DEFAULT_STACK_SIZE).2 ∧
      (t.process_pool p).stack_size = DEFAULT_STACK_SIZE ∧
      (t.process_pool p).eip = e ∧
      (t.process_pool p).esp =
        sub32 (add32 (kmalloc s.mem DEFAULT_STACK_SIZE).2 DEFAULT_STACK_SIZE) 16 ∧
      (t.process_pool p).priority = pr ∧
      (t.process_pool p).name = nm.take PROCESS_NAME_MAX ∧
      (t.process_pool p).time_slice = s.g_process_manager.time_slice_quantum ∧
      (t.process_pool p).remaining_slice = s.g_process_manager.time_slice_quantum := by
  unfold process_create
  simp -zeta only []
  rw [if_neg he, if_neg hcnt, allocate_pcb_eq s p halloc]
  simp -zeta only []
  lift_lets
  intro m s2 s3 s4 s5 s6 m6 s7
  have dm : m = s.g_process_manager := rfl
  have d2 : ∃ n,
      s2 = { g_process_manager := { m with next_pid := n }
             process_pool := Function.update s.process_pool p pcb_t.zero
             process_pool_used := Function.update s.process_pool_used p true
             mem := s.mem } := ⟨_, rfl⟩
  have d3 : ∃ f : pcb_t → pcb_t, (∀ b, (f b).pid = m.next_pid ∧ (f b).priority = pr ∧
      (f b).name = nm.take PROCESS_NAME_MAX ∧ (f b).time_slice = m.time_slice_quantum ∧
      (f b).remaining_slice = m.time_slice_quantum) ∧ s3 = update_pcb s2 p f :=
    ⟨fun b =>
        { b with
          pid := m.next_pid
          name := nm.take PROCESS_NAME_MAX
          state := PROCESS_STATE_NEW
          priority := pr
          time_slice := m.time_slice_quantum
          remaining_slice := m.time_slice_quantum
          creation_time := m.current_tick
          last_run_time := 0
          cpu_time := 0
          exit_code := 0
          file_count := 0 }, fun _ => ⟨rfl, rfl, rfl, rfl, rfl⟩, rfl⟩
  have d4 : s4 = setup_process_stack s3 (some p) e := rfl
  have d5 : s5 = update_pcb s4 p (fun b => { b with state := PROCESS_STATE_READY }) := rfl
  have d6 : s6 = add_to_queue s5 queue_t.ready (some p) := rfl
  have d7 : ∃ n, s7 = { s6 with g_process_manager := { m6 with process_count := n } } :=
    ⟨_, rfl⟩
  clear_value s7 m6 s6 s5 s4 s3 s2 m
  obtain ⟨n2, d2⟩ := d2
  obtain ⟨f, hf, d3⟩ := d3
  obtain ⟨n7, d7⟩ := d7
  have m3 : s3.mem = s.mem := by rw [d3, update_pcb_mem, d2]
  have hk3 : (kmalloc s3.mem DEFAULT_STACK_SIZE).2 ≠ 0 := by rw [m3]; exact hk
  obtain ⟨S1, S2, S3, S4, S5, S6, S7, S8, S9⟩ := setup_process_stack_ok s3 p e he hk3
  rw [← d4, m3] at S1 S2 S5
  rw [← d4] at S3 S4 S6 S7 S8 S9
  have p3 : s3.process_pool p = f (s2.process_pool p) := by
    rw [d3, update_pcb_pool, if_pos rfl]
  obtain ⟨_, f2, f3, f4, f5⟩ := hf (s2.process_pool p)
  rw [p3, f2] at S6
  rw [p3, f3] at S7
  rw [p3, f4] at S8
  rw [p3, f5] at S9
  obtain ⟨Q1, Q2, Q3, Q4, Q5, Q6, Q7, Q8⟩ := add_to_queue_fields s5 queue_t.ready p p
  rw [← d6] at Q1 Q2 Q3 Q4 Q5 Q6 Q7 Q8
  have e5 : (s5.process_pool p).stack_base = (s4.process_pool p).stack_base ∧
      (s5.process_pool p).stack_size = (s4.process_pool p).stack_size ∧
      (s5.process_pool p).eip = (s4.process_pool p).eip ∧
      (s5.process_pool p).esp = (s4.process_pool p).esp ∧
      (s5.process_pool p).priority = (s4.process_pool p).priority ∧
      (s5.process_pool p).name = (s4.process_pool p).name ∧
      (s5.process_pool p).time_slice = (s4.process_pool p).time_slice ∧
      (s5.process_pool p).remaining_slice = (s4.process_pool p).remaining_slice := by
    rw [d5, update_pcb_pool, if_pos rfl]
    exact ⟨rfl, rfl, rfl, rfl, rfl, rfl, rfl, rfl⟩
  have e7p : s7.process_pool = s6.process_pool := by rw [d7]
  have e7m : s7.mem = s6.mem := by rw [d7]
  have hpid7 : (s7.process_pool p).pid = s.g_process_manager.next_pid := by
    rw [e7p, d6, (add_to_queue_spec s5 queue_t.ready p).2.2.2.2.1, d5, update_pcb_pool,
      if_pos rfl]
    show (s4.process_pool p).pid = _
    rw [d4, ((setup_process_stack_spec s3 p e).2.2 p).1, p3, (hf _).1, dm]
  refine ⟨s7, by rw [hpid7], ?_, ?_, ?_, ?_, ?_, ?_, ?_, ?_, ?_⟩
  · rw [e7m, d6, add_to_queue_mem, d5, update_pcb_mem, S1]
  · rw [e7p, Q1, e5.1, S2]
  · rw [e7p, Q2, e5.2.1, S3]
  · rw [e7p, Q3, e5.2.2.1, S4]
  · rw [e7p, Q4, e5.2.2.2.1, S5]
  · rw [e7p, Q5, e5.2.2.2.2.1, S6]
  · rw [e7p, Q6, e5.2.2.2.2.2.1, S7]
  · rw [e7p, Q7, e5.2.2.2.2.2.2.1, S8, dm]
  · rw [e7p, Q8, e5.2.2.2.2.2.2.2, S9, dm]

/-! ## Frame allocator: frame 0 and the value returned for "no frame" -/

theorem frame0_stays_free (ops : List FrameOp) :
    ∀ s : MemState, get_bitmap_bit s 0 = false → get_bitmap_bit (frame_run s ops) 0 = false := by
  induction ops with
  | nil => intro s h; exact h
  | cons op rest ih =>
    intro s h
    cases op with
    | alloc =>
      show get_bitmap_bit (frame_run (alloc_physical_page s).1 rest) 0 = false
      rw [alloc_frame0_free h]
      exact ih s h
    | free page =>
      show get_bitmap_bit (frame_run (free_physical_page s page) rest) 0 = false
      apply ih
      rw [free_get, h, Bool.and_false]

/-- C38: in every bitmap state in which the bit of frame 0 is clear,
`alloc_physical_page` returns 0 and leaves the whole state unchanged (no bit
is set, no counter moves), whatever the other bits are; and this stays so
after any further calls of `alloc_physical_page` and `free_physical_page`,
none of which can set the bit of frame 0 again. -/
theorem C38_frame0_sentinel (s : MemState) (h : get_bitmap_bit s 0 = false) :
    alloc_physical_page s = (s, 0) ∧
    (∀ n, alloc_pages n s = (s, List.replicate n 0)) ∧
    ∀ ops : List FrameOp,
      get_bitmap_bit (frame_run s ops) 0 = false ∧
      alloc_physical_page (frame_run s ops) = (frame_run s ops, 0) := by
  refine ⟨alloc_frame0_free h, ?_, fun ops => ?_⟩
  · intro n
    induction n with
    | zero => rfl
    | succ n ih =>
      show ((alloc_pages n (alloc_physical_page s).1).1,
          (alloc_physical_page s).2 :: (alloc_pages n (alloc_physical_page s).1).2) = _
      rw [alloc_frame0_free h, ih]
      rfl
  · exact ⟨frame0_stays_free ops s h, alloc_frame0_free (frame0_stays_free ops s h)⟩

/-- C38, instance: the state after `memory_init` and `free_physical_page(0)`,
in which frames 1536 and up are free as well. -/
theorem C38_frame0_sentinel_witness :
    get_bitmap_bit (free_physical_page (memory_init MemState.zero) 0) 0 = false ∧
    alloc_physical_page (free_physical_page (memory_init MemState.zero) 0) =
      (free_physical_page (memory_init MemState.zero) 0, 0) :=
  ⟨(free_frame0_then_alloc (memory_init MemState.zero) (memory_init_bitmap_size _)).1.2,
    (C38_frame0_sentinel (free_physical_page (memory_init MemState.zero) 0)
      (free_frame0_then_alloc (memory_init MemState.zero) (memory_init_bitmap_size _)).1.2).1⟩
/-! ## Heap: alignment and the heap window -/

theorem add32_mod4 {a b : Nat} (ha : a % 4 = 0) (hb : b % 4 = 0) : add32 a b % 4 = 0 := by
  unfold add32 WORD; omega

/-- Every block of the list merged by `merge_adjacent_blocks` starts where a
block of the original list starts and has the type of that block. -/
theorem merge_from_mem (cur : memory_block_t) (rest : List memory_block_t) :
    ∀ x ∈ merge_from cur rest,
      ∃ y ∈ cur :: rest, x.start_addr = y.start_addr ∧ x.type = y.type ∧ x.addr = y.addr := by
  induction rest generalizing cur with
  | nil =>
    intro x hx
    simp only [merge_from, List.mem_singleton] at hx
    exact ⟨cur, by simp, by rw [hx], by rw [hx], by rw [hx]⟩
  | cons nxt rest ih =>
    intro x hx
    unfold merge_from at hx
    split at hx
    · obtain ⟨y, hy, e1, e2, e3⟩ := ih _ x hx
      rcases List.mem_cons.1 hy with rfl | hy
      · exact ⟨cur, by simp, e1, e2, e3⟩
      · exact ⟨y, by simp [hy], e1, e2, e3⟩
    · rcases List.mem_cons.1 hx with rfl | hx
      · exact ⟨x, by simp, rfl, rfl, rfl⟩
      · obtain ⟨y, hy, e1, e2, e3⟩ := ih _ x hx
        exact ⟨y, List.mem_cons_of_mem _ hy, e1, e2, e3⟩

theorem merge_from_size_mod4 (cur : memory_block_t) (rest : List memory_block_t)
    (h : ∀ y ∈ cur :: rest, y.size % 4 = 0) : ∀ x ∈ merge_from cur rest, x.size % 4 = 0 := by
  induction rest generalizing cur with
  | nil =>
    intro x hx
    simp only [merge_from, List.mem_singleton] at hx
    rw [hx]; exact h cur (by simp)
  | cons nxt rest ih =>
    intro x hx
    unfold merge_from at hx
    split at hx
    · refine ih _ ?_ x hx
      intro y hy
      rcases List.mem_cons.1 hy with rfl | hy
      · exact add32_mod4 (h cur (by simp))
          (add32_mod4 (h nxt (by simp)) (by decide))
      · exact h y (by simp [hy])
    · rcases List.mem_cons.1 hx with rfl | hx
      · exact h x (by simp)
      · exact ih _ (fun y hy => h y (List.mem_cons_of_mem _ hy)) x hx

/-- The invariant behind the alignment of the heap: data addresses and sizes
are multiples of 4 and every data address lies below the end of the heap. -/
theorem merge_aligned {l : List memory_block_t}
    (h : ∀ b ∈ l, b.start_addr % 4 = 0 ∧ b.size % 4 = 0 ∧
      b.start_addr < KERNEL_HEAP_START + KERNEL_HEAP_SIZE) :
    ∀ b ∈ merge_adjacent_blocks l, b.start_addr % 4 = 0 ∧ b.size % 4 = 0 ∧
      b.start_addr < KERNEL_HEAP_START + KERNEL_HEAP_SIZE := by
  cases l with
  | nil => intro b hb; simp [merge_adjacent_blocks] at hb
  | cons c rest =>
    intro b hb
    obtain ⟨y, hy, e1, _, _⟩ := merge_from_mem c rest b hb
    refine ⟨by rw [e1]; exact (h y hy).1, ?_, by rw [e1]; exact (h y hy).2.2⟩
    exact merge_from_size_mod4 c rest (fun y hy => (h y hy).2.1) b hb

theorem heap_aligned {s : MemState} {issued : List Nat} (h : HeapReach s issued) :
    (∀ b ∈ s.memory_map, b.start_addr % 4 = 0 ∧ b.size % 4 = 0 ∧
      b.start_addr < KERNEL_HEAP_START + KERNEL_HEAP_SIZE) ∧
    ∀ p ∈ issued, p ≠ 0 →
      p % 4 = 0 ∧ KERNEL_HEAP_START + BLOCK_HEADER ≤ p ∧
        p < KERNEL_HEAP_START + KERNEL_HEAP_SIZE := by
  induction h with
  | init s0 =>
    refine ⟨?_, fun p hp => by simp at hp⟩
    intro b hb
    simp only [heap_init, List.mem_singleton] at hb
    rw [hb]
    decide
  | @malloc s issued size hr hsz ih =>
    have hT := (HeapReach_inv hr).1
    rcases kmalloc_result size hT with ⟨e1, e2⟩ | ⟨pre, b, post, sz, e, hfree, hsz2, hne, hle, _, hret, hmap⟩
    · rw [e1, e2]
      refine ⟨ih.1, ?_⟩
      intro p hp hp0
      rcases List.mem_cons.1 hp with rfl | hp
      · exact absurd rfl hp0
      · exact ih.2 p hp hp0
    · have hb : b ∈ s.memory_map := by rw [e]; simp
      have hbT := Tiles_mem hT b hb
      have hbA := ih.1 b hb
      have hsz4 : sz % 4 = 0 := by
        have hlt : add32 size 3 < WORD := Nat.mod_lt _ (by decide)
        rw [hsz2, and_mask_eq _ hlt]
        omega
      constructor
      · rcases hmap with ⟨hm, _⟩ | ⟨hm, hlt⟩
        · rw [hm]
          intro x hx
          rcases List.mem_append.1 hx with hx | hx
          · exact ih.1 x (by rw [e]; exact List.mem_append_left _ hx)
          · rcases List.mem_cons.1 hx with rfl | hx
            · exact hbA
            · exact ih.1 x (by rw [e]; simp [hx])
        · rw [hm]
          intro x hx
          rcases List.mem_append.1 hx with hx | hx
          · exact ih.1 x (by rw [e]; exact List.mem_append_left _ hx)
          · rcases List.mem_cons.1 hx with rfl | hx
            · exact ⟨hbA.1, hsz4, hbA.2.2⟩
            · rcases List.mem_cons.1 hx with rfl | hx
              · refine ⟨?_, ?_, ?_⟩
                · show (b.start_addr + sz + BLOCK_HEADER) % 4 = 0
                  have := hbA.1; unfold BLOCK_HEADER; omega
                · show (b.size - sz - BLOCK_HEADER) % 4 = 0
                  have := hbA.2.1; unfold BLOCK_HEADER at *; omega
                · show b.start_addr + sz + BLOCK_HEADER < _
                  have := hbT.2.2; omega
              · exact ih.1 x (by rw [e]; simp [hx])
      · intro p hp hp0
        rcases List.mem_cons.1 hp with rfl | hp
        · rw [hret]
          refine ⟨hbA.1, ?_, hbA.2.2⟩
          rw [hbT.1]
          have := hbT.2.1
          omega
        · exact ih.2 p hp hp0
  | @free s issued ptr hr hp ih =>
    refine ⟨?_, ih.2⟩
    rcases kfree_result s ptr with e | ⟨pre, b, post, e, _, _, _, hm⟩
    · rw [e]; exact ih.1
    · rw [hm]
      apply merge_aligned
      intro x hx
      rcases List.mem_append.1 hx with hx | hx
      · exact ih.1 x (by rw [e]; exact List.mem_append_left _ hx)
      · rcases List.mem_cons.1 hx with rfl | hx
        · exact ih.1 b (by rw [e]; simp)
        · exact ih.1 x (by rw [e]; simp [hx])

/-- C40: in every heap state reachable from `heap_init` by `kmalloc` and by
`kfree` of addresses returned earlier, the data address and the size of every
block are multiples of 4, and every non-null address that `kmalloc` has
returned is a multiple of 4 and lies inside the heap window, at least one
header above its start and strictly below its end. -/
theorem C40_alignment (s : MemState) (issued : List Nat) (h : HeapReach s issued) :
    (∀ b ∈ s.memory_map, b.start_addr % 4 = 0 ∧ b.size % 4 = 0) ∧
    ∀ p ∈ issued, p ≠ 0 →
      p % 4 = 0 ∧ KERNEL_HEAP_START < p ∧ p < KERNEL_HEAP_START + KERNEL_HEAP_SIZE :=
  ⟨fun b hb => ⟨((heap_aligned h).1 b hb).1, ((heap_aligned h).1 b hb).2.1⟩,
    fun p hp hp0 =>
      ⟨((heap_aligned h).2 p hp hp0).1,
        lt_of_lt_of_le (by decide) ((heap_aligned h).2 p hp hp0).2.1,
        ((heap_aligned h).2 p hp hp0).2.2⟩⟩

/-- C40, instance: the heap after `kmalloc(5)`, `kmalloc(0xFFFFFFFD)` and the
release of the first block. -/
theorem C40_alignment_witness :
    HeapReach
        (kfree (kmalloc (kmalloc (heap_init MemState.zero) 5).1 0xFFFFFFFD).1
          (kmalloc (heap_init MemState.zero) 5).2)
        [(kmalloc (kmalloc (heap_init MemState.zero) 5).1 0xFFFFFFFD).2,
          (kmalloc (heap_init MemState.zero) 5).2] ∧
      ((∀ b ∈ (kfree (kmalloc (kmalloc (heap_init MemState.zero) 5).1 0xFFFFFFFD).1
            (kmalloc (heap_init MemState.zero) 5).2).memory_map,
          b.start_addr % 4 = 0 ∧ b.size % 4 = 0) ∧
        ∀ p ∈ [(kmalloc (kmalloc (heap_init MemState.zero) 5).1 0xFFFFFFFD).2,
            (kmalloc (heap_init MemState.zero) 5).2], p ≠ 0 →
          p % 4 = 0 ∧ KERNEL_HEAP_START < p ∧ p < KERNEL_HEAP_START + KERNEL_HEAP_SIZE) :=
  ⟨HeapReach.free _ (HeapReach.malloc _ (HeapReach.malloc _ (HeapReach.init _) (by decide))
      (by decide)) (by simp),
    C40_alignment _ _
      (HeapReach.free _ (HeapReach.malloc _ (HeapReach.malloc _ (HeapReach.init _) (by decide))
        (by decide)) (by simp))⟩
/-! ## Heap: the statistics and the block list -/

theorem total_used_cons (b : memory_block_t) (l : List memory_block_t) :
    total_used (b :: l) =
      (if b.type = MEMORY_ALLOCATED then b.size else 0) + total_used l := by
  unfold total_used
  by_cases h : b.type = MEMORY_ALLOCATED <;> simp [List.filter_cons, h]

theorem total_free_cons (b : memory_block_t) (l : List memory_block_t) :
    total_free (b :: l) = (if b.type = MEMORY_FREE then b.size else 0) + total_free l := by
  unfold total_free
  by_cases h : b.type = MEMORY_FREE <;> simp [List.filter_cons, h]

/-- The loop of `update_memory_stats` computes the two sums as long as they fit
in 32 bits. -/
theorem stats_scan_sums (l : List memory_block_t) :
    ∀ u f, u + total_used l < WORD → f + total_free l < WORD →
      stats_scan l u f = (u + total_used l, f + total_free l) := by
  induction l with
  | nil => intro u f _ _; simp [stats_scan, total_used, total_free]
  | cons b rest ih =>
    intro u f hu hf
    rw [total_used_cons] at hu ⊢
    rw [total_free_cons] at hf ⊢
    unfold stats_scan
    by_cases ha : b.type = MEMORY_ALLOCATED
    · have hnf : ¬ b.type = MEMORY_FREE := by rw [ha]; decide
      rw [if_pos ha] at hu ⊢
      rw [if_neg hnf] at hf ⊢
      rw [if_pos ha, add32_of_lt (by omega), ih _ _ (by omega) (by omega)]
      simp only [Nat.zero_add, Nat.add_assoc]
    · rw [if_neg ha] at hu ⊢
      rw [if_neg ha]
      by_cases hfr : b.type = MEMORY_FREE
      · rw [if_pos hfr] at hf ⊢
        rw [if_pos hfr, add32_of_lt (by omega), ih _ _ (by omega) (by omega)]
        simp only [Nat.zero_add, Nat.add_assoc]
      · rw [if_neg hfr] at hf ⊢
        rw [if_neg hfr, ih _ _ (by omega) (by omega)]
        simp only [Nat.zero_add]

/-- A tiling list accounts for every byte between its first header and the end
of the heap. -/
theorem Tiles_sum {a : Nat} {l : List memory_block_t} (h : Tiles a l) :
    a + (l.map (fun b => b.size)).sum + l.length * BLOCK_HEADER =
      KERNEL_HEAP_START + KERNEL_HEAP_SIZE := by
  induction l generalizing a with
  | nil => simpa using h
  | cons b rest ih =>
    obtain ⟨_, h2, h3⟩ := h
    have := ih h3
    simp only [List.map_cons, List.sum_cons, List.length_cons]
    rw [h2] at this
    rw [Nat.add_mul]
    omega

theorem used_free_sum (l : List memory_block_t)
    (h : ∀ b ∈ l, b.type = MEMORY_FREE ∨ b.type = MEMORY_ALLOCATED) :
    total_used l + total_free l = (l.map (fun b => b.size)).sum := by
  induction l with
  | nil => simp [total_used, total_free]
  | cons b rest ih =>
    have := ih (fun x hx => h x (List.mem_cons_of_mem _ hx))
    rw [total_used_cons, total_free_cons]
    simp only [List.map_cons, List.sum_cons]
    rcases h b (by simp) with hb | hb
    · have hna : ¬ b.type = MEMORY_ALLOCATED := by rw [hb]; decide
      rw [if_neg hna, if_pos hb]; omega
    · have hnf : ¬ b.type = MEMORY_FREE := by rw [hb]; decide
      rw [if_pos hb, if_neg hnf]; omega

/-- Every block of a reachable heap is free or allocated. -/
theorem heap_types {s : MemState} {issued : List Nat} (h : HeapReach s issued) :
    ∀ b ∈ s.memory_map, b.type = MEMORY_FREE ∨ b.type = MEMORY_ALLOCATED := by
  induction h with
  | init s0 =>
    intro b hb
    simp only [heap_init, List.mem_singleton] at hb
    rw [hb]; exact Or.inl rfl
  | @malloc s issued size hr hsz ih =>
    have hT := (HeapReach_inv hr).1
    rcases kmalloc_result size hT with ⟨e1, _⟩ | ⟨pre, b, post, sz, e, _, _, _, _, _, _, hmap⟩
    · rw [e1]; exact ih
    · rcases hmap with ⟨hm, _⟩ | ⟨hm, _⟩
      · rw [hm]
        intro x hx
        rcases List.mem_append.1 hx with hx | hx
        · exact ih x (by rw [e]; exact List.mem_append_left _ hx)
        · rcases List.mem_cons.1 hx with rfl | hx
          · exact Or.inr rfl
          · exact ih x (by rw [e]; simp [hx])
      · rw [hm]
        intro x hx
        rcases List.mem_append.1 hx with hx | hx
        · exact ih x (by rw [e]; exact List.mem_append_left _ hx)
        · rcases List.mem_cons.1 hx with rfl | hx
          · exact Or.inr rfl
          · rcases List.mem_cons.1 hx with rfl | hx
            · exact Or.inl rfl
            · exact ih x (by rw [e]; simp [hx])
  | @free s issued ptr hr hp ih =>
    rcases kfree_result s ptr with e | ⟨pre, b, post, e, _, _, _, hm⟩
    · rw [e]; exact ih
    · rw [hm]
      intro x hx
      have hne : pre ++ { b with type := MEMORY_FREE } :: post ≠ [] := by simp
      obtain ⟨c, rest, hc⟩ := List.exists_cons_of_ne_nil hne
      rw [hc] at hx
      obtain ⟨y, hy, _, e2, _⟩ := merge_from_mem c rest x hx
      rw [← hc] at hy
      rw [e2]
      rcases List.mem_append.1 hy with hy | hy
      · exact ih y (by rw [e]; exact List.mem_append_left _ hy)
      · rcases List.mem_cons.1 hy with rfl | hy
        · exact Or.inl rfl
        · exact ih y (by rw [e]; simp [hy])

/-- A call of `kmalloc` either fails and changes nothing, or ends with
`update_memory_stats`. -/
theorem kmalloc_stats (s : MemState) (size : Nat) :
    ((kmalloc s size).1 = s ∧ (kmalloc s size).2 = 0) ∨
    ((kmalloc s size).1.memory_stats.used_memory =
        (stats_scan (kmalloc s size).1.memory_map 0 0).1 ∧
      (kmalloc s size).1.memory_stats.free_memory =
        (stats_scan (kmalloc s size).1.memory_map 0 0).2) := by
  by_cases h0 : size = 0
  · left; simp [kmalloc, h0]
  · cases hf : find_free_block s.memory_map ((add32 size 3) &&& 0xFFFFFFFC) with
    | none => left; simp [kmalloc, h0, hf]
    | some r =>
      obtain ⟨pre, b, post⟩ := r
      right
      simp [kmalloc, h0, hf, update_memory_stats]

/-- A call of `kfree` either changes nothing or ends with
`update_memory_stats`. -/
theorem kfree_stats (s : MemState) (ptr : Nat) :
    kfree s ptr = s ∨
    ((kfree s ptr).memory_stats.used_memory = (stats_scan (kfree s ptr).memory_map 0 0).1 ∧
      (kfree s ptr).memory_stats.free_memory = (stats_scan (kfree s ptr).memory_map 0 0).2) := by
  by_cases h0 : ptr = 0
  · left; simp [kfree, h0]
  · cases hf : find_block_at s.memory_map (sub32 ptr BLOCK_HEADER) with
    | none => left; simp [kfree, h0, hf]
    | some r =>
      obtain ⟨pre, b, post⟩ := r
      by_cases ht : b.type = MEMORY_ALLOCATED
      · right; simp [kfree, h0, hf, ht, update_memory_stats]
      · left; simp [kfree, h0, hf, ht]

theorem heap_synced {s : MemState} {issued : List Nat} (h : HeapReach s issued) :
    (∃ p ∈ issued, p ≠ 0) →
      s.memory_stats.used_memory = (stats_scan s.memory_map 0 0).1 ∧
      s.memory_stats.free_memory = (stats_scan s.memory_map 0 0).2 := by
  induction h with
  | init s0 => rintro ⟨p, hp, _⟩; simp at hp
  | @malloc s issued size hr hsz ih =>
    rintro ⟨p, hp, hp0⟩
    rcases kmalloc_stats s size with ⟨e1, e2⟩ | hs
    · rw [e1]
      apply ih
      rcases List.mem_cons.1 hp with rfl | hp
      · exact absurd e2 hp0
      · exact ⟨p, hp, hp0⟩
    · exact hs
  | @free s issued ptr hr hp ih =>
    intro hex
    rcases kfree_stats s ptr with e | hs
    · rw [e]; exact ih hex
    · exact hs

/-- C39, counterexample: at the end of `memory_init`, and still after a
`kmalloc(0)` and a `kfree(NULL)`, the heap is one free block of 0xFFFEC bytes
and no allocated block, but `get_memory_stats` reports `free_memory` =
0x10000000, the value `memory_init` copies from `total_memory`. -/
theorem C39_counterexample_initial_stats :
    HeapReach (memory_init MemState.zero) [] ∧
    (get_memory_stats (memory_init MemState.zero)).free_memory = 0x10000000 ∧
    (get_memory_stats (memory_init MemState.zero)).used_memory = 0 ∧
    total_free (memory_init MemState.zero).memory_map = 0xFFFEC ∧
    total_used (memory_init MemState.zero).memory_map = 0 ∧
    (memory_init MemState.zero).memory_map.length = 1 ∧
    (get_memory_stats (kmalloc (memory_init MemState.zero) 0).1).free_memory = 0x10000000 ∧
    total_free (kmalloc (memory_init MemState.zero) 0).1.memory_map = 0xFFFEC ∧
    (get_memory_stats (kfree (memory_init MemState.zero) 0)).free_memory = 0x10000000 ∧
    total_free (kfree (memory_init MemState.zero) 0).memory_map = 0xFFFEC := by
  have hs : (get_memory_stats (memory_init MemState.zero)).free_memory = 0x10000000 ∧
      (get_memory_stats (memory_init MemState.zero)).used_memory = 0 := by
    unfold get_memory_stats
    rw [memory_init_stats]
    exact ⟨rfl, rfl⟩
  have hm : total_free (memory_init MemState.zero).memory_map = 0xFFFEC := by
    show total_free (heap_init _).memory_map = _
    decide
  have hk : (kmalloc (memory_init MemState.zero) 0).1 = memory_init MemState.zero := by
    simp [kmalloc]
  have hf : kfree (memory_init MemState.zero) 0 = memory_init MemState.zero := by
    simp [kfree]
  refine ⟨HeapReach.init _, hs.1, hs.2, hm, ?_, rfl, ?_, ?_, ?_, ?_⟩
  · show total_used (heap_init _).memory_map = _
    decide
  · rw [hk]; exact hs.1
  · rw [hk]; exact hm
  · rw [hf]; exact hs.1
  · rw [hf]; exact hm

/-- C39, amended: in every heap state reachable from `heap_init` by `kmalloc`
and by `kfree` of addresses returned earlier, once some `kmalloc` has returned
a non-null address, `get_memory_stats` reports `free_memory` equal to the sum
of the sizes of the free blocks and `used_memory` equal to the sum of the
sizes of the allocated blocks, and `used_memory + free_memory +
(number of blocks) * (header size) = KERNEL_HEAP_SIZE`. -/
theorem C39_stats_agree (s : MemState) (issued : List Nat) (h : HeapReach s issued)
    (hp : ∃ p ∈ issued, p ≠ 0) : StatsAgree s := by
  have hT := (HeapReach_inv h).1
  have hsum := Tiles_sum hT
  have huf := used_free_sum s.memory_map (heap_types h)
  obtain ⟨h1, h2⟩ := heap_synced h hp
  have hb : total_used s.memory_map + total_free s.memory_map < WORD := by
    unfold KERNEL_HEAP_START KERNEL_HEAP_SIZE at hsum
    unfold WORD
    omega
  rw [stats_scan_sums _ 0 0 (by omega) (by omega)] at h1 h2
  simp only [Nat.zero_add] at h1 h2
  unfold StatsAgree get_memory_stats
  rw [h1, h2]
  refine ⟨rfl, rfl, ?_⟩
  unfold KERNEL_HEAP_START at hsum
  omega

/-- C39, amended, instance: the heap after `memory_init`, `kmalloc(16)`,
`kmalloc(32)` and the release of the first block. -/
theorem C39_stats_agree_witness :
    HeapReach
        (kfree (kmalloc (kmalloc (memory_init MemState.zero) 16).1 32).1
          (kmalloc (memory_init MemState.zero) 16).2)
        [(kmalloc (kmalloc (memory_init MemState.zero) 16).1 32).2,
          (kmalloc (memory_init MemState.zero) 16).2] ∧
      StatsAgree
        (kfree (kmalloc (kmalloc (memory_init MemState.zero) 16).1 32).1
          (kmalloc (memory_init MemState.zero) 16).2) :=
  ⟨HeapReach.free _ (HeapReach.malloc _ (HeapReach.malloc _ (HeapReach.init _) (by decide))
      (by decide)) (by simp),
    C39_stats_agree _ _
      (HeapReach.free _ (HeapReach.malloc _ (HeapReach.malloc _ (HeapReach.init _) (by decide))
        (by decide)) (by simp))
      ⟨(kmalloc (memory_init MemState.zero) 16).2, by simp, by decide⟩⟩

/-! ## Process manager: `process_switch` -/

/-- C33: for every PCB `next` (pool slot `p`), after `process_switch(next)`
the running slot refers to `next`; the PCB of `next` is its old value with
state running, the remaining slice set to its time slice and the last-run
time set to the manager's current tick; every other PCB, every register field
of every PCB, the other fields of the manager, the pool flags and the heap are
unchanged. -/
theorem C33_switch_postcondition (s : ProcState) (p : Nat) :
    (process_switch s (some p)).g_process_manager.running_process = some p ∧
    (process_switch s (some p)).process_pool p =
      { s.process_pool p with
        state := PROCESS_STATE_RUNNING
        remaining_slice := (s.process_pool p).time_slice
        last_run_time := s.g_process_manager.current_tick } ∧
    ((process_switch s (some p)).process_pool p).last_run_time =
      (process_switch s (some p)).g_process_manager.current_tick ∧
    (∀ c, c ≠ p → (process_switch s (some p)).process_pool c = s.process_pool c) ∧
    (∀ c,
      ((process_switch s (some p)).process_pool c).eax = (s.process_pool c).eax ∧
      ((process_switch s (some p)).process_pool c).ebx = (s.process_pool c).ebx ∧
      ((process_switch s (some p)).process_pool c).ecx = (s.process_pool c).ecx ∧
      ((process_switch s (some p)).process_pool c).edx = (s.process_pool c).edx ∧
      ((process_switch s (some p)).process_pool c).esi = (s.process_pool c).esi ∧
      ((process_switch s (some p)).process_pool c).edi = (s.process_pool c).edi ∧
      ((process_switch s (some p)).process_pool c).esp = (s.process_pool c).esp ∧
      ((process_switch s (some p)).process_pool c).ebp = (s.process_pool c).ebp ∧
      ((process_switch s (some p)).process_pool c).eip = (s.process_pool c).eip ∧
      ((process_switch s (some p)).process_pool c).eflags = (s.process_pool c).eflags ∧
      ((process_switch s (some p)).process_pool c).cs = (s.process_pool c).cs ∧
      ((process_switch s (some p)).process_pool c).ds = (s.process_pool c).ds ∧
      ((process_switch s (some p)).process_pool c).es = (s.process_pool c).es ∧
      ((process_switch s (some p)).process_pool c).fs = (s.process_pool c).fs ∧
      ((process_switch s (some p)).process_pool c).gs = (s.process_pool c).gs ∧
      ((process_switch s (some p)).process_pool c).ss = (s.process_pool c).ss) ∧
    (process_switch s (some p)).g_process_manager =
      { s.g_process_manager with running_process := some p } ∧
    (process_switch s (some p)).process_pool_used = s.process_pool_used ∧
    (process_switch s (some p)).mem = s.mem := by
  have hp : (process_switch s (some p)).process_pool p =
      { s.process_pool p with
        state := PROCESS_STATE_RUNNING
        remaining_slice := (s.process_pool p).time_slice
        last_run_time := s.g_process_manager.current_tick } := by
    simp [process_switch, update_pcb]
  have hc : ∀ c, c ≠ p → (process_switch s (some p)).process_pool c = s.process_pool c := by
    intro c hcp
    simp [process_switch, update_pcb, hcp]
  refine ⟨rfl, hp, ?_, hc, ?_, rfl, rfl, rfl⟩
  · rw [hp]; rfl
  · intro c
    by_cases hcp : c = p
    · subst hcp
      rw [hp]
      exact ⟨rfl, rfl, rfl, rfl, rfl, rfl, rfl, rfl, rfl, rfl, rfl, rfl, rfl, rfl, rfl, rfl⟩
    · rw [hc c hcp]
      exact ⟨rfl, rfl, rfl, rfl, rfl, rfl, rfl, rfl, rfl, rfl, rfl, rfl, rfl, rfl, rfl, rfl⟩

/-! ## Process manager: the count of processes and the queues after a second termination -/

theorem queue_slots_self_loop (pool : Nat → pcb_t) (c : Nat) (hn : (pool c).next = some c)
    (fuel : Nat) : queue_slots pool fuel (some c) = none := by
  induction fuel with
  | zero => rfl
  | succ n ih => simp [queue_slots, hn, ih]

/-- C36, failing input: boot, create PID 1, `process_terminate(1)` twice.  The
second call finds PID 1 by lookup, on the terminated queue, and returns
Success.  Afterwards the terminated queue is the PCB of PID 1 linked to
itself: following `next` from its head never reaches `NULL`, and
`process_get_by_pid(9999)` does not return, whatever the fuel. -/
theorem C36_terminated_queue_cycle :
    returns_of 64 boot_state terminate_twice_calls = some [1, 0, 0] ∧
    process_get_by_pid 64
      (state_after 64 boot_state [create_op ['a'], proc_op.terminate 1]) 1 = some (some 1) ∧
    queue_slots (state_after 64 boot_state [create_op ['a'], proc_op.terminate 1]).process_pool
      64 (state_after 64 boot_state
        [create_op ['a'], proc_op.terminate 1]).g_process_manager.terminated_queue =
      some [1] ∧
    (∀ fuel,
      queue_slots (state_after 64 boot_state terminate_twice_calls).process_pool fuel
        (state_after 64 boot_state terminate_twice_calls).g_process_manager.terminated_queue =
        none) ∧
    ∀ fuel, process_get_by_pid fuel (state_after 64 boot_state terminate_twice_calls) 9999 =
      none := by
  refine ⟨by decide, by decide, by decide, ?_, terminate_twice_hangs⟩
  intro fuel
  have h1 : (state_after 64 boot_state terminate_twice_calls).g_process_manager.terminated_queue
      = some 1 := by decide
  rw [h1]
  exact queue_slots_self_loop _ 1 (by decide) fuel

/-- C37, failing input: boot, create PID 1, `process_terminate(1)` twice.
After the first termination `process_count` is 1 and one pool slot (the idle
process) is in use; the second termination of the same PID returns Success
and decrements `process_count` to 0 while one slot is still in use.  One more
`process_terminate(0)` wraps the count to 0xFFFFFFFF, and `process_create`
then returns QueueFull with all 64 slots free. -/
theorem C37_count_after_second_terminate :
    returns_of 64 boot_state terminate_twice_calls = some [1, 0, 0] ∧
    (state_after 64 boot_state
      [create_op ['a'], proc_op.terminate 1]).g_process_manager.process_count = 1 ∧
    used_slots (state_after 64 boot_state [create_op ['a'], proc_op.terminate 1]) = 1 ∧
    (state_after 64 boot_state terminate_twice_calls).g_process_manager.process_count = 0 ∧
    used_slots (state_after 64 boot_state terminate_twice_calls) = 1 ∧
    returns_of 64 boot_state (terminate_twice_calls ++ [proc_op.terminate 0, create_op ['b']]) =
      some [1, 0, 0, 0, PROCESS_ERROR_QUEUE_FULL] ∧
    (state_after 64 boot_state
      (terminate_twice_calls ++ [proc_op.terminate 0])).g_process_manager.process_count =
      4294967295 ∧
    used_slots (state_after 64 boot_state (terminate_twice_calls ++ [proc_op.terminate 0])) =
      0 := by
  refine ⟨by decide, by decide, by decide, by decide, by decide, by decide, by decide,
    by decide⟩
/-! ## System calls: `sys_setpriority` -/

/-- The state after `process_yield` when the running process is linked to no
queue and the head of the ready queue has no predecessor. -/
theorem yield_state (fuel : Nat) (s : ProcState) (r : Nat)
    (hr : s.g_process_manager.running_process = some r)
    (hs : (s.process_pool r).state = PROCESS_STATE_RUNNING)
    (hn : (s.process_pool r).next = none) (hp : (s.process_pool r).prev = none)
    (hq : s.g_process_manager.ready_queue ≠ some r)
    (hh : ∀ h, s.g_process_manager.ready_queue = some h → (s.process_pool h).prev = none) :
    process_yield fuel s =
      some
        { s with
          g_process_manager :=
            { s.g_process_manager with
              scheduler_ticks := add32 s.g_process_manager.scheduler_ticks 1 }
          process_pool :=
            Function.update s.process_pool r
              { s.process_pool r with
                remaining_slice := (s.process_pool r).time_slice
                last_run_time := s.g_process_manager.current_tick } } := by
  cases hq0 : s.g_process_manager.ready_queue with
  | none =>
    simp [process_yield, hr, process_scheduler, update_pcb, add_to_queue, schedule_next_process,
      remove_from_queue, process_switch, queue_head, set_queue_head, hs, hq0]
    rw [hn, hp]
  | some h =>
    have hhr : h ≠ r := fun e => hq (by rw [hq0, e])
    have hrh : r ≠ h := fun e => hhr e.symm
    have hhp := hh h hq0
    simp [process_yield, hr, process_scheduler, update_pcb, add_to_queue, schedule_next_process,
      remove_from_queue, process_switch, queue_head, set_queue_head, hs, hq0, hhr, hrh]
    funext c
    by_cases hcr : c = r
    · subst hcr
      simp [Function.update, hhr, hrh]
      rw [hn, hp]
      exact ⟨rfl, rfl⟩
    · by_cases hch : c = h
      · subst hch
        simp [Function.update, hhr, hrh]
        rw [← hhp]
      · simp [Function.update, hcr, hch]

/-- C35, counterexample: boot, create PID 1, terminate it, create PID 2 (in the
freed pool slot 1), create PID 3, terminate PID 3.  The idle process runs with
state running and is in none of the three queues, whose slots are [1], []
and [2, 1].  The head of the ready queue (pool slot 1, PID 2) has the `prev`
link `some 2`; `process_yield` sets it to `NULL`, a change outside
`scheduler_ticks` and the two time fields of the running process. -/
theorem C35_counterexample_stale_prev_link :
    returns_of 64 boot_state stale_link_calls = some [1, 0, 2, 3, 0] ∧
    (state_after 64 boot_state stale_link_calls).g_process_manager.running_process = some 0 ∧
    ((state_after 64 boot_state stale_link_calls).process_pool 0).state =
      PROCESS_STATE_RUNNING ∧
    queue_slots (state_after 64 boot_state stale_link_calls).process_pool 64
      (state_after 64 boot_state stale_link_calls).g_process_manager.ready_queue = some [1] ∧
    queue_slots (state_after 64 boot_state stale_link_calls).process_pool 64
      (state_after 64 boot_state stale_link_calls).g_process_manager.blocked_queue = some [] ∧
    queue_slots (state_after 64 boot_state stale_link_calls).process_pool 64
      (state_after 64 boot_state stale_link_calls).g_process_manager.terminated_queue =
      some [2, 1] ∧
    ((state_after 64 boot_state stale_link_calls).process_pool 0).next = none ∧
    ((state_after 64 boot_state stale_link_calls).process_pool 0).prev = none ∧
    ((state_after 64 boot_state stale_link_calls).process_pool 1).prev = some 2 ∧
    (process_yield 64 (state_after 64 boot_state stale_link_calls)).map
      (fun t => (t.process_pool 1).prev) = some none ∧
    (process_yield 64 (state_after 64 boot_state stale_link_calls)).map
      (fun t => t.g_process_manager.running_process) = some (some 0) := by
  refine ⟨by decide, by decide, by decide, by decide, by decide, by decide, by decide,
    by decide, by decide, by decide, by decide⟩

/-- C35, amended: for every state in which the running process R has state
running, has null `next` and `prev` links and is not the head of the ready
queue, and in which the head of the ready queue (if any) has a null `prev`
link, `process_yield` returns and the state afterwards is the state before
with `scheduler_ticks` incremented (as a 32-bit counter), the remaining slice
of R set to its time slice and the last-run time of R set to the current tick.
So R is still the running process with state running, the head of the ready
queue and every `next` and `prev` link are the same, and the ready queue has
the same slots in the same order, whatever its length. -/
theorem C35_yield_reselects (fuel : Nat) (s : ProcState) (r : Nat)
    (hr : s.g_process_manager.running_process = some r)
    (hs : (s.process_pool r).state = PROCESS_STATE_RUNNING)
    (hn : (s.process_pool r).next = none) (hp : (s.process_pool r).prev = none)
    (hq : s.g_process_manager.ready_queue ≠ some r)
    (hh : ∀ h, s.g_process_manager.ready_queue = some h → (s.process_pool h).prev = none) :
    ∃ t, process_yield fuel s = some t ∧
      t =
        { s with
          g_process_manager :=
            { s.g_process_manager with
              scheduler_ticks := add32 s.g_process_manager.scheduler_ticks 1 }
          process_pool :=
            Function.update s.process_pool r
              { s.process_pool r with
                remaining_slice := (s.process_pool r).time_slice
                last_run_time := s.g_process_manager.current_tick } } ∧
      t.g_process_manager.running_process = some r ∧
      (t.process_pool r).state = PROCESS_STATE_RUNNING ∧
      t.g_process_manager.ready_queue = s.g_process_manager.ready_queue ∧
      (∀ c, c ≠ r → t.process_pool c = s.process_pool c) ∧
      (∀ c, (t.process_pool c).next = (s.process_pool c).next ∧
        (t.process_pool c).prev = (s.process_pool c).prev) ∧
      ∀ R, NextList s.process_pool s.g_process_manager.ready_queue R →
        NextList t.process_pool t.g_process_manager.ready_queue R := by
  refine ⟨_, yield_state fuel s r hr hs hn hp hq hh, rfl, hr, ?_, rfl, ?_, ?_, ?_⟩
  · simp [hs]
  · intro c hc
    simp [Function.update, hc]
  · intro c
    by_cases hc : c = r
    · subst hc; simp
    · simp [Function.update, hc]
  · intro R hR
    refine NextList_congr ?_ hR
    intro c
    by_cases hc : c = r
    · subst hc; simp
    · simp [Function.update, hc]

/-- C35, amended, instance: `process_yield` after boot and two creates, with
the ready queue PID 2, PID 1. -/
theorem C35_yield_reselects_witness :
    (state_after 64 boot_state
      [create_op ['a'], create_op ['b']]).g_process_manager.running_process = some 0 ∧
    (state_after 64 boot_state
      [create_op ['a'], create_op ['b']]).g_process_manager.ready_queue = some 2 ∧
    ∃ t, process_yield 64 (state_after 64 boot_state [create_op ['a'], create_op ['b']]) =
        some t ∧
      t.g_process_manager.running_process = some 0 ∧
      (t.process_pool 0).state = PROCESS_STATE_RUNNING ∧
      t.g_process_manager.ready_queue = some 2 :=
  ⟨by decide, by decide,
    (C35_yield_reselects 64 (state_after 64 boot_state [create_op ['a'], create_op ['b']]) 0
      (by decide) (by decide) (by decide) (by decide) (by decide)
      (by
        intro h e
        have h2 : (state_after 64 boot_state
            [create_op ['a'], create_op ['b']]).g_process_manager.ready_queue = some 2 := by
          decide
        rw [h2] at e
        cases e
        decide)).imp
      (fun t ht => ⟨ht.1, ht.2.2.1, ht.2.2.2.1, by rw [ht.2.2.2.2.1]; decide⟩)⟩

/-! ## Process manager: the effect of a call on PIDs, states and references -/

theorem find_found (pool : Nat → pcb_t) (pid c : Nat) :
    ∀ (fuel : Nat) (head : Option Nat),
      find_process_in_queue pool fuel head pid = some (some c) →
      (pool c).pid = pid ∧ (head = some c ∨ ∃ d, (pool d).next = some c) := by
  intro fuel
  induction fuel with
  | zero =>
    intro head h
    cases head with
    | none => simp [find_process_in_queue] at h
    | some a => simp [find_process_in_queue] at h
  | succ n ih =>
    intro head h
    cases head with
    | none => simp [find_process_in_queue] at h
    | some a =>
      unfold find_process_in_queue at h
      by_cases hp : (pool a).pid = pid
      · rw [if_pos hp] at h
        have : a = c := by simpa using h
        subst this
        exact ⟨hp, Or.inl rfl⟩
      · rw [if_neg hp] at h
        obtain ⟨h1, h2⟩ := ih _ h
        refine ⟨h1, Or.inr ?_⟩
        rcases h2 with h2 | h2
        · exact ⟨a, h2⟩
        · exact h2

theorem linked_of_find (s : ProcState) (c : Nat) (head : Option Nat)
    (hh : head = s.g_process_manager.ready_queue ∨ head = s.g_process_manager.blocked_queue ∨
      head = s.g_process_manager.terminated_queue)
    (hl : head = some c ∨ ∃ d, (s.process_pool d).next = some c) : Linked s c := by
  rcases hl with hl | hl
  · rcases hh with hh | hh | hh
    · exact Or.inr (Or.inl (by rw [← hh, hl]))
    · exact Or.inr (Or.inr (Or.inl (by rw [← hh, hl])))
    · exact Or.inr (Or.inr (Or.inr (Or.inl (by rw [← hh, hl]))))
  · exact Or.inr (Or.inr (Or.inr (Or.inr hl)))

/-- A PCB returned by `process_get_by_pid` carries the PID looked for and is
referenced by the manager. -/
theorem get_by_pid_found (fuel : Nat) (s : ProcState) (pid c : Nat)
    (h : process_get_by_pid fuel s pid = some (some c)) :
    (s.process_pool c).pid = pid ∧ Linked s c := by
  have key : ∀ r1 r2 r3 : Option (Option Nat),
      find_process_in_queue s.process_pool fuel s.g_process_manager.ready_queue pid = r1 →
      find_process_in_queue s.process_pool fuel s.g_process_manager.blocked_queue pid = r2 →
      find_process_in_queue s.process_pool fuel s.g_process_manager.terminated_queue pid = r3 →
      (match r1 with
        | none => none
        | some (some p) => some (some p)
        | some none =>
          match r2 with
          | none => none
          | some (some p) => some (some p)
          | some none =>
            match r3 with
            | none => none
            | some (some p) => some (some p)
            | some none => some none) = some (some c) →
      (s.process_pool c).pid = pid ∧ Linked s c := by
    intro r1 r2 r3 h1 h2 h3 hq
    rcases r1 with _ | _ | p
    · cases hq
    · rcases r2 with _ | _ | p
      · cases hq
      · rcases r3 with _ | _ | p
        · cases hq
        · cases hq
        · have : p = c := by simpa using hq
          subst this
          obtain ⟨e, hl⟩ := find_found _ _ _ _ _ h3
          exact ⟨e, linked_of_find s p _ (Or.inr (Or.inr rfl)) hl⟩
      · have : p = c := by simpa using hq
        subst this
        obtain ⟨e, hl⟩ := find_found _ _ _ _ _ h2
        exact ⟨e, linked_of_find s p _ (Or.inr (Or.inl rfl)) hl⟩
    · have : p = c := by simpa using hq
      subst this
      obtain ⟨e, hl⟩ := find_found _ _ _ _ _ h1
      exact ⟨e, linked_of_find s p _ (Or.inl rfl) hl⟩
  unfold process_get_by_pid at h
  simp only [] at h
  cases hr : s.g_process_manager.running_process with
  | none =>
    rw [hr] at h
    exact key _ _ _ rfl rfl rfl h
  | some r =>
    rw [hr] at h
    simp only [] at h
    by_cases hp : (s.process_pool r).pid = pid
    · rw [if_pos hp] at h
      have : r = c := by simpa using h
      subst this
      exact ⟨hp, Or.inl hr⟩
    · rw [if_neg hp] at h
      exact key _ _ _ rfl rfl rfl h

theorem update_next_pid (s : ProcState) (i : Nat) (v : Option Nat) (c : Nat) :
    ((update_pcb s i (fun b => { b with next := v })).process_pool c).pid =
      (s.process_pool c).pid := by
  rw [update_pcb_pool]; by_cases h : c = i <;> simp [h]

theorem update_next_state (s : ProcState) (i : Nat) (v : Option Nat) (c : Nat) :
    ((update_pcb s i (fun b => { b with next := v })).process_pool c).state =
      (s.process_pool c).state := by
  rw [update_pcb_pool]; by_cases h : c = i <;> simp [h]

theorem update_next_next (s : ProcState) (i : Nat) (v : Option Nat) (c : Nat) :
    ((update_pcb s i (fun b => { b with next := v })).process_pool c).next =
      if c = i then v else (s.process_pool c).next := by
  rw [update_pcb_pool]; by_cases h : c = i <;> simp [h]

theorem update_prev_pid (s : ProcState) (i : Nat) (v : Option Nat) (c : Nat) :
    ((update_pcb s i (fun b => { b with prev := v })).process_pool c).pid =
      (s.process_pool c).pid := by
  rw [update_pcb_pool]; by_cases h : c = i <;> simp [h]

theorem update_prev_state (s : ProcState) (i : Nat) (v : Option Nat) (c : Nat) :
    ((update_pcb s i (fun b => { b with prev := v })).process_pool c).state =
      (s.process_pool c).state := by
  rw [update_pcb_pool]; by_cases h : c = i <;> simp [h]

theorem update_prev_next (s : ProcState) (i : Nat) (v : Option Nat) (c : Nat) :
    ((update_pcb s i (fun b => { b with prev := v })).process_pool c).next =
      (s.process_pool c).next := by
  rw [update_pcb_pool]; by_cases h : c = i <;> simp [h]

/-- `remove_from_queue` changes no PID and no state; afterwards every `next`
link is `NULL`, the link it was, or the old `next` of the PCB removed. -/
theorem remove_from_queue_frame (s : ProcState) (q : queue_t) (p : Nat) (c : Nat) :
    ((remove_from_queue s q (some p)).process_pool c).pid = (s.process_pool c).pid ∧
    ((remove_from_queue s q (some p)).process_pool c).state = (s.process_pool c).state ∧
    (((remove_from_queue s q (some p)).process_pool c).next = none ∨
      ((remove_from_queue s q (some p)).process_pool c).next = (s.process_pool c).next ∨
      ((remove_from_queue s q (some p)).process_pool c).next = (s.process_pool p).next) := by
  unfold remove_from_queue
  simp only []
  split <;> split <;>
    simp only [update_next_pid, update_next_state, update_next_next, update_prev_pid,
      update_prev_state, update_prev_next, true_and] <;>
    split_ifs <;> simp
theorem queue_head_linked (s : ProcState) (q : queue_t) (x : Nat)
    (h : queue_head s.g_process_manager q = some x) : Linked s x := by
  cases q
  · exact Or.inr (Or.inl h)
  · exact Or.inr (Or.inr (Or.inl h))
  · exact Or.inr (Or.inr (Or.inr (Or.inl h)))

theorem set_queue_head_heads (m : process_manager_t) (q : queue_t) (v : Option Nat)
    (x : Nat)
    (h : (set_queue_head m q v).ready_queue = some x ∨
      (set_queue_head m q v).blocked_queue = some x ∨
      (set_queue_head m q v).terminated_queue = some x) :
    v = some x ∨ m.ready_queue = some x ∨ m.blocked_queue = some x ∨
      m.terminated_queue = some x := by
  cases q
  · rcases h with h | h | h
    · exact Or.inl h
    · exact Or.inr (Or.inr (Or.inl h))
    · exact Or.inr (Or.inr (Or.inr h))
  · rcases h with h | h | h
    · exact Or.inr (Or.inl h)
    · exact Or.inl h
    · exact Or.inr (Or.inr (Or.inr h))
  · rcases h with h | h | h
    · exact Or.inr (Or.inl h)
    · exact Or.inr (Or.inr (Or.inl h))
    · exact Or.inl h

/-- Every slot referenced after `remove_from_queue` was referenced before. -/
theorem remove_linked (s : ProcState) (q : queue_t) (p x : Nat)
    (h : Linked (remove_from_queue s q (some p)) x) : Linked s x := by
  rcases h with h | h
  · rw [remove_from_queue_running] at h
    exact Or.inl h
  · have hh : (remove_from_queue s q (some p)).g_process_manager.ready_queue = some x ∨
        (remove_from_queue s q (some p)).g_process_manager.blocked_queue = some x ∨
        (remove_from_queue s q (some p)).g_process_manager.terminated_queue = some x ∨
        ∃ d, ((remove_from_queue s q (some p)).process_pool d).next = some x := h
    rcases hh with h | h | h | ⟨d, hd⟩
    all_goals first
      | (rw [remove_from_queue_mgr] at h
         split_ifs at h
         · rcases set_queue_head_heads _ _ _ x (by first | exact Or.inl h | exact Or.inr (Or.inl h) | exact Or.inr (Or.inr h)) with e | e | e | e
           · exact Or.inr (Or.inr (Or.inr (Or.inr ⟨p, e⟩)))
           · exact Or.inr (Or.inl e)
           · exact Or.inr (Or.inr (Or.inl e))
           · exact Or.inr (Or.inr (Or.inr (Or.inl e)))
         · first
            | exact Or.inr (Or.inl h)
            | exact Or.inr (Or.inr (Or.inl h))
            | exact Or.inr (Or.inr (Or.inr (Or.inl h))))
      | (rcases (remove_from_queue_frame s q p d).2.2 with e | e | e
         · rw [e] at hd; cases hd
         · rw [e] at hd; exact Or.inr (Or.inr (Or.inr (Or.inr ⟨d, hd⟩)))
         · rw [e] at hd; exact Or.inr (Or.inr (Or.inr (Or.inr ⟨p, hd⟩))))

/-- Every slot referenced after `add_to_queue` was referenced before or is the
PCB added. -/
theorem add_linked (s : ProcState) (q : queue_t) (p x : Nat)
    (h : Linked (add_to_queue s q (some p)) x) : Linked s x ∨ x = p := by
  obtain ⟨a1, _, a3, _, _, _, a7, _, _⟩ := add_to_queue_spec s q p
  rcases h with h | h
  · rw [(add_to_queue_counters s q p).2.2.2] at h
    exact Or.inl (Or.inl h)
  · have hh : (add_to_queue s q (some p)).g_process_manager.ready_queue = some x ∨
        (add_to_queue s q (some p)).g_process_manager.blocked_queue = some x ∨
        (add_to_queue s q (some p)).g_process_manager.terminated_queue = some x ∨
        ∃ d, ((add_to_queue s q (some p)).process_pool d).next = some x := h
    have hheads : ∀ (_ : (add_to_queue s q (some p)).g_process_manager.ready_queue = some x ∨
        (add_to_queue s q (some p)).g_process_manager.blocked_queue = some x ∨
        (add_to_queue s q (some p)).g_process_manager.terminated_queue = some x),
        Linked s x ∨ x = p := by
      intro h3
      rw [a7] at h3
      rcases set_queue_head_heads _ _ _ x h3 with e | e | e | e
      · right; exact (Option.some.inj e).symm
      · exact Or.inl (Or.inr (Or.inl e))
      · exact Or.inl (Or.inr (Or.inr (Or.inl e)))
      · exact Or.inl (Or.inr (Or.inr (Or.inr (Or.inl e))))
    rcases hh with h | h | h | ⟨d, hd⟩
    · exact hheads (Or.inl h)
    · exact hheads (Or.inr (Or.inl h))
    · exact hheads (Or.inr (Or.inr h))
    · by_cases hdp : d = p
      · rw [hdp, a1] at hd
        exact Or.inl (queue_head_linked s q x hd)
      · rw [a3 d hdp] at hd
        exact Or.inl (Or.inr (Or.inr (Or.inr (Or.inr ⟨d, hd⟩))))

/-- An assignment to a field other than `next` references no new slot. -/
theorem update_linked (s : ProcState) (i : Nat) (f : pcb_t → pcb_t)
    (hf : ∀ b, (f b).next = b.next) (x : Nat) (h : Linked (update_pcb s i f) x) :
    Linked s x := by
  rcases h with h | h | h | h | ⟨d, hd⟩
  · exact Or.inl h
  · exact Or.inr (Or.inl h)
  · exact Or.inr (Or.inr (Or.inl h))
  · exact Or.inr (Or.inr (Or.inr (Or.inl h)))
  · rw [update_pcb_pool] at hd
    by_cases hdi : d = i
    · rw [if_pos hdi, hf] at hd
      exact Or.inr (Or.inr (Or.inr (Or.inr ⟨i, hd⟩)))
    · rw [if_neg hdi] at hd
      exact Or.inr (Or.inr (Or.inr (Or.inr ⟨d, hd⟩)))
theorem first_unused_some (used : Nat → Bool) :
    ∀ (n i c : Nat), first_unused used i n = some c → used c = false ∧ i ≤ c ∧ c < i + n := by
  intro n
  induction n with
  | zero => intro i c h; simp [first_unused] at h
  | succ n ih =>
    intro i c h
    unfold first_unused at h
    by_cases hu : used i = false
    · rw [if_pos hu] at h
      have : i = c := by simpa using h
      subst this
      exact ⟨hu, Nat.le_refl _, by omega⟩
    · rw [if_neg hu] at h
      obtain ⟨a, b, c'⟩ := ih _ _ h
      exact ⟨a, by omega, by omega⟩

theorem quiet_refl (s : ProcState) : Quiet s s :=
  ⟨fun _ => ⟨rfl, rfl⟩, rfl, rfl, rfl, fun _ h => h⟩

theorem quiet_trans {s t u : ProcState} (h1 : Quiet s t) (h2 : Quiet t u) : Quiet s u := by
  obtain ⟨a1, a2, a3, a4, a5⟩ := h1
  obtain ⟨b1, b2, b3, b4, b5⟩ := h2
  refine ⟨fun c => ⟨by rw [(b1 c).1, (a1 c).1], by rw [(b1 c).2, (a1 c).2]⟩, by rw [b2, a2],
    by rw [b3, a3], by rw [b4, a4], fun x hx => a5 x (b5 x hx)⟩

/-- An assignment to a field other than the PID, the state and `next`. -/
theorem quiet_update (s : ProcState) (i : Nat) (f : pcb_t → pcb_t)
    (hf : ∀ b, (f b).pid = b.pid ∧ (f b).state = b.state ∧ (f b).next = b.next) :
    Quiet s (update_pcb s i f) := by
  refine ⟨fun c => ?_, rfl, rfl, rfl, fun x hx => update_linked s i f (fun b => (hf b).2.2) x hx⟩
  rw [update_pcb_pool]
  by_cases h : c = i
  · rw [if_pos h, h]; exact ⟨(hf _).1, (hf _).2.1⟩
  · rw [if_neg h]; exact ⟨rfl, rfl⟩

/-- The outcome of `process_create`: a failure that changes nothing, or a new
PCB in the first unused pool slot. -/
theorem create_effects (s : ProcState) (name : Option (List Char)) (e pr ss : Nat) :
    (∃ r, process_create s name e pr ss = (s, r) ∧ r < 0) ∨
    ∃ c t, process_create s name e pr ss = (t, int_of_u32 s.g_process_manager.next_pid) ∧
      CreatedIn s t c := by
  cases name with
  | none => exact Or.inl ⟨_, create_invalid s none e pr ss (Or.inl rfl), by decide⟩
  | some nm =>
    by_cases he : e = 0
    · exact Or.inl ⟨_, create_invalid s _ e pr ss (Or.inr he), by decide⟩
    · by_cases hc : s.g_process_manager.max_processes ≤ s.g_process_manager.process_count
      · exact Or.inl ⟨_, create_full s nm e pr ss he hc, by decide⟩
      · cases ha : first_unused s.process_pool_used 0 MAX_PROCESSES with
        | none => exact Or.inl ⟨_, create_no_slot s nm e pr ss he hc ha, by decide⟩
        | some c =>
          right
          obtain ⟨t, ht, c1, c2, c3, _, c5, g1, g2, g3, g4, g5, _, _, u⟩ :=
            create_ok s nm e pr ss c he hc ha
          refine ⟨c, t, ht, ha, (first_unused_some _ _ _ _ ha).1, c1, c2,
            fun d hd => ⟨(c5 d hd).1, (c5 d hd).2.1⟩, g1, u, g5, ?_⟩
          intro x hx
          rcases hx with h | h | h | h | ⟨d, hd⟩
          · rw [g1] at h; exact Or.inl (Or.inl h)
          · rw [g2] at h; right; exact (Option.some.inj h).symm
          · rw [g3] at h; exact Or.inl (Or.inr (Or.inr (Or.inl h)))
          · rw [g4] at h; exact Or.inl (Or.inr (Or.inr (Or.inr (Or.inl h))))
          · by_cases hdc : d = c
            · rw [hdc, c3] at hd
              exact Or.inl (Or.inr (Or.inl hd))
            · rw [(c5 d hdc).2.2.1] at hd
              exact Or.inl (Or.inr (Or.inr (Or.inr (Or.inr ⟨d, hd⟩))))

/-- `process_terminate` of a PID found in pool slot `c`: the call returns
Success, and the PCBs, the running slot and the queue heads afterwards are
those of the state in which the PCB has been moved to the terminated queue. -/
theorem terminate_moved (fuel : Nat) (s : ProcState) (pid c : Nat)
    (h : process_get_by_pid fuel s pid = some (some c)) :
    ∃ t, process_terminate fuel s pid = some (t, PROCESS_SUCCESS) ∧
      t.process_pool =
        (add_to_queue
          (update_pcb
            (if some c = s.g_process_manager.running_process then
              { s with
                g_process_manager := { s.g_process_manager with running_process := none } }
            else
              remove_from_queue (remove_from_queue s queue_t.ready (some c)) queue_t.blocked
                (some c))
            c (fun b => { b with state := PROCESS_STATE_TERMINATED }))
          queue_t.terminated (some c)).process_pool ∧
      t.g_process_manager.running_process =
        (add_to_queue
          (update_pcb
            (if some c = s.g_process_manager.running_process then
              { s with
                g_process_manager := { s.g_process_manager with running_process := none } }
            else
              remove_from_queue (remove_from_queue s queue_t.ready (some c)) queue_t.blocked
                (some c))
            c (fun b => { b with state := PROCESS_STATE_TERMINATED }))
          queue_t.terminated (some c)).g_process_manager.running_process ∧
      t.g_process_manager.ready_queue =
        (add_to_queue
          (update_pcb
            (if some c = s.g_process_manager.running_process then
              { s with
                g_process_manager := { s.g_process_manager with running_process := none } }
            else
              remove_from_queue (remove_from_queue s queue_t.ready (some c)) queue_t.blocked
                (some c))
            c (fun b => { b with state := PROCESS_STATE_TERMINATED }))
          queue_t.terminated (some c)).g_process_manager.ready_queue ∧
      t.g_process_manager.blocked_queue =
        (add_to_queue
          (update_pcb
            (if some c = s.g_process_manager.running_process then
              { s with
                g_process_manager := { s.g_process_manager with running_process := none } }
            else
              remove_from_queue (remove_from_queue s queue_t.ready (some c)) queue_t.blocked
                (some c))
            c (fun b => { b with state := PROCESS_STATE_TERMINATED }))
          queue_t.terminated (some c)).g_process_manager.blocked_queue ∧
      t.g_process_manager.terminated_queue =
        (add_to_queue
          (update_pcb
            (if some c = s.g_process_manager.running_process then
              { s with
                g_process_manager := { s.g_process_manager with running_process := none } }
            else
              remove_from_queue (remove_from_queue s queue_t.ready (some c)) queue_t.blocked
                (some c))
            c (fun b => { b with state := PROCESS_STATE_TERMINATED }))
          queue_t.terminated (some c)).g_process_manager.terminated_queue := by
  have hr3 : (add_to_queue
      (update_pcb
        (if some c = s.g_process_manager.running_process then
          { s with
            g_process_manager := { s.g_process_manager with running_process := none } }
        else
          remove_from_queue (remove_from_queue s queue_t.ready (some c)) queue_t.blocked
            (some c))
        c (fun b => { b with state := PROCESS_STATE_TERMINATED }))
      queue_t.terminated (some c)).g_process_manager.running_process ≠ some c := by
    rw [(add_to_queue_counters _ _ _).2.2.2, update_pcb_mgr]
    split_ifs with hrun
    · simp
    · rw [remove_from_queue_running, remove_from_queue_running]
      exact fun e => hrun e.symm
  obtain ⟨t, ht, hp, h1, h2, h3, h4, _⟩ := terminate_tail fuel _ c hr3
  refine ⟨t, ?_, hp, h1, h2, h3, h4⟩
  unfold process_terminate
  rw [h]
  simp -zeta only []
  exact ht
theorem update_state_pid (s : ProcState) (i : Nat) (v : process_state_t) (c : Nat) :
    ((update_pcb s i (fun b => { b with state := v })).process_pool c).pid =
      (s.process_pool c).pid := by
  rw [update_pcb_pool]; by_cases h : c = i <;> simp [h]

theorem update_state_state (s : ProcState) (i : Nat) (v : process_state_t) (c : Nat) :
    ((update_pcb s i (fun b => { b with state := v })).process_pool c).state =
      if c = i then v else (s.process_pool c).state := by
  rw [update_pcb_pool]; by_cases h : c = i <;> simp [h]

/-- The outcome of `process_terminate`: NotFound with nothing changed, or
Success with the PCB found moved to the terminated queue. -/
theorem terminate_effects (fuel : Nat) (s t : ProcState) (pid : Nat) (r : Int)
    (h : process_terminate fuel s pid = some (t, r)) :
    (t = s ∧ r = PROCESS_ERROR_NOT_FOUND) ∨
    (r = PROCESS_SUCCESS ∧ ∃ c, process_get_by_pid fuel s pid = some (some c) ∧
      (s.process_pool c).pid = pid ∧ TerminatedIn s t c) := by
  cases hl : process_get_by_pid fuel s pid with
  | none =>
    unfold process_terminate at h
    rw [hl] at h
    cases h
  | some o =>
    cases o with
    | none =>
      rw [terminate_not_found fuel s pid hl] at h
      simp only [Option.some.injEq, Prod.mk.injEq] at h
      exact Or.inl ⟨h.1.symm, h.2.symm⟩
    | some c =>
      right
      obtain ⟨hpid, hlink⟩ := get_by_pid_found fuel s pid c hl
      obtain ⟨t2, ht2, hp, h1, h2, h3, h4⟩ := terminate_moved fuel s pid c hl
      obtain ⟨t3, ht3, k1, _, _, k4⟩ := terminate_some fuel s pid c hl
      rw [ht2] at h ht3
      simp only [Option.some.injEq, Prod.mk.injEq] at h ht3
      obtain ⟨e1, e2⟩ := h
      have e3 : t3 = t := by rw [← ht3.1, e1]
      subst e1
      subst e3
      refine ⟨e2.symm, c, rfl, hpid, hlink, ?_, ?_, ?_, ?_, ?_, k1, ?_⟩
      · intro d
        rw [hp, (add_to_queue_spec _ _ _).2.2.2.2.1 d, update_state_pid]
        split_ifs
        · rfl
        · rw [(remove_from_queue_frame _ _ _ d).1, (remove_from_queue_frame _ _ _ d).1]
      · rw [hp, (add_to_queue_spec _ _ _).2.2.2.2.2.1 c, update_state_state, if_pos rfl]
      · intro d hd
        rw [hp, (add_to_queue_spec _ _ _).2.2.2.2.2.1 d, update_state_state, if_neg hd]
        split_ifs
        · rfl
        · rw [(remove_from_queue_frame _ _ _ d).2.1, (remove_from_queue_frame _ _ _ d).2.1]
      · intro q hq
        rw [h1, (add_to_queue_counters _ _ _).2.2.2, update_pcb_mgr] at hq
        by_cases hrun : some c = s.g_process_manager.running_process
        · rw [if_pos hrun] at hq
          cases hq
        · rw [if_neg hrun, remove_from_queue_running, remove_from_queue_running] at hq
          refine ⟨hq, ?_⟩
          intro e
          exact hrun (by rw [hq, e])
      · intro d hd
        rw [k4]
        unfold deallocate_pcb
        simp only []
        split_ifs
        · exact Function.update_noteq hd _ _
        · rfl
      · intro x hx
        have hx3 : Linked
            (add_to_queue
              (update_pcb
                (if some c = s.g_process_manager.running_process then
                  { s with
                    g_process_manager :=
                      { s.g_process_manager with running_process := none } }
                else
                  remove_from_queue (remove_from_queue s queue_t.ready (some c))
                    queue_t.blocked (some c))
                c (fun b => { b with state := PROCESS_STATE_TERMINATED }))
              queue_t.terminated (some c)) x := by
          rcases hx with e | e | e | e | ⟨d, hd⟩
          · exact Or.inl (by rw [← h1]; exact e)
          · exact Or.inr (Or.inl (by rw [← h2]; exact e))
          · exact Or.inr (Or.inr (Or.inl (by rw [← h3]; exact e)))
          · exact Or.inr (Or.inr (Or.inr (Or.inl (by rw [← h4]; exact e))))
          · exact Or.inr (Or.inr (Or.inr (Or.inr ⟨d, by rw [← hp]; exact hd⟩)))
        rcases add_linked _ _ _ _ hx3 with hx2 | hx2
        · have hx1 := update_linked _ c
            (fun b => { b with state := PROCESS_STATE_TERMINATED }) (fun _ => rfl) x hx2
          by_cases hrun : some c = s.g_process_manager.running_process
          · rw [if_pos hrun] at hx1
            rcases hx1 with e | e | e | e | e
            · cases e
            · exact Or.inr (Or.inl e)
            · exact Or.inr (Or.inr (Or.inl e))
            · exact Or.inr (Or.inr (Or.inr (Or.inl e)))
            · exact Or.inr (Or.inr (Or.inr (Or.inr e)))
          · rw [if_neg hrun] at hx1
            exact remove_linked _ _ _ _ (remove_linked _ _ _ _ hx1)
        · rw [hx2]; exact hlink
theorem switch_fields (s : ProcState) (p c : Nat) :
    ((process_switch s (some p)).process_pool c).pid = (s.process_pool c).pid ∧
    ((process_switch s (some p)).process_pool c).state =
      (if c = p then PROCESS_STATE_RUNNING else (s.process_pool c).state) ∧
    ((process_switch s (some p)).process_pool c).next = (s.process_pool c).next := by
  by_cases h : c = p <;> simp [process_switch, update_pcb, h]

theorem switch_linked (s : ProcState) (p x : Nat)
    (h : Linked (process_switch s (some p)) x) : Linked s x ∨ x = p := by
  rcases h with e | e | e | e | ⟨d, hd⟩
  · right
    have : (process_switch s (some p)).g_process_manager.running_process = some p := rfl
    rw [this] at e
    exact (Option.some.inj e).symm
  · exact Or.inl (Or.inr (Or.inl e))
  · exact Or.inl (Or.inr (Or.inr (Or.inl e)))
  · exact Or.inl (Or.inr (Or.inr (Or.inr (Or.inl e))))
  · rw [(switch_fields s p d).2.2] at hd
    exact Or.inl (Or.inr (Or.inr (Or.inr (Or.inr ⟨d, hd⟩))))

/-- The body of `process_scheduler` after the tick has been counted, with a
running process whose state is running: the running process is queued and
dispatched again, and no PID, state, pool flag or reference changes. -/
theorem scheduler_body_quiet (fuel : Nat) (s : ProcState)
    (hrun : ∀ r, s.g_process_manager.running_process = some r →
      (s.process_pool r).state = PROCESS_STATE_RUNNING) :
    ∃ t,
      (match s.g_process_manager.running_process with
        | none => some s
        | some r =>
          if (s.process_pool r).remaining_slice = 0 then
            schedule_next_process fuel
              (if (s.process_pool r).state = PROCESS_STATE_RUNNING then
                add_to_queue (update_pcb s r (fun b => { b with state := PROCESS_STATE_READY }))
                  queue_t.ready (some r)
              else s)
          else some s) = some t ∧ Quiet s t := by
  cases hr : s.g_process_manager.running_process with
  | none => exact ⟨s, rfl, quiet_refl s⟩
  | some r =>
    have hs := hrun r hr
    by_cases h0 : (s.process_pool r).remaining_slice = 0
    · have hq : (add_to_queue
          (update_pcb s r (fun b => { b with state := PROCESS_STATE_READY }))
          queue_t.ready (some r)).g_process_manager.ready_queue = some r := by
        rw [(add_to_queue_spec _ _ _).2.2.2.2.2.2.1]
        rfl
      refine ⟨process_switch
          (remove_from_queue
            (add_to_queue
              (update_pcb s r (fun b => { b with state := PROCESS_STATE_READY }))
              queue_t.ready (some r))
            queue_t.ready (some r))
          (some r), ?_, ?_, ?_, ?_, ?_, ?_⟩
      · simp only [h0, hs, if_true]
        unfold schedule_next_process
        rw [hq]
      · intro c
        obtain ⟨f1, f2, _⟩ := switch_fields
          (remove_from_queue
            (add_to_queue
              (update_pcb s r (fun b => { b with state := PROCESS_STATE_READY }))
              queue_t.ready (some r))
            queue_t.ready (some r)) r c
        rw [f1, f2, (remove_from_queue_frame _ _ _ c).1, (remove_from_queue_frame _ _ _ c).2.1,
          (add_to_queue_spec _ _ _).2.2.2.2.1 c, (add_to_queue_spec _ _ _).2.2.2.2.2.1 c,
          update_state_pid, update_state_state]
        refine ⟨rfl, ?_⟩
        by_cases hc : c = r
        · rw [if_pos hc, hc, hs]
        · rw [if_neg hc, if_neg hc]
      · show some r = s.g_process_manager.running_process
        rw [hr]
      · show (remove_from_queue _ _ _).process_pool_used = _
        rw [remove_from_queue_used, (add_to_queue_spec _ _ _).2.2.2.2.2.2.2.1]
        rfl
      · show (remove_from_queue _ _ _).g_process_manager.next_pid = _
        rw [(remove_from_queue_counters _ _ _).1, (add_to_queue_counters _ _ _).1]
        rfl
      · intro x hx
        have hlr : Linked s r := Or.inl hr
        rcases switch_linked _ _ _ hx with h1 | h1
        · rcases add_linked _ _ _ _ (remove_linked _ _ _ _ h1) with h2 | h2
          · exact update_linked _ r (fun b => { b with state := PROCESS_STATE_READY })
              (fun _ => rfl) x h2
          · rw [h2]; exact hlr
        · rw [h1]; exact hlr
    · exact ⟨s, by simp only [h0, if_false], quiet_refl s⟩

theorem scheduler_quiet (fuel : Nat) (s : ProcState)
    (hrun : ∀ r, s.g_process_manager.running_process = some r →
      (s.process_pool r).state = PROCESS_STATE_RUNNING) :
    ∃ t, process_scheduler fuel s = some t ∧ Quiet s t := by
  obtain ⟨t, ht, hQ⟩ := scheduler_body_quiet fuel
    { s with
      g_process_manager :=
        { s.g_process_manager with
          scheduler_ticks := add32 s.g_process_manager.scheduler_ticks 1 } }
    hrun
  refine ⟨t, ht, quiet_trans ?_ hQ⟩
  exact ⟨fun _ => ⟨rfl, rfl⟩, rfl, rfl, rfl, fun _ h => h⟩

theorem yield_quiet (fuel : Nat) (s : ProcState)
    (hrun : ∀ r, s.g_process_manager.running_process = some r →
      (s.process_pool r).state = PROCESS_STATE_RUNNING) :
    ∃ t, process_yield fuel s = some t ∧ Quiet s t := by
  cases hr : s.g_process_manager.running_process with
  | none => exact ⟨s, by unfold process_yield; rw [hr], quiet_refl s⟩
  | some r =>
    have hq := quiet_update s r (fun b => { b with remaining_slice := 0 })
      (fun _ => ⟨rfl, rfl, rfl⟩)
    obtain ⟨t, ht, hQ⟩ := scheduler_quiet fuel
      (update_pcb s r (fun b => { b with remaining_slice := 0 }))
      (by
        intro q hq2
        rw [(hq.1 q).2]
        exact hrun q hq2)
    exact ⟨t, by unfold process_yield; rw [hr]; exact ht, quiet_trans hq hQ⟩

theorem set_priority_quiet (fuel : Nat) (s t : ProcState) (pid pr : Nat) (r : Int)
    (h : process_set_priority fuel s pid pr = some (t, r)) : Quiet s t := by
  unfold process_set_priority at h
  cases hl : process_get_by_pid fuel s pid with
  | none => rw [hl] at h; cases h
  | some o =>
    rw [hl] at h
    cases o with
    | none =>
      simp only [Option.some.injEq, Prod.mk.injEq] at h
      rw [← h.1]; exact quiet_refl s
    | some c =>
      simp only [Option.some.injEq, Prod.mk.injEq] at h
      rw [← h.1]
      exact quiet_update s c (fun b => { b with priority := pr }) (fun _ => ⟨rfl, rfl, rfl⟩)

/-- What one call of the process API changes, when the running process (if
any) has state running. -/
theorem step_effects (fuel : Nat) (s t : ProcState) (op : proc_op) (r : Int)
    (hrun : ∀ q, s.g_process_manager.running_process = some q →
      (s.process_pool q).state = PROCESS_STATE_RUNNING)
    (h : proc_step fuel s op = some (t, r)) :
    Quiet s t ∨ (∃ c, CreatedIn s t c) ∨ ∃ c, TerminatedIn s t c := by
  cases op with
  | create name e pr ss =>
    simp only [proc_step, Option.some.injEq] at h
    rcases create_effects s name e pr ss with ⟨r2, h2, _⟩ | ⟨c, t2, h2, hc⟩
    · rw [h2] at h
      simp only [Prod.mk.injEq] at h
      rw [← h.1]; exact Or.inl (quiet_refl s)
    · rw [h2] at h
      simp only [Prod.mk.injEq] at h
      rw [← h.1]; exact Or.inr (Or.inl ⟨c, hc⟩)
  | terminate pid =>
    rcases terminate_effects fuel s t pid r h with ⟨e, _⟩ | ⟨_, c, _, _, hc⟩
    · rw [e]; exact Or.inl (quiet_refl s)
    · exact Or.inr (Or.inr ⟨c, hc⟩)
  | kill pid =>
    rcases terminate_effects fuel s t pid r h with ⟨e, _⟩ | ⟨_, c, _, _, hc⟩
    · rw [e]; exact Or.inl (quiet_refl s)
    · exact Or.inr (Or.inr ⟨c, hc⟩)
  | yield =>
    obtain ⟨t2, h2, hQ⟩ := yield_quiet fuel s hrun
    simp only [proc_step, h2, Option.map_some', Option.some.injEq, Prod.mk.injEq] at h
    rw [← h.1]; exact Or.inl hQ
  | scheduler =>
    obtain ⟨t2, h2, hQ⟩ := scheduler_quiet fuel s hrun
    simp only [proc_step, h2, Option.map_some', Option.some.injEq, Prod.mk.injEq] at h
    rw [← h.1]; exact Or.inl hQ
  | set_priority pid pr => exact Or.inl (set_priority_quiet fuel s t pid pr r h)
/-! ## Process manager: terminated PIDs -/

theorem init_pid_inv (mem : MemState) : PidInv (process_manager_init mem).1 := by
  have ha : first_unused (fun _ => false) 0 MAX_PROCESSES = some 0 := rfl
  have hpool : ∀ c, ((process_manager_init mem).1.process_pool c).pid = 0 ∧
      ((process_manager_init mem).1.process_pool c).next = none ∧
      (c ≠ 0 → ((process_manager_init mem).1.process_pool c).state = PROCESS_STATE_NEW) := by
    intro c
    unfold process_manager_init
    simp only []
    rw [allocate_pcb_eq _ 0 ha]
    simp only []
    by_cases hc : c = 0
    · subst hc; simp [update_pcb_pool, pcb_t.zero]
    · simp [update_pcb_pool, hc, pcb_t.zero]
  have hmgr : (process_manager_init mem).1.g_process_manager.running_process = some 0 ∧
      (process_manager_init mem).1.g_process_manager.ready_queue = none ∧
      (process_manager_init mem).1.g_process_manager.blocked_queue = none ∧
      (process_manager_init mem).1.g_process_manager.terminated_queue = none ∧
      (process_manager_init mem).1.g_process_manager.next_pid = 1 ∧
      ((process_manager_init mem).1.process_pool 0).state = PROCESS_STATE_RUNNING ∧
      (process_manager_init mem).1.process_pool_used 0 = true := by
    unfold process_manager_init
    simp only []
    rw [allocate_pcb_eq _ 0 ha]
    simp [update_pcb, Function.update]
  obtain ⟨m1, m2, m3, m4, m5, m6, m7⟩ := hmgr
  refine ⟨?_, ?_, ?_, ?_⟩
  · intro c; rw [(hpool c).1, m5]; decide
  · intro c d _
    by_cases hc : c = 0
    · by_cases hd : d = 0
      · left; rw [hc, hd]
      · right; right; exact (hpool d).2.2 hd
    · right; left; exact (hpool c).2.2 hc
  · intro r hr
    rw [m1] at hr
    have : r = 0 := (Option.some.inj hr).symm
    subst this
    exact ⟨m6, m7⟩
  · intro c hl
    rcases hl with h | h | h | h | ⟨d, hd⟩
    · rw [m1] at h
      have : c = 0 := (Option.some.inj h).symm
      subst this
      rw [m6]; decide
    · rw [m2] at h; cases h
    · rw [m3] at h; cases h
    · rw [m4] at h; cases h
    · rw [(hpool d).2.1] at hd; cases hd

theorem pid_inv_quiet {s t : ProcState} (h : PidInv s) (q : Quiet s t) : PidInv t := by
  obtain ⟨a, b, c, d⟩ := h
  obtain ⟨q1, q2, q3, q4, q5⟩ := q
  refine ⟨?_, ?_, ?_, ?_⟩
  · intro x; rw [(q1 x).1, q4]; exact a x
  · intro x y hxy
    rw [(q1 x).1, (q1 y).1] at hxy
    rw [(q1 x).2, (q1 y).2]
    exact b x y hxy
  · intro r hr
    rw [q2] at hr
    rw [(q1 r).2, q3]
    exact c r hr
  · intro x hx
    rw [(q1 x).2]
    exact d x (q5 x hx)

theorem pid_inv_created {s t : ProcState} {c : Nat} (h : PidInv s) (hc : CreatedIn s t c)
    (hw : s.g_process_manager.next_pid + 1 < WORD) : PidInv t := by
  obtain ⟨a, b, cr, d⟩ := h
  obtain ⟨_, k2, k3, k4, k5, k6, k7, k8, k9⟩ := hc
  have hn : t.g_process_manager.next_pid = s.g_process_manager.next_pid + 1 := by
    rw [k8]; exact add32_of_lt hw
  refine ⟨?_, ?_, ?_, ?_⟩
  · intro x
    rw [hn]
    by_cases hx : x = c
    · rw [hx, k3]; omega
    · rw [(k5 x hx).1]
      have := a x
      omega
  · intro x y hxy
    by_cases hx : x = c
    · by_cases hy : y = c
      · left; rw [hx, hy]
      · exfalso
        rw [hx, k3, (k5 y hy).1] at hxy
        have := a y
        omega
    · by_cases hy : y = c
      · exfalso
        rw [hy, k3, (k5 x hx).1] at hxy
        have := a x
        omega
      · rw [(k5 x hx).1, (k5 y hy).1] at hxy
        rw [(k5 x hx).2, (k5 y hy).2]
        exact b x y hxy
  · intro r hr
    rw [k6] at hr
    obtain ⟨r1, r2⟩ := cr r hr
    have hrc : r ≠ c := by
      intro e
      rw [e, k2] at r2
      cases r2
    rw [(k5 r hrc).2, k7, Function.update_noteq hrc]
    exact ⟨r1, r2⟩
  · intro x hx
    by_cases hxc : x = c
    · rw [hxc, k4]; decide
    · rcases k9 x hx with h1 | h1
      · rw [(k5 x hxc).2]; exact d x h1
      · exact absurd h1 hxc

theorem pid_inv_terminated {s t : ProcState} {c : Nat} (h : PidInv s)
    (ht : TerminatedIn s t c) : PidInv t := by
  obtain ⟨a, b, cr, d⟩ := h
  obtain ⟨k1, k2, k3, k4, k5, k6, k7, k8⟩ := ht
  have hcn : (s.process_pool c).state ≠ PROCESS_STATE_NEW := d c k1
  have hst : ∀ x, (s.process_pool x).state = PROCESS_STATE_NEW →
      (t.process_pool x).state = PROCESS_STATE_NEW := by
    intro x hx
    have hxc : x ≠ c := fun e => hcn (e ▸ hx)
    rw [k4 x hxc]; exact hx
  refine ⟨?_, ?_, ?_, ?_⟩
  · intro x; rw [k2, k7]; exact a x
  · intro x y hxy
    rw [k2, k2] at hxy
    rcases b x y hxy with e | e | e
    · exact Or.inl e
    · exact Or.inr (Or.inl (hst x e))
    · exact Or.inr (Or.inr (hst y e))
  · intro r hr
    obtain ⟨h1, h2⟩ := k5 r hr
    rw [k4 r h2, k6 r h2]
    exact cr r h1
  · intro x hx
    by_cases hxc : x = c
    · rw [hxc, k3]; decide
    · rw [k4 x hxc]; exact d x (k8 x hx)

theorem absorbed_quiet {s t : ProcState} {p : Nat} (h : Absorbed p s) (q : Quiet s t) :
    Absorbed p t := by
  obtain ⟨q1, _, _, q4, _⟩ := q
  refine ⟨by rw [q4]; exact h.1, ?_⟩
  intro x hx
  rw [(q1 x).1] at hx
  rw [(q1 x).2]
  exact h.2 x hx

theorem absorbed_created {s t : ProcState} {c p : Nat} (h : Absorbed p s)
    (hc : CreatedIn s t c) (hw : s.g_process_manager.next_pid + 1 < WORD) : Absorbed p t := by
  obtain ⟨_, _, k3, _, k5, _, _, k8, _⟩ := hc
  have hn : t.g_process_manager.next_pid = s.g_process_manager.next_pid + 1 := by
    rw [k8]; exact add32_of_lt hw
  refine ⟨by rw [hn]; have := h.1; omega, ?_⟩
  intro x hx
  by_cases hxc : x = c
  · exfalso
    rw [hxc, k3] at hx
    have := h.1
    omega
  · rw [(k5 x hxc).1] at hx
    rw [(k5 x hxc).2]
    exact h.2 x hx

theorem absorbed_terminated {s t : ProcState} {c p : Nat} (h : Absorbed p s)
    (ht : TerminatedIn s t c) : Absorbed p t := by
  obtain ⟨_, k2, k3, k4, _, _, k7, _⟩ := ht
  refine ⟨by rw [k7]; exact h.1, ?_⟩
  intro x hx
  rw [k2] at hx
  by_cases hxc : x = c
  · left; rw [hxc, k3]
  · rw [k4 x hxc]; exact h.2 x hx

/-- After a successful `process_terminate`, the PID of the PCB terminated
belongs to terminated PCBs only. -/
theorem absorbed_of_terminated {s t : ProcState} {c : Nat} (h : PidInv s)
    (ht : TerminatedIn s t c) : Absorbed (s.process_pool c).pid t := by
  obtain ⟨a, b, _, d⟩ := h
  obtain ⟨k1, k2, k3, k4, _, _, k7, _⟩ := ht
  refine ⟨by rw [k7]; exact a c, ?_⟩
  intro x hx
  rw [k2] at hx
  by_cases hxc : x = c
  · left; rw [hxc, k3]
  · rcases b x c hx with e | e | e
    · exact absurd e hxc
    · right; rw [k4 x hxc]; exact e
    · exact absurd e (d c k1)

/-- Along a run that makes fewer calls than `next_pid` is away from 2^32, the
invariant of the PIDs holds and a PID that belongs to terminated PCBs only
keeps doing so. -/
theorem run_pid_inv (fuel : Nat) (ops : List proc_op) :
    ∀ (s t : ProcState) (rets : List Int), PidInv s →
      s.g_process_manager.next_pid + ops.length < WORD →
      proc_run fuel s ops = some (t, rets) →
      PidInv t ∧ t.g_process_manager.next_pid ≤ s.g_process_manager.next_pid + ops.length ∧
        ∀ p, Absorbed p s → Absorbed p t := by
  induction ops with
  | nil =>
    intro s t rets hI _ h
    simp only [proc_run, Option.some.injEq, Prod.mk.injEq] at h
    rw [← h.1]
    exact ⟨hI, Nat.le_refl _, fun _ hp => hp⟩
  | cons op ops ih =>
    intro s t rets hI hb h
    obtain ⟨s1, r, rs, h1, h2, _⟩ := proc_run_cons_some fuel s t op ops rets h
    simp only [List.length_cons] at hb ⊢
    have key : PidInv s1 ∧
        s1.g_process_manager.next_pid ≤ s.g_process_manager.next_pid + 1 ∧
        ∀ p, Absorbed p s → Absorbed p s1 := by
      rcases step_effects fuel s s1 op r (fun q hq => (hI.2.2.1 q hq).1) h1 with
        hq | ⟨c, hc⟩ | ⟨c, hc⟩
      · exact ⟨pid_inv_quiet hI hq, by rw [hq.2.2.2.1]; omega, fun p hp => absorbed_quiet hp hq⟩
      · have hw : s.g_process_manager.next_pid + 1 < WORD := by omega
        refine ⟨pid_inv_created hI hc hw, ?_, fun p hp => absorbed_created hp hc hw⟩
        rw [hc.2.2.2.2.2.2.2.1, add32_of_lt hw]
      · exact ⟨pid_inv_terminated hI hc, by rw [hc.2.2.2.2.2.2.1]; omega,
          fun p hp => absorbed_terminated hp hc⟩
    obtain ⟨k1, k2, k3⟩ := key
    obtain ⟨j1, j2, j3⟩ := ih s1 t rs k1 (by omega) h2
    exact ⟨j1, by omega, fun p hp => j3 p (k3 p hp)⟩
theorem proc_run_length (fuel : Nat) (ops : List proc_op) :
    ∀ (s t : ProcState) (rets : List Int), proc_run fuel s ops = some (t, rets) →
      rets.length = ops.length := by
  induction ops with
  | nil =>
    intro s t rets h
    simp only [proc_run, Option.some.injEq, Prod.mk.injEq] at h
    rw [← h.2]; rfl
  | cons op ops ih =>
    intro s t rets h
    obtain ⟨s1, r, rs, _, h2, e⟩ := proc_run_cons_some fuel s t op ops rets h
    rw [e, List.length_cons, List.length_cons, ih s1 t rs h2]

theorem proc_run_append_some (fuel : Nat) (ops1 ops2 : List proc_op) :
    ∀ (s t : ProcState) (rets : List Int), proc_run fuel s (ops1 ++ ops2) = some (t, rets) →
      ∃ s1 r1 r2, proc_run fuel s ops1 = some (s1, r1) ∧ proc_run fuel s1 ops2 = some (t, r2) ∧
        rets = r1 ++ r2 := by
  induction ops1 with
  | nil => intro s t rets h; exact ⟨s, [], rets, rfl, h, rfl⟩
  | cons op ops ih =>
    intro s t rets h
    obtain ⟨s1, r, rs, h1, h2, e⟩ := proc_run_cons_some fuel s t op (ops ++ ops2) rets h
    obtain ⟨s2, r1, r2, k1, k2, k3⟩ := ih s1 t rs h2
    refine ⟨s2, r :: r1, r2, ?_, k2, by rw [e, k3]; rfl⟩
    rw [proc_run_cons fuel s s1 op ops r h1, k1]
    rfl

/-- C32, amended: take any run of calls of the process API after
`process_manager_init` in which all calls return, of fewer than 2^32 - 1 calls
in all, and a call `process_terminate(p)` in it that returns Success.  In the
state at the end of the run, whatever `process_get_by_pid(p)` finds is a PCB
with PID `p` whose state is terminated. -/
theorem C32_terminated_absorbing (mem : MemState) (fuel : Nat) (pre post : List proc_op)
    (p : Nat) (r1 r3 : List Int)
    (hb : (pre ++ proc_op.terminate p :: post).length < 4294967295)
    (hl : r1.length = pre.length)
    (hr : returns_of fuel (process_manager_init mem).1 (pre ++ proc_op.terminate p :: post) =
      some (r1 ++ PROCESS_SUCCESS :: r3)) :
    ∀ fuel2 c,
      process_get_by_pid fuel2
          (state_after fuel (process_manager_init mem).1 (pre ++ proc_op.terminate p :: post))
          p = some (some c) →
        ((state_after fuel (process_manager_init mem).1
            (pre ++ proc_op.terminate p :: post)).process_pool c).pid = p ∧
        ((state_after fuel (process_manager_init mem).1
            (pre ++ proc_op.terminate p :: post)).process_pool c).state =
          PROCESS_STATE_TERMINATED := by
  unfold returns_of at hr
  cases hrun : proc_run fuel (process_manager_init mem).1
      (pre ++ proc_op.terminate p :: post) with
  | none => rw [hrun] at hr; cases hr
  | some x =>
    obtain ⟨t, rets⟩ := x
    rw [hrun] at hr
    simp only [Option.map_some', Option.some.injEq] at hr
    have hst : state_after fuel (process_manager_init mem).1
        (pre ++ proc_op.terminate p :: post) = t := by
      unfold state_after
      rw [hrun]
    rw [hst]
    simp only [List.length_append, List.length_cons] at hb
    obtain ⟨s1, ra, rb, h1, h2, e⟩ := proc_run_append_some fuel pre _ _ t rets hrun
    have hla : ra.length = r1.length := by rw [hl]; exact proc_run_length fuel pre _ _ _ h1
    rw [hr] at e
    obtain ⟨ea, eb⟩ := List.append_inj e hla.symm
    obtain ⟨s2, r, rs, k1, k2, k3⟩ := proc_run_cons_some fuel s1 t _ post rb h2
    rw [← eb] at k3
    have er : r = PROCESS_SUCCESS := by
      have := (List.cons.inj k3).1
      exact this.symm
    have hinit := init_pid_inv mem
    have hn0 : (process_manager_init mem).1.g_process_manager.next_pid = 1 := by
      have := (init_fresh mem).2.2.1
      simpa using this
    obtain ⟨i1, i2, _⟩ := run_pid_inv fuel pre _ s1 ra hinit
      (by rw [hn0]; unfold WORD; omega) h1
    rw [hn0] at i2
    rcases terminate_effects fuel s1 s2 p r k1 with ⟨_, e2⟩ | ⟨_, c0, _, hp0, hT⟩
    · rw [er] at e2; exact absurd e2 (by decide)
    · have hA : Absorbed p s2 := by
        have := absorbed_of_terminated i1 hT
        rw [hp0] at this
        exact this
      have hI2 := pid_inv_terminated i1 hT
      have hn2 : s2.g_process_manager.next_pid = s1.g_process_manager.next_pid :=
        hT.2.2.2.2.2.2.1
      obtain ⟨j1, _, j3⟩ := run_pid_inv fuel post s2 t rs hI2
        (by rw [hn2]; unfold WORD; omega) k2
      intro fuel2 c hc
      obtain ⟨hpid, hlink⟩ := get_by_pid_found fuel2 t p c hc
      refine ⟨hpid, ?_⟩
      rcases (j3 p hA).2 c hpid with e3 | e3
      · exact e3
      · exact absurd e3 (j1.2.2.2 c hlink)

/-- C32, amended, instance: boot, two creates, `process_terminate(1)`, then a
yield, a `process_set_priority(1, 3)`, a scheduler tick, `process_terminate(2)`
and a second `process_terminate(1)`. -/
theorem C32_terminated_absorbing_witness :
    ([create_op ['a'], create_op ['b']] ++ proc_op.terminate 1 ::
        [proc_op.yield, proc_op.set_priority 1 3, proc_op.scheduler, proc_op.terminate 2,
          proc_op.terminate 1]).length < 4294967295 ∧
    returns_of 64 (process_manager_init (memory_init MemState.zero)).1
        ([create_op ['a'], create_op ['b']] ++ proc_op.terminate 1 ::
          [proc_op.yield, proc_op.set_priority 1 3, proc_op.scheduler, proc_op.terminate 2,
            proc_op.terminate 1]) =
      some ([1, 2] ++ PROCESS_SUCCESS :: [0, 0, 0, 0, 0]) ∧
    ∀ fuel2 c,
      process_get_by_pid fuel2
          (state_after 64 (process_manager_init (memory_init MemState.zero)).1
            ([create_op ['a'], create_op ['b']] ++ proc_op.terminate 1 ::
              [proc_op.yield, proc_op.set_priority 1 3, proc_op.scheduler, proc_op.terminate 2,
                proc_op.terminate 1]))
          1 = some (some c) →
        ((state_after 64 (process_manager_init (memory_init MemState.zero)).1
            ([create_op ['a'], create_op ['b']] ++ proc_op.terminate 1 ::
              [proc_op.yield, proc_op.set_priority 1 3, proc_op.scheduler, proc_op.terminate 2,
                proc_op.terminate 1])).process_pool c).pid = 1 ∧
        ((state_after 64 (process_manager_init (memory_init MemState.zero)).1
            ([create_op ['a'], create_op ['b']] ++ proc_op.terminate 1 ::
              [proc_op.yield, proc_op.set_priority 1 3, proc_op.scheduler, proc_op.terminate 2,
                proc_op.terminate 1])).process_pool c).state = PROCESS_STATE_TERMINATED :=
  ⟨by decide, by decide,
    C32_terminated_absorbing (memory_init MemState.zero) 64 [create_op ['a'], create_op ['b']]
      [proc_op.yield, proc_op.set_priority 1 3, proc_op.scheduler, proc_op.terminate 2,
        proc_op.terminate 1] 1 [1, 2] [0, 0, 0, 0, 0] (by decide) (by decide) (by decide)⟩
/-- A round of create and terminate on a manager that holds only the idle
process leaves pool slot 2 unused. -/
theorem round_step_slot2 (fuel : Nat) (hf : 1 ≤ fuel) {s : ProcState} {n : Nat}
    (hI : RoundInv s n) (h2 : s.process_pool_used 2 = false) (hn : n + 1 < WORD) :
    ∃ t, proc_run fuel s [create_op ['a'], proc_op.terminate (n + 1)] =
        some (t, [int_of_u32 (n + 1), PROCESS_SUCCESS]) ∧ RoundInv t (n + 1) ∧
      t.process_pool_used 2 = false := by
  obtain ⟨t, ht, hI2⟩ := round_step fuel hf hI hn
  refine ⟨t, ht, hI2, ?_⟩
  obtain ⟨_, _, _, _, _, _, hcnt, hmax, hu0, hu1⟩ := hI
  have hc : ¬ s.g_process_manager.max_processes ≤ s.g_process_manager.process_count := by
    rw [hmax, hcnt]; decide
  have halloc : first_unused s.process_pool_used 0 MAX_PROCESSES = some 1 := by
    have := first_unused_spec s.process_pool_used 1 0 MAX_PROCESSES
      (fun j _ hj => by
        have : j = 0 := by omega
        rw [this]; exact hu0)
      hu1 (by decide)
    simpa using this
  obtain ⟨t1, ht1, _, _, _, _, _, _, _, _, _, _, _, _, u⟩ :=
    create_ok s ['a'] 0x100000 PROCESS_PRIORITY_NORMAL DEFAULT_STACK_SIZE 1 (by decide) hc halloc
  obtain ⟨s1, r, rs, k1, k2, _⟩ := proc_run_cons_some fuel s t _ _ _ ht
  have e1 : s1 = t1 := by
    rw [create_op, proc_step, ht1] at k1
    simp only [Option.some.injEq, Prod.mk.injEq] at k1
    exact k1.1.symm
  subst e1
  obtain ⟨s2, r2, rs2, j1, j2, _⟩ := proc_run_cons_some fuel s1 t _ _ _ k2
  have e2 : s2 = t := by
    simp only [proc_run, Option.some.injEq, Prod.mk.injEq] at j2
    exact j2.1
  subst e2
  have hs1 : s1.process_pool_used 2 = false := by
    rw [u, Function.update_noteq (by decide)]; exact h2
  rcases terminate_effects fuel s1 s2 (n + 1) r2 j1 with ⟨e, _⟩ | ⟨_, c, hl, _, _⟩
  · rw [e]; exact hs1
  · obtain ⟨t3, ht3, _, _, _, k4⟩ := terminate_some fuel s1 (n + 1) c hl
    have e3 : t3 = s2 := by
      rw [proc_step, ht3] at j1
      simp only [Option.some.injEq, Prod.mk.injEq] at j1
      exact j1.1
    subst e3
    rw [k4]
    unfold deallocate_pcb
    simp only []
    split_ifs
    · by_cases hc2 : (2 : Nat) = c
      · subst hc2; simp
      · simp [Function.update, hc2, hs1]
    · exact hs1

/-- After `n >= 1` rounds of create and terminate: the first two calls are
`process_create` returning PID 1 and `process_terminate(1)` returning Success,
only the idle process is left, and pool slot 2 is unused. -/
theorem rounds_run_slot2 (mem : MemState) (fuel : Nat) (hf : 1 ≤ fuel) (n : Nat)
    (hn : n + 1 < WORD) :
    ∃ t rets l,
      create_terminate_rounds (n + 1) = create_op ['a'] :: proc_op.terminate 1 :: l ∧
      proc_run fuel (process_manager_init mem).1 (create_terminate_rounds (n + 1)) =
        some (t, 1 :: PROCESS_SUCCESS :: rets) ∧
      RoundInv t (n + 1) ∧ t.process_pool_used 2 = false := by
  induction n with
  | zero =>
    have h2 : (process_manager_init mem).1.process_pool_used 2 = false := by
      have := (init_fresh mem).2.2.2.2.2 2
      rw [this]; decide
    obtain ⟨t, ht, hI, hu⟩ := round_step_slot2 fuel hf (boot_round mem) h2 hn
    exact ⟨t, [], [], rfl, ht, hI, hu⟩
  | succ n ih =>
    obtain ⟨t, rets, l, e, h1, hI, hu⟩ := ih (by omega)
    obtain ⟨t2, h2, hI2, hu2⟩ := round_step_slot2 fuel hf hI hu hn
    refine ⟨t2, rets ++ [int_of_u32 (n + 1 + 1), PROCESS_SUCCESS],
      l ++ [create_op ['a'], proc_op.terminate (n + 1 + 1)], ?_, ?_, hI2, hu2⟩
    · rw [create_terminate_rounds, e]; rfl
    · rw [create_terminate_rounds, proc_run_append fuel _ _ _ t _ h1, h2]
      rfl

/-- C32, counterexample: boot, then 4294967295 rounds of `process_create` and
`process_terminate` of the PID returned, the first of which creates PID 1 and
terminates it with Success, then two more creates.  `next_pid` has wrapped:
the last create hands out PID 1 again, and `process_get_by_pid(1)` finds the
new PCB (pool slot 2), whose state is ready. -/
theorem C32_counterexample_pid_reused :
    ∃ l t rets,
      create_terminate_rounds 4294967295 ++ [create_op ['a'], create_op ['b']] =
        create_op ['a'] :: proc_op.terminate 1 :: l ∧
      proc_run 64 boot_state (create_op ['a'] :: proc_op.terminate 1 :: l) =
        some (t, 1 :: PROCESS_SUCCESS :: rets) ∧
      process_get_by_pid 64 t 1 = some (some 2) ∧
      (t.process_pool 2).pid = 1 ∧
      (t.process_pool 2).state = PROCESS_STATE_READY := by
  obtain ⟨s, rets, l, e, h1, hI, hu2⟩ :=
    rounds_run_slot2 (memory_init MemState.zero) 64 (by decide) 4294967294 (by decide)
  obtain ⟨hrun, hpid0, hready, hblk, hterm, hnp, hcnt, hmax, hu0, hu1⟩ := hI
  have hnp0 : s.g_process_manager.next_pid = 0 := by rw [hnp]; decide
  have hc : ¬ s.g_process_manager.max_processes ≤ s.g_process_manager.process_count := by
    rw [hmax, hcnt]; decide
  have halloc : first_unused s.process_pool_used 0 MAX_PROCESSES = some 1 := by
    have := first_unused_spec s.process_pool_used 1 0 MAX_PROCESSES
      (fun j _ hj => by
        have : j = 0 := by omega
        rw [this]; exact hu0)
      hu1 (by decide)
    simpa using this
  obtain ⟨t1, ht1, _, _, _, _, c5, g1, _, _, _, g5, g6, g7, u⟩ :=
    create_ok s ['a'] 0x100000 PROCESS_PRIORITY_NORMAL DEFAULT_STACK_SIZE 1 (by decide) hc halloc
  rw [hnp0] at ht1 g5
  have hn1 : t1.g_process_manager.next_pid = 1 := by rw [g5]; decide
  have hc1 : ¬ t1.g_process_manager.max_processes ≤ t1.g_process_manager.process_count := by
    rw [g7, g6, hmax, hcnt]; decide
  have halloc1 : first_unused t1.process_pool_used 0 MAX_PROCESSES = some 2 := by
    have := first_unused_spec t1.process_pool_used 2 0 MAX_PROCESSES
      (fun j _ hj => by
        rw [u]
        by_cases hj1 : j = 1
        · rw [hj1, Function.update_same]
        · have : j = 0 := by omega
          rw [Function.update_noteq hj1, this]; exact hu0)
      (by
        rw [u]
        show Function.update s.process_pool_used 1 true 2 = false
        rw [Function.update_noteq (by decide)]; exact hu2)
      (by decide)
    simpa using this
  obtain ⟨t2, ht2, d1, d2, _, _, d5, e1, e2, _, _, _, _, _, _⟩ :=
    create_ok t1 ['b'] 0x100000 PROCESS_PRIORITY_NORMAL DEFAULT_STACK_SIZE 2 (by decide) hc1
      halloc1
  rw [hn1] at ht2 d1
  have hp0 : (t2.process_pool 0).pid = 0 := by
    rw [(d5 0 (by decide)).1, (c5 0 (by decide)).1, hpid0]
  have hlook : process_get_by_pid 64 t2 1 = some (some 2) := by
    simp [process_get_by_pid, e1, g1, hrun, hp0, e2, find_process_in_queue, d1]
  have hlast : proc_run 64 s [create_op ['a'], create_op ['b']] =
      some (t2, [int_of_u32 0, int_of_u32 1]) := by
    rw [proc_run_cons 64 s t1 _ _ (int_of_u32 0) (by rw [create_op, proc_step, ht1]),
      proc_run_cons 64 t1 t2 _ [] (int_of_u32 1) (by rw [create_op, proc_step, ht2])]
    rfl
  refine ⟨l ++ [create_op ['a'], create_op ['b']], t2, rets ++ [int_of_u32 0, int_of_u32 1],
    ?_, ?_, hlook, d1, d2⟩
  · rw [show (4294967295 : Nat) = 4294967294 + 1 from rfl, e]; rfl
  · have : proc_run 64 boot_state
        (create_terminate_rounds (4294967294 + 1) ++ [create_op ['a'], create_op ['b']]) =
        some (t2, (1 :: PROCESS_SUCCESS :: rets) ++ [int_of_u32 0, int_of_u32 1]) := by
      show proc_run 64 (process_manager_init (memory_init MemState.zero)).1 _ = _
      rw [proc_run_append 64 _ _ _ s _ h1, hlast]
      rfl
    rw [e] at this
    exact this

/-! ## Process manager: reuse of the pool slot of a terminated process -/

/-- On a fresh manager the lookup of the PID of a created process finds it in
the pool slot of the same index. -/
theorem fresh_lookup {k : Nat} {s : ProcState} (hF : Fresh k s) (fuel : Nat) (hf : k ≤ fuel)
    (c : Nat) (h1 : 1 ≤ c) (hk : c ≤ k) : process_get_by_pid fuel s c = some (some c) := by
  obtain ⟨hrun, hpid0, _, _, hN, _, _, _, hpids, _⟩ := hF.1
  have hc : c ∈ slots_down k := mem_slots_down.2 ⟨h1, hk⟩
  have hfind := find_in_NextList hpids fuel hN (by rw [length_slots_down]; exact hf) c hc
  have hne : ¬ (0 : Nat) = c := by omega
  simp [process_get_by_pid, hrun, hpid0, hne, hfind]

/-- The manager after boot and 63 calls of `process_create`. -/
theorem full_pool_fresh :
    Fresh 63 (state_after 64 boot_state (List.replicate 63 (create_op ['a']))) := by
  obtain ⟨t, ht, hF⟩ := run_valid_creates 64 (List.replicate 63 (create_op ['a'])) 0
    (process_manager_init (memory_init MemState.zero)).1 (init_fresh _) (by decide) (by decide)
  have e : state_after 64 boot_state (List.replicate 63 (create_op ['a'])) = t := by
    unfold state_after boot_state
    rw [ht]
  rw [e]
  exact hF

/-- Reuse of a freed slot when the count and the pool flags agree: in every
state in which all 64 pool slots are in use and `process_count` equals
`max_processes` = 64, `process_create` with valid
arguments returns QueueFull; and if the lookup of `pid` finds a PCB (pool slot
`p`), then `process_terminate(pid)` returns Success and frees slot `p`, and
the next `process_create` with valid arguments returns the next PID and puts
the new ready PCB in exactly that slot `p`, after which the pool is full
again. -/
theorem terminate_frees_slot (fuel : Nat) (s : ProcState) (pid p : Nat) (nm : List Char)
    (e pr ss : Nat)
    (hmax : s.g_process_manager.max_processes = MAX_PROCESSES)
    (hcnt : s.g_process_manager.process_count = MAX_PROCESSES)
    (hused : ∀ i, i < MAX_PROCESSES → s.process_pool_used i = true)
    (hfind : process_get_by_pid fuel s pid = some (some p)) (hp : p < MAX_PROCESSES)
    (he : e ≠ 0) :
    process_create s (some nm) e pr ss = (s, PROCESS_ERROR_QUEUE_FULL) ∧
    ∃ t, process_terminate fuel s pid = some (t, PROCESS_SUCCESS) ∧
      t.process_pool_used p = false ∧
      (∀ i, i < MAX_PROCESSES → i ≠ p → t.process_pool_used i = true) ∧
      ∃ u, process_create t (some nm) e pr ss =
          (u, int_of_u32 s.g_process_manager.next_pid) ∧
        (s.g_process_manager.next_pid < 2147483648 →
          0 ≤ int_of_u32 s.g_process_manager.next_pid) ∧
        (u.process_pool p).pid = s.g_process_manager.next_pid ∧
        (u.process_pool p).state = PROCESS_STATE_READY ∧
        u.g_process_manager.ready_queue = some p ∧
        (∀ c, c ≠ p → (u.process_pool c).pid = (t.process_pool c).pid ∧
          (u.process_pool c).state = (t.process_pool c).state) ∧
        (∀ i, i < MAX_PROCESSES → u.process_pool_used i = true) ∧
        u.g_process_manager.process_count = MAX_PROCESSES := by
  refine ⟨create_full s nm e pr ss he (by rw [hmax, hcnt]), ?_⟩
  obtain ⟨t, ht, k1, k2, k3, k4⟩ := terminate_some fuel s pid p hfind
  have hu : t.process_pool_used = Function.update s.process_pool_used p false := by
    rw [k4]
    unfold deallocate_pcb
    simp only []
    rw [if_pos hp]
  have hup : t.process_pool_used p = false := by rw [hu, Function.update_same]
  have hui : ∀ i, i < MAX_PROCESSES → i ≠ p → t.process_pool_used i = true := by
    intro i hi hip
    rw [hu, Function.update_noteq hip]
    exact hused i hi
  have hc : ¬ t.g_process_manager.max_processes ≤ t.g_process_manager.process_count := by
    rw [k2, k3, hmax, hcnt]; decide
  have halloc : first_unused t.process_pool_used 0 MAX_PROCESSES = some p := by
    have := first_unused_spec t.process_pool_used p 0 MAX_PROCESSES
      (fun j _ hj => hui j (by omega) (by omega))
      (by rw [Nat.zero_add]; exact hup) hp
    simpa using this
  obtain ⟨u, hcr, c1, c2, _, _, c5, _, g2, _, _, _, g6, _, uu⟩ :=
    create_ok t nm e pr ss p he hc halloc
  rw [k1] at hcr c1
  refine ⟨t, ht, hup, hui, u, hcr, ?_, c1, c2, g2, fun c hcp => ⟨(c5 c hcp).1, (c5 c hcp).2.1⟩,
    ?_, ?_⟩
  · intro hlt
    unfold int_of_u32
    have hm : s.g_process_manager.next_pid % WORD = s.g_process_manager.next_pid :=
      Nat.mod_eq_of_lt (by unfold WORD; omega)
    rw [hm, if_pos hlt]
    exact Int.natCast_nonneg _
  · intro i hi
    rw [uu]
    by_cases hip : i = p
    · rw [hip, Function.update_same]
    · rw [Function.update_noteq hip]; exact hui i hi hip
  · rw [g6, k3, hcnt]; decide

/-- An instance: boot and 63 creates fill the pool; `process_terminate(5)`
frees pool slot 5 and the next create puts PID 64 there. -/
theorem terminate_frees_slot_instance :
    (∀ i, i < MAX_PROCESSES →
      (state_after 64 boot_state (List.replicate 63 (create_op ['a']))).process_pool_used i =
        true) ∧
    process_get_by_pid 64 (state_after 64 boot_state (List.replicate 63 (create_op ['a']))) 5 =
      some (some 5) ∧
    process_create (state_after 64 boot_state (List.replicate 63 (create_op ['a'])))
        (some ['z']) 0x100000 PROCESS_PRIORITY_NORMAL DEFAULT_STACK_SIZE =
      (state_after 64 boot_state (List.replicate 63 (create_op ['a'])),
        PROCESS_ERROR_QUEUE_FULL) ∧
    ∃ t, process_terminate 64 (state_after 64 boot_state (List.replicate 63 (create_op ['a'])))
          5 = some (t, PROCESS_SUCCESS) ∧
      t.process_pool_used 5 = false ∧
      ∃ u, process_create t (some ['z']) 0x100000 PROCESS_PRIORITY_NORMAL DEFAULT_STACK_SIZE =
          (u, 64) ∧
        (u.process_pool 5).pid = 64 ∧ (u.process_pool 5).state = PROCESS_STATE_READY := by
  have hF := full_pool_fresh
  have hused : ∀ i, i < MAX_PROCESSES →
      (state_after 64 boot_state (List.replicate 63 (create_op ['a']))).process_pool_used i =
        true := by
    intro i hi
    rw [hF.2.2.2.2.2 i]
    exact decide_eq_true (by unfold MAX_PROCESSES at hi; omega)
  have hlook := fresh_lookup hF 64 (by decide) 5 (by decide) (by decide)
  have hnp : (state_after 64 boot_state
      (List.replicate 63 (create_op ['a']))).g_process_manager.next_pid = 64 := hF.2.2.1
  obtain ⟨h1, t, ht, h2, _, u, hu, _, h3, h4, _⟩ :=
    terminate_frees_slot 64 (state_after 64 boot_state (List.replicate 63 (create_op ['a'])))
      5 5 ['z'] 0x100000 PROCESS_PRIORITY_NORMAL DEFAULT_STACK_SIZE hF.2.2.2.2.1 hF.2.2.2.1 hused
      hlook (by decide) (by decide)
  rw [hnp] at hu h3
  exact ⟨hused, hlook, h1, t, ht, h2, u, hu, h3, h4⟩

/-! ## Process manager: the count of processes on a fresh manager -/

theorem count_le_range (n k : Nat) (hk : k < n) :
    ((List.range n).filter (fun i => decide (i ≤ k))).length = k + 1 := by
  induction n with
  | zero => omega
  | succ n ih =>
    rw [List.range_succ, List.filter_append, List.length_append]
    by_cases hn : k < n
    · rw [ih hn]
      have : ¬ n ≤ k := by omega
      simp [List.filter_cons, this]
    · have hkn : k = n := by omega
      subst hkn
      have hall : (List.range k).filter (fun i => decide (i ≤ k)) = List.range k := by
        apply List.filter_eq_self.2
        intro i hi
        exact decide_eq_true (Nat.le_of_lt (List.mem_range.1 hi))
      rw [hall, List.length_range]
      simp [List.filter_cons]

/-- After `k <= 63` successful creates on a fresh manager, `process_count`
equals the number of pool slots in use. -/
theorem fresh_used_slots {k : Nat} {s : ProcState} (hF : Fresh k s) (hk : k ≤ 63) :
    used_slots s = k + 1 ∧ s.g_process_manager.process_count = used_slots s := by
  have h1 : used_slots s = k + 1 := by
    unfold used_slots
    have : (fun i => s.process_pool_used i) = fun i => decide (i ≤ k) :=
      funext hF.2.2.2.2.2
    rw [this]
    exact count_le_range MAX_PROCESSES k (by unfold MAX_PROCESSES; omega)
  exact ⟨h1, by rw [h1]; exact hF.2.2.2.1⟩

/-! ## Process manager: capacity when `process_count` and the pool flags disagree -/

theorem first_unused_none (used : Nat → Bool) :
    ∀ (n i : Nat), (∀ j, i ≤ j → j < i + n → used j = true) → first_unused used i n = none := by
  intro n
  induction n with
  | zero => intro i _; rfl
  | succ n ih =>
    intro i h
    unfold first_unused
    have hi : ¬ used i = false := by rw [h i (Nat.le_refl _) (by omega)]; decide
    rw [if_neg hi]
    exact ih (i + 1) (fun j h1 h2 => h j (by omega) (by omega))

set_option maxRecDepth 1000000 in
/-- C23, failing input: boot, create PID 1, `process_terminate(1)` twice, then
63 creates; every call succeeds.  All 64 pool slots are now in use, so the
pool is at capacity, but the second termination of PID 1 has left
`process_count` at 63: `process_create` with valid arguments passes the
capacity test, finds no free slot and returns NoMemory (-5), not QueueFull
(-7). -/
theorem C23_full_pool_returns_no_memory :
    returns_of 64 boot_state full_pool_calls =
      some ([1, 0, 0] ++ (List.range' 2 63).map Int.ofNat) ∧
    (∀ i, i < MAX_PROCESSES →
      (state_after 64 boot_state full_pool_calls).process_pool_used i = true) ∧
    used_slots (state_after 64 boot_state full_pool_calls) = MAX_PROCESSES ∧
    (state_after 64 boot_state full_pool_calls).g_process_manager.process_count = 63 ∧
    (state_after 64 boot_state full_pool_calls).g_process_manager.max_processes = 64 ∧
    process_create (state_after 64 boot_state full_pool_calls) (some ['z']) 0x100000
        PROCESS_PRIORITY_NORMAL DEFAULT_STACK_SIZE =
      (state_after 64 boot_state full_pool_calls, PROCESS_ERROR_NO_MEMORY) ∧
    PROCESS_ERROR_NO_MEMORY = -5 ∧ PROCESS_ERROR_QUEUE_FULL = -7 := by
  have hu : ∀ i, i < MAX_PROCESSES →
      (state_after 64 boot_state full_pool_calls).process_pool_used i = true := by decide
  have hc : (state_after 64 boot_state full_pool_calls).g_process_manager.process_count = 63 := by
    decide
  have hm : (state_after 64 boot_state full_pool_calls).g_process_manager.max_processes = 64 := by
    decide
  refine ⟨by decide, hu, by decide, hc, hm, ?_, rfl, rfl⟩
  apply create_no_slot _ _ _ _ _ (by decide)
  · rw [hm, hc]; decide
  · exact first_unused_none _ _ _ (fun j _ hj => hu j (by omega))

end PXOS
